import Mathlib

/-!
Verification of the state-synchronization engine of the retell-utils
repository (packages/cli): canonicalization of API resources, structural
diffing, dependency resolution and file (de)serialization.

The embedding is a shallow model of the TypeScript sources:

- JS values (the JSON-safe fragment that the Zod schemas accept) are
  modelled by the mutual inductive `Json` / `JsArr` / `JsObj`; object
  fields are an ordered association list, matching JS object key order.
- JS numbers are modelled by `Rat` (the inputs are JSON numbers; no NaN
  or infinities arise in the modelled code paths).
- Fields that Zod types as `optional` are `Option`; fields typed
  `nullable().optional()` are `JsOpt` (undefined / null / value), since
  strict equality distinguishes null from undefined.
- External collaborators declared out of scope by the specification
  (Prettier formatting, the YAML/JSON text encoders, the boxen box
  renderer) are modelled by concrete stand-ins: Prettier is the identity
  on text, YAML/JSON files are carried in parsed form (`FileContent`),
  and the box renderer draws with unicode box characters as boxen does.
- Asynchronous code is sequentialized; `Except String` models thrown
  exceptions.
-/

/-- JS strings modelled at the character-list level (the core `String`
functions such as `trim` do not reduce in the kernel, so the model uses
its own character-level definitions throughout). -/
abbrev Chars := List Char

mutual
/-- A JSON-safe JS value. Object fields keep insertion order, as JS does. -/
inductive Json where
  | null : Json
  | bool (b : Bool) : Json
  | num (q : Rat) : Json
  | str (s : String) : Json
  | arr (elems : JsArr) : Json
  | obj (fields : JsObj) : Json
/-- Elements of a JS array. -/
inductive JsArr where
  | nil : JsArr
  | cons (hd : Json) (tl : JsArr) : JsArr
/-- Ordered fields of a JS object. -/
inductive JsObj where
  | nil : JsObj
  | cons (key : String) (val : Json) (tl : JsObj) : JsObj
end

mutual
/-- Decidable structural equality for `Json`. -/
def Json.decEq : (a b : Json) → Decidable (a = b)
  | .null, .null => isTrue rfl
  | .null, .bool _ => isFalse (fun h => Json.noConfusion h)
  | .null, .num _ => isFalse (fun h => Json.noConfusion h)
  | .null, .str _ => isFalse (fun h => Json.noConfusion h)
  | .null, .arr _ => isFalse (fun h => Json.noConfusion h)
  | .null, .obj _ => isFalse (fun h => Json.noConfusion h)
  | .bool _, .null => isFalse (fun h => Json.noConfusion h)
  | .bool a, .bool b =>
    match decEq a b with
    | isTrue h => isTrue (h ▸ rfl)
    | isFalse h => isFalse (fun hh => h (Json.bool.inj hh))
  | .bool _, .num _ => isFalse (fun h => Json.noConfusion h)
  | .bool _, .str _ => isFalse (fun h => Json.noConfusion h)
  | .bool _, .arr _ => isFalse (fun h => Json.noConfusion h)
  | .bool _, .obj _ => isFalse (fun h => Json.noConfusion h)
  | .num _, .null => isFalse (fun h => Json.noConfusion h)
  | .num _, .bool _ => isFalse (fun h => Json.noConfusion h)
  | .num a, .num b =>
    match decEq a b with
    | isTrue h => isTrue (h ▸ rfl)
    | isFalse h => isFalse (fun hh => h (Json.num.inj hh))
  | .num _, .str _ => isFalse (fun h => Json.noConfusion h)
  | .num _, .arr _ => isFalse (fun h => Json.noConfusion h)
  | .num _, .obj _ => isFalse (fun h => Json.noConfusion h)
  | .str _, .null => isFalse (fun h => Json.noConfusion h)
  | .str _, .bool _ => isFalse (fun h => Json.noConfusion h)
  | .str _, .num _ => isFalse (fun h => Json.noConfusion h)
  | .str a, .str b =>
    match decEq a b with
    | isTrue h => isTrue (h ▸ rfl)
    | isFalse h => isFalse (fun hh => h (Json.str.inj hh))
  | .str _, .arr _ => isFalse (fun h => Json.noConfusion h)
  | .str _, .obj _ => isFalse (fun h => Json.noConfusion h)
  | .arr _, .null => isFalse (fun h => Json.noConfusion h)
  | .arr _, .bool _ => isFalse (fun h => Json.noConfusion h)
  | .arr _, .num _ => isFalse (fun h => Json.noConfusion h)
  | .arr _, .str _ => isFalse (fun h => Json.noConfusion h)
  | .arr a, .arr b =>
    match JsArr.decEq a b with
    | isTrue h => isTrue (h ▸ rfl)
    | isFalse h => isFalse (fun hh => h (Json.arr.inj hh))
  | .arr _, .obj _ => isFalse (fun h => Json.noConfusion h)
  | .obj _, .null => isFalse (fun h => Json.noConfusion h)
  | .obj _, .bool _ => isFalse (fun h => Json.noConfusion h)
  | .obj _, .num _ => isFalse (fun h => Json.noConfusion h)
  | .obj _, .str _ => isFalse (fun h => Json.noConfusion h)
  | .obj _, .arr _ => isFalse (fun h => Json.noConfusion h)
  | .obj a, .obj b =>
    match JsObj.decEq a b with
    | isTrue h => isTrue (h ▸ rfl)
    | isFalse h => isFalse (fun hh => h (Json.obj.inj hh))
  termination_by structural a => a
/-- Decidable structural equality for `JsArr`. -/
def JsArr.decEq : (a b : JsArr) → Decidable (a = b)
  | .nil, .nil => isTrue rfl
  | .nil, .cons _ _ => isFalse (fun h => JsArr.noConfusion h)
  | .cons _ _, .nil => isFalse (fun h => JsArr.noConfusion h)
  | .cons x xs, .cons y ys =>
    match Json.decEq x y with
    | isTrue h1 =>
      match JsArr.decEq xs ys with
      | isTrue h2 => isTrue (h1 ▸ h2 ▸ rfl)
      | isFalse h2 => isFalse (fun hh => h2 (JsArr.cons.inj hh).2
        )
    | isFalse h1 => isFalse (fun hh => h1 (JsArr.cons.inj hh).1)
  termination_by structural a => a
/-- Decidable structural equality for `JsObj`. -/
def JsObj.decEq : (a b : JsObj) → Decidable (a = b)
  | .nil, .nil => isTrue rfl
  | .nil, .cons _ _ _ => isFalse (fun h => JsObj.noConfusion h)
  | .cons _ _ _, .nil => isFalse (fun h => JsObj.noConfusion h)
  | .cons k v vs, .cons k' v' vs' =>
    match decEq k k' with
    | isTrue h0 =>
      match Json.decEq v v' with
      | isTrue h1 =>
        match JsObj.decEq vs vs' with
        | isTrue h2 => isTrue (h0 ▸ h1 ▸ h2 ▸ rfl)
        | isFalse h2 => isFalse (fun hh => h2 (JsObj.cons.inj hh).2.2)
      | isFalse h1 => isFalse (fun hh => h1 (JsObj.cons.inj hh).2.1)
    | isFalse h0 => isFalse (fun hh => h0 (JsObj.cons.inj hh).1)
  termination_by structural a => a
end

instance : DecidableEq Json := Json.decEq
instance : DecidableEq JsArr := JsArr.decEq
instance : DecidableEq JsObj := JsObj.decEq

/-- Builds a `JsArr` from a list (used to write concrete values). -/
def JsArr.ofList : List Json → JsArr
  | [] => .nil
  | x :: xs => .cons x (JsArr.ofList xs)

/-- Builds a `JsObj` from a list of key-value pairs. -/
def JsObj.ofList : List (String × Json) → JsObj
  | [] => .nil
  | (k, v) :: xs => .cons k v (JsObj.ofList xs)

/-- The fields of a `JsObj` as a list of pairs. -/
def JsObj.toList : JsObj → List (String × Json)
  | .nil => []
  | .cons k v tl => (k, v) :: tl.toList

/-- The elements of a `JsArr` as a list. -/
def JsArr.toList : JsArr → List Json
  | .nil => []
  | .cons x tl => x :: tl.toList

/-- Object field lookup (objects built by parsers have unique keys, so
first match suffices). Absent key is JS `undefined`. -/
def JsObj.lookup : JsObj → String → Option Json
  | .nil, _ => none
  | .cons k v tl, key => if k = key then some v else tl.lookup key

/-- Whether the object has the given key (JS `key in obj`). -/
def JsObj.hasKey (o : JsObj) (key : String) : Bool := (o.lookup key).isSome

/-- Property assignment `o[key] = v`: replaces in place when present,
otherwise appends, exactly as JS key ordering behaves. -/
def JsObj.set : JsObj → String → Json → JsObj
  | .nil, key, v => .cons key v .nil
  | .cons k w tl, key, v =>
    if k = key then .cons k v tl else .cons k w (tl.set key v)

/-- Removes every field with the given key (models both `delete o[key]`
and rest-destructuring or `R.omit` removal; parsed objects are dup-free). -/
def JsObj.removeKey : JsObj → String → JsObj
  | .nil, _ => .nil
  | .cons k v tl, key =>
    if k = key then tl.removeKey key else .cons k v (tl.removeKey key)

/-- Removes every field whose key is in the list. -/
def JsObj.removeKeys (o : JsObj) : List String → JsObj
  | [] => o
  | k :: ks => (o.removeKey k).removeKeys ks

/-- Concatenation of object field lists (spread of disjoint objects). -/
def JsObj.append : JsObj → JsObj → JsObj
  | .nil, o => o
  | .cons k v tl, o => .cons k v (tl.append o)

/-- Number of fields. -/
def JsObj.length : JsObj → Nat
  | .nil => 0
  | .cons _ _ tl => tl.length + 1

/-- Length of an array. -/
def JsArr.length : JsArr → Nat
  | .nil => 0
  | .cons _ tl => tl.length + 1

/-- JS truthiness of a value (no NaN in the modelled fragment). -/
def Json.truthy : Json → Bool
  | .null => false
  | .bool b => b
  | .num q => q != 0
  | .str s => s ≠ ""
  | .arr _ => true
  | .obj _ => true

/-- Extracts a string value, if the value is a string. -/
def Json.asStr : Json → Option String
  | .str s => some s
  | _ => none

/-- Extracts a numeric value, if the value is a number. -/
def Json.asNum : Json → Option Rat
  | .num q => some q
  | _ => none

/-- JS `Math.round` on a rational: the floor of `q + 1/2`, computed on
numerator and denominator so that the kernel can evaluate it. -/
def jsRound (q : Rat) : Int := (2 * q.num + (q.den : Int)) / (2 * (q.den : Int))

/-- An integer as a JSON number (`mkRat` keeps the value kernel-computable). -/
def intAsRat (i : Int) : Rat := mkRat i 1

/-- JS strict `>` on numbers, computed on numerators and denominators. -/
def jsNumGt (a b : Rat) : Bool := decide (b.num * (a.den : Int) < a.num * (b.den : Int))

/-- Renders a natural number in base 10. -/
def natToStr (n : Nat) : String := String.mk (Nat.toDigits 10 n)

/-- Renders an integer. -/
def intToStr : Int → String
  | .ofNat n => natToStr n
  | .negSucc n => "-" ++ natToStr (n + 1)

/-- Model of JS template interpolation of a number (integers print without
a decimal point; the non-integer rendering is a simplified stand-in, only
used to build lookup keys whose exact spelling the code never inspects). -/
def jsNumToString (q : Rat) : String :=
  if q.den = 1 then intToStr q.num
  else intToStr q.num ++ "." ++ natToStr q.den

-- ---------------------------------------------------------------------------
-- Character-level string helpers (the modelled code uses trim, startsWith,
-- slice, replace of a leading "./", and split on fixed separators).
-- ---------------------------------------------------------------------------

/-- Leading-whitespace removal on characters. -/
def trimLeftC (xs : Chars) : Chars := xs.dropWhile (fun c => c.isWhitespace)

/-- Trailing-whitespace removal on characters. -/
def trimRightC (xs : Chars) : Chars := (trimLeftC xs.reverse).reverse

/-- JS `String.prototype.trim`. -/
def jsTrim (s : String) : String := String.mk (trimLeftC (trimRightC s.data))

/-- JS `String.prototype.trimEnd` (used only through `trim` here). -/
def jsTrimEnd (s : String) : String := String.mk (trimRightC s.data)

/-- Prefix test on characters. -/
def isPrefixC : Chars → Chars → Bool
  | [], _ => true
  | _ :: _, [] => false
  | a :: as, b :: bs => a == b && isPrefixC as bs

/-- JS `s.startsWith(p)`. -/
def jsStartsWith (s p : String) : Bool := isPrefixC p.data s.data

/-- Drops the first `n` characters (JS `s.slice(n)` for nonnegative `n`). -/
def jsDropChars (s : String) (n : Nat) : String := String.mk (s.data.drop n)

/-- JS `s.slice(-n)`: the final `min n (length)` characters. -/
def jsSliceLast (s : String) (n : Nat) : String :=
  String.mk (s.data.drop (s.data.length - n))

/-- Whether a list of characters occurs contiguously in another. -/
def containsSeq (sep xs : Chars) : Bool :=
  match xs with
  | [] => isPrefixC sep []
  | _ :: rest => isPrefixC sep xs || containsSeq sep rest

/-- JS `s.includes(p)` at character level. -/
def jsIncludes (s p : String) : Bool := containsSeq p.data s.data

/-- JS `filePath.replace(/^\.\//, "")`: strips one leading `./`. -/
def stripDotSlash (s : String) : String :=
  if jsStartsWith s "./" then jsDropChars s 2 else s

/-- JS `s.replace("file://", "")` on a string known to start with the
pattern: removal of the first occurrence is removal of the prefix. -/
def stripFileScheme (s : String) : String := jsDropChars s 7

/-- Splits characters on the literal separator `---` (the only separator
the sources split on when parsing markdown frontmatter), with JS
`String.prototype.split` semantics. -/
def splitTripleDash : Chars → List Chars
  | [] => [[]]
  | '-' :: '-' :: '-' :: rest => [] :: splitTripleDash rest
  | c :: rest =>
    match splitTripleDash rest with
    | [] => [[c]]
    | piece :: pieces => (c :: piece) :: pieces

/-- JS `Array.prototype.join("---")`. -/
def joinTripleDash : List Chars → Chars
  | [] => []
  | [piece] => piece
  | piece :: rest => piece ++ ('-' :: '-' :: '-' :: joinTripleDash rest)

/-- First `/`-separated component of a path (JS `fp.split("/")[0] ?? ""`;
a split result is never empty, so this is the leading run). -/
def firstComponent (s : String) : String :=
  String.mk (s.data.takeWhile (fun c => c ≠ '/'))

/-- Model of `path.join` for the two-segment joins the sources perform; a
`"."` base disappears, as in Node. -/
def pathJoin (a b : String) : String :=
  if a = "." then b else a ++ "/" ++ b

/-- ASCII lowercase conversion of one character. -/
def toLowerC (c : Char) : Char :=
  if 'A' ≤ c ∧ c ≤ 'Z' then Char.ofNat (c.toNat + 32) else c

/-- ASCII letter or digit test. -/
def isAlnumC (c : Char) : Bool :=
  ('a' ≤ c && c ≤ 'z') || ('A' ≤ c && c ≤ 'Z') || ('0' ≤ c && c ≤ '9')

/-- Worker for `wsToUnderscore`: the flag records whether the previous
character was whitespace (already replaced). -/
def wsToUnderscoreGo (prevWs : Bool) : Chars → Chars
  | [] => []
  | c :: rest =>
    if c.isWhitespace then
      (if prevWs then [] else ['_']) ++ wsToUnderscoreGo true rest
    else c :: wsToUnderscoreGo false rest

/-- Collapses every maximal whitespace run into one underscore
(`replace(/\s+/g, "_")`). -/
def wsToUnderscore (xs : Chars) : Chars := wsToUnderscoreGo false xs

/-- Inserts an underscore between a lowercase letter or digit and an
uppercase letter (`replace(/([a-z0-9])([A-Z])/g, "$1_$2")`; the two
character classes are disjoint, so pairwise insertion matches the
non-overlapping global regex). -/
def camelUnderscore : Chars → Chars
  | [] => []
  | [c] => [c]
  | a :: b :: rest =>
    if (('a' ≤ a && a ≤ 'z') || ('0' ≤ a && a ≤ '9')) && ('A' ≤ b && b ≤ 'Z') then
      a :: '_' :: camelUnderscore (b :: rest)
    else a :: camelUnderscore (b :: rest)

/-- Worker for `collapseUnderscores` with a previous-was-underscore flag. -/
def collapseUnderscoresGo (prevU : Bool) : Chars → Chars
  | [] => []
  | c :: rest =>
    if c = '_' then
      (if prevU then [] else ['_']) ++ collapseUnderscoresGo true rest
    else c :: collapseUnderscoresGo false rest

/-- Collapses underscore runs (`replace(/_+/g, "_")`). -/
def collapseUnderscores (xs : Chars) : Chars := collapseUnderscoresGo false xs

/-- Removes one leading and one trailing underscore
(`replace(/^_|_$/g, "")`). -/
def trimUnderscores (xs : Chars) : Chars :=
  let a := match xs with
    | '_' :: rest => rest
    | other => other
  match a.reverse with
  | '_' :: rest => rest.reverse
  | _ => a

/-- Converts a string to snake case, stripping non-alphanumeric
characters (`toSnakeCase` in utils.ts, regex pipeline modelled pass by
pass). -/
def toSnakeCase (s : String) : String :=
  String.mk (trimUnderscores (collapseUnderscores
    ((camelUnderscore (wsToUnderscore s.data)).filter
      (fun c => isAlnumC c || c = '_') |>.map toLowerC)))

/-- Suffix length used for file and directory names (`FILE_HASH_LENGTH`). -/
def FILE_HASH_LENGTH : Nat := 6

-- quick sanity examples for the helpers (concrete evaluation)
example : toSnakeCase "My Agent" = "my_agent" := by rfl
example : toSnakeCase "myAgent 2" = "my_agent_2" := by rfl
example : jsTrim "  a b\n" = "a b" := by rfl
example : splitTripleDash ("---a---b".data) = ["".data, "a".data, "b".data] := by rfl
example : jsRound (mkRat 1 2) = 1 := by rfl
example : jsSliceLast "agent_123456789" 6 = "456789" := by rfl

-- ---------------------------------------------------------------------------
-- microdiff (the structural diff library used by changes.ts)
-- ---------------------------------------------------------------------------

/-- One element of a diff path: an object key or an array index. -/
inductive PathEl where
  | key (k : String)
  | idx (n : Nat)
  deriving DecidableEq, Repr

/-- One microdiff entry (`CREATE` carries `value`, `REMOVE` carries
`oldValue`, `CHANGE` carries both). -/
inductive DiffEntry where
  | created (path : List PathEl) (value : Json)
  | changed (path : List PathEl) (value : Json) (oldValue : Json)
  | removed (path : List PathEl) (oldValue : Json)
  deriving DecidableEq

/-- Prepends a path element (`difference.path.unshift(path)`). -/
def DiffEntry.prepend (p : PathEl) : DiffEntry → DiffEntry
  | .created path v => .created (p :: path) v
  | .changed path v o => .changed (p :: path) v o
  | .removed path o => .removed (p :: path) o

/-- Whether both values are truthy containers of the same kind: the
`objKey && newObjKey && areCompatibleObjects` recursion guard (null has
object type but is falsy, so only arrays with arrays and plain objects
with plain objects recurse). -/
def compatContainers : Json → Json → Bool
  | .arr _, .arr _ => true
  | .obj _, .obj _ => true
  | _, _ => false

/-- Strict equality as microdiff observes it on non-recursing pairs of
JSON values: primitives compare by value; any remaining pair with a
container or null on one side compares unequal (the NaN and numeric
coercion clauses of microdiff never fire on JSON-safe data except for
null-with-null, covered here). -/
def jsAtomEq : Json → Json → Bool
  | .null, .null => true
  | .bool a, .bool b => a == b
  | .num a, .num b => a == b
  | .str a, .str b => a == b
  | _, _ => false

/-- Second microdiff loop: keys of the new object absent from the old one
produce CREATE entries. -/
def createFields (a : JsObj) : JsObj → List DiffEntry
  | .nil => []
  | .cons k v tl =>
    (if a.hasKey k then [] else [.created [.key k] v]) ++ createFields a tl

/-- Second microdiff loop for arrays: indices of the new array past the
end of the old one produce CREATE entries. -/
def createElems : JsArr → JsArr → Nat → List DiffEntry
  | _, .nil, _ => []
  | .nil, .cons w tl, i => .created [.idx i] w :: createElems .nil tl (i + 1)
  | .cons _ tla, .cons _ tlb, i => createElems tla tlb (i + 1)

mutual
/-- The microdiff algorithm on two JSON values. The exported function is
only ever applied to two plain objects; recursion descends exactly into
same-kind truthy containers, so the remaining mixed cases (unreachable
from changes.ts) return no entries, like primitive pairs do in JS where
`for ... in` enumerates nothing. -/
def microdiff : Json → Json → List DiffEntry
  | .obj fa, .obj fb => diffFields fa fb ++ createFields fa fb
  | .arr xa, .arr xb => diffElems xa xb 0 ++ createElems xa xb 0
  | _, _ => []
  termination_by structural a => a
/-- First microdiff loop over the fields of the reference object:
missing key gives REMOVE, compatible containers recurse with the key
prepended, otherwise a CHANGE entry is pushed when not strictly equal. -/
def diffFields : JsObj → JsObj → List DiffEntry
  | .nil, _ => []
  | .cons k v tl, b =>
    (match b.lookup k with
     | none => [.removed [.key k] v]
     | some w =>
       if compatContainers v w then (microdiff v w).map (DiffEntry.prepend (.key k))
       else if jsAtomEq v w then [] else [.changed [.key k] w v]) ++
    diffFields tl b
  termination_by structural a => a
/-- First microdiff loop over array elements (positional): an index past
the end of the new array gives REMOVE; otherwise as for object fields. -/
def diffElems : JsArr → JsArr → Nat → List DiffEntry
  | .nil, _, _ => []
  | .cons v tl, .nil, i => .removed [.idx i] v :: diffElems tl .nil (i + 1)
  | .cons v tl, .cons w tlb, i =>
    (if compatContainers v w then (microdiff v w).map (DiffEntry.prepend (.idx i))
     else if jsAtomEq v w then [] else [.changed [.idx i] w v]) ++
    diffElems tl tlb (i + 1)
  termination_by structural a => a
end

-- ---------------------------------------------------------------------------
-- Canonical data model (agents.ts)
-- ---------------------------------------------------------------------------

/-- A JS value that is either absent, null, or present: models Zod
`nullable().optional()` fields, which strict equality distinguishes. -/
inductive JsOpt (α : Type) where
  | undef : JsOpt α
  | null : JsOpt α
  | val (a : α) : JsOpt α
  deriving DecidableEq, Repr

/-- JS `x ?? undefined`: collapses null into undefined. -/
def JsOpt.coalesce : JsOpt α → Option α
  | .undef => none
  | .null => none
  | .val a => some a

/-- The response-engine reference of an agent (discriminated union from
the core schemas). -/
inductive ResponseEngine where
  | retellLlm (llm_id : String) (version : JsOpt Rat)
  | customLlm (llm_websocket_url : String)
  | conversationFlow (conversation_flow_id : String) (version : JsOpt Rat)
  deriving DecidableEq, Repr

/-- Whether the engine is the custom-llm variant. -/
def ResponseEngine.isCustom : ResponseEngine → Bool
  | .customLlm _ => true
  | _ => false

/-- Serializes a `JsOpt` number into optional object fields: an absent
value writes no key, null writes a JSON null. -/
def versionFields : JsOpt Rat → JsObj
  | .undef => .nil
  | .null => .cons "version" .null .nil
  | .val q => .cons "version" (.num q) .nil

/-- The response engine as the JS object the API and meta files carry. -/
def encodeRE : ResponseEngine → Json
  | .retellLlm id v =>
    .obj (.cons "type" (.str "retell-llm") (.cons "llm_id" (.str id) (versionFields v)))
  | .customLlm url =>
    .obj (.cons "type" (.str "custom-llm") (.cons "llm_websocket_url" (.str url) .nil))
  | .conversationFlow id v =>
    .obj (.cons "type" (.str "conversation-flow")
      (.cons "conversation_flow_id" (.str id) (versionFields v)))

/-- A canonical voice or chat agent: identity fields plus the remaining
mutable fields as an ordered JS object (`config` never contains the
`_id`, `_version` or `response_engine` keys; readonly API metadata was
stripped by canonicalization). -/
structure CanonicalAgent where
  _id : String
  _version : Rat
  response_engine : ResponseEngine
  config : JsObj
  deriving DecidableEq

/-- A canonical Retell LLM (mutable fields, including `general_prompt`,
live in `config`). -/
structure CanonicalLLM where
  _id : String
  _version : Rat
  config : JsObj
  deriving DecidableEq

/-- A canonical conversation flow (`global_prompt`, `nodes`, `components`
and the display positions live in `config`). -/
structure CanonicalConversationFlow where
  _id : String
  _version : Rat
  config : JsObj
  deriving DecidableEq

/-- Unified canonical state (`CanonicalState` in agents.ts). -/
structure CanonicalState where
  voiceAgents : List CanonicalAgent
  chatAgents : List CanonicalAgent
  llms : List CanonicalLLM
  conversationFlows : List CanonicalConversationFlow
  deriving DecidableEq

/-- Rendering of a value interpolated into a string (models JS coercion;
the schemas make non-string cases unreachable where this is used). -/
def displayString : Json → String
  | .str s => s
  | .num q => jsNumToString q
  | .bool true => "true"
  | .bool false => "false"
  | .null => "null"
  | _ => ""

/-- JS `agent.agent_name ?? agent._id` (null and undefined fall back). -/
def agentName (a : CanonicalAgent) : String :=
  match a.config.lookup "agent_name" with
  | none => a._id
  | some .null => a._id
  | some v => displayString v

/-- Directory name for an agent, `getAgentDirName` in agents.ts. -/
def getAgentDirName (a : CanonicalAgent) : String :=
  toSnakeCase (agentName a) ++ "_" ++ jsSliceLast a._id FILE_HASH_LENGTH

/-- The field list of the full agent object: mutable config fields
first, then `_id`, `_version` and `response_engine` (the key order
produced by the file reader; `computeChanges` never observes the order of
these trailing keys because it removes or isolates them). -/
def agentFullFields (a : CanonicalAgent) : JsObj :=
  a.config.append (.cons "_id" (.str a._id) (.cons "_version" (.num a._version)
    (.cons "response_engine" (encodeRE a.response_engine) .nil)))

/-- The agent as the JS object the canonicalizer builds. -/
def encodeAgentFull (a : CanonicalAgent) : Json := .obj (agentFullFields a)

/-- The agent object after `R.omit` with the omit list chosen by the
loop (`keepRE` is true when the SOURCE agent of the pair is custom-llm,
and the same list is applied to both sides): `_id` and `_version` always
go; `response_engine` stays iff `keepRE`. -/
def agentOmitted (keepRE : Bool) (a : CanonicalAgent) : Json :=
  if keepRE then
    .obj (a.config.append (.cons "response_engine" (encodeRE a.response_engine) .nil))
  else .obj a.config

/-- The field list of the full LLM object. -/
def llmFullFields (l : CanonicalLLM) : JsObj :=
  l.config.append (.cons "_id" (.str l._id) (.cons "_version" (.num l._version) .nil))

/-- The LLM as a full JS object. -/
def encodeLlmFull (l : CanonicalLLM) : Json := .obj (llmFullFields l)

/-- The LLM object after omitting `_id` and `_version`. -/
def llmOmitted (l : CanonicalLLM) : Json := .obj l.config

/-- The field list of the full flow object. -/
def flowFullFields (f : CanonicalConversationFlow) : JsObj :=
  f.config.append (.cons "_id" (.str f._id) (.cons "_version" (.num f._version) .nil))

/-- The flow as a full JS object. -/
def encodeFlowFull (f : CanonicalConversationFlow) : Json := .obj (flowFullFields f)

/-- The flow object after omitting `_id` and `_version`. -/
def flowOmitted (f : CanonicalConversationFlow) : Json := .obj f.config

-- ---------------------------------------------------------------------------
-- computeChanges (changes.ts)
-- ---------------------------------------------------------------------------

/-- One entry of a change list (`ResourceChange<T>`). -/
structure ResourceChange (α : Type) where
  id : String
  name : String
  current : α
  differences : List DiffEntry
  deriving DecidableEq

/-- The per-kind change lists (`BaseChanges`). -/
structure BaseChanges where
  voiceAgents : List (ResourceChange CanonicalAgent)
  chatAgents : List (ResourceChange CanonicalAgent)
  llms : List (ResourceChange CanonicalLLM)
  flows : List (ResourceChange CanonicalConversationFlow)
  deriving DecidableEq

/-- Lookup in a JS `Map` built from a pair list (`new Map(list)`): a later
pair with the same key overrides an earlier one. -/
def jsMapGet (pairs : List (String × α)) (k : String) : Option α :=
  (pairs.reverse.find? (fun p => p.1 = k)).map (fun p => p.2)

/-- Reference lookup for agents, keyed by `_id`. -/
def refAgentGet (ref : List CanonicalAgent) (id : String) : Option CanonicalAgent :=
  jsMapGet (ref.map (fun a => (a._id, a))) id

/-- Reference lookup for LLMs. -/
def refLlmGet (ref : List CanonicalLLM) (id : String) : Option CanonicalLLM :=
  jsMapGet (ref.map (fun l => (l._id, l))) id

/-- Reference lookup for flows. -/
def refFlowGet (ref : List CanonicalConversationFlow) (id : String) :
    Option CanonicalConversationFlow :=
  jsMapGet (ref.map (fun f => (f._id, f))) id

/-- Body of the voice/chat agent loop of `computeChanges`: at most one
pushed entry per source agent, in source order. -/
def agentChangeStep (ref : List CanonicalAgent) (includeNew : Bool)
    (a : CanonicalAgent) : Option (ResourceChange CanonicalAgent) :=
  match refAgentGet ref a._id with
  | none =>
    if includeNew then
      some ⟨a._id, agentName a, a, [.created [] (encodeAgentFull a)]⟩
    else none
  | some r =>
    let ds := microdiff (agentOmitted a.response_engine.isCustom r)
      (agentOmitted a.response_engine.isCustom a)
    if ds.isEmpty then none else some ⟨a._id, agentName a, a, ds⟩

/-- Body of the LLM loop of `computeChanges`. -/
def llmChangeStep (ref : List CanonicalLLM) (includeNew : Bool)
    (l : CanonicalLLM) : Option (ResourceChange CanonicalLLM) :=
  match refLlmGet ref l._id with
  | none =>
    if includeNew then some ⟨l._id, l._id, l, [.created [] (encodeLlmFull l)]⟩ else none
  | some r =>
    let ds := microdiff (llmOmitted r) (llmOmitted l)
    if ds.isEmpty then none else some ⟨l._id, l._id, l, ds⟩

/-- Body of the flow loop of `computeChanges`. -/
def flowChangeStep (ref : List CanonicalConversationFlow) (includeNew : Bool)
    (f : CanonicalConversationFlow) : Option (ResourceChange CanonicalConversationFlow) :=
  match refFlowGet ref f._id with
  | none =>
    if includeNew then some ⟨f._id, f._id, f, [.created [] (encodeFlowFull f)]⟩ else none
  | some r =>
    let ds := microdiff (flowOmitted r) (flowOmitted f)
    if ds.isEmpty then none else some ⟨f._id, f._id, f, ds⟩

/-- `computeChanges(source, reference, { includeNew })`: per resource kind,
resources new in `source` are included as a single root CREATE only when
`includeNew` is set; resources present on both sides are diffed after
omitting `_id`, `_version` and, unless the SOURCE agent of the pair is
custom-llm, the `response_engine` (the same omit list is applied to both
sides), and included only when the diff is non-empty. -/
def computeChanges (source reference : CanonicalState) (includeNew : Bool) :
    BaseChanges where
  voiceAgents := source.voiceAgents.filterMap (agentChangeStep reference.voiceAgents includeNew)
  chatAgents := source.chatAgents.filterMap (agentChangeStep reference.chatAgents includeNew)
  llms := source.llms.filterMap (llmChangeStep reference.llms includeNew)
  flows := source.conversationFlows.filterMap (flowChangeStep reference.conversationFlows includeNew)

-- ---------------------------------------------------------------------------
-- keepLatestVersion and canonicalizeFromApi (agents.ts)
-- ---------------------------------------------------------------------------

/-- One step of the single-pass map fill of `keepLatestVersion`: a JS
`Map.set` keeps the position of an existing key and appends new keys. -/
def klvUpsert (m : List (String × α)) (k : String) (v : α) : List (String × α) :=
  match m with
  | [] => [(k, v)]
  | (k', v') :: rest =>
    if k' = k then (k, v) :: rest else (k', v') :: klvUpsert rest k v

/-- Single pass of `keepLatestVersion`: for each id the retained entry is
replaced only when the incoming version (`?? 0`) is strictly greater. -/
def klvFill (getId : α → String) (version : α → Option Rat)
    (items : List α) (m : List (String × α)) : List (String × α) :=
  match items with
  | [] => m
  | it :: rest =>
    let id := getId it
    let m' :=
      match jsMapGet m id with
      | none => klvUpsert m id it
      | some existing =>
        if jsNumGt ((version it).getD 0) ((version existing).getD 0) then
          klvUpsert m id it
        else m
    klvFill getId version rest m'

/-- `keepLatestVersion(items, idKey)`: groups by id and keeps only the
latest version of each (insertion-ordered map values). The id accessor
and optional version accessor model the generic `idKey` and
`{ version?: number }` bound of the source. -/
def keepLatestVersion (items : List α) (getId : α → String)
    (version : α → Option Rat) : List α :=
  (klvFill getId version items []).map (fun p => p.2)

/-- A raw voice or chat agent response as validated by the core schemas:
structural fields are typed, all other fields pass through in `config`. -/
structure RawAgent where
  agent_id : String
  version : Option Rat
  is_published : Option Bool
  last_modification_timestamp : Rat
  response_engine : ResponseEngine
  config : JsObj
  deriving DecidableEq

/-- A raw LLM response (`general_prompt` and friends pass through in
`config`). -/
structure RawLlm where
  llm_id : String
  version : Option Rat
  is_published : Option Bool
  last_modification_timestamp : Rat
  config : JsObj
  deriving DecidableEq

/-- A raw conversation flow response (`version` is required by the
schema; `nodes`, `global_prompt` and the rest pass through in `config`). -/
structure RawConversationFlow where
  conversation_flow_id : String
  version : Rat
  is_published : Option Bool
  config : JsObj
  deriving DecidableEq

/-- The four raw API lists fed to `canonicalizeFromApi`. -/
structure RawState where
  voiceAgents : List RawAgent
  chatAgents : List RawAgent
  llms : List RawLlm
  conversationFlows : List RawConversationFlow
  deriving DecidableEq

/-- The `(response_engine, is_published)` projection of the latest agents
used by the cross-reference filter. -/
def latestAgentRefs (raw : RawState) : List (ResponseEngine × Option Bool) :=
  (keepLatestVersion raw.voiceAgents (fun a => a.agent_id) (fun a => a.version)).map
      (fun a => (a.response_engine, a.is_published)) ++
  (keepLatestVersion raw.chatAgents (fun a => a.agent_id) (fun a => a.version)).map
      (fun a => (a.response_engine, a.is_published))

/-- The template key `` `${id}:${v}` `` with JS rendering of undefined. -/
def versionKey (id : String) : Option Rat → String
  | some q => id ++ ":" ++ jsNumToString q
  | none => id ++ ":" ++ "undefined"

/-- Keys of the flows referenced by the latest agents
(`requiredFlowKeys`; the dead defensive branch returning an empty string
after the type filter cannot fire and adds nothing to the set). -/
def requiredFlowKeys (refs : List (ResponseEngine × Option Bool)) : List String :=
  refs.filterMap (fun r =>
    match r.1 with
    | .conversationFlow id v => some (versionKey id v.coalesce)
    | _ => none)

/-- Keys of the LLMs referenced by the latest agents (`requiredLlmKeys`). -/
def requiredLlmKeys (refs : List (ResponseEngine × Option Bool)) : List String :=
  refs.filterMap (fun r =>
    match r.1 with
    | .retellLlm id v => some (versionKey id v.coalesce)
    | _ => none)

/-- JS `===` between a nullable-optional version and an optional one
(null is not undefined). -/
def strictEqVersion : JsOpt Rat → Option Rat → Bool
  | .undef, none => true
  | .val a, some b => a == b
  | _, _ => false

/-- JS `===` between two optional publish flags. -/
def strictEqPub : Option Bool → Option Bool → Bool
  | none, none => true
  | some a, some b => a == b
  | _, _ => false

/-- The `allLatestAgents.some(...)` test for one flow. -/
def flowReferenced (refs : List (ResponseEngine × Option Bool))
    (cf : RawConversationFlow) : Bool :=
  refs.any (fun r =>
    match r.1 with
    | .conversationFlow id v =>
      id == cf.conversation_flow_id && strictEqVersion v (some cf.version) &&
        strictEqPub r.2 cf.is_published
    | _ => false)

/-- The `allLatestAgents.some(...)` test for one LLM. -/
def llmReferenced (refs : List (ResponseEngine × Option Bool))
    (llm : RawLlm) : Bool :=
  refs.any (fun r =>
    match r.1 with
    | .retellLlm id v =>
      id == llm.llm_id && strictEqVersion v llm.version &&
        strictEqPub r.2 llm.is_published
    | _ => false)

/-- Strips a raw agent to its canonical form (destructuring removes the
id, version, modification timestamp, publish flag and the two
version-label passthrough fields). -/
def stripAgent (a : RawAgent) : CanonicalAgent where
  _id := a.agent_id
  _version := a.version.getD 0
  response_engine := a.response_engine
  config := (a.config.removeKey "version_title").removeKey "version_description"

/-- Strips a raw LLM to its canonical form. -/
def stripLlm (l : RawLlm) : CanonicalLLM where
  _id := l.llm_id
  _version := l.version.getD 0
  config := l.config

/-- Strips a raw flow to its canonical form (`_version` is the required
`version` field; the modification timestamp is not in the flow schema and
is not stripped). -/
def stripFlow (cf : RawConversationFlow) : CanonicalConversationFlow where
  _id := cf.conversation_flow_id
  _version := cf.version
  config := cf.config

/-- `canonicalizeFromApi`: keeps the latest version of every agent,
keeps only the LLMs and flows whose `(id, version)` key is referenced by
a latest agent and for which some referencing latest agent also matches
on version and publish flag under strict equality, and strips readonly
fields. -/
def canonicalizeFromApi (raw : RawState) : CanonicalState :=
  let latestVoice := keepLatestVersion raw.voiceAgents (fun a => a.agent_id) (fun a => a.version)
  let latestChat := keepLatestVersion raw.chatAgents (fun a => a.agent_id) (fun a => a.version)
  let refs := latestAgentRefs raw
  let flowKeys := requiredFlowKeys refs
  let llmKeys := requiredLlmKeys refs
  { voiceAgents := latestVoice.map stripAgent
    chatAgents := latestChat.map stripAgent
    llms := (raw.llms.filter (fun llm =>
      llmKeys.contains (versionKey llm.llm_id llm.version) && llmReferenced refs llm)).map stripLlm
    conversationFlows := (raw.conversationFlows.filter (fun cf =>
      flowKeys.contains (versionKey cf.conversation_flow_id (some cf.version)) &&
        flowReferenced refs cf)).map stripFlow }

-- ---------------------------------------------------------------------------
-- findAffectedAgentIds (agents.ts)
-- ---------------------------------------------------------------------------

/-- JS `Set.add`: keeps insertion order, ignores duplicates. -/
def jsSetAdd (l : List String) (x : String) : List String :=
  if x ∈ l then l else l ++ [x]

/-- Dependency scan over the agents of a state: adds the id of every
agent whose retell-llm reference is a changed LLM id or whose
conversation-flow reference is a changed flow id. -/
def addDependentAgents (changedLlmIds changedFlowIds : List String)
    (agents : List CanonicalAgent) (acc : List String) : List String :=
  match agents with
  | [] => acc
  | a :: rest =>
    let acc₁ :=
      match a.response_engine with
      | .retellLlm id _ => if id ∈ changedLlmIds then jsSetAdd acc a._id else acc
      | _ => acc
    let acc₂ :=
      match a.response_engine with
      | .conversationFlow id _ => if id ∈ changedFlowIds then jsSetAdd acc₁ a._id else acc₁
      | _ => acc₁
    addDependentAgents changedLlmIds changedFlowIds rest acc₂

/-- `findAffectedAgentIds(changes, state)`: seeds the set with every agent
id carrying a direct change, then adds every agent of the state whose
response-engine reference points at a changed LLM or flow. -/
def findAffectedAgentIds (changes : BaseChanges) (state : CanonicalState) : List String :=
  let direct := (changes.voiceAgents.map (fun c => c.id) ++ changes.chatAgents.map (fun c => c.id)).foldl jsSetAdd []
  let changedLlmIds := changes.llms.map (fun c => c.id)
  let changedFlowIds := changes.flows.map (fun c => c.id)
  addDependentAgents changedLlmIds changedFlowIds (state.voiceAgents ++ state.chatAgents) direct

-- ---------------------------------------------------------------------------
-- File model, markdown and placeholder utilities (utils.ts)
-- ---------------------------------------------------------------------------

/-- Prettier formatting is an external collaborator declared out of scope
by the specification; the model takes it to be the identity on text, so
that equality up to formatting becomes plain equality. -/
def formatWithPrettier (s : String) : String := s

/-- Content of one written file. YAML and JSON files are carried in
parsed form (their text encoding is the external YAML/JSON library);
markdown files carry their exact text. -/
inductive FileContent where
  | yaml (v : Json)
  | json (v : Json)
  | text (s : String)
  deriving DecidableEq

/-- A `path -> content` file map with JS object assignment semantics. -/
abbrev FileMap := List (String × FileContent)

/-- JS object assignment `files[path] = content`: replaces in place,
otherwise appends. -/
def fmSet (files : FileMap) (k : String) (v : FileContent) : FileMap :=
  match files with
  | [] => [(k, v)]
  | (k', v') :: rest =>
    if k' = k then (k, v) :: rest else (k', v') :: fmSet rest k v

/-- File lookup (keys are unique by construction of `fmSet`). -/
def fmGet (files : FileMap) (k : String) : Option FileContent :=
  (files.find? (fun p => p.1 = k)).map (fun p => p.2)

/-- JS truthiness of a file read as a string: markdown text is falsy when
empty; serialized YAML/JSON text is never empty. -/
def FileContent.truthy : FileContent → Bool
  | .text s => s ≠ ""
  | .yaml _ => true
  | .json _ => true

/-- The raw text of a file as the placeholder resolver reads it. A
placeholder crossing into a YAML/JSON file is not taken by any modelled
flow; rendering those as empty makes such a crossing fail like a missing
file. -/
def FileContent.asText : FileContent → String
  | .text s => s
  | .yaml _ => ""
  | .json _ => ""

/-- Reading a file as YAML (`readYaml`): YAML files parse to their value,
JSON text is valid YAML, markdown text does not parse to the object the
loose schema demands. -/
def readYamlF : FileContent → Except String Json
  | .yaml v => Except.ok v
  | .json v => Except.ok v
  | .text _ => Except.error "YAML parse: unexpected markdown content"

/-- Reading a file as JSON (`readJson` runs `JSON.parse`). -/
def readJsonF : FileContent → Except String Json
  | .json v => Except.ok v
  | .yaml _ => Except.error "JSON.parse failed"
  | .text _ => Except.error "JSON.parse failed"

/-- Requires a JSON object (`z.looseObject` rejects anything else). -/
def requireObj : Json → Except String JsObj
  | .obj o => Except.ok o
  | _ => Except.error "expected an object"

/-- Model of `YAML.stringify` for the small frontmatter maps written by
`writeMarkdown` (one line per defined key; the body recovery below never
re-reads this text, and its YAML-level fidelity is irrelevant as the
frontmatter parse on read is discarded by every caller). -/
def yamlStringifyFm : JsObj → String
  | .nil => ""
  | .cons k v tl => k ++ ": " ++ displayString v ++ "\n" ++ yamlStringifyFm tl

/-- `readMarkdown`, restricted to the body (the parsed frontmatter is
wrapped in `.catch({})` and discarded by every consumer in the modelled
pipeline): trims, and when the text starts with `---` drops the first
frontmatter block by splitting on `---` and re-joining the tail. -/
def readMarkdown (content : String) : String :=
  let trimmed := jsTrim content
  if jsStartsWith trimmed "---" then
    let parts := splitTripleDash trimmed.data
    formatWithPrettier (jsTrim (String.mk (joinTripleDash (parts.drop 2))))
  else formatWithPrettier trimmed

/-- `writeMarkdown(body, frontmatter)`: formats the body; with a nonempty
frontmatter map it emits a `---` fenced YAML block before the body, and
trims the result. -/
def writeMarkdown (body : String) (frontmatter : JsObj) : String :=
  let formattedBody := formatWithPrettier body
  if frontmatter.length = 0 then jsTrim formattedBody
  else
    let yamlStr := jsTrim (yamlStringifyFm frontmatter)
    jsTrim ("\n---\n" ++ yamlStr ++ "\n---\n\n" ++ formattedBody ++ "\n")

/-- A file resolver: maps a path (relative to the agent directory) to the
file text, or throws. -/
abbrev Resolver := String → Except String String

/-- The per-value check of `resolveFilePlaceholders`: a string starting
with `file://` resolves to the markdown body of the referenced file
(stripping the scheme replaces its single occurrence, the prefix);
anything else yields nothing. -/
def resolveValue (resolver : Resolver) : Json → Except String (Option String)
  | .str s =>
    if jsStartsWith s "file://" then do
      let content ← resolver (stripFileScheme s)
      Except.ok (some (readMarkdown content))
    else Except.ok none
  | _ => Except.ok none

mutual
/-- `resolveFilePlaceholders`: recursively replaces `file://` placeholder
strings by the resolved markdown body. Replacement is guarded by the
truthiness of the resolved body (an empty body leaves the placeholder in
place); the follow-up recursion of the source visits the original item,
which for a string is a no-op. -/
def resolveFilePlaceholders (resolver : Resolver) : Json → Except String Json
  | .arr xs => do
    let xs' ← resolveArrPlaceholders resolver xs
    Except.ok (.arr xs')
  | .obj fs => do
    let fs' ← resolveObjPlaceholders resolver fs
    Except.ok (.obj fs')
  | other => Except.ok other
  termination_by structural j => j
/-- Array branch of `resolveFilePlaceholders`. -/
def resolveArrPlaceholders (resolver : Resolver) : JsArr → Except String JsArr
  | .nil => Except.ok .nil
  | .cons x tl => do
    let r ← resolveValue resolver x
    let x' ← match r with
      | some body => Except.ok (if body ≠ "" then Json.str body else x)
      | none => resolveFilePlaceholders resolver x
    let tl' ← resolveArrPlaceholders resolver tl
    Except.ok (.cons x' tl')
  termination_by structural a => a
/-- Object branch of `resolveFilePlaceholders`. -/
def resolveObjPlaceholders (resolver : Resolver) : JsObj → Except String JsObj
  | .nil => Except.ok .nil
  | .cons k v tl => do
    let r ← resolveValue resolver v
    let v' ← match r with
      | some body => Except.ok (if body ≠ "" then Json.str body else v)
      | none => resolveFilePlaceholders resolver v
    let tl' ← resolveObjPlaceholders resolver tl
    Except.ok (.cons k v' tl')
  termination_by structural a => a
end

/-- Pads a string on the left with spaces to the given width. -/
def padStartS (s : String) (n : Nat) : String :=
  String.mk (List.replicate (n - s.data.length) ' ') ++ s

/-- Pads a string on the right with spaces to the given width. -/
def padEndS (s : String) (n : Nat) : String :=
  s ++ String.mk (List.replicate (n - s.data.length) ' ')

/-- Model of the external boxen renderer for a round box of the given
height: top border, content line, vertical filler, bottom border, drawn
with unicode box characters as boxen draws them. -/
def boxenLines (current : String) (height : Nat) : List String :=
  let w := current.data.length + 4
  let top := "╭" ++ String.mk (List.replicate w '─') ++ "╮"
  let mid := "│  " ++ current ++ "  │"
  let filler := "│" ++ String.mk (List.replicate w ' ') ++ "│"
  let fillCount := height - 3
  [top, mid] ++ List.replicate fillCount filler ++ ["╰" ++ String.mk (List.replicate w '─') ++ "╯"]

/-- `createFlowVisualization(current, previous, next)` from utils.ts: an
ASCII picture of incoming and outgoing node names around a box. -/
def createFlowVisualization (current : String) (previous next : List String) : String :=
  let maxArrows := max previous.length next.length
  let totalLines := max 3 (maxArrows + 2)
  let boxLines := boxenLines current totalLines
  let boxWidth := (boxLines.headD "").data.length
  let padPrev := (totalLines - previous.length) / 2
  let padNext := (totalLines - next.length) / 2
  let prevWidth := (previous.map (fun p => p.data.length)).foldl max 0
  let lines := (List.range totalLines).map (fun i =>
    let prevLabel := if padPrev ≤ i ∧ i - padPrev < previous.length then
        previous.getD (i - padPrev) "" else ""
    let prevPadded := padStartS prevLabel prevWidth
    let prevArrow := if prevLabel ≠ "" then " ─→ " else "    "
    let boxPadded := padEndS (boxLines.getD i "") boxWidth
    let nextLabel := if padNext ≤ i ∧ i - padNext < next.length then
        next.getD (i - padNext) "" else ""
    let nextArrow := if nextLabel ≠ "" then " ─→ " else "    "
    prevPadded ++ prevArrow ++ boxPadded ++ nextArrow ++ nextLabel)
  String.intercalate "\n" lines

-- ---------------------------------------------------------------------------
-- serializeState (agents.ts)
-- ---------------------------------------------------------------------------

/-- Rounds one coordinate (`Math.round(p.x)`); a missing or non-numeric
coordinate would be NaN in JS, rendered here as null (unreachable for
schema-shaped positions). -/
def roundCoord : Option Json → Json
  | some (.num q) => .num (intAsRat (jsRound q))
  | _ => .null

/-- `roundPos`: builds the rounded `x`/`y` position object. -/
def roundPos (p : Json) : Json :=
  match p with
  | .obj o => .obj (.cons "x" (roundCoord (o.lookup "x")) (.cons "y" (roundCoord (o.lookup "y")) .nil))
  | _ => .obj (.cons "x" .null (.cons "y" .null .nil))

/-- Whether a field is present and truthy. -/
def truthyField (o : JsObj) (k : String) : Bool :=
  match o.lookup k with
  | some v => v.truthy
  | none => false

/-- Serializes the LLM of a retell-llm agent into its directory: extracts
a truthy `general_prompt` to `general_prompt.md` behind a `file://`
placeholder, then writes `llm.yaml`. -/
def serializeLlmFiles (llm : CanonicalLLM) (agentDirPath : String) (files : FileMap) : FileMap :=
  if truthyField llm.config "general_prompt" then
    let body := displayString ((llm.config.lookup "general_prompt").getD .null)
    let files₁ := fmSet files (pathJoin agentDirPath "general_prompt.md")
      (.text (writeMarkdown body .nil))
    let llmConfig := llm.config.set "general_prompt" (.str "file://./general_prompt.md")
    fmSet files₁ (pathJoin agentDirPath "llm.yaml") (.yaml (.obj llmConfig))
  else
    fmSet files (pathJoin agentDirPath "llm.yaml") (.yaml (.obj llm.config))

/-- The name-by-id map over flow nodes (`nodeNameById`). -/
def nodeNamesById (nodes : List Json) : List (String × String) :=
  nodes.foldl (fun m n =>
    match n with
    | .obj o =>
      if truthyField o "id" ∧ truthyField o "name" then
        klvUpsert m (displayString ((o.lookup "id").getD .null))
          (displayString ((o.lookup "name").getD .null))
      else m
    | _ => m) []

/-- All edges of a node: the `edges` array when the key is present plus
the singular truthy `edge` (transfer-call nodes), nullish values giving
nothing. -/
def nodeAllEdges (o : JsObj) : List Json :=
  (match o.lookup "edges" with
   | some (.arr es) => es.toList
   | _ => []) ++
  (match o.lookup "edge" with
   | some e => if e.truthy then [e] else []
   | none => [])

/-- The incoming-edge name map (`incomingEdges`): for every truthy edge
destination, the names of truthy-named source nodes, in scan order. -/
def incomingEdgeNames (nodes : List Json) : List (String × List String) :=
  nodes.foldl (fun m n =>
    match n with
    | .obj o =>
      (nodeAllEdges o).foldl (fun m' edge =>
        match edge with
        | .obj eo =>
          if truthyField eo "destination_node_id" then
            let destId := displayString ((eo.lookup "destination_node_id").getD .null)
            let existing := (jsMapGet m' destId).getD []
            let withName :=
              if truthyField o "name" then
                existing ++ [displayString ((o.lookup "name").getD .null)]
              else existing
            klvUpsert m' destId withName
          else m'
        | _ => m') m
    | _ => m) []

/-- Whether a node qualifies for prompt extraction: truthy id,
conversation type, prompt-typed instruction whose text is a string not
already extracted. -/
def nodeExtractable (o : JsObj) : Bool :=
  truthyField o "id" &&
  (o.lookup "type" == some (.str "conversation")) &&
  (match o.lookup "instruction" with
   | some (.obj io) =>
     (io.lookup "type" == some (.str "prompt")) &&
     (match io.lookup "text" with
      | some (.str t) => ¬ jsStartsWith t "file://"
      | _ => false)
   | _ => false)

/-- File name for an extracted node prompt. -/
def nodeFileNameOf (o : JsObj) : String :=
  let nodeHash := jsSliceLast (displayString ((o.lookup "id").getD .null)) FILE_HASH_LENGTH
  let nodeName :=
    if truthyField o "name" then
      toSnakeCase (displayString ((o.lookup "name").getD .null)) ++ "_" ++ nodeHash
    else displayString ((o.lookup "type").getD .null) ++ "_" ++ nodeHash
  "nodes/" ++ nodeName ++ ".md"

/-- The outgoing-edge names of a node for the navigation frontmatter. -/
def nodeNextNames (nameById : List (String × String)) (o : JsObj) : List String :=
  let es : List Json :=
    match o.lookup "edges" with
    | some (.arr es) => es.toList
    | _ => []
  es.filterMap (fun e =>
    match e with
    | .obj eo =>
      if truthyField eo "destination_node_id" then
        jsMapGet nameById (displayString ((eo.lookup "destination_node_id").getD .null))
      else none
    | _ => none)

/-- The instruction text of an extractable node. -/
def nodeInstructionText (o : JsObj) : String :=
  match o.lookup "instruction" with
  | some (.obj io) =>
    (match io.lookup "text" with
     | some (.str t) => t
     | _ => "")
  | _ => ""

/-- The navigation frontmatter of an extracted node prompt: the node id
and, when the node is named, the flow visualization. -/
def nodeFrontmatter (nameById : List (String × String))
    (incoming : List (String × List String)) (o : JsObj) : JsObj :=
  let idStr := displayString ((o.lookup "id").getD .null)
  let previous := (jsMapGet incoming idStr).getD []
  let next := nodeNextNames nameById o
  let flowViz :=
    if truthyField o "name" then
      some (createFlowVisualization (displayString ((o.lookup "name").getD .null)) previous next)
    else none
  JsObj.cons "nodeId" ((o.lookup "id").getD .null)
    (match flowViz with
     | some s => .cons "flow" (.str s) .nil
     | none => .nil)

/-- Extraction pass over flow nodes: writes each extractable node prompt
to its markdown file (with navigation frontmatter) and replaces the
instruction text in place by the `file://` placeholder. Returns the
written files and the mutated node list. -/
def extractNodePrompts (nameById : List (String × String))
    (incoming : List (String × List String)) (agentDirPath : String) :
    List Json → FileMap → (FileMap × List Json)
  | [], files => (files, [])
  | n :: rest, files =>
    match n with
    | .obj o =>
      if nodeExtractable o then
        let t := nodeInstructionText o
        let nodeFileName := nodeFileNameOf o
        let fm : JsObj := nodeFrontmatter nameById incoming o
        let files₁ := fmSet files (pathJoin agentDirPath nodeFileName)
          (.text (writeMarkdown t fm))
        let o' := match o.lookup "instruction" with
          | some (.obj io) =>
            o.set "instruction" (.obj (io.set "text" (.str ("file://./" ++ nodeFileName))))
          | _ => o
        let (files₂, rest') := extractNodePrompts nameById incoming agentDirPath rest files₁
        (files₂, Json.obj o' :: rest')
      else
        let (files₂, rest') := extractNodePrompts nameById incoming agentDirPath rest files
        (files₂, n :: rest')
    | _ =>
      let (files₂, rest') := extractNodePrompts nameById incoming agentDirPath rest files
      (files₂, n :: rest')

/-- Position-extraction pass over nodes: deletes each truthy
`display_position` of a truthy-id node and records its rounded value
keyed by node id. Returns the position map and the mutated nodes. -/
def extractNodePositions : List Json → (JsObj × List Json)
  | [] => (.nil, [])
  | n :: rest =>
    let (posRest, rest') := extractNodePositions rest
    match n with
    | .obj o =>
      if truthyField o "id" ∧ truthyField o "display_position" then
        let idStr := displayString ((o.lookup "id").getD .null)
        let pos := roundPos ((o.lookup "display_position").getD .null)
        -- object insertion order: this node first, later nodes after
        (JsObj.cons idStr pos posRest, Json.obj (o.removeKey "display_position") :: rest')
      else (posRest, n :: rest')
    | _ => (posRest, n :: rest')

/-- Position-extraction pass over components, keyed by component name. -/
def extractComponentPositions : List Json → (JsObj × List Json)
  | [] => (.nil, [])
  | c :: rest =>
    let (posRest, rest') := extractComponentPositions rest
    match c with
    | .obj o =>
      if truthyField o "name" ∧ truthyField o "begin_tag_display_position" then
        let nameStr := displayString ((o.lookup "name").getD .null)
        let pos := roundPos ((o.lookup "begin_tag_display_position").getD .null)
        (JsObj.cons nameStr pos posRest, Json.obj (o.removeKey "begin_tag_display_position") :: rest')
      else (posRest, c :: rest')
    | _ => (posRest, c :: rest')

/-- Global-prompt extraction stage of the flow serialization. -/
def flowGpStage (cfg : JsObj) (agentDirPath : String) (files : FileMap) : FileMap × JsObj :=
  if truthyField cfg "global_prompt" then
    let body := displayString ((cfg.lookup "global_prompt").getD .null)
    (fmSet files (pathJoin agentDirPath "global_prompt.md") (.text (writeMarkdown body .nil)),
     cfg.set "global_prompt" (.str "file://./global_prompt.md"))
  else (files, cfg)

/-- Node-prompt extraction stage of the flow serialization. -/
def flowNodesStage (cfg : JsObj) (agentDirPath : String) (files : FileMap) :
    FileMap × JsObj × Option (List Json) :=
  match cfg.lookup "nodes" with
  | some (.arr ns) =>
    let nodes := ns.toList
    let nameById := nodeNamesById nodes
    let incoming := incomingEdgeNames nodes
    let (files', nodes') := extractNodePrompts nameById incoming agentDirPath nodes files
    (files', cfg.set "nodes" (.arr (JsArr.ofList nodes')), some nodes')
  | _ => (files, cfg, none)

/-- Position-extraction stage of the flow serialization: returns the
collected position fields, the final flow config to write, and the
mutated node and component arrays. -/
def flowPosStage (flowConfig₂ : JsObj) (nodes? : Option (List Json)) :
    JsObj × JsObj × Option (List Json) × Option (List Json) :=
  let (beginTagFields, flowConfig₃) :=
    if truthyField flowConfig₂ "begin_tag_display_position" then
      (JsObj.cons "begin_tag" (roundPos ((flowConfig₂.lookup "begin_tag_display_position").getD .null)) .nil,
       flowConfig₂.removeKey "begin_tag_display_position")
    else (.nil, flowConfig₂)
  let (nodePosFields, flowConfig₄, nodes2?) :=
    match nodes? with
    | some nodes =>
      let (posMap, nodes'') := extractNodePositions nodes
      (if posMap.length = 0 then JsObj.nil else JsObj.cons "nodes" (.obj posMap) .nil,
       flowConfig₃.set "nodes" (.arr (JsArr.ofList nodes'')), some nodes'')
    | none => (JsObj.nil, flowConfig₃, none)
  let (compPosFields, flowConfig₅, comps?) :=
    if truthyField flowConfig₄ "components" then
      match flowConfig₄.lookup "components" with
      | some (.arr cs) =>
        let (posMap, comps') := extractComponentPositions cs.toList
        (if posMap.length = 0 then JsObj.nil else JsObj.cons "components" (.obj posMap) .nil,
         flowConfig₄.set "components" (.arr (JsArr.ofList comps')), some comps')
      | _ => (JsObj.nil, flowConfig₄, none)
    else (JsObj.nil, flowConfig₄, none)
  (beginTagFields.append (nodePosFields.append compPosFields), flowConfig₅, nodes2?, comps?)

/-- Serializes the conversation flow of an agent into its directory:
extracts a truthy `global_prompt`, the node prompts, and all display
positions, then writes `.positions.json` (when non-empty) and
`conversation-flow.yaml`. Returns the files and the flow as mutated
through its shared node and component arrays (the carrier of the
destructive in-place mutation the source performs). -/
def serializeFlowFiles (flow : CanonicalConversationFlow) (agentDirPath : String)
    (files : FileMap) : FileMap × CanonicalConversationFlow :=
  let (files₁, flowConfig₁) := flowGpStage flow.config agentDirPath files
  let (files₂, flowConfig₂, nodes?) := flowNodesStage flowConfig₁ agentDirPath files₁
  let (positions, flowConfig₅, nodes2?, comps?) := flowPosStage flowConfig₂ nodes?
  let files₃ :=
    if positions.length > 0 then
      fmSet files₂ (pathJoin agentDirPath ".positions.json") (.json (.obj positions))
    else files₂
  let files₄ := fmSet files₃ (pathJoin agentDirPath "conversation-flow.yaml") (.yaml (.obj flowConfig₅))
  -- the mutations that persist on the flow object itself: the node and
  -- component arrays are shared; global_prompt and the begin tag were
  -- changed only on the shallow copy
  let persistedConfig₁ :=
    match nodes2? with
    | some ns => flow.config.set "nodes" (.arr (JsArr.ofList ns))
    | none => flow.config
  let persistedConfig₂ :=
    match comps? with
    | some cs => persistedConfig₁.set "components" (.arr (JsArr.ofList cs))
    | none => persistedConfig₁
  (files₄, { flow with config := persistedConfig₂ })

/-- Serializes one agent (voice or chat): immutable metadata in
`.agent.json` (custom-llm keeps only its type there), the response-engine
resources, then `config.yaml` (with the mutable websocket URL inlined for
custom-llm). Returns the files and the flow map with any in-place node
mutations. -/
def serializeAgentFiles (llmMap : List (String × CanonicalLLM))
    (flowMap : List (String × CanonicalConversationFlow)) (channel : String)
    (agentsDir : String) (a : CanonicalAgent) (files : FileMap) :
    FileMap × List (String × CanonicalConversationFlow) :=
  let agentDirPath := pathJoin agentsDir (getAgentDirName a)
  let responseEngineForMeta : Json :=
    match a.response_engine with
    | .customLlm _ => .obj (.cons "type" (.str "custom-llm") .nil)
    | re => encodeRE re
  let metaJson : Json := .obj (.cons "id" (.str a._id) (.cons "version" (.num a._version)
    (.cons "channel" (.str channel) (.cons "response_engine" responseEngineForMeta .nil))))
  let files₁ := fmSet files (pathJoin agentDirPath ".agent.json") (.json metaJson)
  let (files₂, flowMap') :=
    match a.response_engine with
    | .retellLlm id _ =>
      (match jsMapGet llmMap id with
       | some llm => (serializeLlmFiles llm agentDirPath files₁, flowMap)
       | none => (files₁, flowMap))
    | .conversationFlow id _ =>
      (match jsMapGet flowMap id with
       | some flow =>
         let (files', flow') := serializeFlowFiles flow agentDirPath files₁
         (files', klvUpsert flowMap id flow')
       | none => (files₁, flowMap))
    | .customLlm _ => (files₁, flowMap)
  let configToWrite :=
    match a.response_engine with
    | .customLlm url => a.config.set "llm_websocket_url" (.str url)
    | _ => a.config
  (fmSet files₂ (pathJoin agentDirPath "config.yaml") (.yaml (.obj configToWrite)), flowMap')

/-- Fold of `serializeAgentFiles` over an agent list. -/
def serializeAgentList (llmMap : List (String × CanonicalLLM)) (channel agentsDir : String) :
    List CanonicalAgent → FileMap → List (String × CanonicalConversationFlow) →
    FileMap × List (String × CanonicalConversationFlow)
  | [], files, flowMap => (files, flowMap)
  | a :: rest, files, flowMap =>
    let (files', flowMap') := serializeAgentFiles llmMap flowMap channel agentsDir a files
    serializeAgentList llmMap channel agentsDir rest files' flowMap'

/-- `serializeState(state, { agentsDir })`: converts a canonical state to
a file map, voice agents first, then chat agents; LLM and flow lookup
maps are keyed by `_id`, and flows carry in-place node mutations from one
referencing agent to the next. -/
def serializeState (state : CanonicalState) (agentsDir : String) : FileMap :=
  let llmMap := state.llms.map (fun l => (l._id, l))
  let flowMap := state.conversationFlows.map (fun f => (f._id, f))
  let (files₁, flowMap₁) := serializeAgentList llmMap "voice" agentsDir state.voiceAgents [] flowMap
  (serializeAgentList llmMap "chat" agentsDir state.chatAgents files₁ flowMap₁).1

-- ---------------------------------------------------------------------------
-- canonicalizeFromFiles (agents.ts)
-- ---------------------------------------------------------------------------

/-- The response-engine reference as stored in `.agent.json` (its Zod
schema types `version` as `z.number().optional()`, rejecting null). -/
inductive MetaRE where
  | retellLlm (llm_id : String) (version : Option Rat)
  | conversationFlow (conversation_flow_id : String) (version : Option Rat)
  | customLlm
  deriving DecidableEq

/-- The parsed `.agent.json` metadata. -/
structure AgentMeta where
  id : String
  version : Rat
  channel : String
  response_engine : MetaRE
  deriving DecidableEq

/-- Requires a string-valued field (Zod `z.string()`). -/
def requireStr : Option Json → Except String String
  | some (.str s) => Except.ok s
  | _ => Except.error "expected a string"

/-- Requires a number-valued field (Zod `z.number()`). -/
def requireNum : Option Json → Except String Rat
  | some (.num q) => Except.ok q
  | _ => Except.error "expected a number"

/-- Decodes an optional number field (absent is fine, null is rejected as
`z.number().optional()` does). -/
def decodeOptNum : Option Json → Except String (Option Rat)
  | none => Except.ok none
  | some (.num q) => Except.ok (some q)
  | some _ => Except.error "expected an optional number"

/-- Decodes the discriminated response-engine union of the meta schema. -/
def decodeMetaRE : Option Json → Except String MetaRE
  | some (.obj o) =>
    match o.lookup "type" with
    | some (.str "retell-llm") => do
      let id ← requireStr (o.lookup "llm_id")
      let v ← decodeOptNum (o.lookup "version")
      Except.ok (.retellLlm id v)
    | some (.str "conversation-flow") => do
      let id ← requireStr (o.lookup "conversation_flow_id")
      let v ← decodeOptNum (o.lookup "version")
      Except.ok (.conversationFlow id v)
    | some (.str "custom-llm") => Except.ok .customLlm
    | _ => Except.error "invalid response_engine type"
  | _ => Except.error "expected a response_engine object"

/-- Decodes `.agent.json` against its Zod schema (`channel` defaults to
voice when absent; extra keys are ignored as non-strict objects do). -/
def decodeAgentMeta (j : Json) : Except String AgentMeta := do
  let o ← requireObj j
  let id ← requireStr (o.lookup "id")
  let version ← requireNum (o.lookup "version")
  let channel ←
    match o.lookup "channel" with
    | none => Except.ok "voice"
    | some (.str "voice") => Except.ok "voice"
    | some (.str "chat") => Except.ok "chat"
    | some _ => Except.error "invalid channel"
  let re ← decodeMetaRE (o.lookup "response_engine")
  Except.ok ⟨id, version, channel, re⟩

/-- The file resolver of `canonicalizeFromFiles`: strips one leading
`./`, prefixes the agent directory, and throws on a missing or falsy
(empty) file. -/
def dirResolver (group : FileMap) (agentDir : String) : Resolver := fun filePath =>
  let normalizedPath := stripDotSlash filePath
  let fullPath := agentDir ++ "/" ++ normalizedPath
  match fmGet group fullPath with
  | some c =>
    let s := c.asText
    if s = "" then Except.error ("File not found: " ++ fullPath) else Except.ok s
  | none => Except.error ("File not found: " ++ fullPath)

/-- Merges `.positions.json` data back onto a flow config: a truthy
`begin_tag` restores the flow-level position; the `nodes` and
`components` entries restore per-node and per-component positions onto
matching truthy ids and names. -/
def mergePositions (flowConfig : JsObj) (positions : JsObj) : JsObj :=
  let f₁ :=
    match positions.lookup "begin_tag" with
    | some v => if v.truthy then flowConfig.set "begin_tag_display_position" v else flowConfig
    | none => flowConfig
  let f₂ :=
    match positions.lookup "nodes", f₁.lookup "nodes" with
    | some (.obj nodePos), some (.arr nodes) =>
      f₁.set "nodes" (.arr (JsArr.ofList (nodes.toList.map (fun (n : Json) =>
        match n with
        | .obj o =>
          if truthyField o "id" then
            match nodePos.lookup (displayString ((o.lookup "id").getD .null)) with
            | some p => if p.truthy then Json.obj (o.set "display_position" p) else n
            | none => n
          else n
        | _ => n))))
    | _, _ => f₁
  match positions.lookup "components", f₂.lookup "components" with
  | some (.obj compPos), some (.arr comps) =>
    f₂.set "components" (.arr (JsArr.ofList (comps.toList.map (fun (c : Json) =>
      match c with
      | .obj o =>
        if truthyField o "name" then
          match compPos.lookup (displayString ((o.lookup "name").getD .null)) with
          | some p => if p.truthy then Json.obj (o.set "begin_tag_display_position" p) else c
          | none => c
        else c
      | _ => c))))
  | _, _ => f₂

/-- Everything one agent directory contributes to the canonical state. -/
structure ParsedDir where
  channel : String
  agent : CanonicalAgent
  llm : Option CanonicalLLM
  flow : Option CanonicalConversationFlow
  deriving DecidableEq

/-- Converts a meta version into the canonical nullable-optional form
(null cannot come back from the meta schema). -/
def metaVersionToJsOpt : Option Rat → JsOpt Rat
  | none => .undef
  | some q => .val q

/-- Processes one agent directory of the file map: reads and validates
`.agent.json`, reads `config.yaml`, resolves placeholders, reads the
engine resource file (tolerating its absence), merges positions
(tolerating a missing sidecar), and builds the canonical records.
Missing or falsy meta or config files skip the directory. -/
def processDir (group : FileMap) (agentDir : String) : Except String (Option ParsedDir) :=
  match fmGet group (agentDir ++ "/.agent.json") with
  | none => Except.ok none
  | some metaC =>
    if ¬ metaC.truthy then Except.ok none
    else do
      let metaJson ← readJsonF metaC
      let meta ← decodeAgentMeta metaJson
      match fmGet group (agentDir ++ "/config.yaml") with
      | none => Except.ok none
      | some cfgC =>
        if ¬ cfgC.truthy then Except.ok none
        else do
          let cfgJson ← readYamlF cfgC
          let cfgObj ← requireObj cfgJson
          let resolver := dirResolver group agentDir
          let agentConfig ← resolveObjPlaceholders resolver cfgObj
          let llm? ←
            match meta.response_engine with
            | .retellLlm lid lver =>
              (match fmGet group (agentDir ++ "/llm.yaml") with
               | some llmC =>
                 if llmC.truthy then do
                   let v ← readYamlF llmC
                   let o ← requireObj v
                   let o' ← resolveObjPlaceholders resolver o
                   Except.ok (some (⟨lid, lver.getD 0,
                     (o'.removeKey "_id").removeKey "_version"⟩ : CanonicalLLM))
                 else Except.ok none
               | none => Except.ok (none : Option CanonicalLLM))
            | _ => Except.ok none
          let flow? ←
            match meta.response_engine with
            | .conversationFlow fid fver =>
              (match fmGet group (agentDir ++ "/conversation-flow.yaml") with
               | some flowC =>
                 if flowC.truthy then do
                   let v ← readYamlF flowC
                   let o ← requireObj v
                   let o' ← resolveObjPlaceholders resolver o
                   let withPos ←
                     match fmGet group (agentDir ++ "/.positions.json") with
                     | some posC =>
                       if posC.truthy then do
                         let pj ← readJsonF posC
                         let po ← requireObj pj
                         Except.ok (mergePositions o' po)
                       else Except.ok o'
                     | none => Except.ok o'
                   Except.ok (some (⟨fid, fver.getD 0,
                     (withPos.removeKey "_id").removeKey "_version"⟩ : CanonicalConversationFlow))
                 else Except.ok none
               | none => Except.ok (none : Option CanonicalConversationFlow))
            | _ => Except.ok none
          let responseEngine : ResponseEngine :=
            match meta.response_engine with
            | .customLlm =>
              .customLlm (match agentConfig.lookup "llm_websocket_url" with
                | some (.str s) => s
                | _ => "")
            | .retellLlm lid lver => .retellLlm lid (metaVersionToJsOpt lver)
            | .conversationFlow fid fver => .conversationFlow fid (metaVersionToJsOpt fver)
          let cleanConfig := ((agentConfig.removeKey "version_title").removeKey
            "version_description").removeKey "llm_websocket_url"
          let agent : CanonicalAgent :=
            ⟨meta.id, meta.version, responseEngine,
             ((cleanConfig.removeKey "_id").removeKey "_version").removeKey "response_engine"⟩
          Except.ok (some ⟨meta.channel, agent, llm?, flow?⟩)

/-- Groups file paths by first component keeping first-appearance order
(remeda `groupBy` over object entries). -/
def dirKeys (files : FileMap) : List String :=
  (files.map (fun p => firstComponent p.1)).foldl jsSetAdd []

/-- Directory loop of `canonicalizeFromFiles`. -/
def cffGo (files : FileMap) : List String → CanonicalState → Except String CanonicalState
  | [], acc => Except.ok acc
  | d :: rest, acc => do
    let group := files.filter (fun p => firstComponent p.1 = d)
    let pd? ← processDir group d
    match pd? with
    | none => cffGo files rest acc
    | some pd =>
      cffGo files rest
        { voiceAgents := acc.voiceAgents ++ (if pd.channel = "chat" then [] else [pd.agent])
          chatAgents := acc.chatAgents ++ (if pd.channel = "chat" then [pd.agent] else [])
          llms := acc.llms ++ pd.llm.toList
          conversationFlows := acc.conversationFlows ++ pd.flow.toList }

/-- `canonicalizeFromFiles(files)`: groups the path-keyed file map by
agent directory and canonicalizes each directory in turn. -/
def canonicalizeFromFiles (files : FileMap) : Except String CanonicalState :=
  cffGo files (dirKeys files) ⟨[], [], [], []⟩

-- ---------------------------------------------------------------------------
-- writeState cleanup pass (agents.ts)
-- ---------------------------------------------------------------------------

/-- Outcome of reading and `JSON.parse`-ing a `.agent.json` file. -/
inductive MetaParse where
  | invalid
  | parsed (j : Json)
  deriving DecidableEq

/-- One directory entry of the agents directory as the cleanup pass
observes it: its name, whether it is a directory, the outcome of its
`.agent.json` (when the file exists), and its recursive file listing. -/
structure FsEntry where
  name : String
  isDirectory : Bool
  metaFile : Option MetaParse
  files : List String
  deriving DecidableEq

/-- A destructive action of the cleanup pass. -/
inductive CleanupAction where
  | removeDirAll (dir : String)
  | removeFile (dir : String) (file : String)
  deriving DecidableEq

/-- The directory a cleanup action touches. -/
def CleanupAction.dir : CleanupAction → String
  | .removeDirAll d => d
  | .removeFile d _ => d

/-- The `z.object({ id: z.string() }).safeParse` check plus the managed-id
test: the directory is subject to cleanup only when the parse succeeds
and its id is managed. -/
def metaIdManaged (j : Json) (managed : List String) : Bool :=
  match j with
  | .obj o =>
    (match o.lookup "id" with
     | some (.str s) => managed.contains s
     | _ => false)
  | _ => false

/-- First path components of the written files, empty ones dropped
(`writtenDirs`). -/
def writtenDirsOf (written : List String) : List String :=
  (written.map firstComponent).filter (fun s => s ≠ "")

/-- Cleanup actions for one directory that is subject to cleanup: delete
it entirely when nothing was written into it, otherwise delete its stale
files. -/
def cleanupDirActions (e : FsEntry) (written : List String) : List CleanupAction :=
  if (writtenDirsOf written).contains e.name then
    (e.files.filter (fun f => ¬ written.contains (e.name ++ "/" ++ f))).map
      (CleanupAction.removeFile e.name)
  else [CleanupAction.removeDirAll e.name]

/-- The cleanup pass of `writeState`: walks the existing directories;
under a partial sync (`agentIds` given) a directory whose `.agent.json`
parses to an unmanaged or unreadable id is skipped, an invalid JSON meta
aborts the pass (the unguarded `JSON.parse` throws), and a directory
without a meta file falls through to cleanup. -/
def writeStateCleanup (entries : List FsEntry) (written : List String)
    (managedAgentIds : Option (List String)) : Except String (List CleanupAction) :=
  match entries with
  | [] => Except.ok []
  | e :: rest =>
    let headActs : Except String (List CleanupAction) :=
      if ¬ e.isDirectory then Except.ok []
      else
        match managedAgentIds with
        | some managed =>
          match e.metaFile with
          | some .invalid => Except.error "JSON.parse failed"
          | some (.parsed j) =>
            if metaIdManaged j managed then Except.ok (cleanupDirActions e written)
            else Except.ok []
          | none => Except.ok (cleanupDirActions e written)
        | none => Except.ok (cleanupDirActions e written)
    match headActs with
    | Except.error s => Except.error s
    | Except.ok acts =>
      match writeStateCleanup rest written managedAgentIds with
      | Except.error s => Except.error s
      | Except.ok actsRest => Except.ok (acts ++ actsRest)

-- ---------------------------------------------------------------------------
-- Notions used by the theorem statements: duplicate-free values, absence
-- of placeholder strings, JS semantic equality, and the text/position
-- normalization that the file round trip performs.
-- ---------------------------------------------------------------------------

/-- Whether an object has no repeated keys at its top level. -/
def JsObj.keysNodup : JsObj → Bool
  | .nil => true
  | .cons k _ tl => ¬ tl.hasKey k && tl.keysNodup

mutual
/-- Whether a value has duplicate-free object keys everywhere (every value
produced by a JS parser does; plain JS objects cannot repeat a key). -/
def Json.dupFree : Json → Bool
  | .null => true
  | .bool _ => true
  | .num _ => true
  | .str _ => true
  | .arr xs => xs.dupFree
  | .obj fs => fs.keysNodup && fs.dupFree
  termination_by structural j => j
/-- Array component of `Json.dupFree`. -/
def JsArr.dupFree : JsArr → Bool
  | .nil => true
  | .cons x tl => x.dupFree && tl.dupFree
  termination_by structural a => a
/-- Field component of `Json.dupFree` (checks the values). -/
def JsObj.dupFree : JsObj → Bool
  | .nil => true
  | .cons _ v tl => v.dupFree && tl.dupFree
  termination_by structural a => a
end

mutual
/-- Whether no string anywhere in the value starts with `file://` (such a
value passes the placeholder resolver unchanged). -/
def Json.noPlaceholders : Json → Bool
  | .str s => ¬ jsStartsWith s "file://"
  | .arr xs => xs.noPlaceholders
  | .obj fs => fs.noPlaceholders
  | _ => true
  termination_by structural j => j
/-- Array component of `Json.noPlaceholders`. -/
def JsArr.noPlaceholders : JsArr → Bool
  | .nil => true
  | .cons x tl => x.noPlaceholders && tl.noPlaceholders
  termination_by structural a => a
/-- Field component of `Json.noPlaceholders`. -/
def JsObj.noPlaceholders : JsObj → Bool
  | .nil => true
  | .cons _ v tl => v.noPlaceholders && tl.noPlaceholders
  termination_by structural a => a
end

mutual
/-- JS semantic equality of values: arrays compare pointwise, objects
compare by key set and per-key value, ignoring field order (the order of
object keys is not observable data). -/
def jsonSemEq : Json → Json → Bool
  | .obj fa, .obj fb => objSemEqFields fa fb && fb.toList.all (fun kv => fa.hasKey kv.1)
  | .arr xa, .arr xb => arrSemEq xa xb
  | a, b => jsAtomEq a b
  termination_by structural a => a
/-- Pointwise array comparison for `jsonSemEq`. -/
def arrSemEq : JsArr → JsArr → Bool
  | .nil, .nil => true
  | .cons x xs, .cons y ys => jsonSemEq x y && arrSemEq xs ys
  | _, _ => false
  termination_by structural a => a
/-- Field-by-field comparison of the left object against the right one. -/
def objSemEqFields : JsObj → JsObj → Bool
  | .nil, _ => true
  | .cons k v tl, b =>
    (match b.lookup k with
     | some w => jsonSemEq v w
     | none => false) && objSemEqFields tl b
  termination_by structural a => a
end

/-- Semantic equality of canonical agents (identity fields exact, config
up to object key order). -/
def agentSemEq (a b : CanonicalAgent) : Bool :=
  a._id == b._id && a._version == b._version &&
  a.response_engine == b.response_engine && jsonSemEq (.obj a.config) (.obj b.config)

/-- Semantic equality of canonical LLMs. -/
def llmSemEq (a b : CanonicalLLM) : Bool :=
  a._id == b._id && a._version == b._version && jsonSemEq (.obj a.config) (.obj b.config)

/-- Semantic equality of canonical flows. -/
def flowSemEq (a b : CanonicalConversationFlow) : Bool :=
  a._id == b._id && a._version == b._version && jsonSemEq (.obj a.config) (.obj b.config)

/-- Pointwise semantic equality of two agent lists. -/
def agentsSemEq : List CanonicalAgent → List CanonicalAgent → Bool
  | [], [] => true
  | a :: as, b :: bs => agentSemEq a b && agentsSemEq as bs
  | _, _ => false

/-- Same-multiset (by unique id) semantic equality of LLM collections:
every element of one side has a semantically equal id-mate on the other,
and the lengths agree. -/
def llmsSemEq (ts ns : List CanonicalLLM) : Bool :=
  ts.length == ns.length &&
  ns.all (fun n => ts.any (fun t => llmSemEq t n)) &&
  ts.all (fun t => ns.any (fun n => llmSemEq t n))

/-- Collection equality for flows, as for LLMs. -/
def flowsSemEq (ts ns : List CanonicalConversationFlow) : Bool :=
  ts.length == ns.length &&
  ns.all (fun n => ts.any (fun t => flowSemEq t n)) &&
  ts.all (fun t => ns.any (fun n => flowSemEq t n))

/-- Semantic equality of canonical states: agent lists in order, engine
collections as id-keyed multisets (the file reader re-emits them in
agent-directory order). -/
def stateSemEq (t n : CanonicalState) : Bool :=
  agentsSemEq t.voiceAgents n.voiceAgents && agentsSemEq t.chatAgents n.chatAgents &&
  llmsSemEq t.llms n.llms && flowsSemEq t.conversationFlows n.conversationFlows

mutual
/-- Maps every string occurring in a value (used to state that no
text-formatting normalization can reconcile two values). -/
def Json.mapStrings (f : String → String) : Json → Json
  | .str s => .str (f s)
  | .arr xs => .arr (xs.mapStrings f)
  | .obj fs => .obj (fs.mapStrings f)
  | other => other
  termination_by structural j => j
/-- Array component of `Json.mapStrings`. -/
def JsArr.mapStrings (f : String → String) : JsArr → JsArr
  | .nil => .nil
  | .cons x tl => .cons (x.mapStrings f) (tl.mapStrings f)
  termination_by structural a => a
/-- Field component of `Json.mapStrings`. -/
def JsObj.mapStrings (f : String → String) : JsObj → JsObj
  | .nil => .nil
  | .cons k v tl => .cons k (v.mapStrings f) (tl.mapStrings f)
  termination_by structural a => a
end

/-- Applies a string normalization to every text field of a state
(identity fields excluded: the claim allows only text-formatting
differences, which live in strings). -/
def stateMapStrings (f : String → String) (s : CanonicalState) : CanonicalState where
  voiceAgents := s.voiceAgents.map (fun a => { a with config := a.config.mapStrings f })
  chatAgents := s.chatAgents.map (fun a => { a with config := a.config.mapStrings f })
  llms := s.llms.map (fun l => { l with config := l.config.mapStrings f })
  conversationFlows := s.conversationFlows.map (fun c => { c with config := c.config.mapStrings f })

-- ---------------------------------------------------------------------------
-- The normalization performed by a full write-then-read cycle, and the
-- well-formedness under which the cycle is lossless up to it.
-- ---------------------------------------------------------------------------

/-- Normalizes one extracted-text field: a truthy prompt string comes
back trimmed from its markdown file. -/
def normPromptField (cfg : JsObj) (k : String) : JsObj :=
  match cfg.lookup k with
  | some v => if v.truthy then cfg.set k (.str (jsTrim (displayString v))) else cfg
  | none => cfg

/-- Normalizes one flow node: the instruction text of an extractable node
comes back trimmed, and a truthy display position of a truthy-id node
comes back rounded. -/
def normNode (n : Json) : Json :=
  match n with
  | .obj o =>
    let o₁ :=
      if nodeExtractable o then
        match o.lookup "instruction" with
        | some (.obj io) =>
          o.set "instruction" (.obj (io.set "text" (.str (jsTrim (nodeInstructionText o)))))
        | _ => o
      else o
    let o₂ :=
      if truthyField o₁ "id" ∧ truthyField o₁ "display_position" then
        o₁.set "display_position" (roundPos ((o₁.lookup "display_position").getD .null))
      else o₁
    Json.obj o₂
  | _ => n

/-- Normalizes one flow component: a truthy begin-tag position of a named
component comes back rounded. -/
def normComponent (c : Json) : Json :=
  match c with
  | .obj o =>
    if truthyField o "name" ∧ truthyField o "begin_tag_display_position" then
      Json.obj (o.set "begin_tag_display_position"
        (roundPos ((o.lookup "begin_tag_display_position").getD .null)))
    else c
  | _ => c

/-- Normalizes a flow config under the round trip: global prompt trimmed,
node texts trimmed, all extracted display positions rounded. -/
def normFlowConfig (cfg : JsObj) : JsObj :=
  let c₁ := normPromptField cfg "global_prompt"
  let c₂ :=
    match c₁.lookup "nodes" with
    | some (.arr ns) => c₁.set "nodes" (.arr (JsArr.ofList (ns.toList.map normNode)))
    | _ => c₁
  let c₃ :=
    if truthyField c₂ "begin_tag_display_position" then
      c₂.set "begin_tag_display_position"
        (roundPos ((c₂.lookup "begin_tag_display_position").getD .null))
    else c₂
  match c₃.lookup "components" with
  | some (.arr cs) => c₃.set "components" (.arr (JsArr.ofList (cs.toList.map normComponent)))
  | _ => c₃

/-- The text-and-position normalization a full write-then-read cycle
applies to a canonical state: agent configs are untouched; LLM general
prompts, flow global prompts and node instruction texts come back
trimmed; display positions come back rounded to integers. -/
def normState (s : CanonicalState) : CanonicalState where
  voiceAgents := s.voiceAgents
  chatAgents := s.chatAgents
  llms := s.llms.map (fun l => { l with config := normPromptField l.config "general_prompt" })
  conversationFlows := s.conversationFlows.map (fun f => { f with config := normFlowConfig f.config })

/-- Boolean duplicate-freedom of a string list. -/
def nodupB : List String → Bool
  | [] => true
  | x :: xs => ¬ xs.contains x && nodupB xs

/-- Well-formedness of an extracted-text field: absent, null, falsy, or a
string that stays truthy after trimming and cannot be mistaken for a
frontmatter fence. -/
def promptFieldOK (cfg : JsObj) (k : String) : Bool :=
  match cfg.lookup k with
  | none => true
  | some .null => true
  | some (.str s) => s = "" || (jsTrim s ≠ "" && ¬ jsStartsWith (jsTrim s) "---")
  | some v => ¬ v.truthy

/-- Version agreement between a response-engine reference and the
resource it names: the round trip stores the reference version in
`.agent.json` and rebuilds the resource version as `version ?? 0`. -/
def versionMatches (v : JsOpt Rat) (resourceVersion : Rat) : Bool :=
  match v with
  | .undef => resourceVersion == 0
  | .null => false
  | .val q => q == resourceVersion

/-- A null reference version would serialize as JSON null, which the meta
schema rejects on read. -/
def reVersionOK (re : ResponseEngine) : Bool :=
  match re with
  | .retellLlm _ v => v ≠ .null
  | .conversationFlow _ v => v ≠ .null
  | .customLlm _ => true

/-- The truthy id of an object node, when there is one. -/
def nodeIdOf (n : Json) : Option String :=
  match n with
  | .obj o => if truthyField o "id" then some (displayString ((o.lookup "id").getD .null)) else none
  | _ => none

/-- The truthy name of an object component, when there is one. -/
def componentNameOf (c : Json) : Option String :=
  match c with
  | .obj o => if truthyField o "name" then some (displayString ((o.lookup "name").getD .null)) else none
  | _ => none

/-- Well-formedness of one flow node for a lossless round trip: an
extractable node needs a non-degenerate instruction text and a
frontmatter rendering free of `---`. -/
def nodeWF (nameById : List (String × String))
    (incoming : List (String × List String)) (n : Json) : Bool :=
  match n with
  | .obj o =>
    if nodeExtractable o then
      jsTrim (nodeInstructionText o) ≠ "" &&
      ¬ jsStartsWith (jsTrim (nodeInstructionText o)) "---" &&
      ¬ containsSeq "---".data (jsTrim (yamlStringifyFm (nodeFrontmatter nameById incoming o))).data
    else true
  | _ => true

/-- Well-formedness of a flow config for a lossless round trip. -/
def flowConfigWF (cfg : JsObj) : Bool :=
  (Json.obj cfg).dupFree && (Json.obj cfg).noPlaceholders &&
  ¬ cfg.hasKey "_id" && ¬ cfg.hasKey "_version" &&
  promptFieldOK cfg "global_prompt" &&
  (match cfg.lookup "nodes" with
   | some (.arr ns) =>
     let nodes := ns.toList
     let nameById := nodeNamesById nodes
     let incoming := incomingEdgeNames nodes
     nodes.all (nodeWF nameById incoming) &&
     nodupB ((nodes.filter (fun n => match n with | .obj o => nodeExtractable o | _ => false)).map
       (fun n => match n with | .obj o => nodeFileNameOf o | _ => "")) &&
     nodupB (nodes.filterMap nodeIdOf)
   | some .null => true
   | none => true
   | some v => ¬ v.truthy) &&
  (match cfg.lookup "components" with
   | some (.arr cs) => nodupB (cs.toList.filterMap componentNameOf)
   | some .null => true
   | none => true
   | some v => ¬ v.truthy)

/-- Well-formedness of an LLM config for a lossless round trip. -/
def llmConfigWF (cfg : JsObj) : Bool :=
  (Json.obj cfg).dupFree && (Json.obj cfg).noPlaceholders &&
  ¬ cfg.hasKey "_id" && ¬ cfg.hasKey "_version" &&
  promptFieldOK cfg "general_prompt"

/-- Well-formedness of an agent config for a lossless round trip: no
placeholder strings, no duplicate keys, and none of the keys the cycle
strips or synthesizes. -/
def agentConfigWF (cfg : JsObj) : Bool :=
  (Json.obj cfg).dupFree && (Json.obj cfg).noPlaceholders &&
  ¬ cfg.hasKey "version_title" && ¬ cfg.hasKey "version_description" &&
  ¬ cfg.hasKey "llm_websocket_url" &&
  ¬ cfg.hasKey "_id" && ¬ cfg.hasKey "_version" && ¬ cfg.hasKey "response_engine"

/-- The agents of a state whose retell-llm reference names the given id. -/
def llmReferencingAgents (s : CanonicalState) (id : String) : List CanonicalAgent :=
  (s.voiceAgents ++ s.chatAgents).filter (fun a =>
    match a.response_engine with
    | .retellLlm lid _ => lid == id
    | _ => false)

/-- The agents of a state whose conversation-flow reference names the id. -/
def flowReferencingAgents (s : CanonicalState) (id : String) : List CanonicalAgent :=
  (s.voiceAgents ++ s.chatAgents).filter (fun a =>
    match a.response_engine with
    | .conversationFlow fid _ => fid == id
    | _ => false)

/-- Well-formedness of a canonical state under which the file round trip
is lossless up to `normState`: well-formed configs, distinct
slash-free directory names, no null reference versions, and every LLM and
flow owned by exactly one agent whose reference version agrees. -/
def stateRoundTripWF (s : CanonicalState) : Bool :=
  let agents := s.voiceAgents ++ s.chatAgents
  agents.all (fun a => agentConfigWF a.config && reVersionOK a.response_engine &&
    ¬ (getAgentDirName a).data.contains '/' &&
    (match a.response_engine with
     | .customLlm url => ¬ jsStartsWith url "file://"
     | _ => true)) &&
  nodupB (agents.map getAgentDirName) &&
  s.llms.all (fun l => llmConfigWF l.config &&
    (match llmReferencingAgents s l._id with
     | [a] =>
       (match a.response_engine with
        | .retellLlm _ v => versionMatches v l._version
        | _ => false)
     | _ => false)) &&
  nodupB (s.llms.map (fun l => l._id)) &&
  s.conversationFlows.all (fun f => flowConfigWF f.config &&
    (match flowReferencingAgents s f._id with
     | [a] =>
       (match a.response_engine with
        | .conversationFlow _ v => versionMatches v f._version
        | _ => false)
     | _ => false)) &&
  nodupB (s.conversationFlows.map (fun f => f._id))

-- concrete values used by counterexamples and witnesses ---------------------

/-- A flow node with id `a`. -/
def c2NodeA : Json := .obj (.cons "id" (.str "a") (.cons "p" (.str "x") .nil))

/-- A flow node with id `b`. -/
def c2NodeB : Json := .obj (.cons "id" (.str "b") (.cons "p" (.str "y") .nil))

/-- A canonical flow whose nodes are `[a, b]`. -/
def c2FlowAB : CanonicalConversationFlow :=
  ⟨"flow1", 1, .cons "nodes" (.arr (.cons c2NodeA (.cons c2NodeB .nil))) .nil⟩

/-- The same flow with its nodes permuted to `[b, a]`. -/
def c2FlowBA : CanonicalConversationFlow :=
  ⟨"flow1", 1, .cons "nodes" (.arr (.cons c2NodeB (.cons c2NodeA .nil))) .nil⟩

/-- Node `b` with its non-id field `p` set to `A`. -/
def c2NodeBA : Json := .obj (.cons "id" (.str "b") (.cons "p" (.str "A") .nil))

/-- Node `b` with its non-id field `p` set to `B`. -/
def c2NodeBB : Json := .obj (.cons "id" (.str "b") (.cons "p" (.str "B") .nil))

/-- Reference flow for the single-field change: nodes `[a, b(p=A)]`. -/
def c2FlowChgRef : CanonicalConversationFlow :=
  ⟨"flow1", 1, .cons "nodes" (.arr (.cons c2NodeA (.cons c2NodeBA .nil))) .nil⟩

/-- Source flow for the single-field change: nodes `[a, b(p=B)]`. -/
def c2FlowChgSrc : CanonicalConversationFlow :=
  ⟨"flow1", 1, .cons "nodes" (.arr (.cons c2NodeA (.cons c2NodeBB .nil))) .nil⟩

/-- A state holding just one flow. -/
def flowOnlyState (f : CanonicalConversationFlow) : CanonicalState := ⟨[], [], [], [f]⟩

/-- A brand-new voice/chat agent for the includeNew witness. -/
def c5Agent : CanonicalAgent := ⟨"agent_new", 0, .retellLlm "llm1" (.val 0), .nil⟩

/-- A brand-new LLM for the includeNew witness. -/
def c5Llm : CanonicalLLM := ⟨"llm_new", 0, .nil⟩

/-- A brand-new flow for the includeNew witness. -/
def c5Flow : CanonicalConversationFlow := ⟨"flow_new", 0, .nil⟩

/-- Source state holding one new resource of every kind. -/
def c5Src : CanonicalState := ⟨[c5Agent], [c5Agent], [c5Llm], [c5Flow]⟩

/-- The empty reference state. -/
def c5Empty : CanonicalState := ⟨[], [], [], []⟩

/-- Source-side LLM for the omission witness: field `p` set to `B`. -/
def c6Llm : CanonicalLLM := ⟨"L", 0, .cons "p" (.str "B") .nil⟩

/-- Reference-side LLM for the omission witness: field `p` set to `A`. -/
def c6LlmRef : CanonicalLLM := ⟨"L", 0, .cons "p" (.str "A") .nil⟩

/-- Source state for the omission witness. -/
def c6Src : CanonicalState := ⟨[], [], [c6Llm], []⟩

/-- Reference state for the omission witness. -/
def c6Ref : CanonicalState := ⟨[], [], [c6LlmRef], []⟩

/-- A non-custom agent exercising the omission-surface equation. -/
def c6Agent : CanonicalAgent := ⟨"agent_x", 1, .retellLlm "L" (.val 0), .cons "p" (.str "A") .nil⟩

/-- The dependency test of the scan loop of `findAffectedAgentIds`: the
response engine references a changed LLM or a changed flow. -/
def dependsOnChanged (cl cf : List String) (a : CanonicalAgent) : Bool :=
  match a.response_engine with
  | .retellLlm id _ => decide (id ∈ cl)
  | .customLlm _ => false
  | .conversationFlow id _ => decide (id ∈ cf)

/-- The LLM of the dependency-propagation example. -/
def c7Llm : CanonicalLLM := ⟨"L", 0, .nil⟩

/-- The only agent referencing the LLM of the example. -/
def c7Agent : CanonicalAgent := ⟨"A", 0, .retellLlm "L" (.val 0), .nil⟩

/-- A second agent that references a flow instead. -/
def c7OtherAgent : CanonicalAgent := ⟨"B", 0, .conversationFlow "F" .undef, .nil⟩

/-- The state of the dependency-propagation example. -/
def c7State : CanonicalState := ⟨[c7Agent, c7OtherAgent], [], [c7Llm], []⟩

/-- Changes holding only one LLM change. -/
def c7Changes : BaseChanges :=
  ⟨[], [], [⟨"L", "L", c7Llm, [.changed [.key "p"] (.str "B") (.str "A")]⟩], []⟩

/-- The keys of an assoc-list map. -/
def mapKeys (m : List (String × α)) : List String := m.map (fun p => p.1)

/-- The running champion of the per-id scan of `keepLatestVersion`: the
current entry is replaced only by a strictly greater version, so ties
keep the earlier entry. -/
def champ (version : α → Option Rat) (c : α) : List α → α
  | [] => c
  | x :: rest =>
    champ version (if jsNumGt ((version x).getD 0) ((version c).getD 0) then x else c) rest

/-- Raw LLM of the cross-reference witness. -/
def c4Llm : RawLlm := ⟨"L", some 1, some true, 0, .nil⟩

/-- Latest agent of the cross-reference witness, referencing the LLM. -/
def c4Agent : RawAgent := ⟨"A", some 1, some true, 0, .retellLlm "L" (.val 1), .nil⟩

/-- Raw state of the cross-reference witness. -/
def c4Raw : RawState := ⟨[c4Agent], [], [c4Llm], []⟩

/-- Managed directory of the cleanup witness, holding one stale file. -/
def c9DirA : FsEntry :=
  ⟨"dirA", true, some (.parsed (.obj (.cons "id" (.str "A") .nil))), ["old.md", "keep.md"]⟩

/-- Unmanaged directory of the cleanup witness. -/
def c9DirB : FsEntry :=
  ⟨"dirB", true, some (.parsed (.obj (.cons "id" (.str "B") .nil))), ["x.md"]⟩

/-- Meta file of the missing-file examples: a retell-llm voice agent. -/
def c8Meta : Json := .obj (JsObj.ofList [
  ("id", .str "agent_1"),
  ("version", .num 1),
  ("response_engine", .obj (JsObj.ofList [
    ("type", .str "retell-llm"),
    ("llm_id", .str "llm_1"),
    ("version", .num 1)]))])

/-- File map whose config carries a placeholder to a file that does not
exist in the directory. -/
def c8BadFiles : FileMap := [
  ("a/.agent.json", .json c8Meta),
  ("a/config.yaml", .yaml (.obj (JsObj.ofList [
    ("agent_name", .str "X"),
    ("p", .str "file://./x.md")])))]

/-- File map of a retell-llm agent with no llm.yaml sidecar. -/
def c8OkFiles : FileMap := [
  ("a/.agent.json", .json c8Meta),
  ("a/config.yaml", .yaml (.obj (.cons "agent_name" (.str "X") .nil)))]

/-- The canonical agent read back from `c8OkFiles`. -/
def c8OkAgent : CanonicalAgent :=
  ⟨"agent_1", 1, .retellLlm "llm_1" (.val 1), .cons "agent_name" (.str "X") .nil⟩

/-- Meta file of the flow example. -/
def c8FlowMeta : Json := .obj (JsObj.ofList [
  ("id", .str "agent_2"),
  ("version", .num 1),
  ("response_engine", .obj (JsObj.ofList [
    ("type", .str "conversation-flow"),
    ("conversation_flow_id", .str "flow_1"),
    ("version", .num 1)]))])

/-- File map of a conversation-flow agent with no .positions.json. -/
def c8FlowFiles : FileMap := [
  ("a/.agent.json", .json c8FlowMeta),
  ("a/config.yaml", .yaml (.obj (.cons "agent_name" (.str "Y") .nil))),
  ("a/conversation-flow.yaml", .yaml (.obj (.cons "global_prompt" (.str "G") .nil)))]

/-- The canonical agent read back from `c8FlowFiles`. -/
def c8FlowAgent : CanonicalAgent :=
  ⟨"agent_2", 1, .conversationFlow "flow_1" (.val 1), .cons "agent_name" (.str "Y") .nil⟩

/-- The canonical flow read back from `c8FlowFiles`, with no restored
display positions. -/
def c8Flow : CanonicalConversationFlow :=
  ⟨"flow_1", 1, .cons "global_prompt" (.str "G") .nil⟩

/-- A flow node with a fractional display position. -/
def c1Node : Json := .obj (JsObj.ofList [
  ("id", .str "node1"),
  ("name", .str "Start"),
  ("type", .str "conversation"),
  ("instruction", .obj (JsObj.ofList [("type", .str "prompt"), ("text", .str "Say hi")])),
  ("display_position", .obj (JsObj.ofList [("x", .num (mkRat 1 2)), ("y", .num 3)]))])

/-- Flow of the round-trip counterexample. -/
def c1Flow : CanonicalConversationFlow :=
  ⟨"flow1", 1, JsObj.ofList [
    ("global_prompt", .str "Be nice"),
    ("nodes", .arr (JsArr.ofList [c1Node]))]⟩

/-- Agent of the round-trip counterexample. -/
def c1Agent : CanonicalAgent :=
  ⟨"agent_ABC123", 1, .conversationFlow "flow1" (.val 1),
   JsObj.ofList [("agent_name", .str "My Agent"), ("voice_id", .str "v1")]⟩

/-- The state whose round trip moves a display position. -/
def c1State : CanonicalState := ⟨[c1Agent], [], [], [c1Flow]⟩

/-- `c1Node` with its position rounded (and re-appended by the position
merge). -/
def c1NodeRounded : Json := .obj (JsObj.ofList [
  ("id", .str "node1"),
  ("name", .str "Start"),
  ("type", .str "conversation"),
  ("instruction", .obj (JsObj.ofList [("type", .str "prompt"), ("text", .str "Say hi")])),
  ("display_position", .obj (JsObj.ofList [("x", .num 1), ("y", .num 3)]))])

/-- The state the round trip actually returns on `c1State`. -/
def c1RT : CanonicalState :=
  ⟨[c1Agent], [], [],
   [⟨"flow1", 1, JsObj.ofList [
      ("global_prompt", .str "Be nice"),
      ("nodes", .arr (JsArr.ofList [c1NodeRounded]))]⟩]⟩

/-- Digs out the x coordinate of the single node of the single flow. -/
def c1Observe (s : CanonicalState) : Option Json :=
  match s.conversationFlows with
  | [f] =>
    (match f.config.lookup "nodes" with
     | some (.arr (.cons (.obj n) .nil)) =>
       (match n.lookup "display_position" with
        | some (.obj d) => d.lookup "x"
        | _ => none)
     | _ => none)
  | _ => none

/-- One step of the placeholder-resolution relation the round-trip
analysis uses: a value either resolves to a truthy markdown body that
replaces it, or yields nothing and resolves recursively. -/
def resolvesTo (r : Resolver) (v w : Json) : Prop :=
  (∃ b, resolveValue r v = Except.ok (some b) ∧ b ≠ "" ∧ w = Json.str b) ∨
  (resolveValue r v = Except.ok none ∧ resolveFilePlaceholders r v = Except.ok w)

/-- Field-wise placeholder-resolution relation. -/
def fieldsResolve (r : Resolver) : JsObj → JsObj → Prop
  | .nil, .nil => True
  | .cons k v tl, .cons k2 w tl2 => k = k2 ∧ resolvesTo r v w ∧ fieldsResolve r tl tl2
  | _, _ => False

/-- Element-wise placeholder-resolution relation. -/
def elemsResolve (r : Resolver) : JsArr → JsArr → Prop
  | .nil, .nil => True
  | .cons v tl, .cons w tl2 => resolvesTo r v w ∧ elemsResolve r tl tl2
  | _, _ => False

/-- No key of the file map lies under the given directory. -/
def noKeysUnder (d : String) (files : FileMap) : Prop :=
  ∀ p ∈ files, firstComponent p.1 ≠ d

/-- Every key of the file map lies under the given directory. -/
def keysUnder (d : String) (files : FileMap) : Prop :=
  ∀ p ∈ files, firstComponent p.1 = d

/-- The files an agent list contributes, agent by agent from an empty
accumulator, with the flow map threaded through (each agent is tagged
with its channel so the voice and chat passes concatenate). -/
def agentChunks (llmMap : List (String × CanonicalLLM)) :
    List (String × CanonicalAgent) → List (String × CanonicalConversationFlow) →
    FileMap × List (String × CanonicalConversationFlow)
  | [], fm => ([], fm)
  | (ch, a) :: rest, fm =>
    let (f, fm2) := serializeAgentFiles llmMap fm ch "." a []
    let (fs, fm3) := agentChunks llmMap rest fm2
    (f ++ fs, fm3)

/-- The meta response-engine reference the round trip stores and reads
back (the reference version survives componentwise; JS `??`-style nulls
cannot come back from the meta schema). -/
def metaREof : ResponseEngine → MetaRE
  | .retellLlm id v => .retellLlm id v.coalesce
  | .conversationFlow id v => .conversationFlow id v.coalesce
  | .customLlm _ => .customLlm

/-- The response-engine object `serializeAgentFiles` stores in
`.agent.json` (custom-llm keeps only its type). -/
def reForMeta (re : ResponseEngine) : Json :=
  match re with
  | .customLlm _ => .obj (.cons "type" (.str "custom-llm") .nil)
  | re2 => encodeRE re2

/-- The in-place placeholder substitution `extractNodePrompts` performs
on one extractable node. -/
def promptSub (n : Json) : Json :=
  match n with
  | .obj o =>
    if nodeExtractable o then
      match o.lookup "instruction" with
      | some (.obj io) =>
        .obj (o.set "instruction" (.obj (io.set "text"
          (.str ("file://./" ++ nodeFileNameOf o)))))
      | _ => .obj o
    else n
  | _ => n

/-- The in-place trim the resolver applies to an extractable node. -/
def trimSub (n : Json) : Json :=
  match n with
  | .obj o =>
    if nodeExtractable o then
      match o.lookup "instruction" with
      | some (.obj io) =>
        .obj (o.set "instruction" (.obj (io.set "text"
          (.str (jsTrim (nodeInstructionText o))))))
      | _ => .obj o
    else n
  | _ => n

/-- The display-position removal `extractNodePositions` performs. -/
def posStrip (n : Json) : Json :=
  match n with
  | .obj o =>
    if truthyField o "id" ∧ truthyField o "display_position" then
      .obj (o.removeKey "display_position")
    else n
  | _ => n

/-- The node position map `extractNodePositions` collects. -/
def posMapOf : List Json → JsObj
  | [] => .nil
  | n :: rest =>
    match n with
    | .obj o =>
      if truthyField o "id" ∧ truthyField o "display_position" then
        JsObj.cons (displayString ((o.lookup "id").getD .null))
          (roundPos ((o.lookup "display_position").getD .null)) (posMapOf rest)
      else posMapOf rest
    | _ => posMapOf rest

/-- The per-node position restoration of `mergePositions`. -/
def nodeRestore (nodePos : JsObj) (n : Json) : Json :=
  match n with
  | .obj o =>
    if truthyField o "id" then
      match nodePos.lookup (displayString ((o.lookup "id").getD .null)) with
      | some p => if p.truthy then Json.obj (o.set "display_position" p) else n
      | none => n
    else n
  | _ => n

/-- The begin-tag-position removal `extractComponentPositions` performs. -/
def compStrip (c : Json) : Json :=
  match c with
  | .obj o =>
    if truthyField o "name" ∧ truthyField o "begin_tag_display_position" then
      .obj (o.removeKey "begin_tag_display_position")
    else c
  | _ => c

/-- The component position map `extractComponentPositions` collects. -/
def compMapOf : List Json → JsObj
  | [] => .nil
  | c :: rest =>
    match c with
    | .obj o =>
      if truthyField o "name" ∧ truthyField o "begin_tag_display_position" then
        JsObj.cons (displayString ((o.lookup "name").getD .null))
          (roundPos ((o.lookup "begin_tag_display_position").getD .null)) (compMapOf rest)
      else compMapOf rest
    | _ => compMapOf rest

/-- The per-component position restoration of `mergePositions`. -/
def compRestore (compPos : JsObj) (c : Json) : Json :=
  match c with
  | .obj o =>
    if truthyField o "name" then
      match compPos.lookup (displayString ((o.lookup "name").getD .null)) with
      | some p => if p.truthy then Json.obj (o.set "begin_tag_display_position" p) else c
      | none => c
    else c
  | _ => c

/-- What the full round trip makes of one flow node: instruction text
trimmed in place, a truthy display position re-added (rounded) at the end
of the node object. -/
def rtNode (n : Json) : Json :=
  match trimSub n with
  | .obj ot =>
    if truthyField ot "id" = true ∧ truthyField ot "display_position" = true then
      Json.obj ((ot.removeKey "display_position").set "display_position"
        (roundPos ((ot.lookup "display_position").getD .null)))
    else Json.obj ot
  | other => other

/-- What the full round trip makes of one flow component. -/
def rtComp (c : Json) : Json :=
  match c with
  | .obj o =>
    if truthyField o "name" = true ∧ truthyField o "begin_tag_display_position" = true then
      Json.obj ((o.removeKey "begin_tag_display_position").set "begin_tag_display_position"
        (roundPos ((o.lookup "begin_tag_display_position").getD .null)))
    else c
  | _ => c

/-- The written flow artifacts (positions object and conversation-flow
config), computed from the original config through the shared position
stage. -/
def wFlowParts (cfg : JsObj) : JsObj × JsObj :=
  let c₁ := if truthyField cfg "global_prompt" then
      cfg.set "global_prompt" (.str "file://./global_prompt.md")
    else cfg
  match c₁.lookup "nodes" with
  | some (.arr ns) =>
    ((flowPosStage (c₁.set "nodes" (.arr (JsArr.ofList (ns.toList.map promptSub))))
        (some (ns.toList.map promptSub))).1,
     (flowPosStage (c₁.set "nodes" (.arr (JsArr.ofList (ns.toList.map promptSub))))
        (some (ns.toList.map promptSub))).2.1)
  | _ => ((flowPosStage c₁ none).1, (flowPosStage c₁ none).2.1)

/-- The .positions.json object the flow writer collects. -/
def wFlowPos (cfg : JsObj) : JsObj := (wFlowParts cfg).1

/-- The conversation-flow.yaml object the flow writer produces. -/
def wFlowCfg (cfg : JsObj) : JsObj := (wFlowParts cfg).2

/-- The resolved flow artifacts (positions object and resolved config):
what placeholder resolution makes of the written ones, expressed through
the shared position stage over trim-substituted nodes. -/
def rFlowParts (cfg : JsObj) : JsObj × JsObj :=
  let c₁ := normPromptField cfg "global_prompt"
  match c₁.lookup "nodes" with
  | some (.arr ns) =>
    ((flowPosStage (c₁.set "nodes" (.arr (JsArr.ofList (ns.toList.map trimSub))))
        (some (ns.toList.map trimSub))).1,
     (flowPosStage (c₁.set "nodes" (.arr (JsArr.ofList (ns.toList.map trimSub))))
        (some (ns.toList.map trimSub))).2.1)
  | _ => ((flowPosStage c₁ none).1, (flowPosStage c₁ none).2.1)

/-- The positions object after resolution (it is unchanged by it). -/
def rFlowPos (cfg : JsObj) : JsObj := (rFlowParts cfg).1

/-- The resolved conversation-flow config. -/
def rFlowCfg (cfg : JsObj) : JsObj := (rFlowParts cfg).2

/-- The components entry of the written positions object, as a function
of the original components entry. -/
def compsPosOf (u : Option Json) : Option Json :=
  match u with
  | some (.arr cs) =>
    if (compMapOf cs.toList).length = 0 then none
    else some (.obj (compMapOf cs.toList))
  | _ => none

/-- The components entry of the written (stripped) config, as a function
of the original components entry. -/
def compsStripOf (u : Option Json) : Option Json :=
  match u with
  | some (.arr cs) => some (.arr (JsArr.ofList (cs.toList.map compStrip)))
  | other => other

/-- The component-restoration step of the merge, as a function of the
original components entry. -/
def compsMergedOf (u : Option Json) (f : JsObj) : JsObj :=
  match u with
  | some (.arr cs) => f.set "components"
      (.arr (JsArr.ofList ((cs.toList.map compStrip).map
        (compRestore (compMapOf cs.toList)))))
  | _ => f

/-- The written-and-resolved flow config after the begin-tag stage, for a
flow with a nodes array. -/
def mStageBT (cfg : JsObj) (ts : List Json) : JsObj :=
  if truthyField cfg "begin_tag_display_position" then
    ((normPromptField cfg "global_prompt").set "nodes"
      (.arr (JsArr.ofList ts))).removeKey "begin_tag_display_position"
  else (normPromptField cfg "global_prompt").set "nodes" (.arr (JsArr.ofList ts))

/-- The written-and-resolved flow config (the yaml object after
placeholder resolution), explicitly. -/
def mStage1 (cfg : JsObj) (ts : List Json) : JsObj :=
  let c₄ := (mStageBT cfg ts).set "nodes" (.arr (JsArr.ofList (ts.map posStrip)))
  match cfg.lookup "components" with
  | some (.arr cs) => c₄.set "components" (.arr (JsArr.ofList (cs.toList.map compStrip)))
  | _ => c₄

/-- The resolved flow config with its written positions merged back,
explicitly. -/
def mMerged (cfg : JsObj) (ts : List Json) : JsObj :=
  let f₁ := if truthyField cfg "begin_tag_display_position" then
      (mStage1 cfg ts).set "begin_tag_display_position"
        (roundPos ((cfg.lookup "begin_tag_display_position").getD .null))
    else mStage1 cfg ts
  let f₂ := f₁.set "nodes"
    (.arr (JsArr.ofList ((ts.map posStrip).map (nodeRestore (posMapOf ts)))))
  compsMergedOf (cfg.lookup "components") f₂

/-- The written-and-resolved flow config for a flow without a nodes
array. -/
def mStage1None (cfg : JsObj) : JsObj :=
  let c₃ := if truthyField cfg "begin_tag_display_position" then
      (normPromptField cfg "global_prompt").removeKey "begin_tag_display_position"
    else normPromptField cfg "global_prompt"
  match cfg.lookup "components" with
  | some (.arr cs) => c₃.set "components" (.arr (JsArr.ofList (cs.toList.map compStrip)))
  | _ => c₃

/-- The merged read-back config for a flow without a nodes array. -/
def mMergedNone (cfg : JsObj) : JsObj :=
  let f₁ := if truthyField cfg "begin_tag_display_position" then
      (mStage1None cfg).set "begin_tag_display_position"
        (roundPos ((cfg.lookup "begin_tag_display_position").getD .null))
    else mStage1None cfg
  compsMergedOf (cfg.lookup "components") f₁

/-- The written positions object of a flow with a nodes array,
explicitly. -/
def mPos (cfg : JsObj) (ts : List Json) : JsObj :=
  JsObj.append
    (if truthyField cfg "begin_tag_display_position" then
      JsObj.cons "begin_tag"
        (roundPos ((cfg.lookup "begin_tag_display_position").getD .null)) .nil
    else .nil)
    (JsObj.append
      (if (posMapOf ts).length = 0 then JsObj.nil
       else JsObj.cons "nodes" (.obj (posMapOf ts)) .nil)
      (match cfg.lookup "components" with
       | some (.arr cs) =>
         if (compMapOf cs.toList).length = 0 then JsObj.nil
         else JsObj.cons "components" (.obj (compMapOf cs.toList)) .nil
       | _ => JsObj.nil))

/-- The written positions object of a flow without a nodes array. -/
def mPosNone (cfg : JsObj) : JsObj :=
  JsObj.append
    (if truthyField cfg "begin_tag_display_position" then
      JsObj.cons "begin_tag"
        (roundPos ((cfg.lookup "begin_tag_display_position").getD .null)) .nil
    else .nil)
    (match cfg.lookup "components" with
     | some (.arr cs) =>
       if (compMapOf cs.toList).length = 0 then JsObj.nil
       else JsObj.cons "components" (.obj (compMapOf cs.toList)) .nil
     | _ => JsObj.nil)

/-- The normalized flow config of a flow with a nodes array, explicitly
(`ms` is the normalized node list). -/
def nYArr (cfg : JsObj) (ms : List Json) : JsObj :=
  let c₂ := (normPromptField cfg "global_prompt").set "nodes" (.arr (JsArr.ofList ms))
  let c₃ := if truthyField cfg "begin_tag_display_position" then
      c₂.set "begin_tag_display_position"
        (roundPos ((cfg.lookup "begin_tag_display_position").getD .null))
    else c₂
  match cfg.lookup "components" with
  | some (.arr cs) => c₃.set "components" (.arr (JsArr.ofList (cs.toList.map normComponent)))
  | _ => c₃

/-- The normalized flow config of a flow without a nodes array,
explicitly. -/
def nYNone (cfg : JsObj) : JsObj :=
  let c₃ := if truthyField cfg "begin_tag_display_position" then
      (normPromptField cfg "global_prompt").set "begin_tag_display_position"
        (roundPos ((cfg.lookup "begin_tag_display_position").getD .null))
    else normPromptField cfg "global_prompt"
  match cfg.lookup "components" with
  | some (.arr cs) => c₃.set "components" (.arr (JsArr.ofList (cs.toList.map normComponent)))
  | _ => c₃

-- ===========================================================================
/-- The `llm.yaml` object `serializeLlmFiles` writes: a truthy general
prompt is swapped for its extraction placeholder. -/
def wLlmCfg (cfg : JsObj) : JsObj :=
  if truthyField cfg "general_prompt" then
    cfg.set "general_prompt" (.str "file://./general_prompt.md")
  else cfg

/-- The flow config the read side reconstructs from the written files
(placeholders resolved, positions merged back). -/
def flowReadConfig (cfg : JsObj) : JsObj :=
  match cfg.lookup "nodes" with
  | some (.arr ns0) => mMerged cfg (ns0.toList.map trimSub)
  | _ => mMergedNone cfg

/-- The LLM record one agent directory contributes on read-back. -/
def expectedLlm (llmMap : List (String × CanonicalLLM)) :
    ResponseEngine → Option CanonicalLLM
  | .retellLlm lid v =>
    (match jsMapGet llmMap lid with
     | some llm =>
       some ⟨lid, (JsOpt.coalesce v).getD 0, normPromptField llm.config "general_prompt"⟩
     | none => none)
  | _ => none

/-- The flow record one agent directory contributes on read-back. -/
def expectedFlow (flowMap : List (String × CanonicalConversationFlow)) :
    ResponseEngine → Option CanonicalConversationFlow
  | .conversationFlow fid v =>
    (match jsMapGet flowMap fid with
     | some flow =>
       some ⟨fid, (JsOpt.coalesce v).getD 0, flowReadConfig flow.config⟩
     | none => none)
  | _ => none

/-- The chunk-by-chunk filter decomposition of a serialized file map:
each remaining agent directory filters out of the whole map exactly the
chunk that agent wrote, under the flow map current at its turn. -/
def chunkFilters (files : FileMap) (llmMap : List (String × CanonicalLLM)) :
    List (String × CanonicalAgent) → List (String × CanonicalConversationFlow) → Prop
  | [], _ => True
  | (ch, a) :: rest, fm =>
    files.filter (fun p => firstComponent p.1 = getAgentDirName a)
      = (serializeAgentFiles llmMap fm ch "." a []).1 ∧
    chunkFilters files llmMap rest (serializeAgentFiles llmMap fm ch "." a []).2

-- THEOREMS
-- ===========================================================================

-- helper lemmas ------------------------------------------------------------

/-- Strict equality is reflexive on values microdiff treats atomically. -/
theorem jsAtomEq_refl (v : Json) (h : compatContainers v v = false) : jsAtomEq v v = true := by
  cases v <;> simp_all [jsAtomEq, compatContainers]

/-- A key whose pair is a member of the field list is present. -/
theorem JsObj.hasKey_of_mem : ∀ (fs : JsObj) (k : String) (v : Json),
    (k, v) ∈ fs.toList → fs.hasKey k = true
  | .nil, _, _, hmem => by simp [JsObj.toList] at hmem
  | .cons k' v' tl, k, v, hmem => by
    simp only [JsObj.toList, List.mem_cons] at hmem
    rcases hmem with h | h
    · cases h
      simp [JsObj.hasKey, JsObj.lookup]
    · by_cases hk : k' = k
      · simp [JsObj.hasKey, JsObj.lookup, hk]
      · have := JsObj.hasKey_of_mem tl k v h
        simp only [JsObj.hasKey, JsObj.lookup, if_neg hk]
        simpa [JsObj.hasKey] using this

/-- In a duplicate-free object, every field is found by lookup. -/
theorem JsObj.lookup_of_mem_nodup : ∀ (fs : JsObj) (k : String) (v : Json),
    fs.keysNodup = true → (k, v) ∈ fs.toList → fs.lookup k = some v
  | .nil, _, _, _, hmem => by simp [JsObj.toList] at hmem
  | .cons k' v' tl, k, v, hnd, hmem => by
    simp only [JsObj.toList, List.mem_cons] at hmem
    simp only [JsObj.keysNodup, Bool.and_eq_true, decide_eq_true_eq] at hnd
    rcases hmem with h | h
    · cases h
      simp [JsObj.lookup]
    · have hk : k' ≠ k := by
        intro he
        subst he
        exact hnd.1 (JsObj.hasKey_of_mem tl k' v h)
      simp only [JsObj.lookup, if_neg hk]
      exact JsObj.lookup_of_mem_nodup tl k v hnd.2 h

/-- The CREATE loop emits nothing when every new key already exists. -/
theorem createFields_none : ∀ (a b : JsObj),
    (∀ k v, (k, v) ∈ b.toList → a.hasKey k = true) → createFields a b = []
  | _, .nil, _ => rfl
  | a, .cons k v tl, h => by
    simp only [createFields, h k v (by simp [JsObj.toList]), if_true, List.nil_append]
    exact createFields_none a tl (fun k' v' hm => h k' v' (by simp [JsObj.toList, hm]))

/-- The array CREATE loop emits nothing for equal-length arrays. -/
theorem createElems_self : ∀ (xs : JsArr) (i : Nat), createElems xs xs i = []
  | .nil, _ => rfl
  | .cons x tl, i => by simpa [createElems] using createElems_self tl (i + 1)

mutual
/-- microdiff is reflexive on duplicate-free values. -/
theorem microdiff_self : ∀ j : Json, j.dupFree = true → microdiff j j = []
  | .null, _ => rfl
  | .bool _, _ => rfl
  | .num _, _ => rfl
  | .str _, _ => rfl
  | .arr xs, h => by
    have hdf : xs.dupFree = true := by simpa [Json.dupFree] using h
    simp only [microdiff]
    rw [diffElems_self xs hdf 0, createElems_self xs 0]
    rfl
  | .obj fs, h => by
    have h' := h
    simp only [Json.dupFree, Bool.and_eq_true] at h'
    simp only [microdiff]
    rw [diffFields_self fs h'.2 fs (fun k v hm => JsObj.lookup_of_mem_nodup fs k v h'.1 hm)]
    rw [createFields_none fs fs (fun k v hm => JsObj.hasKey_of_mem fs k v hm)]
    rfl
  termination_by structural j => j
/-- Element loop of `microdiff_self`. -/
theorem diffElems_self : ∀ (xa : JsArr), xa.dupFree = true → ∀ i, diffElems xa xa i = []
  | .nil, _, _ => rfl
  | .cons v tl, h, i => by
    have h' := h
    simp only [JsArr.dupFree, Bool.and_eq_true] at h'
    simp only [diffElems]
    rw [diffElems_self tl h'.2 (i + 1)]
    by_cases hc : compatContainers v v = true
    · simp only [if_pos hc, microdiff_self v h'.1, List.map_nil, List.nil_append]
    · simp only [if_neg hc,
        jsAtomEq_refl v (by revert hc; cases compatContainers v v <;> simp), if_true,
        List.nil_append]
  termination_by structural a => a
/-- Field loop of `microdiff_self`: the reference fields are all found
unchanged in the candidate. -/
theorem diffFields_self : ∀ (fa : JsObj), fa.dupFree = true →
    ∀ (b : JsObj), (∀ k v, (k, v) ∈ fa.toList → b.lookup k = some v) → diffFields fa b = []
  | .nil, _, _, _ => rfl
  | .cons k v tl, h, b, hl => by
    have h' := h
    simp only [JsObj.dupFree, Bool.and_eq_true] at h'
    simp only [diffFields, hl k v (by simp [JsObj.toList])]
    rw [diffFields_self tl h'.2 b (fun k' v' hm => hl k' v' (by simp [JsObj.toList, hm]))]
    by_cases hc : compatContainers v v = true
    · simp only [if_pos hc, microdiff_self v h'.1, List.map_nil, List.nil_append]
    · simp only [if_neg hc,
        jsAtomEq_refl v (by revert hc; cases compatContainers v v <;> simp), if_true,
        List.nil_append]
  termination_by structural fa => fa
end

/-- C2 (counterexample): the claimed id-keyed rewrite does not exist.
The source and reference states hold the same flow with its id-keyed
`nodes` array merely permuted, yet `computeChanges` reports a non-empty
change list for it, because the structural diff compares array elements
by position. -/
theorem computeChanges_not_order_insensitive :
    (computeChanges (flowOnlyState c2FlowBA) (flowOnlyState c2FlowAB) false).flows ≠ [] := by
  decide

/-- C2 (amended): `computeChanges` performs no id-keyed rewrite and its
diff is positional: the diff of any duplicate-free value against itself
is empty (no reordering), and changing exactly one non-id field of one
element of an id-keyed array in place yields exactly one CHANGE entry at
the positional path of that field. -/
theorem structural_diff_positional :
    (∀ j : Json, j.dupFree = true → microdiff j j = []) ∧
    (computeChanges (flowOnlyState c2FlowChgSrc) (flowOnlyState c2FlowChgRef) false).flows =
      [⟨"flow1", "flow1", c2FlowChgSrc,
        [.changed [.key "nodes", .idx 1, .key "p"] (.str "B") (.str "A")]⟩] :=
  ⟨microdiff_self, by decide⟩

/-- C2 (witness): the reflexivity half applied at a concrete value. -/
theorem structural_diff_positional_witness :
    (Json.dupFree (.obj (.cons "a" (.num 1) .nil)) = true) ∧
    microdiff (.obj (.cons "a" (.num 1) .nil)) (.obj (.cons "a" (.num 1) .nil)) = [] :=
  ⟨by decide, structural_diff_positional.1 _ (by decide)⟩

/-- C10: when a `file://` placeholder resolves to a file whose parsed
markdown body is the empty string, the placeholder is not replaced: the
value, an object field holding it, and an array element holding it are
all left with the literal placeholder string, because replacement is
guarded by the truthiness of the resolved body. -/
theorem resolve_empty_body_keeps_placeholder
    (resolver : Resolver) (s c : String)
    (h1 : jsStartsWith s "file://" = true)
    (h2 : resolver (stripFileScheme s) = Except.ok c)
    (h3 : readMarkdown c = "") :
    resolveFilePlaceholders resolver (.str s) = Except.ok (.str s) ∧
    (∀ k tl, resolveObjPlaceholders resolver (.cons k (.str s) tl) =
      (resolveObjPlaceholders resolver tl).map (JsObj.cons k (.str s))) ∧
    (∀ tl, resolveArrPlaceholders resolver (.cons (.str s) tl) =
      (resolveArrPlaceholders resolver tl).map (JsArr.cons (.str s))) := by
  have hval : resolveValue resolver (.str s) = Except.ok (some "") := by
    simp only [resolveValue, h1, if_true, h2]
    show Except.ok (some (readMarkdown c)) = _
    rw [h3]
  refine ⟨rfl, fun k tl => ?_, fun tl => ?_⟩
  · simp only [resolveObjPlaceholders, hval]
    cases htl : resolveObjPlaceholders resolver tl <;> rfl
  · simp only [resolveArrPlaceholders, hval]
    cases htl : resolveArrPlaceholders resolver tl <;> rfl

/-- C10 (witness): a whitespace-only referenced file parses to an empty
body and the placeholder field survives resolution verbatim. -/
theorem resolve_empty_body_keeps_placeholder_witness :
    resolveObjPlaceholders (fun _ => Except.ok "   ") (.cons "p" (.str "file://./x.md") .nil) =
      Except.ok (.cons "p" (.str "file://./x.md") .nil) := by
  have h := resolve_empty_body_keeps_placeholder (fun _ => Except.ok "   ")
    "file://./x.md" "   " (by rfl) rfl (by rfl)
  rw [h.2.1 "p" .nil]
  rfl

-- computeChanges step lemmas ------------------------------------------------

/-- The change entry built for an agent carries that agent. -/
theorem agentChangeStep_current (ref : List CanonicalAgent) (inc : Bool)
    (b : CanonicalAgent) (e : ResourceChange CanonicalAgent)
    (h : agentChangeStep ref inc b = some e) : e.current = b := by
  unfold agentChangeStep at h
  cases href : refAgentGet ref b._id <;> rw [href] at h
  · cases inc
    · simp at h
    · rw [if_pos rfl] at h
      injection h with h
      subst h
      rfl
  · rename_i r
    by_cases hds : (microdiff (agentOmitted b.response_engine.isCustom r)
      (agentOmitted b.response_engine.isCustom b)).isEmpty <;> simp_all
    subst h
    rfl

/-- The change entry built for an agent carries its id. -/
theorem agentChangeStep_id (ref : List CanonicalAgent) (inc : Bool)
    (b : CanonicalAgent) (e : ResourceChange CanonicalAgent)
    (h : agentChangeStep ref inc b = some e) : e.id = b._id := by
  unfold agentChangeStep at h
  cases href : refAgentGet ref b._id <;> rw [href] at h
  · cases inc
    · simp at h
    · rw [if_pos rfl] at h
      injection h with h
      subst h
      rfl
  · rename_i r
    by_cases hds : (microdiff (agentOmitted b.response_engine.isCustom r)
      (agentOmitted b.response_engine.isCustom b)).isEmpty <;> simp_all
    subst h
    rfl

/-- The change entry built for an LLM carries that LLM and its id. -/
theorem llmChangeStep_current (ref : List CanonicalLLM) (inc : Bool)
    (b : CanonicalLLM) (e : ResourceChange CanonicalLLM)
    (h : llmChangeStep ref inc b = some e) : e.current = b ∧ e.id = b._id := by
  unfold llmChangeStep at h
  cases href : refLlmGet ref b._id <;> rw [href] at h
  · cases inc
    · simp at h
    · rw [if_pos rfl] at h
      injection h with h
      subst h
      exact ⟨rfl, rfl⟩
  · rename_i r
    by_cases hds : (microdiff (llmOmitted r) (llmOmitted b)).isEmpty <;> simp_all
    subst h
    exact ⟨rfl, rfl⟩

/-- The change entry built for a flow carries that flow and its id. -/
theorem flowChangeStep_current (ref : List CanonicalConversationFlow) (inc : Bool)
    (b : CanonicalConversationFlow) (e : ResourceChange CanonicalConversationFlow)
    (h : flowChangeStep ref inc b = some e) : e.current = b ∧ e.id = b._id := by
  unfold flowChangeStep at h
  cases href : refFlowGet ref b._id <;> rw [href] at h
  · cases inc
    · simp at h
    · rw [if_pos rfl] at h
      injection h with h
      subst h
      exact ⟨rfl, rfl⟩
  · rename_i r
    by_cases hds : (microdiff (flowOmitted r) (flowOmitted b)).isEmpty <;> simp_all
    subst h
    exact ⟨rfl, rfl⟩

/-- C5: a resource of the source with no id counterpart in the reference
appears in the `computeChanges` output exactly when `includeNew` is set,
and then as a single synthetic root CREATE diff; with `includeNew` unset
no output entry carries its id. Stated for all four resource kinds. -/
theorem computeChanges_includeNew_spec (S R : CanonicalState) :
    (∀ a ∈ S.voiceAgents, refAgentGet R.voiceAgents a._id = none →
      (⟨a._id, agentName a, a, [.created [] (encodeAgentFull a)]⟩ : ResourceChange CanonicalAgent)
        ∈ (computeChanges S R true).voiceAgents ∧
      ∀ e ∈ (computeChanges S R false).voiceAgents, e.id ≠ a._id) ∧
    (∀ a ∈ S.chatAgents, refAgentGet R.chatAgents a._id = none →
      (⟨a._id, agentName a, a, [.created [] (encodeAgentFull a)]⟩ : ResourceChange CanonicalAgent)
        ∈ (computeChanges S R true).chatAgents ∧
      ∀ e ∈ (computeChanges S R false).chatAgents, e.id ≠ a._id) ∧
    (∀ l ∈ S.llms, refLlmGet R.llms l._id = none →
      (⟨l._id, l._id, l, [.created [] (encodeLlmFull l)]⟩ : ResourceChange CanonicalLLM)
        ∈ (computeChanges S R true).llms ∧
      ∀ e ∈ (computeChanges S R false).llms, e.id ≠ l._id) ∧
    (∀ f ∈ S.conversationFlows, refFlowGet R.conversationFlows f._id = none →
      (⟨f._id, f._id, f, [.created [] (encodeFlowFull f)]⟩ : ResourceChange CanonicalConversationFlow)
        ∈ (computeChanges S R true).flows ∧
      ∀ e ∈ (computeChanges S R false).flows, e.id ≠ f._id) := by
  refine ⟨fun a ha href => ⟨?_, ?_⟩, fun a ha href => ⟨?_, ?_⟩,
    fun l hl href => ⟨?_, ?_⟩, fun f hf href => ⟨?_, ?_⟩⟩
  · exact List.mem_filterMap.mpr ⟨a, ha, by simp [agentChangeStep, href]⟩
  · intro e he hid
    rcases List.mem_filterMap.mp he with ⟨b, hb, hstep⟩
    have hbid : e.id = b._id := agentChangeStep_id _ _ _ _ hstep
    rw [hid] at hbid
    rw [hbid] at href
    unfold agentChangeStep at hstep
    rw [href] at hstep
    simp at hstep
  · exact List.mem_filterMap.mpr ⟨a, ha, by simp [agentChangeStep, href]⟩
  · intro e he hid
    rcases List.mem_filterMap.mp he with ⟨b, hb, hstep⟩
    have hbid : e.id = b._id := agentChangeStep_id _ _ _ _ hstep
    rw [hid] at hbid
    rw [hbid] at href
    unfold agentChangeStep at hstep
    rw [href] at hstep
    simp at hstep
  · exact List.mem_filterMap.mpr ⟨l, hl, by simp [llmChangeStep, href]⟩
  · intro e he hid
    rcases List.mem_filterMap.mp he with ⟨b, hb, hstep⟩
    have hbid : e.id = b._id := (llmChangeStep_current _ _ _ _ hstep).2
    rw [hid] at hbid
    rw [hbid] at href
    unfold llmChangeStep at hstep
    rw [href] at hstep
    simp at hstep
  · exact List.mem_filterMap.mpr ⟨f, hf, by simp [flowChangeStep, href]⟩
  · intro e he hid
    rcases List.mem_filterMap.mp he with ⟨b, hb, hstep⟩
    have hbid : e.id = b._id := (flowChangeStep_current _ _ _ _ hstep).2
    rw [hid] at hbid
    rw [hbid] at href
    unfold flowChangeStep at hstep
    rw [href] at hstep
    simp at hstep

/-- Closed instance of the includeNew dichotomy: the new voice agent of
`c5Src` appears as a root CREATE when includeNew holds, and no LLM entry
carries the new LLM id when it does not. -/
theorem computeChanges_includeNew_spec_witness :
    (⟨c5Agent._id, agentName c5Agent, c5Agent, [.created [] (encodeAgentFull c5Agent)]⟩ :
        ResourceChange CanonicalAgent)
      ∈ (computeChanges c5Src c5Empty true).voiceAgents ∧
    ∀ e ∈ (computeChanges c5Src c5Empty false).llms, e.id ≠ c5Llm._id := by
  have h := computeChanges_includeNew_spec c5Src c5Empty
  exact ⟨(h.1 c5Agent (by simp [c5Src]) rfl).1,
    (h.2.2.1 c5Llm (by simp [c5Src]) rfl).2⟩

-- field-omission helper lemmas ----------------------------------------------

/-- Key removal distributes over field-list concatenation. -/
theorem JsObj.removeKey_append : ∀ (x y : JsObj) (k : String),
    (JsObj.append x y).removeKey k = JsObj.append (x.removeKey k) (y.removeKey k)
  | .nil, _, _ => rfl
  | .cons k0 v tl, y, k => by
    simp only [JsObj.append, JsObj.removeKey]
    by_cases h : k0 = k
    · rw [if_pos h, if_pos h]
      exact JsObj.removeKey_append tl y k
    · rw [if_neg h, if_neg h]
      simp only [JsObj.append, JsObj.removeKey_append tl y k]

/-- Removing an absent key leaves the object unchanged. -/
theorem JsObj.removeKey_not_has : ∀ (x : JsObj) (k : String),
    x.hasKey k = false → x.removeKey k = x
  | .nil, _, _ => rfl
  | .cons k0 v tl, k, h => by
    simp only [JsObj.hasKey, JsObj.lookup] at h
    by_cases hk : k0 = k
    · rw [if_pos hk] at h
      simp at h
    · rw [if_neg hk] at h
      simp only [JsObj.removeKey, if_neg hk]
      rw [JsObj.removeKey_not_has tl k (by simpa [JsObj.hasKey] using h)]

/-- Appending the empty field list is the identity. -/
theorem JsObj.append_nil : ∀ x : JsObj, JsObj.append x .nil = x
  | .nil => rfl
  | .cons k v tl => by simp only [JsObj.append, JsObj.append_nil tl]

/-- C6: for a resource present in both states, computeChanges diffs the
pair with the identity keys `_id` and `_version` removed and, for
non-custom agents, `response_engine` removed as well (the last three
conjuncts equate the diffed objects with `R.omit` of the full objects);
the resource is emitted exactly when that filtered diff is non-empty. -/
theorem computeChanges_field_omission (S R : CanonicalState) (inc : Bool) :
    (∀ a r, a ∈ S.voiceAgents → refAgentGet R.voiceAgents a._id = some r →
      ((⟨a._id, agentName a, a, microdiff (agentOmitted a.response_engine.isCustom r)
            (agentOmitted a.response_engine.isCustom a)⟩ :
          ResourceChange CanonicalAgent) ∈ (computeChanges S R inc).voiceAgents ↔
        microdiff (agentOmitted a.response_engine.isCustom r)
          (agentOmitted a.response_engine.isCustom a) ≠ [])) ∧
    (∀ a r, a ∈ S.chatAgents → refAgentGet R.chatAgents a._id = some r →
      ((⟨a._id, agentName a, a, microdiff (agentOmitted a.response_engine.isCustom r)
            (agentOmitted a.response_engine.isCustom a)⟩ :
          ResourceChange CanonicalAgent) ∈ (computeChanges S R inc).chatAgents ↔
        microdiff (agentOmitted a.response_engine.isCustom r)
          (agentOmitted a.response_engine.isCustom a) ≠ [])) ∧
    (∀ l r, l ∈ S.llms → refLlmGet R.llms l._id = some r →
      ((⟨l._id, l._id, l, microdiff (llmOmitted r) (llmOmitted l)⟩ :
          ResourceChange CanonicalLLM) ∈ (computeChanges S R inc).llms ↔
        microdiff (llmOmitted r) (llmOmitted l) ≠ [])) ∧
    (∀ f r, f ∈ S.conversationFlows → refFlowGet R.conversationFlows f._id = some r →
      ((⟨f._id, f._id, f, microdiff (flowOmitted r) (flowOmitted f)⟩ :
          ResourceChange CanonicalConversationFlow) ∈ (computeChanges S R inc).flows ↔
        microdiff (flowOmitted r) (flowOmitted f) ≠ [])) ∧
    (∀ (keepRE : Bool) (a : CanonicalAgent), a.config.hasKey "_id" = false →
      a.config.hasKey "_version" = false → a.config.hasKey "response_engine" = false →
      agentOmitted keepRE a = .obj ((agentFullFields a).removeKeys
        (if keepRE then ["_id", "_version"]
         else ["_id", "_version", "response_engine"]))) ∧
    (∀ l : CanonicalLLM, l.config.hasKey "_id" = false → l.config.hasKey "_version" = false →
      llmOmitted l = .obj ((llmFullFields l).removeKeys ["_id", "_version"])) ∧
    (∀ f : CanonicalConversationFlow, f.config.hasKey "_id" = false →
      f.config.hasKey "_version" = false →
      flowOmitted f = .obj ((flowFullFields f).removeKeys ["_id", "_version"])) := by
  refine ⟨fun a r ha href => ⟨?_, ?_⟩, fun a r ha href => ⟨?_, ?_⟩,
    fun l r hl href => ⟨?_, ?_⟩, fun f r hf href => ⟨?_, ?_⟩, ?_, ?_, ?_⟩
  · intro hmem hnil
    rcases List.mem_filterMap.mp hmem with ⟨b, hb, hstep⟩
    have hba : a = b := agentChangeStep_current _ _ _ _ hstep
    subst hba
    simp only [agentChangeStep, href, hnil] at hstep
    simp at hstep
  · intro hds
    refine List.mem_filterMap.mpr ⟨a, ha, ?_⟩
    simp only [agentChangeStep, href]
    rw [if_neg (by simp [List.isEmpty_iff, hds])]
  · intro hmem hnil
    rcases List.mem_filterMap.mp hmem with ⟨b, hb, hstep⟩
    have hba : a = b := agentChangeStep_current _ _ _ _ hstep
    subst hba
    simp only [agentChangeStep, href, hnil] at hstep
    simp at hstep
  · intro hds
    refine List.mem_filterMap.mpr ⟨a, ha, ?_⟩
    simp only [agentChangeStep, href]
    rw [if_neg (by simp [List.isEmpty_iff, hds])]
  · intro hmem hnil
    rcases List.mem_filterMap.mp hmem with ⟨b, hb, hstep⟩
    have hba : l = b := (llmChangeStep_current _ _ _ _ hstep).1
    subst hba
    simp only [llmChangeStep, href, hnil] at hstep
    simp at hstep
  · intro hds
    refine List.mem_filterMap.mpr ⟨l, hl, ?_⟩
    simp only [llmChangeStep, href]
    rw [if_neg (by simp [List.isEmpty_iff, hds])]
  · intro hmem hnil
    rcases List.mem_filterMap.mp hmem with ⟨b, hb, hstep⟩
    have hba : f = b := (flowChangeStep_current _ _ _ _ hstep).1
    subst hba
    simp only [flowChangeStep, href, hnil] at hstep
    simp at hstep
  · intro hds
    refine List.mem_filterMap.mpr ⟨f, hf, ?_⟩
    simp only [flowChangeStep, href]
    rw [if_neg (by simp [List.isEmpty_iff, hds])]
  · intro keepRE a h1 h2 h3
    cases keepRE
    · rw [if_neg (by decide),
        show agentOmitted false a = Json.obj a.config from rfl]
      simp only [agentFullFields, JsObj.removeKeys, JsObj.removeKey_append,
        JsObj.removeKey_not_has _ _ h1, JsObj.removeKey_not_has _ _ h2,
        JsObj.removeKey_not_has _ _ h3]
      simp [JsObj.removeKey, JsObj.append_nil]
    · rw [if_pos (by decide),
        show agentOmitted true a = Json.obj (a.config.append
          (.cons "response_engine" (encodeRE a.response_engine) .nil)) from rfl]
      simp only [agentFullFields, JsObj.removeKeys, JsObj.removeKey_append,
        JsObj.removeKey_not_has _ _ h1, JsObj.removeKey_not_has _ _ h2]
      simp [JsObj.removeKey, JsObj.append_nil]
  · intro l h1 h2
    simp only [llmOmitted, llmFullFields, JsObj.removeKeys, JsObj.removeKey_append,
      JsObj.removeKey_not_has _ _ h1, JsObj.removeKey_not_has _ _ h2]
    simp [JsObj.removeKey, JsObj.append, JsObj.append_nil]
  · intro f h1 h2
    simp only [flowOmitted, flowFullFields, JsObj.removeKeys, JsObj.removeKey_append,
      JsObj.removeKey_not_has _ _ h1, JsObj.removeKey_not_has _ _ h2]
    simp [JsObj.removeKey, JsObj.append, JsObj.append_nil]

/-- Closed instance of the field-omission claim: the changed LLM of
`c6Src` is emitted with its positional diff, and the non-custom agent
`c6Agent` diffs over exactly the omit of its full object. -/
theorem computeChanges_field_omission_witness :
    ((⟨c6Llm._id, c6Llm._id, c6Llm, microdiff (llmOmitted c6LlmRef) (llmOmitted c6Llm)⟩ :
        ResourceChange CanonicalLLM) ∈ (computeChanges c6Src c6Ref false).llms) ∧
    agentOmitted c6Agent.response_engine.isCustom c6Agent
      = .obj ((agentFullFields c6Agent).removeKeys
        (if c6Agent.response_engine.isCustom then ["_id", "_version"]
         else ["_id", "_version", "response_engine"])) := by
  have h := computeChanges_field_omission c6Src c6Ref false
  exact ⟨(h.2.2.1 c6Llm c6LlmRef (by simp [c6Src]) rfl).mpr (by decide),
    h.2.2.2.2.1 c6Agent.response_engine.isCustom c6Agent (by decide) (by decide) (by decide)⟩

-- findAffectedAgentIds lemmas -----------------------------------------------

/-- Membership after a JS `Set.add`. -/
theorem mem_jsSetAdd (l : List String) (x y : String) :
    y ∈ jsSetAdd l x ↔ y ∈ l ∨ y = x := by
  unfold jsSetAdd
  by_cases h : x ∈ l
  · rw [if_pos h]
    constructor
    · exact Or.inl
    · rintro (hy | rfl)
      · exact hy
      · exact h
  · rw [if_neg h]
    simp

/-- Membership after folding `Set.add` over a list. -/
theorem mem_foldl_jsSetAdd : ∀ (L acc : List String) (y : String),
    y ∈ L.foldl jsSetAdd acc ↔ y ∈ acc ∨ y ∈ L
  | [], acc, y => by simp
  | x :: L, acc, y => by
    rw [List.foldl_cons, mem_foldl_jsSetAdd L _ y, mem_jsSetAdd]
    simp only [List.mem_cons]
    tauto

/-- Membership after the dependency scan: the accumulator plus the ids of
the agents whose engine references a changed LLM or flow. -/
theorem mem_addDependentAgents : ∀ (cl cf : List String) (agents : List CanonicalAgent)
    (acc : List String) (y : String),
    y ∈ addDependentAgents cl cf agents acc ↔
      y ∈ acc ∨ y ∈ (agents.filter (dependsOnChanged cl cf)).map (fun a => a._id)
  | _, _, [], acc, y => by simp [addDependentAgents]
  | cl, cf, a :: rest, acc, y => by
    simp only [addDependentAgents]
    rw [mem_addDependentAgents cl cf rest _ y]
    cases hre : a.response_engine with
    | retellLlm id v =>
      by_cases hid : id ∈ cl
      · simp only [List.filter_cons, dependsOnChanged, hre, hid, decide_True,
          if_true, List.map_cons, List.mem_cons, mem_jsSetAdd]
        tauto
      · simp [List.filter_cons, dependsOnChanged, hre, hid]
    | customLlm url =>
      simp [List.filter_cons, dependsOnChanged, hre]
    | conversationFlow id v =>
      by_cases hid : id ∈ cf
      · simp only [List.filter_cons, dependsOnChanged, hre, hid, decide_True,
          if_true, List.map_cons, List.mem_cons, mem_jsSetAdd]
        tauto
      · simp [List.filter_cons, dependsOnChanged, hre, hid]

/-- C7: `findAffectedAgentIds` returns exactly the union of the directly
changed agent ids and the ids of the agents of the state whose
response-engine reference names a changed LLM or flow; on the concrete
single-referencing-agent example the result is exactly the list `[A]`. -/
theorem findAffectedAgentIds_spec :
    (∀ (changes : BaseChanges) (state : CanonicalState) (x : String),
      x ∈ findAffectedAgentIds changes state ↔
        x ∈ changes.voiceAgents.map (fun c => c.id) ∨
        x ∈ changes.chatAgents.map (fun c => c.id) ∨
        x ∈ ((state.voiceAgents ++ state.chatAgents).filter
          (dependsOnChanged (changes.llms.map (fun c => c.id))
            (changes.flows.map (fun c => c.id)))).map (fun a => a._id)) ∧
    findAffectedAgentIds c7Changes c7State = ["A"] := by
  refine ⟨fun changes state x => ?_, by decide⟩
  simp only [findAffectedAgentIds]
  rw [mem_addDependentAgents, mem_foldl_jsSetAdd]
  simp only [List.not_mem_nil, false_or, List.mem_append]
  tauto

-- keepLatestVersion lemmas --------------------------------------------------

/-- The strict JS comparison agrees with the rational order. -/
theorem jsNumGt_iff (a b : Rat) : jsNumGt a b = true ↔ b < a := by
  rw [jsNumGt, decide_eq_true_iff]
  constructor
  · intro h
    rw [show a = (a.num : ℚ) / (a.den : ℚ) from (Rat.num_div_den a).symm,
        show b = (b.num : ℚ) / (b.den : ℚ) from (Rat.num_div_den b).symm]
    rw [div_lt_div_iff₀ (by exact_mod_cast b.pos) (by exact_mod_cast a.pos)]
    exact_mod_cast h
  · intro h
    have h2 : (b.num : ℚ) / (b.den : ℚ) < (a.num : ℚ) / (a.den : ℚ) := by
      rw [Rat.num_div_den, Rat.num_div_den]; exact h
    rw [div_lt_div_iff₀ (by exact_mod_cast b.pos) (by exact_mod_cast a.pos)] at h2
    exact_mod_cast h2

/-- A key absent from the key list is not found by the map lookup. -/
theorem jsMapGet_eq_none (m : List (String × α)) (k : String) (h : k ∉ mapKeys m) :
    jsMapGet m k = none := by
  simp only [jsMapGet, Option.map_eq_none']
  rw [List.find?_eq_none]
  intro p hp
  simp only [decide_eq_true_eq]
  intro hk
  exact h (by simp only [mapKeys, List.mem_map]; exact ⟨p, List.mem_reverse.mp hp, hk⟩)

/-- A successful map lookup comes from a pair of the list with that key. -/
theorem jsMapGet_some_mem (m : List (String × α)) (k : String) (v : α)
    (h : jsMapGet m k = some v) : ∃ p ∈ m, p.1 = k ∧ p.2 = v := by
  simp only [jsMapGet] at h
  cases hf : m.reverse.find? (fun p => decide (p.1 = k)) with
  | none => rw [hf] at h; simp at h
  | some p =>
    rw [hf] at h
    have hv : p.2 = v := by simpa using h
    refine ⟨p, List.mem_reverse.mp (List.mem_of_find?_eq_some hf), ?_, hv⟩
    have := List.find?_some hf
    simpa using this

/-- Unfolding the map lookup one pair at a time (later pairs win). -/
theorem jsMapGet_cons (q : String × α) (rest : List (String × α)) (k : String) :
    jsMapGet (q :: rest) k =
      match jsMapGet rest k with
      | some v => some v
      | none => if q.1 = k then some q.2 else none := by
  simp only [jsMapGet, List.reverse_cons]
  rw [List.find?_append]
  cases hf : rest.reverse.find? (fun p => decide (p.1 = k)) with
  | some p => simp
  | none =>
    by_cases h : q.1 = k
    · simp [List.find?, h]
    · simp [List.find?, h]

/-- In a map with duplicate-free keys every pair is found by lookup. -/
theorem mem_jsMapGet_of_nodup : ∀ (m : List (String × α)), (mapKeys m).Nodup →
    ∀ p ∈ m, jsMapGet m p.1 = some p.2
  | [], _, p, hp => absurd hp (List.not_mem_nil p)
  | q :: rest, hnd, p, hp => by
    have hnd2 := List.nodup_cons.mp (show (q.1 :: mapKeys rest).Nodup from hnd)
    rw [jsMapGet_cons]
    rcases List.mem_cons.mp hp with rfl | hmem
    · rw [jsMapGet_eq_none rest p.1 hnd2.1]
      simp
    · rw [mem_jsMapGet_of_nodup rest hnd2.2 p hmem]

/-- Membership after a `Map.set` style upsert. -/
theorem klvUpsert_mem : ∀ (m : List (String × α)) (k : String) (v : α) (p : String × α),
    p ∈ klvUpsert m k v → p = (k, v) ∨ p ∈ m
  | [], _, _, p, hp => by
    simp only [klvUpsert, List.mem_singleton] at hp
    exact Or.inl hp
  | (k0, v0) :: rest, k, v, p, hp => by
    by_cases h : k0 = k
    · simp only [klvUpsert, if_pos h] at hp
      rcases List.mem_cons.mp hp with rfl | hmem
      · exact Or.inl rfl
      · exact Or.inr (List.mem_cons_of_mem _ hmem)
    · simp only [klvUpsert, if_neg h] at hp
      rcases List.mem_cons.mp hp with rfl | hmem
      · exact Or.inr (List.mem_cons_self _ _)
      · rcases klvUpsert_mem rest k v p hmem with h1 | h2
        · exact Or.inl h1
        · exact Or.inr (List.mem_cons_of_mem _ h2)

/-- Keys after an upsert: the old keys plus the inserted one. -/
theorem mem_keys_klvUpsert : ∀ (m : List (String × α)) (k : String) (v : α) (id : String),
    id ∈ mapKeys (klvUpsert m k v) ↔ id ∈ mapKeys m ∨ id = k
  | [], k, v, id => by simp [klvUpsert, mapKeys]
  | (k0, v0) :: rest, k, v, id => by
    by_cases h : k0 = k
    · simp only [klvUpsert, if_pos h, mapKeys, List.map_cons, List.mem_cons]
      rw [h]
      tauto
    · simp only [klvUpsert, if_neg h, mapKeys, List.map_cons, List.mem_cons]
      have := mem_keys_klvUpsert rest k v id
      simp only [mapKeys] at this
      rw [this]
      tauto

/-- An upsert keeps keys duplicate-free. -/
theorem klvUpsert_nodup : ∀ (m : List (String × α)) (k : String) (v : α),
    (mapKeys m).Nodup → (mapKeys (klvUpsert m k v)).Nodup
  | [], k, v, _ => by simp [klvUpsert, mapKeys]
  | (k0, v0) :: rest, k, v, hnd => by
    have hnd2 := List.nodup_cons.mp (show (k0 :: mapKeys rest).Nodup from hnd)
    by_cases h : k0 = k
    · simp only [klvUpsert, if_pos h]
      show (k :: mapKeys rest).Nodup
      rw [List.nodup_cons]
      exact ⟨fun hmem => hnd2.1 (by rw [h]; exact hmem), hnd2.2⟩
    · simp only [klvUpsert, if_neg h]
      show (k0 :: mapKeys (klvUpsert rest k v)).Nodup
      rw [List.nodup_cons]
      constructor
      · intro hmem
        rcases (mem_keys_klvUpsert rest k v k0).mp hmem with h1 | h2
        · exact hnd2.1 h1
        · exact h h2
      · exact klvUpsert_nodup rest k v hnd2.2

/-- The upsert makes its own key map to the inserted value. -/
theorem jsMapGet_klvUpsert_self : ∀ (m : List (String × α)) (k : String) (v : α),
    (mapKeys m).Nodup → jsMapGet (klvUpsert m k v) k = some v
  | [], k, v, _ => by simp [klvUpsert, jsMapGet, List.find?]
  | (k0, v0) :: rest, k, v, hnd => by
    have hnd2 := List.nodup_cons.mp (show (k0 :: mapKeys rest).Nodup from hnd)
    by_cases h : k0 = k
    · simp only [klvUpsert, if_pos h]
      rw [jsMapGet_cons, jsMapGet_eq_none rest k (h ▸ hnd2.1)]
      simp
    · simp only [klvUpsert, if_neg h]
      rw [jsMapGet_cons, jsMapGet_klvUpsert_self rest k v hnd2.2]

/-- An upsert does not change the lookup of a different key. -/
theorem jsMapGet_klvUpsert_ne : ∀ (m : List (String × α)) (k : String) (v : α) (id : String),
    id ≠ k → jsMapGet (klvUpsert m k v) id = jsMapGet m id
  | [], k, v, id, h => by
    simp [klvUpsert, jsMapGet, List.find?, Ne.symm h]
  | (k0, v0) :: rest, k, v, id, h => by
    by_cases hk : k0 = k
    · simp only [klvUpsert, if_pos hk]
      rw [jsMapGet_cons, jsMapGet_cons]
      cases hg : jsMapGet rest id
      · simp [Ne.symm h, hk]
      · simp
    · simp only [klvUpsert, if_neg hk]
      rw [jsMapGet_cons, jsMapGet_cons, jsMapGet_klvUpsert_ne rest k v id h]

/-- Every pair of the filled map is an original pair or carries an item
of the input under its own id. -/
theorem klvFill_mem (getId : α → String) (version : α → Option Rat) :
    ∀ (items : List α) (m : List (String × α)) (p : String × α),
    p ∈ klvFill getId version items m → p ∈ m ∨ (p.2 ∈ items ∧ getId p.2 = p.1)
  | [], m, p, hp => Or.inl (by simpa [klvFill] using hp)
  | it :: rest, m, p, hp => by
    simp only [klvFill] at hp
    cases hmg : jsMapGet m (getId it) with
    | none =>
      simp only [hmg] at hp
      rcases klvFill_mem getId version rest _ p hp with hm | ⟨hr, hid⟩
      · rcases klvUpsert_mem m (getId it) it p hm with rfl | hmem
        · exact Or.inr ⟨List.mem_cons_self _ _, rfl⟩
        · exact Or.inl hmem
      · exact Or.inr ⟨List.mem_cons_of_mem _ hr, hid⟩
    | some ex =>
      simp only [hmg] at hp
      by_cases hgt : jsNumGt ((version it).getD 0) ((version ex).getD 0) = true
      · rw [if_pos hgt] at hp
        rcases klvFill_mem getId version rest _ p hp with hm | ⟨hr, hid⟩
        · rcases klvUpsert_mem m (getId it) it p hm with rfl | hmem
          · exact Or.inr ⟨List.mem_cons_self _ _, rfl⟩
          · exact Or.inl hmem
        · exact Or.inr ⟨List.mem_cons_of_mem _ hr, hid⟩
      · rw [if_neg hgt] at hp
        rcases klvFill_mem getId version rest _ p hp with hm | ⟨hr, hid⟩
        · exact Or.inl hm
        · exact Or.inr ⟨List.mem_cons_of_mem _ hr, hid⟩

/-- The filled map keeps keys duplicate-free. -/
theorem klvFill_nodup (getId : α → String) (version : α → Option Rat) :
    ∀ (items : List α) (m : List (String × α)),
    (mapKeys m).Nodup → (mapKeys (klvFill getId version items m)).Nodup
  | [], m, h => by simpa [klvFill] using h
  | it :: rest, m, h => by
    simp only [klvFill]
    cases hmg : jsMapGet m (getId it) with
    | none =>
      simp only [hmg]
      exact klvFill_nodup getId version rest _ (klvUpsert_nodup m _ it h)
    | some ex =>
      simp only [hmg]
      by_cases hgt : jsNumGt ((version it).getD 0) ((version ex).getD 0) = true
      · rw [if_pos hgt]
        exact klvFill_nodup getId version rest _ (klvUpsert_nodup m _ it h)
      · rw [if_neg hgt]
        exact klvFill_nodup getId version rest _ h

/-- Per-key characterization of the single pass: the final entry of a key
is the running champion over the same-id items, seeded by the map. -/
theorem klvFill_get (getId : α → String) (version : α → Option Rat) :
    ∀ (items : List α) (m : List (String × α)) (id : String), (mapKeys m).Nodup →
    jsMapGet (klvFill getId version items m) id =
      match jsMapGet m id with
      | some c => some (champ version c (items.filter (fun x => decide (getId x = id))))
      | none =>
        match items.filter (fun x => decide (getId x = id)) with
        | [] => none
        | x :: r => some (champ version x r)
  | [], m, id, hnd => by
    cases hg : jsMapGet m id <;> simp [klvFill, champ, hg]
  | it :: rest, m, id, hnd => by
    simp only [klvFill]
    by_cases hid : getId it = id
    · rw [List.filter_cons, if_pos (by simp [hid])]
      cases hg : jsMapGet m id with
      | none =>
        have hmg : jsMapGet m (getId it) = none := by rw [hid]; exact hg
        simp only [hmg]
        rw [klvFill_get getId version rest _ id (klvUpsert_nodup m _ it hnd)]
        have hself : jsMapGet (klvUpsert m (getId it) it) id = some it := by
          rw [← hid]
          exact jsMapGet_klvUpsert_self m (getId it) it hnd
        rw [hself]
      | some c =>
        have hmg : jsMapGet m (getId it) = some c := by rw [hid]; exact hg
        simp only [hmg]
        by_cases hgt : jsNumGt ((version it).getD 0) ((version c).getD 0) = true
        · rw [if_pos hgt]
          rw [klvFill_get getId version rest _ id (klvUpsert_nodup m _ it hnd)]
          have hself : jsMapGet (klvUpsert m (getId it) it) id = some it := by
            rw [← hid]
            exact jsMapGet_klvUpsert_self m (getId it) it hnd
          rw [hself]
          simp [champ, hgt]
        · rw [if_neg hgt]
          rw [klvFill_get getId version rest m id hnd, hg]
          simp [champ, hgt]
    · rw [List.filter_cons, if_neg (by simp [hid])]
      cases hmg : jsMapGet m (getId it) with
      | none =>
        simp only [hmg]
        rw [klvFill_get getId version rest _ id (klvUpsert_nodup m _ it hnd)]
        rw [jsMapGet_klvUpsert_ne m (getId it) it id (fun hh => hid hh.symm)]
      | some ex =>
        simp only [hmg]
        by_cases hgt : jsNumGt ((version it).getD 0) ((version ex).getD 0) = true
        · rw [if_pos hgt]
          rw [klvFill_get getId version rest _ id (klvUpsert_nodup m _ it hnd)]
          rw [jsMapGet_klvUpsert_ne m (getId it) it id (fun hh => hid hh.symm)]
        · rw [if_neg hgt]
          rw [klvFill_get getId version rest m id hnd]

/-- The champion is drawn from the seeded list. -/
theorem champ_mem (version : α → Option Rat) : ∀ (l : List α) (c : α),
    champ version c l ∈ c :: l
  | [], c => by simp [champ]
  | y :: l, c => by
    simp only [champ]
    by_cases hgt : jsNumGt ((version y).getD 0) ((version c).getD 0) = true
    · rw [if_pos hgt]
      have := champ_mem version l y
      simp only [List.mem_cons] at this ⊢
      tauto
    · rw [if_neg hgt]
      have := champ_mem version l c
      simp only [List.mem_cons] at this ⊢
      tauto

/-- The champion has the numerically greatest version of the list. -/
theorem champ_max (version : α → Option Rat) : ∀ (l : List α) (c x : α), x ∈ c :: l →
    ((version x).getD 0 : Rat) ≤ (version (champ version c l)).getD 0
  | [], c, x, hx => by
    rw [List.mem_singleton] at hx
    subst hx
    exact le_refl _
  | y :: l, c, x, hx => by
    simp only [champ]
    by_cases hgt : jsNumGt ((version y).getD 0) ((version c).getD 0) = true
    · rw [if_pos hgt]
      have hcy : ((version c).getD 0 : Rat) < (version y).getD 0 := (jsNumGt_iff _ _).mp hgt
      have hy := champ_max version l y y (List.mem_cons_self _ _)
      rcases List.mem_cons.mp hx with rfl | hx2
      · linarith
      rcases List.mem_cons.mp hx2 with rfl | hx3
      · exact hy
      · exact champ_max version l y x (List.mem_cons_of_mem _ hx3)
    · rw [if_neg hgt]
      have hyc : ((version y).getD 0 : Rat) ≤ (version c).getD 0 :=
        le_of_not_lt (fun hlt => hgt ((jsNumGt_iff _ _).mpr hlt))
      have hc := champ_max version l c c (List.mem_cons_self _ _)
      rcases List.mem_cons.mp hx with rfl | hx2
      · exact hc
      rcases List.mem_cons.mp hx2 with rfl | hx3
      · linarith
      · exact champ_max version l c x (List.mem_cons_of_mem _ hx3)

/-- The champion sits at the first position attaining the maximum: every
earlier entry is strictly smaller. -/
theorem champ_first (version : α → Option Rat) : ∀ (l : List α) (c : α),
    ∃ pre post, c :: l = pre ++ (champ version c l) :: post ∧
      ∀ x ∈ pre, ((version x).getD 0 : Rat) < (version (champ version c l)).getD 0
  | [], c => ⟨[], [], rfl, by simp⟩
  | y :: l, c => by
    simp only [champ]
    by_cases hgt : jsNumGt ((version y).getD 0) ((version c).getD 0) = true
    · rw [if_pos hgt]
      obtain ⟨pre, post, heq, hlt⟩ := champ_first version l y
      refine ⟨c :: pre, post, by rw [List.cons_append, ← heq], ?_⟩
      intro x hx
      rcases List.mem_cons.mp hx with rfl | hx2
      · have h1 : ((version x).getD 0 : Rat) < (version y).getD 0 := (jsNumGt_iff _ _).mp hgt
        have h2 := champ_max version l y y (List.mem_cons_self _ _)
        linarith
      · exact hlt x hx2
    · rw [if_neg hgt]
      obtain ⟨pre, post, heq, hlt⟩ := champ_first version l c
      cases pre with
      | nil =>
        have hc : c = champ version c l := by
          rw [List.nil_append] at heq
          injection heq with h1 h2
        refine ⟨[], y :: l, ?_, by simp⟩
        rw [← hc]
        rfl
      | cons p pre2 =>
        rw [List.cons_append] at heq
        injection heq with h1 h2
        have hcpre : c ∈ p :: pre2 := by rw [h1]; exact List.mem_cons_self _ _
        have hce := hlt c hcpre
        refine ⟨c :: y :: pre2, post, ?_, ?_⟩
        · rw [List.cons_append, List.cons_append, ← h2]
        · intro x hx
          rcases List.mem_cons.mp hx with rfl | hx2
          · exact hce
          rcases List.mem_cons.mp hx2 with rfl | hx3
          · have hyc : ((version x).getD 0 : Rat) ≤ (version c).getD 0 :=
              le_of_not_lt (fun hlt2 => hgt ((jsNumGt_iff _ _).mpr hlt2))
            linarith
          · exact hlt x (List.mem_cons_of_mem _ hx3)

/-- In a map with duplicate-free keys at most one pair has a given key. -/
theorem filter_key_len_le_one : ∀ (m : List (String × α)) (id : String),
    (mapKeys m).Nodup → (m.filter (fun p => decide (p.1 = id))).length ≤ 1
  | [], _, _ => by simp
  | q :: rest, id, hnd => by
    have hnd2 := List.nodup_cons.mp (show (q.1 :: mapKeys rest).Nodup from hnd)
    rw [List.filter_cons]
    by_cases h : q.1 = id
    · rw [if_pos (by simp [h])]
      have hnil : rest.filter (fun p => decide (p.1 = id)) = [] := by
        rw [List.filter_eq_nil_iff]
        intro p hp
        simp only [decide_eq_true_eq]
        intro hk
        exact hnd2.1 (by
          simp only [mapKeys, List.mem_map]
          exact ⟨p, hp, by rw [hk, h]⟩)
      simp [hnil]
    · rw [if_neg (by simp [h])]
      exact filter_key_len_le_one rest id hnd2.2

/-- A decomposition of a filtered list lifts to the original list. -/
theorem filter_decomp {β : Type} (p : β → Bool) : ∀ (l l₁ l₂ : List β) (a : β),
    l.filter p = l₁ ++ a :: l₂ → ∃ pre post, l = pre ++ a :: post ∧ pre.filter p = l₁
  | [], l₁, l₂, a, h => by simp at h
  | x :: xs, l₁, l₂, a, h => by
    rw [List.filter_cons] at h
    by_cases hx : p x = true
    · rw [if_pos hx] at h
      cases l₁ with
      | nil =>
        rw [List.nil_append] at h
        injection h with h1 h2
        exact ⟨[], xs, by rw [h1]; rfl, rfl⟩
      | cons y l₁2 =>
        rw [List.cons_append] at h
        injection h with h1 h2
        obtain ⟨pre, post, hl, hf⟩ := filter_decomp p xs l₁2 l₂ a h2
        refine ⟨x :: pre, post, by rw [List.cons_append, ← hl], ?_⟩
        rw [List.filter_cons, if_pos hx, hf, h1]
    · rw [if_neg hx] at h
      obtain ⟨pre, post, hl, hf⟩ := filter_decomp p xs l₁ l₂ a h
      refine ⟨x :: pre, post, by rw [List.cons_append, ← hl], ?_⟩
      rw [List.filter_cons, if_neg hx, hf]

/-- C3: keepLatestVersion keeps only entries of the input; every id of
the input survives; at most one entry per id is kept; the kept entry has
the numerically greatest version (a missing version counting as 0) among
the entries with its id, and every earlier same-id entry is strictly
smaller, so a tie keeps the first entry seen; on versions [0, 2, 1] of a
shared id the version-2 entry is retained. -/
theorem keepLatestVersion_spec :
    (∀ (α : Type) (getId : α → String) (version : α → Option Rat) (items : List α),
      (∀ e ∈ keepLatestVersion items getId version, e ∈ items) ∧
      (∀ id, (∃ x ∈ items, getId x = id) ↔
        ∃ e ∈ keepLatestVersion items getId version, getId e = id) ∧
      (∀ id, ((keepLatestVersion items getId version).filter
          (fun e => decide (getId e = id))).length ≤ 1) ∧
      (∀ e ∈ keepLatestVersion items getId version, ∀ x ∈ items, getId x = getId e →
        jsNumGt ((version x).getD 0) ((version e).getD 0) = false) ∧
      (∀ e ∈ keepLatestVersion items getId version, ∃ pre post,
        items = pre ++ e :: post ∧
        ∀ x ∈ pre, getId x = getId e →
          jsNumGt ((version e).getD 0) ((version x).getD 0) = true)) ∧
    keepLatestVersion [("a", some 0), ("a", some 2), ("a", some 1)] Prod.fst Prod.snd
      = [("a", some (2 : Rat))] := by
  refine ⟨fun α getId version items => ?_, by decide⟩
  have hnodupM : (mapKeys (klvFill getId version items [])).Nodup :=
    klvFill_nodup getId version items [] List.nodup_nil
  have hsrc : ∀ p ∈ klvFill getId version items [], p.2 ∈ items ∧ getId p.2 = p.1 := by
    intro p hp
    rcases klvFill_mem getId version items [] p hp with hm | h
    · exact absurd hm (List.not_mem_nil p)
    · exact h
  have hmap : ∀ e ∈ keepLatestVersion items getId version,
      ∃ p ∈ klvFill getId version items [], p.2 = e := by
    intro e he
    rcases List.mem_map.mp he with ⟨p, hp, hpe⟩
    exact ⟨p, hp, hpe⟩
  have hchamp : ∀ e ∈ keepLatestVersion items getId version,
      ∃ z zs, items.filter (fun x => decide (getId x = getId e)) = z :: zs ∧
        e = champ version z zs := by
    intro e he
    obtain ⟨p, hp, hpe⟩ := hmap e he
    have hkey : getId p.2 = p.1 := (hsrc p hp).2
    have hget : jsMapGet (klvFill getId version items []) p.1 = some p.2 :=
      mem_jsMapGet_of_nodup _ hnodupM p hp
    rw [klvFill_get getId version items [] p.1 List.nodup_nil] at hget
    cases hf : items.filter (fun x => decide (getId x = p.1)) with
    | nil =>
      rw [hf] at hget
      simp [jsMapGet] at hget
    | cons z zs =>
      rw [hf] at hget
      simp only [jsMapGet, List.reverse_nil, List.find?_nil, Option.map_none'] at hget
      refine ⟨z, zs, ?_, ?_⟩
      · rw [hpe] at hkey
        rw [hkey]
        exact hf
      · rw [← hpe]
        exact (Option.some_inj.mp hget).symm
  refine ⟨?_, ?_, ?_, ?_, ?_⟩
  · intro e he
    obtain ⟨p, hp, hpe⟩ := hmap e he
    rw [← hpe]
    exact (hsrc p hp).1
  · intro id
    constructor
    · rintro ⟨x, hx, hgid⟩
      have hxf : x ∈ items.filter (fun y => decide (getId y = id)) :=
        List.mem_filter.mpr ⟨hx, by simp [hgid]⟩
      cases hf : items.filter (fun y => decide (getId y = id)) with
      | nil => rw [hf] at hxf; exact absurd hxf (List.not_mem_nil x)
      | cons z zs =>
        have hget : jsMapGet (klvFill getId version items []) id = some (champ version z zs) := by
          rw [klvFill_get getId version items [] id List.nodup_nil]
          simp [jsMapGet, hf]
        obtain ⟨p, hpM, hpk, hpv⟩ := jsMapGet_some_mem _ _ _ hget
        refine ⟨p.2, List.mem_map.mpr ⟨p, hpM, rfl⟩, ?_⟩
        rw [(hsrc p hpM).2, hpk]
    · rintro ⟨e, he, hgid⟩
      obtain ⟨p, hp, hpe⟩ := hmap e he
      exact ⟨e, by rw [← hpe]; exact (hsrc p hp).1, hgid⟩
  · intro id
    have hcomm : (keepLatestVersion items getId version).filter (fun e => decide (getId e = id))
        = ((klvFill getId version items []).filter
            (fun p => decide (p.1 = id))).map (fun p => p.2) := by
      rw [keepLatestVersion, List.filter_map]
      congr 1
      apply List.filter_congr
      intro p hp
      simp only [Function.comp]
      rw [(hsrc p hp).2]
    rw [hcomm, List.length_map]
    exact filter_key_len_le_one _ id hnodupM
  · intro e he x hx hgid
    obtain ⟨z, zs, hf, hce⟩ := hchamp e he
    have hxf : x ∈ items.filter (fun y => decide (getId y = getId e)) :=
      List.mem_filter.mpr ⟨hx, by simp [hgid]⟩
    rw [hf] at hxf
    have hle := champ_max version zs z x hxf
    rw [← hce] at hle
    cases hb : jsNumGt ((version x).getD 0) ((version e).getD 0) with
    | false => rfl
    | true => exact absurd ((jsNumGt_iff _ _).mp hb) (not_lt.mpr hle)
  · intro e he
    obtain ⟨z, zs, hf, hce⟩ := hchamp e he
    obtain ⟨pre0, post0, hdec, hlt⟩ := champ_first version zs z
    rw [← hce] at hdec hlt
    obtain ⟨pre, post, hitems, hpref⟩ :=
      filter_decomp (fun y => decide (getId y = getId e)) items pre0 post0 e (hf.trans hdec)
    refine ⟨pre, post, hitems, ?_⟩
    intro x hxpre hgid
    have hxf : x ∈ pre.filter (fun y => decide (getId y = getId e)) :=
      List.mem_filter.mpr ⟨hxpre, by simp [hgid]⟩
    rw [hpref] at hxf
    exact (jsNumGt_iff _ _).mpr (hlt x hxf)

/-- Closed instance of the latest-version selection: versions [0, 2, 1]
of one id keep the version-2 entry. -/
theorem keepLatestVersion_spec_witness :
    keepLatestVersion [("a", some 0), ("a", some 2), ("a", some 1)] Prod.fst Prod.snd
      = [("a", some (2 : Rat))] :=
  keepLatestVersion_spec.2

/-- C4: an LLM or flow appears in the output of `canonicalizeFromApi`
only if some latest (version-deduplicated) agent's response-engine
reference names exactly its (id, version) pair under strict equality
and that referencing agent's publish flag strictly equals the
resource's publish flag. -/
theorem canonicalizeFromApi_crossref (raw : RawState) :
    (∀ L ∈ (canonicalizeFromApi raw).llms, ∃ llm ∈ raw.llms, stripLlm llm = L ∧
      ∃ a, (a ∈ keepLatestVersion raw.voiceAgents (fun x => x.agent_id) (fun x => x.version) ∨
            a ∈ keepLatestVersion raw.chatAgents (fun x => x.agent_id) (fun x => x.version)) ∧
        ∃ v, a.response_engine = .retellLlm llm.llm_id v ∧
          strictEqVersion v llm.version = true ∧
          strictEqPub a.is_published llm.is_published = true) ∧
    (∀ F ∈ (canonicalizeFromApi raw).conversationFlows, ∃ cf ∈ raw.conversationFlows,
      stripFlow cf = F ∧
      ∃ a, (a ∈ keepLatestVersion raw.voiceAgents (fun x => x.agent_id) (fun x => x.version) ∨
            a ∈ keepLatestVersion raw.chatAgents (fun x => x.agent_id) (fun x => x.version)) ∧
        ∃ v, a.response_engine = .conversationFlow cf.conversation_flow_id v ∧
          strictEqVersion v (some cf.version) = true ∧
          strictEqPub a.is_published cf.is_published = true) := by
  constructor
  · intro L hL
    simp only [canonicalizeFromApi] at hL
    rcases List.mem_map.mp hL with ⟨llm, hmem, hstrip⟩
    rcases List.mem_filter.mp hmem with ⟨hraw, hcond⟩
    rw [Bool.and_eq_true] at hcond
    have href := hcond.2
    rw [llmReferenced, List.any_eq_true] at href
    obtain ⟨r, hr, hmatch⟩ := href
    refine ⟨llm, hraw, hstrip, ?_⟩
    cases hre : r.1 with
    | retellLlm id v =>
      simp only [hre, Bool.and_eq_true, beq_iff_eq] at hmatch
      obtain ⟨⟨hid, hver⟩, hpub⟩ := hmatch
      rcases List.mem_append.mp hr with hside | hside
      all_goals {
        rcases List.mem_map.mp hside with ⟨a, ha, hra⟩
        have he : a.response_engine = r.1 := congrArg Prod.fst hra
        have hp : a.is_published = r.2 := congrArg Prod.snd hra
        first
          | exact ⟨a, Or.inl ha, v, by rw [he, hre, hid], hver, by rw [hp]; exact hpub⟩
          | exact ⟨a, Or.inr ha, v, by rw [he, hre, hid], hver, by rw [hp]; exact hpub⟩
      }
    | customLlm url => simp [hre] at hmatch
    | conversationFlow id v => simp [hre] at hmatch
  · intro F hF
    simp only [canonicalizeFromApi] at hF
    rcases List.mem_map.mp hF with ⟨cf, hmem, hstrip⟩
    rcases List.mem_filter.mp hmem with ⟨hraw, hcond⟩
    rw [Bool.and_eq_true] at hcond
    have href := hcond.2
    rw [flowReferenced, List.any_eq_true] at href
    obtain ⟨r, hr, hmatch⟩ := href
    refine ⟨cf, hraw, hstrip, ?_⟩
    cases hre : r.1 with
    | conversationFlow id v =>
      simp only [hre, Bool.and_eq_true, beq_iff_eq] at hmatch
      obtain ⟨⟨hid, hver⟩, hpub⟩ := hmatch
      rcases List.mem_append.mp hr with hside | hside
      all_goals {
        rcases List.mem_map.mp hside with ⟨a, ha, hra⟩
        have he : a.response_engine = r.1 := congrArg Prod.fst hra
        have hp : a.is_published = r.2 := congrArg Prod.snd hra
        first
          | exact ⟨a, Or.inl ha, v, by rw [he, hre, hid], hver, by rw [hp]; exact hpub⟩
          | exact ⟨a, Or.inr ha, v, by rw [he, hre, hid], hver, by rw [hp]; exact hpub⟩
      }
    | customLlm url => simp [hre] at hmatch
    | retellLlm id v => simp [hre] at hmatch

/-- Closed instance of the cross-reference invariant at the one-agent,
one-LLM state. -/
theorem canonicalizeFromApi_crossref_witness :
    ∃ llm ∈ c4Raw.llms, stripLlm llm = stripLlm c4Llm ∧
      ∃ a, (a ∈ keepLatestVersion c4Raw.voiceAgents (fun x => x.agent_id) (fun x => x.version) ∨
            a ∈ keepLatestVersion c4Raw.chatAgents (fun x => x.agent_id) (fun x => x.version)) ∧
        ∃ v, a.response_engine = .retellLlm llm.llm_id v ∧
          strictEqVersion v llm.version = true ∧
          strictEqPub a.is_published llm.is_published = true :=
  (canonicalizeFromApi_crossref c4Raw).1 (stripLlm c4Llm) (by decide)

-- writeState cleanup lemmas -------------------------------------------------

/-- Every action produced for one directory names that directory. -/
theorem cleanupDirActions_dir (e : FsEntry) (written : List String) :
    ∀ act ∈ cleanupDirActions e written, act.dir = e.name := by
  intro act hact
  unfold cleanupDirActions at hact
  by_cases h : (writtenDirsOf written).contains e.name
  · rw [if_pos h] at hact
    rcases List.mem_map.mp hact with ⟨f, hf, hfa⟩
    rw [← hfa]
    rfl
  · rw [if_neg h] at hact
    rw [List.mem_singleton.mp hact]
    rfl

/-- Splitting a successful cleanup run at its first entry. -/
theorem writeStateCleanup_cons_ok (e : FsEntry) (rest : List FsEntry)
    (written : List String) (managed : List String) (acts : List CleanupAction)
    (hok : writeStateCleanup (e :: rest) written (some managed) = Except.ok acts) :
    ∃ acts1 actsRest, acts = acts1 ++ actsRest ∧
      writeStateCleanup rest written (some managed) = Except.ok actsRest ∧
      (acts1 = [] ∨ (acts1 = cleanupDirActions e written ∧ e.isDirectory = true ∧
        ((∃ j, e.metaFile = some (.parsed j) ∧ metaIdManaged j managed = true) ∨
         e.metaFile = none))) := by
  simp only [writeStateCleanup] at hok
  cases hd : e.isDirectory with
  | false =>
    simp only [hd, Bool.false_eq_true, not_false_eq_true, if_true] at hok
    cases hrest : writeStateCleanup rest written (some managed) with
    | error s => rw [hrest] at hok; exact absurd hok (by simp)
    | ok actsRest =>
      rw [hrest] at hok
      injection hok with h
      exact ⟨[], actsRest, h.symm, rfl, Or.inl rfl⟩
  | true =>
    simp only [hd, not_true_eq_false, if_false] at hok
    cases hmf : e.metaFile with
    | none =>
      simp only [hmf] at hok
      cases hrest : writeStateCleanup rest written (some managed) with
      | error s => rw [hrest] at hok; exact absurd hok (by simp)
      | ok actsRest =>
        rw [hrest] at hok
        injection hok with h
        exact ⟨cleanupDirActions e written, actsRest, h.symm, rfl,
          Or.inr ⟨rfl, rfl, Or.inr rfl⟩⟩
    | some mp =>
      cases mp with
      | invalid =>
        simp only [hmf] at hok
        exact absurd hok (by simp)
      | parsed j =>
        simp only [hmf] at hok
        by_cases hman : metaIdManaged j managed = true
        · rw [if_pos hman] at hok
          cases hrest : writeStateCleanup rest written (some managed) with
          | error s => rw [hrest] at hok; exact absurd hok (by simp)
          | ok actsRest =>
            rw [hrest] at hok
            injection hok with h
            exact ⟨cleanupDirActions e written, actsRest, h.symm, rfl,
              Or.inr ⟨rfl, rfl, Or.inl ⟨j, rfl, hman⟩⟩⟩
        · rw [if_neg hman] at hok
          cases hrest : writeStateCleanup rest written (some managed) with
          | error s => rw [hrest] at hok; exact absurd hok (by simp)
          | ok actsRest =>
            rw [hrest] at hok
            injection hok with h
            exact ⟨[], actsRest, h.symm, rfl, Or.inl rfl⟩

/-- Every action of a successful cleanup run originates from a managed
or meta-less directory entry. -/
theorem writeStateCleanup_origin : ∀ (entries : List FsEntry) (written : List String)
    (managed : List String) (acts : List CleanupAction),
    writeStateCleanup entries written (some managed) = Except.ok acts →
    ∀ act ∈ acts, ∃ e ∈ entries, e.name = act.dir ∧ e.isDirectory = true ∧
      ((∃ j, e.metaFile = some (.parsed j) ∧ metaIdManaged j managed = true) ∨
       e.metaFile = none)
  | [], written, managed, acts, hok, act, hact => by
    simp only [writeStateCleanup] at hok
    injection hok with h
    rw [← h] at hact
    exact absurd hact (List.not_mem_nil act)
  | e :: rest, written, managed, acts, hok, act, hact => by
    obtain ⟨acts1, actsRest, hsplit, hrest, hcase⟩ :=
      writeStateCleanup_cons_ok e rest written managed acts hok
    rw [hsplit] at hact
    rcases List.mem_append.mp hact with h1 | h2
    · rcases hcase with rfl | ⟨rfl, hdir, hmeta⟩
      · exact absurd h1 (List.not_mem_nil act)
      · exact ⟨e, List.mem_cons_self _ _,
          (cleanupDirActions_dir e written act h1).symm, hdir, hmeta⟩
    · obtain ⟨e2, he2, hrest2⟩ := writeStateCleanup_origin rest written managed actsRest hrest act h2
      exact ⟨e2, List.mem_cons_of_mem _ he2, hrest2⟩

/-- C9: under a partial sync (explicit managed id subset) the cleanup
pass only deletes inside directories whose meta id is managed or that
carry no meta at all, and it never emits an action against a directory
whose meta parses to an id outside the subset. -/
theorem writeStateCleanup_partial_isolation (entries : List FsEntry)
    (written : List String) (managed : List String) (acts : List CleanupAction)
    (hok : writeStateCleanup entries written (some managed) = Except.ok acts)
    (hnd : (entries.map (fun e => e.name)).Nodup) :
    (∀ act ∈ acts, ∃ e ∈ entries, e.name = act.dir ∧ e.isDirectory = true ∧
      ((∃ j, e.metaFile = some (.parsed j) ∧ metaIdManaged j managed = true) ∨
       e.metaFile = none)) ∧
    (∀ e ∈ entries, ∀ j, e.metaFile = some (MetaParse.parsed j) →
      metaIdManaged j managed = false → ∀ act ∈ acts, act.dir ≠ e.name) := by
  refine ⟨writeStateCleanup_origin entries written managed acts hok, ?_⟩
  intro e he j hmeta hunman act hact hdir
  obtain ⟨e2, he2, hname, hdir2, hcase⟩ :=
    writeStateCleanup_origin entries written managed acts hok act hact
  have hee : e2 = e := by
    apply List.inj_on_of_nodup_map hnd he2 he
    rw [hname, hdir]
  subst hee
  rcases hcase with ⟨j2, hj2, hman2⟩ | hnone
  · rw [hmeta] at hj2
    injection hj2 with hj3
    injection hj3 with hj4
    rw [← hj4] at hman2
    rw [hman2] at hunman
    exact absurd hunman (by simp)
  · rw [hmeta] at hnone
    exact Option.noConfusion hnone

/-- Closed instance of the cleanup isolation: with dirA managed and dirB
unmanaged, the only action removes the stale file of dirA, and that
action does not touch dirB. -/
theorem writeStateCleanup_partial_isolation_witness :
    (CleanupAction.removeFile "dirA" "old.md").dir ≠ c9DirB.name :=
  (writeStateCleanup_partial_isolation [c9DirA, c9DirB] ["dirA/keep.md"] ["A"]
      [CleanupAction.removeFile "dirA" "old.md"] rfl (by decide)).2
    c9DirB (by decide) (.obj (.cons "id" (.str "B") .nil)) rfl (by decide)
    (CleanupAction.removeFile "dirA" "old.md") (List.mem_singleton.mpr rfl)

/-- C8 counterexample: a `file://` placeholder naming a file absent from
the agent directory makes `canonicalizeFromFiles` raise the resolver
error instead of leaving the field absent. -/
theorem canonicalizeFromFiles_missing_extracted_file_errors :
    canonicalizeFromFiles c8BadFiles = Except.error "File not found: a/x.md" := by rfl

/-- C8 amended: the resolver throws exactly when the referenced file is
absent, while a missing optional sidecar is tolerated: a retell-llm
agent without llm.yaml and a conversation-flow agent without
.positions.json both canonicalize with the corresponding data absent. -/
theorem canonicalizeFromFiles_missing_file_tolerance :
    (∀ (group : FileMap) (dir path : String),
      fmGet group (dir ++ "/" ++ stripDotSlash path) = none →
      dirResolver group dir path =
        Except.error ("File not found: " ++ (dir ++ "/" ++ stripDotSlash path))) ∧
    canonicalizeFromFiles c8OkFiles = Except.ok ⟨[c8OkAgent], [], [], []⟩ ∧
    canonicalizeFromFiles c8FlowFiles = Except.ok ⟨[c8FlowAgent], [], [], [c8Flow]⟩ := by
  refine ⟨fun group dir path h => ?_, rfl, rfl⟩
  simp only [dirResolver, h]

/-- Closed instance of the amended tolerance statement at an empty
directory group. -/
theorem canonicalizeFromFiles_missing_file_tolerance_witness :
    dirResolver [] "a" "./x.md" =
      Except.error ("File not found: " ++ ("a" ++ "/" ++ stripDotSlash "./x.md")) :=
  canonicalizeFromFiles_missing_file_tolerance.1 [] "a" "./x.md" rfl

/-- C1 counterexample: the write-then-read cycle rounds a fractional
display position to an integer; the resulting state differs from the
original under every string normalization whatsoever, so the difference
is not a text-formatting one. -/
theorem roundTrip_alters_positions :
    canonicalizeFromFiles (serializeState c1State ".") = Except.ok c1RT ∧
    ∀ f : String → String, stateMapStrings f c1RT ≠ stateMapStrings f c1State := by
  refine ⟨rfl, fun f h => ?_⟩
  have h1 : c1Observe (stateMapStrings f c1RT) = some (.num 1) := rfl
  have h2 : c1Observe (stateMapStrings f c1State) = some (.num (mkRat 1 2)) := rfl
  rw [h] at h1
  rw [h1] at h2
  exact absurd h2 (by decide)

-- string lemmas for the markdown round trip ---------------------------------

/-- Dropping a leading whitespace character. -/
theorem trimLeftC_cons_ws (c : Char) (xs : Chars) (h : c.isWhitespace = true) :
    trimLeftC (c :: xs) = trimLeftC xs := by
  simp [trimLeftC, List.dropWhile_cons, h]

/-- A non-whitespace head stops the left trim. -/
theorem trimLeftC_cons_not (c : Char) (xs : Chars) (h : c.isWhitespace = false) :
    trimLeftC (c :: xs) = c :: xs := by
  simp [trimLeftC, List.dropWhile_cons, h]

/-- Left trimming is idempotent. -/
theorem trimLeftC_idem : ∀ xs : Chars, trimLeftC (trimLeftC xs) = trimLeftC xs
  | [] => rfl
  | c :: xs => by
    cases h : c.isWhitespace
    · rw [trimLeftC_cons_not c xs h, trimLeftC_cons_not c xs h]
    · rw [trimLeftC_cons_ws c xs h, trimLeftC_idem xs]

/-- The head surviving a left trim is not whitespace. -/
theorem trimLeftC_head_not_ws : ∀ (xs : Chars) (c : Char) (rest : Chars),
    trimLeftC xs = c :: rest → c.isWhitespace = false
  | [], c, rest, h => by simp [trimLeftC] at h
  | x :: xs, c, rest, h => by
    cases hx : x.isWhitespace
    · rw [trimLeftC_cons_not x xs hx] at h
      injection h with h1 h2
      rw [← h1]
      exact hx
    · rw [trimLeftC_cons_ws x xs hx] at h
      exact trimLeftC_head_not_ws xs c rest h

/-- A left trim that leaves something distributes over an append. -/
theorem trimLeftC_append_of_ne : ∀ (xs ys : Chars), trimLeftC xs ≠ [] →
    trimLeftC (xs ++ ys) = trimLeftC xs ++ ys
  | [], _, h => absurd rfl h
  | c :: xs, ys, h => by
    cases hc : c.isWhitespace
    · rw [show (c :: xs) ++ ys = c :: (xs ++ ys) from rfl,
        trimLeftC_cons_not c (xs ++ ys) hc, trimLeftC_cons_not c xs hc]
      rfl
    · rw [trimLeftC_cons_ws c xs hc] at h
      rw [show (c :: xs) ++ ys = c :: (xs ++ ys) from rfl,
        trimLeftC_cons_ws c (xs ++ ys) hc, trimLeftC_cons_ws c xs hc]
      exact trimLeftC_append_of_ne xs ys h

/-- A left trim that erases everything skips over that prefix. -/
theorem trimLeftC_append_of_nil : ∀ (xs ys : Chars), trimLeftC xs = [] →
    trimLeftC (xs ++ ys) = trimLeftC ys
  | [], _, _ => rfl
  | c :: xs, ys, h => by
    cases hc : c.isWhitespace
    · rw [trimLeftC_cons_not c xs hc] at h
      exact absurd h (by simp)
    · rw [trimLeftC_cons_ws c xs hc] at h
      rw [show (c :: xs) ++ ys = c :: (xs ++ ys) from rfl, trimLeftC_cons_ws c (xs ++ ys) hc]
      exact trimLeftC_append_of_nil xs ys h

/-- A right trim that leaves something in its right part distributes. -/
theorem trimRightC_append (xs ys : Chars) (h : trimRightC ys ≠ []) :
    trimRightC (xs ++ ys) = xs ++ trimRightC ys := by
  have h2 : trimLeftC ys.reverse ≠ [] := by
    intro hnil
    apply h
    unfold trimRightC
    rw [hnil]
    rfl
  unfold trimRightC
  rw [List.reverse_append, trimLeftC_append_of_ne ys.reverse xs.reverse h2,
    List.reverse_append, List.reverse_reverse]

/-- A trailing whitespace character is absorbed by the right trim. -/
theorem trimRightC_append_ws (xs : Chars) (c : Char) (h : c.isWhitespace = true) :
    trimRightC (xs ++ [c]) = trimRightC xs := by
  unfold trimRightC
  rw [List.reverse_append]
  simp only [List.reverse_cons, List.reverse_nil, List.nil_append, List.cons_append]
  rw [trimLeftC_cons_ws c xs.reverse h]

/-- Right trimming is idempotent. -/
theorem trimRightC_idem (xs : Chars) : trimRightC (trimRightC xs) = trimRightC xs := by
  unfold trimRightC
  rw [List.reverse_reverse, trimLeftC_idem]

/-- A right-trimmed cons passes right-trimmedness to its tail. -/
theorem trimRight_cons_self (c : Char) (w : Chars) (h : trimRightC (c :: w) = c :: w) :
    trimRightC w = w := by
  cases hl : trimLeftC w.reverse with
  | nil =>
    cases hc : c.isWhitespace
    · have h2 : trimRightC (c :: w) = [c] := by
        unfold trimRightC
        rw [List.reverse_cons, trimLeftC_append_of_nil _ _ hl, trimLeftC_cons_not c [] hc]
        rfl
      rw [h2] at h
      injection h with h1 h3
      rw [← h3]
      rfl
    · have h2 : trimRightC (c :: w) = [] := by
        unfold trimRightC
        rw [List.reverse_cons, trimLeftC_append_of_nil _ _ hl, trimLeftC_cons_ws c [] hc]
        rfl
      rw [h2] at h
      exact absurd h (by simp)
  | cons d t =>
    have h2 : trimRightC (c :: w) = c :: (d :: t).reverse := by
      unfold trimRightC
      rw [List.reverse_cons, trimLeftC_append_of_ne _ _ (by rw [hl]; simp), hl]
      simp [List.reverse_append]
    rw [h2] at h
    injection h with h1 h3
    unfold trimRightC
    rw [hl]
    exact h3

/-- Left trimming preserves right-trimmedness. -/
theorem trimRight_trimLeft_self : ∀ (w : Chars), trimRightC w = w →
    trimRightC (trimLeftC w) = trimLeftC w
  | [], _ => rfl
  | c :: w, h => by
    cases hc : c.isWhitespace
    · rw [trimLeftC_cons_not c w hc]
      exact h
    · rw [trimLeftC_cons_ws c w hc]
      exact trimRight_trimLeft_self w (trimRight_cons_self c w h)

/-- The characters of a JS trim. -/
theorem jsTrim_data (s : String) : (jsTrim s).data = trimLeftC (trimRightC s.data) := rfl

/-- Strings are equal when their characters are. -/
theorem str_ext {a b : String} (h : a.data = b.data) : a = b := by
  cases a
  cases b
  exact congrArg String.mk h

/-- JS trimming is idempotent. -/
theorem jsTrim_idem (s : String) : jsTrim (jsTrim s) = jsTrim s := by
  apply str_ext
  rw [jsTrim_data, jsTrim_data]
  have h1 : trimRightC (trimLeftC (trimRightC s.data)) = trimLeftC (trimRightC s.data) :=
    trimRight_trimLeft_self _ (trimRightC_idem s.data)
  rw [h1, trimLeftC_idem]

/-- The characters of an appended string. -/
theorem str_append_data (a b : String) : (a ++ b).data = a.data ++ b.data := rfl

-- splitTripleDash lemmas -----------------------------------------------------

/-- Reduction of the splitter when the head cannot open a fence. -/
theorem splitTripleDash_cons_ne (c : Char) (h : c ≠ '-') (rest : Chars) :
    splitTripleDash (c :: rest) =
      match splitTripleDash rest with
      | [] => [[c]]
      | piece :: pieces => (c :: piece) :: pieces := by
  rw [splitTripleDash.eq_def]
  split
  · rename_i heq
    simp at heq
  · rename_i heq
    injection heq with h1 h2
    exact absurd h1 h
  · rename_i cb restb hno heq
    injection heq with h1 h2
    subst h1
    subst h2
    rfl

/-- Reduction of the splitter when the second character breaks the fence. -/
theorem splitTripleDash_cons_two (c d : Char) (h : d ≠ '-') (rest : Chars) :
    splitTripleDash (c :: d :: rest) =
      match splitTripleDash (d :: rest) with
      | [] => [[c]]
      | piece :: pieces => (c :: piece) :: pieces := by
  rw [splitTripleDash.eq_def]
  split
  · rename_i heq
    simp at heq
  · rename_i heq
    injection heq with h1 h2
    injection h2 with h3 h4
    exact absurd h3 h
  · rename_i cb restb hno heq
    injection heq with h1 h2
    subst h1
    subst h2
    rfl

/-- Reduction of the splitter when the third character breaks the fence. -/
theorem splitTripleDash_cons_three (c d e : Char) (h : e ≠ '-') (rest : Chars) :
    splitTripleDash (c :: d :: e :: rest) =
      match splitTripleDash (d :: e :: rest) with
      | [] => [[c]]
      | piece :: pieces => (c :: piece) :: pieces := by
  rw [splitTripleDash.eq_def]
  split
  · rename_i heq
    simp at heq
  · rename_i heq
    injection heq with h1 h2
    injection h2 with h3 h4
    injection h4 with h5 h6
    exact absurd h5 h
  · rename_i cb restb hno heq
    injection heq with h1 h2
    subst h1
    subst h2
    rfl

/-- The splitter never returns an empty list of pieces. -/
theorem splitTripleDash_ne_nil (xs : Chars) : splitTripleDash xs ≠ [] := by
  rw [splitTripleDash.eq_def]
  split
  · simp
  · simp
  · rename_i x cb restb
    cases hs : splitTripleDash cb <;> simp

/-- Joining the split pieces rebuilds the original characters. -/
theorem joinTripleDash_splitTripleDash_aux : ∀ (n : Nat) (xs : Chars), xs.length ≤ n →
    joinTripleDash (splitTripleDash xs) = xs
  | _, [], _ => rfl
  | 0, c :: rest, h => by simp at h
  | n + 1, c :: rest, h => by
    rw [splitTripleDash.eq_def]
    split
    · rename_i heq
      simp at heq
    · rename_i rest2 heq
      injection heq with h1 h2
      cases hs : splitTripleDash rest2 with
      | nil => exact absurd hs (splitTripleDash_ne_nil rest2)
      | cons p ps =>
        have hlen : rest2.length ≤ n := by
          subst h2
          simp at h
          omega
        have hih := joinTripleDash_splitTripleDash_aux n rest2 hlen
        rw [hs] at hih
        subst h1
        subst h2
        simp only [joinTripleDash]
        rw [hih]
        rfl
    · rename_i hno heq
      injection heq with h1 h2
      subst h1
      subst h2
      cases hs : splitTripleDash rest with
      | nil => exact absurd hs (splitTripleDash_ne_nil rest)
      | cons p ps =>
        have hih := joinTripleDash_splitTripleDash_aux n rest (by simp at h; omega)
        rw [hs] at hih
        show joinTripleDash ((c :: p) :: ps) = c :: rest
        cases ps with
        | nil =>
          simp only [joinTripleDash] at hih ⊢
          rw [hih]
        | cons q qs =>
          simp only [joinTripleDash, List.cons_append] at hih ⊢
          rw [hih]

/-- Join after split is the identity. -/
theorem joinTripleDash_splitTripleDash (xs : Chars) :
    joinTripleDash (splitTripleDash xs) = xs :=
  joinTripleDash_splitTripleDash_aux xs.length xs (le_refl _)

/-- The three-dash prefix test looks only at the first three characters. -/
theorem prefix3 (a b c : Char) (r : Chars) :
    isPrefixC ['-', '-', '-'] (a :: b :: c :: r) =
      (('-' == a) && (('-' == b) && ('-' == c))) := by
  simp [isPrefixC]

/-- A character other than a dash never extends a fence. -/
theorem contains_ddd_cons_break (c : Char) (hc : c ≠ '-') (xs : Chars) :
    containsSeq ['-', '-', '-'] (c :: xs) = containsSeq ['-', '-', '-'] xs := by
  have hpre : isPrefixC ['-', '-', '-'] (c :: xs) = false := by
    simp [isPrefixC, beq_eq_false_iff_ne, Ne.symm hc]
  simp [containsSeq, hpre]

/-- Appending a broken fence tail cannot create a fence. -/
theorem contains_ddd_append_break : ∀ (xs : Chars) (c : Char), c ≠ '-' →
    containsSeq ['-', '-', '-'] xs = false →
    containsSeq ['-', '-', '-'] (xs ++ [c, '-', '-']) = false
  | [], c, hc, _ => by
    simp [containsSeq, isPrefixC, beq_eq_false_iff_ne, Ne.symm hc]
  | x :: xs, c, hc, h => by
    simp only [containsSeq, Bool.or_eq_false_iff] at h
    simp only [List.cons_append, containsSeq, Bool.or_eq_false_iff]
    refine ⟨?_, contains_ddd_append_break xs c hc h.2⟩
    cases xs with
    | nil =>
      simp [isPrefixC, beq_eq_false_iff_ne, Ne.symm hc]
    | cons y ys =>
      cases ys with
      | nil =>
        simp [isPrefixC, beq_eq_false_iff_ne, Ne.symm hc]
      | cons z zs =>
        have h1 := h.1
        rw [prefix3] at h1
        rw [show (x :: ((y :: z :: zs) ++ [c, '-', '-'])) =
          x :: y :: z :: (zs ++ [c, '-', '-']) from by simp]
        rw [prefix3]
        exact h1

/-- Splitting a fence-free piece followed by a fence. -/
theorem splitTripleDash_fence_aux : ∀ (n : Nat) (zs rest : Chars), zs.length ≤ n →
    containsSeq ['-', '-', '-'] (zs ++ ['-', '-']) = false →
    splitTripleDash (zs ++ '-' :: '-' :: '-' :: rest) = zs :: splitTripleDash rest
  | _, [], rest, _, _ => rfl
  | 0, c :: zs, rest, h, _ => by simp at h
  | n + 1, c :: zs, rest, h, hnc => by
    have hlen : zs.length ≤ n := by simp at h; omega
    have hnc2 : containsSeq ['-', '-', '-'] (zs ++ ['-', '-']) = false := by
      simp only [List.cons_append, containsSeq, Bool.or_eq_false_iff] at hnc
      exact hnc.2
    have hpre : isPrefixC ['-', '-', '-'] (c :: (zs ++ ['-', '-'])) = false := by
      simp only [List.cons_append, containsSeq, Bool.or_eq_false_iff] at hnc
      exact hnc.1
    have hIH := splitTripleDash_fence_aux n zs rest hlen hnc2
    by_cases hc : c = '-'
    · subst hc
      cases zs with
      | nil => exact absurd hnc (by decide)
      | cons d zs2 =>
        by_cases hd : d = '-'
        · subst hd
          cases zs2 with
          | nil => exact absurd hnc2 (by decide)
          | cons e zs3 =>
            have he : e ≠ '-' := by
              intro heq
              subst heq
              rw [show ('-' :: (('-' :: '-' :: zs3) ++ ['-', '-'])) =
                '-' :: '-' :: '-' :: (zs3 ++ ['-', '-']) from by simp, prefix3] at hpre
              simp at hpre
            rw [show (('-' :: '-' :: e :: zs3 : Chars) ++ '-' :: '-' :: '-' :: rest) =
              '-' :: '-' :: e :: (zs3 ++ '-' :: '-' :: '-' :: rest) from by simp]
            rw [splitTripleDash_cons_three '-' '-' e he]
            simp only [List.cons_append] at hIH
            rw [hIH]
        · rw [show (('-' :: d :: zs2 : Chars) ++ '-' :: '-' :: '-' :: rest) =
            '-' :: d :: (zs2 ++ '-' :: '-' :: '-' :: rest) from by simp]
          rw [splitTripleDash_cons_two '-' d hd]
          simp only [List.cons_append] at hIH
          rw [hIH]
    · rw [List.cons_append, splitTripleDash_cons_ne c hc]
      rw [hIH]

/-- Reading back a markdown file written without frontmatter returns the
trimmed body. -/
theorem readMarkdown_writeMarkdown_nofm (b : String)
    (h2 : jsStartsWith (jsTrim b) "---" = false) :
    readMarkdown (writeMarkdown b .nil) = jsTrim b := by
  have hw : writeMarkdown b .nil = jsTrim b := rfl
  rw [hw]
  simp [readMarkdown, formatWithPrettier, jsTrim_idem, h2]

/-- Reading back a markdown file written with a fence-free frontmatter
block returns the trimmed body. -/
theorem readMarkdown_writeMarkdown_fm (b : String) (fm : JsObj)
    (hfm : ¬ fm.length = 0)
    (h1 : jsTrim b ≠ "")
    (h3 : containsSeq ("---".data) (jsTrim (yamlStringifyFm fm)).data = false) :
    readMarkdown (writeMarkdown b fm) = jsTrim b := by
  have hdata : (jsTrim b).data ≠ [] := by
    intro hh
    exact h1 (str_ext (show (jsTrim b).data = ("" : String).data from hh))
  have hbtr : trimRightC b.data ≠ [] := by
    intro hh
    apply hdata
    rw [jsTrim_data, hh]
    rfl
  have hbtr2 : trimRightC (trimRightC b.data) = trimRightC b.data := trimRightC_idem b.data
  have h3y : containsSeq ['-', '-', '-'] (jsTrim (yamlStringifyFm fm)).data = false := h3
  have hw : writeMarkdown b fm =
      jsTrim ("\n---\n" ++ jsTrim (yamlStringifyFm fm) ++ "\n---\n\n" ++ b ++ "\n") := by
    unfold writeMarkdown formatWithPrettier
    rw [if_neg hfm]
  have hcat : ("\n---\n" ++ jsTrim (yamlStringifyFm fm) ++ "\n---\n\n" ++ b ++ "\n").data
      = ('\n' :: '-' :: '-' :: '-' :: '\n' :: ((jsTrim (yamlStringifyFm fm)).data
          ++ ['\n', '-', '-', '-', '\n', '\n'])) ++ (b.data ++ ['\n']) := by
    simp [str_append_data]
  have htrimR : trimRightC (("\n---\n" ++ jsTrim (yamlStringifyFm fm) ++ "\n---\n\n" ++ b
      ++ "\n").data)
      = ('\n' :: '-' :: '-' :: '-' :: '\n' :: ((jsTrim (yamlStringifyFm fm)).data
          ++ ['\n', '-', '-', '-', '\n', '\n'])) ++ trimRightC b.data := by
    rw [hcat, trimRightC_append _ _ (by rw [trimRightC_append_ws b.data '\n' (by decide)]; exact hbtr),
      trimRightC_append_ws b.data '\n' (by decide)]
  have htrim : (jsTrim ("\n---\n" ++ jsTrim (yamlStringifyFm fm) ++ "\n---\n\n" ++ b
      ++ "\n")).data
      = '-' :: '-' :: '-' :: ('\n' :: ((jsTrim (yamlStringifyFm fm)).data ++ ['\n']))
          ++ '-' :: '-' :: '-' :: ('\n' :: '\n' :: trimRightC b.data) := by
    rw [jsTrim_data, htrimR]
    rw [show (('\n' :: '-' :: '-' :: '-' :: '\n' :: ((jsTrim (yamlStringifyFm fm)).data
          ++ ['\n', '-', '-', '-', '\n', '\n'])) ++ trimRightC b.data)
        = '\n' :: '-' :: (('-' :: '-' :: '\n' :: ((jsTrim (yamlStringifyFm fm)).data ++ ['\n']))
            ++ '-' :: '-' :: '-' :: ('\n' :: '\n' :: trimRightC b.data)) from by simp]
    rw [trimLeftC_cons_ws '\n' _ (by decide), trimLeftC_cons_not '-' _ (by decide)]
    simp
  have hnc : containsSeq ['-', '-', '-']
      (('\n' :: ((jsTrim (yamlStringifyFm fm)).data ++ ['\n'])) ++ ['-', '-']) = false := by
    rw [show (('\n' :: ((jsTrim (yamlStringifyFm fm)).data ++ ['\n'])) ++ ['-', '-'])
        = '\n' :: ((jsTrim (yamlStringifyFm fm)).data ++ ['\n', '-', '-']) from by simp]
    rw [contains_ddd_cons_break '\n' (by decide)]
    exact contains_ddd_append_break _ '\n' (by decide) h3y
  have hsplit : splitTripleDash ((jsTrim ("\n---\n" ++ jsTrim (yamlStringifyFm fm)
      ++ "\n---\n\n" ++ b ++ "\n")).data)
      = [] :: ('\n' :: ((jsTrim (yamlStringifyFm fm)).data ++ ['\n']))
          :: splitTripleDash ('\n' :: '\n' :: trimRightC b.data) := by
    rw [htrim]
    rw [show ('-' :: '-' :: '-' :: ('\n' :: ((jsTrim (yamlStringifyFm fm)).data ++ ['\n']))
          ++ '-' :: '-' :: '-' :: ('\n' :: '\n' :: trimRightC b.data))
        = '-' :: '-' :: '-' :: (('\n' :: ((jsTrim (yamlStringifyFm fm)).data ++ ['\n']))
          ++ '-' :: '-' :: '-' :: ('\n' :: '\n' :: trimRightC b.data)) from by simp]
    rw [show splitTripleDash ('-' :: '-' :: '-' :: (('\n' :: ((jsTrim
          (yamlStringifyFm fm)).data ++ ['\n'])) ++ '-' :: '-' :: '-' :: ('\n' :: '\n'
          :: trimRightC b.data)))
        = [] :: splitTripleDash ((('\n' :: ((jsTrim (yamlStringifyFm fm)).data ++ ['\n'])))
          ++ '-' :: '-' :: '-' :: ('\n' :: '\n' :: trimRightC b.data)) from rfl]
    rw [splitTripleDash_fence_aux (('\n' :: ((jsTrim (yamlStringifyFm fm)).data
      ++ ['\n']))).length _ _ (le_refl _) hnc]
  rw [hw]
  have hstart : jsStartsWith (jsTrim (jsTrim ("\n---\n" ++ jsTrim (yamlStringifyFm fm)
      ++ "\n---\n\n" ++ b ++ "\n"))) "---" = true := by
    rw [jsTrim_idem]
    unfold jsStartsWith
    rw [htrim]
    rfl
  simp only [readMarkdown, formatWithPrettier]
  rw [if_pos hstart, jsTrim_idem, hsplit]
  show jsTrim (String.mk (joinTripleDash (splitTripleDash ('\n' :: '\n'
    :: trimRightC b.data)))) = jsTrim b
  rw [joinTripleDash_splitTripleDash]
  apply str_ext
  rw [jsTrim_data, jsTrim_data]
  show trimLeftC (trimRightC (['\n', '\n'] ++ trimRightC b.data)) = _
  rw [trimRightC_append _ _ (by rw [hbtr2]; exact hbtr), hbtr2]
  show trimLeftC ('\n' :: '\n' :: trimRightC b.data) = _
  rw [trimLeftC_cons_ws '\n' _ (by decide), trimLeftC_cons_ws '\n' _ (by decide)]

-- placeholder resolution lemmas ----------------------------------------------

/-- Bind of a successful Except computes. -/
theorem exceptBind_ok {α β : Type} (a : α) (f : α → Except String β) :
    (Except.ok a >>= f) = f a := rfl

/-- Bind of a failed Except propagates the error. -/
theorem exceptBind_err {α β : Type} (s : String) (f : α → Except String β) :
    ((Except.error s : Except String α) >>= f) = Except.error s := rfl

/-- A value free of placeholders resolves to nothing. -/
theorem resolveValue_of_noPlaceholders (r : Resolver) :
    ∀ v : Json, v.noPlaceholders = true → resolveValue r v = Except.ok none
  | .str s, h => by
    simp only [Json.noPlaceholders] at h
    simp only [resolveValue]
    rw [if_neg (of_decide_eq_true h)]
  | .null, _ => rfl
  | .bool _, _ => rfl
  | .num _, _ => rfl
  | .arr _, _ => rfl
  | .obj _, _ => rfl

mutual
/-- Resolution is the identity on values free of placeholders. -/
theorem resolveFilePlaceholders_noop (r : Resolver) :
    ∀ v : Json, v.noPlaceholders = true → resolveFilePlaceholders r v = Except.ok v
  | .str s, h => rfl
  | .null, _ => rfl
  | .bool _, _ => rfl
  | .num _, _ => rfl
  | .arr xs, h => by
    simp only [resolveFilePlaceholders]
    rw [resolveArrPlaceholders_noop r xs (by simpa [Json.noPlaceholders] using h)]
    rfl
  | .obj fs, h => by
    simp only [resolveFilePlaceholders]
    rw [resolveObjPlaceholders_noop r fs (by simpa [Json.noPlaceholders] using h)]
    rfl
  termination_by structural v => v
/-- Array component of the no-op lemma. -/
theorem resolveArrPlaceholders_noop (r : Resolver) :
    ∀ xs : JsArr, xs.noPlaceholders = true → resolveArrPlaceholders r xs = Except.ok xs
  | .nil, _ => rfl
  | .cons x tl, h => by
    have h2 := h
    simp only [JsArr.noPlaceholders, Bool.and_eq_true] at h2
    simp only [resolveArrPlaceholders]
    rw [resolveValue_of_noPlaceholders r x h2.1, exceptBind_ok]
    show (resolveFilePlaceholders r x >>= fun x2 =>
      resolveArrPlaceholders r tl >>= fun tl2 => Except.ok (JsArr.cons x2 tl2))
      = Except.ok (JsArr.cons x tl)
    rw [resolveFilePlaceholders_noop r x h2.1, exceptBind_ok,
      resolveArrPlaceholders_noop r tl h2.2, exceptBind_ok]
  termination_by structural xs => xs
/-- Field component of the no-op lemma. -/
theorem resolveObjPlaceholders_noop (r : Resolver) :
    ∀ fs : JsObj, fs.noPlaceholders = true → resolveObjPlaceholders r fs = Except.ok fs
  | .nil, _ => rfl
  | .cons k v tl, h => by
    have h2 := h
    simp only [JsObj.noPlaceholders, Bool.and_eq_true] at h2
    simp only [resolveObjPlaceholders]
    rw [resolveValue_of_noPlaceholders r v h2.1, exceptBind_ok]
    show (resolveFilePlaceholders r v >>= fun v2 =>
      resolveObjPlaceholders r tl >>= fun tl2 => Except.ok (JsObj.cons k v2 tl2))
      = Except.ok (JsObj.cons k v tl)
    rw [resolveFilePlaceholders_noop r v h2.1, exceptBind_ok,
      resolveObjPlaceholders_noop r tl h2.2, exceptBind_ok]
  termination_by structural fs => fs
end

/-- A field-wise resolution relation determines the object resolution. -/
theorem fieldsResolve_resolveObj (r : Resolver) : ∀ (fs gs : JsObj),
    fieldsResolve r fs gs → resolveObjPlaceholders r fs = Except.ok gs
  | .nil, .nil, _ => rfl
  | .nil, .cons _ _ _, h => h.elim
  | .cons _ _ _, .nil, h => h.elim
  | .cons k v tl, .cons k2 w tl2, h => by
    obtain ⟨hk, hv, htl⟩ := h
    simp only [resolveObjPlaceholders]
    rcases hv with ⟨b, hrv, hb, hw⟩ | ⟨hrv, hres⟩
    · rw [hrv, exceptBind_ok]
      show ((Except.ok (if b ≠ "" then Json.str b else v) : Except String Json) >>= fun v2 =>
        resolveObjPlaceholders r tl >>= fun tl2b => Except.ok (JsObj.cons k v2 tl2b))
        = Except.ok (JsObj.cons k2 w tl2)
      rw [if_pos hb, exceptBind_ok, fieldsResolve_resolveObj r tl tl2 htl, exceptBind_ok,
        hw, hk]
    · rw [hrv, exceptBind_ok]
      show (resolveFilePlaceholders r v >>= fun v2 =>
        resolveObjPlaceholders r tl >>= fun tl2b => Except.ok (JsObj.cons k v2 tl2b))
        = Except.ok (JsObj.cons k2 w tl2)
      rw [hres, exceptBind_ok, fieldsResolve_resolveObj r tl tl2 htl, exceptBind_ok, hk]

/-- An element-wise resolution relation determines the array resolution. -/
theorem elemsResolve_resolveArr (r : Resolver) : ∀ (xs ys : JsArr),
    elemsResolve r xs ys → resolveArrPlaceholders r xs = Except.ok ys
  | .nil, .nil, _ => rfl
  | .nil, .cons _ _, h => h.elim
  | .cons _ _, .nil, h => h.elim
  | .cons v tl, .cons w tl2, h => by
    obtain ⟨hv, htl⟩ := h
    simp only [resolveArrPlaceholders]
    rcases hv with ⟨b, hrv, hb, hw⟩ | ⟨hrv, hres⟩
    · rw [hrv, exceptBind_ok]
      show ((Except.ok (if b ≠ "" then Json.str b else v) : Except String Json) >>= fun v2 =>
        resolveArrPlaceholders r tl >>= fun tl2b => Except.ok (JsArr.cons v2 tl2b))
        = Except.ok (JsArr.cons w tl2)
      rw [if_pos hb, exceptBind_ok, elemsResolve_resolveArr r tl tl2 htl, exceptBind_ok, hw]
    · rw [hrv, exceptBind_ok]
      show (resolveFilePlaceholders r v >>= fun v2 =>
        resolveArrPlaceholders r tl >>= fun tl2b => Except.ok (JsArr.cons v2 tl2b))
        = Except.ok (JsArr.cons w tl2)
      rw [hres, exceptBind_ok, elemsResolve_resolveArr r tl tl2 htl, exceptBind_ok]

/-- A placeholder-free value resolves to itself. -/
theorem resolvesTo_of_noPlaceholders (r : Resolver) (v : Json)
    (h : v.noPlaceholders = true) : resolvesTo r v v :=
  Or.inr ⟨resolveValue_of_noPlaceholders r v h, resolveFilePlaceholders_noop r v h⟩

/-- A placeholder-free field list resolves to itself. -/
theorem fieldsResolve_of_noPlaceholders (r : Resolver) : ∀ fs : JsObj,
    fs.noPlaceholders = true → fieldsResolve r fs fs
  | .nil, _ => trivial
  | .cons k v tl, h => by
    simp only [JsObj.noPlaceholders, Bool.and_eq_true] at h
    exact ⟨rfl, resolvesTo_of_noPlaceholders r v h.1,
      fieldsResolve_of_noPlaceholders r tl h.2⟩

/-- A placeholder-free element list resolves to itself. -/
theorem elemsResolve_of_noPlaceholders (r : Resolver) : ∀ xs : JsArr,
    xs.noPlaceholders = true → elemsResolve r xs xs
  | .nil, _ => trivial
  | .cons v tl, h => by
    simp only [JsArr.noPlaceholders, Bool.and_eq_true] at h
    exact ⟨resolvesTo_of_noPlaceholders r v h.1,
      elemsResolve_of_noPlaceholders r tl h.2⟩

/-- Setting related values on related objects keeps them related. -/
theorem fieldsResolve_set (r : Resolver) : ∀ (fs gs : JsObj) (k : String) (v w : Json),
    fieldsResolve r fs gs → resolvesTo r v w →
    fieldsResolve r (fs.set k v) (gs.set k w)
  | .nil, .nil, k, v, w, _, hvw => ⟨rfl, hvw, trivial⟩
  | .nil, .cons _ _ _, _, _, _, h, _ => h.elim
  | .cons _ _ _, .nil, _, _, _, h, _ => h.elim
  | .cons k0 v0 tl, .cons k02 w0 tl2, k, v, w, h, hvw => by
    obtain ⟨hk, hv0, htl⟩ := h
    simp only [JsObj.set]
    subst hk
    by_cases hkk : k0 = k
    · rw [if_pos hkk, if_pos hkk]
      exact ⟨rfl, hvw, htl⟩
    · rw [if_neg hkk, if_neg hkk]
      exact ⟨rfl, hv0, fieldsResolve_set r tl tl2 k v w htl hvw⟩

/-- An object whose fields resolve pairwise resolves as a value. -/
theorem resolvesTo_obj (r : Resolver) (fs gs : JsObj) (h : fieldsResolve r fs gs) :
    resolvesTo r (.obj fs) (.obj gs) := by
  refine Or.inr ⟨rfl, ?_⟩
  simp only [resolveFilePlaceholders]
  rw [fieldsResolve_resolveObj r fs gs h, exceptBind_ok]

/-- An array whose elements resolve pairwise resolves as a value. -/
theorem resolvesTo_arr (r : Resolver) (xs ys : JsArr) (h : elemsResolve r xs ys) :
    resolvesTo r (.arr xs) (.arr ys) := by
  refine Or.inr ⟨rfl, ?_⟩
  simp only [resolveFilePlaceholders]
  rw [elemsResolve_resolveArr r xs ys h, exceptBind_ok]

/-- A placeholder string resolves to the markdown body of its file. -/
theorem resolvesTo_placeholder (r : Resolver) (ph content : String)
    (hst : jsStartsWith ph "file://" = true)
    (hr : r (stripFileScheme ph) = Except.ok content)
    (hb : readMarkdown content ≠ "") :
    resolvesTo r (.str ph) (.str (readMarkdown content)) := by
  refine Or.inl ⟨readMarkdown content, ?_, hb, rfl⟩
  simp only [resolveValue]
  rw [if_pos hst, hr, exceptBind_ok]

-- file map lemmas ------------------------------------------------------------

/-- Unfolding the file lookup one pair at a time (first match wins). -/
theorem fmGet_cons (p : String × FileContent) (rest : FileMap) (k : String) :
    fmGet (p :: rest) k = if p.1 = k then some p.2 else fmGet rest k := by
  simp only [fmGet]
  by_cases h : p.1 = k
  · rw [List.find?_cons_of_pos _ (by simp [h]), if_pos h]
    rfl
  · rw [List.find?_cons_of_neg _ (by simp [h]), if_neg h]

/-- A successful file lookup comes from a pair of the map. -/
theorem fmGet_some_mem (files : FileMap) (k : String) (v : FileContent)
    (h : fmGet files k = some v) : ∃ p ∈ files, p.1 = k ∧ p.2 = v := by
  simp only [fmGet] at h
  cases hf : files.find? (fun p => decide (p.1 = k)) with
  | none => rw [hf] at h; simp at h
  | some p =>
    rw [hf] at h
    have hv : p.2 = v := by simpa using h
    refine ⟨p, List.mem_of_find?_eq_some hf, ?_, hv⟩
    have := List.find?_some hf
    simpa using this

/-- File lookup over an append prefers the left map. -/
theorem fmGet_append (a b : FileMap) (k : String) :
    fmGet (a ++ b) k =
      match fmGet a k with
      | some v => some v
      | none => fmGet b k := by
  simp only [fmGet, List.find?_append]
  cases hf : a.find? (fun p => decide (p.1 = k)) with
  | some p => simp
  | none => simp

/-- Setting a key absent on the left of an append reaches the right part. -/
theorem fmSet_append_fresh (files c : FileMap) (k : String) (v : FileContent)
    (h : fmGet files k = none) : fmSet (files ++ c) k v = files ++ fmSet c k v := by
  induction files with
  | nil => rfl
  | cons p rest ih =>
    rw [fmGet_cons] at h
    by_cases hk : p.1 = k
    · rw [if_pos hk] at h
      exact absurd h (by simp)
    · rw [if_neg hk] at h
      show fmSet (p :: (rest ++ c)) k v = _
      cases p with
      | mk k0 v0 =>
        simp only [fmSet]
        rw [if_neg hk, ih h]
        rfl

/-- Membership after a file-map set. -/
theorem fmSet_mem : ∀ (files : FileMap) (k : String) (v : FileContent)
    (p : String × FileContent), p ∈ fmSet files k v → p = (k, v) ∨ p ∈ files
  | [], _, _, p, hp => by
    simp only [fmSet, List.mem_singleton] at hp
    exact Or.inl hp
  | (k0, v0) :: rest, k, v, p, hp => by
    by_cases h : k0 = k
    · simp only [fmSet, if_pos h] at hp
      rcases List.mem_cons.mp hp with rfl | hmem
      · exact Or.inl rfl
      · exact Or.inr (List.mem_cons_of_mem _ hmem)
    · simp only [fmSet, if_neg h] at hp
      rcases List.mem_cons.mp hp with rfl | hmem
      · exact Or.inr (List.mem_cons_self _ _)
      · rcases fmSet_mem rest k v p hmem with h1 | h2
        · exact Or.inl h1
        · exact Or.inr (List.mem_cons_of_mem _ h2)

/-- A map with no keys under a component misses every key under it. -/
theorem fmGet_none_of_noKeysUnder (d : String) (files : FileMap) (k : String)
    (hn : noKeysUnder d files) (hk : firstComponent k = d) : fmGet files k = none := by
  cases hf : fmGet files k with
  | none => rfl
  | some v =>
    obtain ⟨p, hp, hpk, _⟩ := fmGet_some_mem files k v hf
    exact absurd (by rw [hpk]; exact hk) (hn p hp)

-- path component lemmas ------------------------------------------------------

/-- takeWhile runs over a fully satisfying prefix. -/
theorem takeWhile_all_append (p : Char → Bool) : ∀ (xs ys : Chars),
    (∀ c ∈ xs, p c = true) → (xs ++ ys).takeWhile p = xs ++ ys.takeWhile p
  | [], _, _ => rfl
  | c :: xs, ys, h => by
    have hc : p c = true := h c (List.mem_cons_self _ _)
    simp only [List.cons_append, List.takeWhile_cons, hc, if_true]
    rw [takeWhile_all_append p xs ys (fun c2 hc2 => h c2 (List.mem_cons_of_mem _ hc2))]

/-- The first component of a slash-joined path is the slash-free head. -/
theorem firstComponent_prefixed (d s : String) (hd : d.data.contains '/' = false) :
    firstComponent (d ++ "/" ++ s) = d := by
  apply str_ext
  show ((d ++ "/" ++ s).data.takeWhile (fun c => decide (c ≠ '/'))) = d.data
  rw [str_append_data, str_append_data]
  rw [show ("/" : String).data = ['/'] from rfl]
  rw [List.append_assoc]
  rw [takeWhile_all_append _ d.data _ ?hall]
  · simp [List.takeWhile_cons]
  · intro c hc
    simp only [decide_eq_true_iff]
    intro hceq
    subst hceq
    exact absurd hc (by simpa using hd)

/-- A path joined under a slash-free non-dot directory has it as first
component. -/
theorem firstComponent_pathJoin (d s : String) (hd : d.data.contains '/' = false)
    (hdot : d ≠ ".") : firstComponent (pathJoin d s) = d := by
  unfold pathJoin
  rw [if_neg hdot]
  exact firstComponent_prefixed d s hd

/-- Setting a key under the directory keeps all keys under it. -/
theorem keysUnder_fmSet (d : String) (files : FileMap) (k : String) (v : FileContent)
    (hc : keysUnder d files) (hk : firstComponent k = d) :
    keysUnder d (fmSet files k v) := by
  intro p hp
  rcases fmSet_mem files k v p hp with rfl | hmem
  · exact hk
  · exact hc p hmem

/-- An agent directory name contains an underscore, so it is never dot. -/
theorem getAgentDirName_ne_dot (a : CanonicalAgent) : getAgentDirName a ≠ "." := by
  intro h
  have hmem : ('_' : Char) ∈ (getAgentDirName a).data := by
    unfold getAgentDirName
    rw [str_append_data, str_append_data]
    simp [show ("_" : String).data = ['_'] from rfl]
  rw [h] at hmem
  exact absurd hmem (by decide)

/-- The LLM writer only appends to a map with no keys under its directory. -/
theorem serializeLlmFiles_append (llm : CanonicalLLM) (d : String) (files c : FileMap)
    (hn : noKeysUnder d files) (hd : d.data.contains '/' = false) (hdot : d ≠ ".") :
    serializeLlmFiles llm d (files ++ c) = files ++ serializeLlmFiles llm d c := by
  have hfresh : ∀ s, fmGet files (pathJoin d s) = none := fun s =>
    fmGet_none_of_noKeysUnder d files _ hn (firstComponent_pathJoin d s hd hdot)
  simp only [serializeLlmFiles]
  by_cases ht : truthyField llm.config "general_prompt" = true
  · rw [if_pos ht, if_pos ht]
    rw [fmSet_append_fresh files c _ _ (hfresh _),
      fmSet_append_fresh files _ _ _ (hfresh _)]
  · rw [if_neg ht, if_neg ht]
    rw [fmSet_append_fresh files c _ _ (hfresh _)]

/-- The LLM writer keeps every key under its directory. -/
theorem serializeLlmFiles_keys (llm : CanonicalLLM) (d : String) (c : FileMap)
    (hc : keysUnder d c) (hd : d.data.contains '/' = false) (hdot : d ≠ ".") :
    keysUnder d (serializeLlmFiles llm d c) := by
  simp only [serializeLlmFiles]
  by_cases ht : truthyField llm.config "general_prompt" = true
  · rw [if_pos ht]
    exact keysUnder_fmSet d _ _ _
      (keysUnder_fmSet d c _ _ hc (firstComponent_pathJoin d _ hd hdot))
      (firstComponent_pathJoin d _ hd hdot)
  · rw [if_neg ht]
    exact keysUnder_fmSet d c _ _ hc (firstComponent_pathJoin d _ hd hdot)

/-- The node-prompt extractor only appends, and its node output does not
depend on the file accumulator. -/
theorem extractNodePrompts_append (nameById : List (String × String))
    (incoming : List (String × List String)) (d : String)
    (hd : d.data.contains '/' = false) (hdot : d ≠ ".") :
    ∀ (nodes : List Json) (files c : FileMap), noKeysUnder d files →
    extractNodePrompts nameById incoming d nodes (files ++ c)
      = (files ++ (extractNodePrompts nameById incoming d nodes c).1,
         (extractNodePrompts nameById incoming d nodes c).2)
  | [], files, c, hn => rfl
  | n :: rest, files, c, hn => by
    cases n with
    | obj o =>
      simp only [extractNodePrompts]
      by_cases he : nodeExtractable o = true
      · rw [if_pos he, if_pos he]
        rw [fmSet_append_fresh files c _ _ (fmGet_none_of_noKeysUnder d files _ hn
          (firstComponent_pathJoin d _ hd hdot))]
        rw [extractNodePrompts_append nameById incoming d hd hdot rest files _ hn]
      · rw [if_neg he, if_neg he]
        rw [extractNodePrompts_append nameById incoming d hd hdot rest files c hn]
    | null =>
      simp only [extractNodePrompts]
      rw [extractNodePrompts_append nameById incoming d hd hdot rest files c hn]
    | bool b =>
      simp only [extractNodePrompts]
      rw [extractNodePrompts_append nameById incoming d hd hdot rest files c hn]
    | num q =>
      simp only [extractNodePrompts]
      rw [extractNodePrompts_append nameById incoming d hd hdot rest files c hn]
    | str s =>
      simp only [extractNodePrompts]
      rw [extractNodePrompts_append nameById incoming d hd hdot rest files c hn]
    | arr xs =>
      simp only [extractNodePrompts]
      rw [extractNodePrompts_append nameById incoming d hd hdot rest files c hn]

/-- The node-prompt extractor keeps every key under its directory. -/
theorem extractNodePrompts_keys (nameById : List (String × String))
    (incoming : List (String × List String)) (d : String)
    (hd : d.data.contains '/' = false) (hdot : d ≠ ".") :
    ∀ (nodes : List Json) (c : FileMap), keysUnder d c →
    keysUnder d (extractNodePrompts nameById incoming d nodes c).1
  | [], c, hc => hc
  | n :: rest, c, hc => by
    cases n with
    | obj o =>
      simp only [extractNodePrompts]
      by_cases he : nodeExtractable o = true
      · rw [if_pos he]
        have hc2 : keysUnder d (fmSet c (pathJoin d (nodeFileNameOf o))
            (.text (writeMarkdown (nodeInstructionText o) (nodeFrontmatter nameById incoming o)))) :=
          keysUnder_fmSet d c _ _ hc (firstComponent_pathJoin d _ hd hdot)
        have := extractNodePrompts_keys nameById incoming d hd hdot rest _ hc2
        cases hX : extractNodePrompts nameById incoming d rest
          (fmSet c (pathJoin d (nodeFileNameOf o))
            (.text (writeMarkdown (nodeInstructionText o) (nodeFrontmatter nameById incoming o)))) with
        | mk f2 r2 =>
          rw [hX] at this
          exact this
      · rw [if_neg he]
        have := extractNodePrompts_keys nameById incoming d hd hdot rest c hc
        cases hX : extractNodePrompts nameById incoming d rest c with
        | mk f2 r2 =>
          rw [hX] at this
          exact this
    | null =>
      simp only [extractNodePrompts]
      have := extractNodePrompts_keys nameById incoming d hd hdot rest c hc
      cases hX : extractNodePrompts nameById incoming d rest c with
      | mk f2 r2 =>
        rw [hX] at this
        exact this
    | bool b =>
      simp only [extractNodePrompts]
      have := extractNodePrompts_keys nameById incoming d hd hdot rest c hc
      cases hX : extractNodePrompts nameById incoming d rest c with
      | mk f2 r2 =>
        rw [hX] at this
        exact this
    | num q =>
      simp only [extractNodePrompts]
      have := extractNodePrompts_keys nameById incoming d hd hdot rest c hc
      cases hX : extractNodePrompts nameById incoming d rest c with
      | mk f2 r2 =>
        rw [hX] at this
        exact this
    | str s =>
      simp only [extractNodePrompts]
      have := extractNodePrompts_keys nameById incoming d hd hdot rest c hc
      cases hX : extractNodePrompts nameById incoming d rest c with
      | mk f2 r2 =>
        rw [hX] at this
        exact this
    | arr xs =>
      simp only [extractNodePrompts]
      have := extractNodePrompts_keys nameById incoming d hd hdot rest c hc
      cases hX : extractNodePrompts nameById incoming d rest c with
      | mk f2 r2 =>
        rw [hX] at this
        exact this

/-- The global-prompt flow stage only appends to a fresh-directory map. -/
theorem flowGpStage_append (cfg : JsObj) (d : String) (files c : FileMap)
    (hn : noKeysUnder d files) (hd : d.data.contains '/' = false) (hdot : d ≠ ".") :
    flowGpStage cfg d (files ++ c)
      = (files ++ (flowGpStage cfg d c).1, (flowGpStage cfg d c).2) := by
  simp only [flowGpStage]
  by_cases ht : truthyField cfg "global_prompt" = true
  · rw [if_pos ht, if_pos ht,
      fmSet_append_fresh files c _ _ (fmGet_none_of_noKeysUnder d files _ hn
        (firstComponent_pathJoin d _ hd hdot))]
  · rw [if_neg ht, if_neg ht]

/-- The global-prompt flow stage keeps every key under its directory. -/
theorem flowGpStage_keys (cfg : JsObj) (d : String) (c : FileMap)
    (hc : keysUnder d c) (hd : d.data.contains '/' = false) (hdot : d ≠ ".") :
    keysUnder d (flowGpStage cfg d c).1 := by
  simp only [flowGpStage]
  by_cases ht : truthyField cfg "global_prompt" = true
  · rw [if_pos ht]
    exact keysUnder_fmSet d c _ _ hc (firstComponent_pathJoin d _ hd hdot)
  · rw [if_neg ht]
    exact hc

/-- The node-extraction flow stage only appends to a fresh-directory map,
and its config and node outputs ignore the file accumulator. -/
theorem flowNodesStage_append (cfg : JsObj) (d : String) (files c : FileMap)
    (hn : noKeysUnder d files) (hd : d.data.contains '/' = false) (hdot : d ≠ ".") :
    flowNodesStage cfg d (files ++ c)
      = (files ++ (flowNodesStage cfg d c).1, (flowNodesStage cfg d c).2) := by
  simp only [flowNodesStage]
  cases hnl : cfg.lookup "nodes" with
  | none => rfl
  | some v =>
    cases v with
    | arr ns =>
      dsimp only
      rw [extractNodePrompts_append _ _ d hd hdot ns.toList files c hn]
    | null => rfl
    | bool b => rfl
    | num q => rfl
    | str s => rfl
    | obj o => rfl

/-- The node-extraction flow stage keeps every key under its directory. -/
theorem flowNodesStage_keys (cfg : JsObj) (d : String) (c : FileMap)
    (hc : keysUnder d c) (hd : d.data.contains '/' = false) (hdot : d ≠ ".") :
    keysUnder d (flowNodesStage cfg d c).1 := by
  simp only [flowNodesStage]
  cases hnl : cfg.lookup "nodes" with
  | none => exact hc
  | some v =>
    cases v with
    | arr ns =>
      dsimp only
      have h2 := extractNodePrompts_keys (nodeNamesById ns.toList) (incomingEdgeNames ns.toList)
        d hd hdot ns.toList c hc
      cases hE : extractNodePrompts (nodeNamesById ns.toList) (incomingEdgeNames ns.toList)
          d ns.toList c with
      | mk f2 r2 =>
        rw [hE] at h2
        exact h2
    | null => exact hc
    | bool b => exact hc
    | num q => exact hc
    | str s => exact hc
    | obj o => exact hc

/-- The flow writer only appends to a map with no keys under its directory,
and the mutated flow it returns ignores the file accumulator. -/
theorem serializeFlowFiles_append (flow : CanonicalConversationFlow) (d : String)
    (files c : FileMap) (hn : noKeysUnder d files) (hd : d.data.contains '/' = false)
    (hdot : d ≠ ".") :
    serializeFlowFiles flow d (files ++ c)
      = (files ++ (serializeFlowFiles flow d c).1, (serializeFlowFiles flow d c).2) := by
  have hfresh : ∀ s, fmGet files (pathJoin d s) = none := fun s =>
    fmGet_none_of_noKeysUnder d files _ hn (firstComponent_pathJoin d s hd hdot)
  simp only [serializeFlowFiles]
  rw [flowGpStage_append flow.config d files c hn hd hdot]
  cases hG : flowGpStage flow.config d c with
  | mk c1 cfg1 =>
    dsimp only
    rw [flowNodesStage_append cfg1 d files c1 hn hd hdot]
    cases hN : flowNodesStage cfg1 d c1 with
    | mk c2 pr =>
      cases pr with
      | mk cfg2 onodes =>
        dsimp only
        cases hP : flowPosStage cfg2 onodes with
        | mk positions r3 =>
          cases r3 with
          | mk cfg5 r4 =>
            cases r4 with
            | mk n2 cmp =>
              dsimp only
              by_cases hpl : positions.length > 0
              · rw [if_pos hpl, if_pos hpl,
                  fmSet_append_fresh files _ _ _ (hfresh _),
                  fmSet_append_fresh files _ _ _ (hfresh _)]
              · rw [if_neg hpl, if_neg hpl,
                  fmSet_append_fresh files _ _ _ (hfresh _)]

/-- The flow writer keeps every key under its directory. -/
theorem serializeFlowFiles_keys (flow : CanonicalConversationFlow) (d : String)
    (c : FileMap) (hc : keysUnder d c) (hd : d.data.contains '/' = false)
    (hdot : d ≠ ".") :
    keysUnder d (serializeFlowFiles flow d c).1 := by
  simp only [serializeFlowFiles]
  have h1 := flowGpStage_keys flow.config d c hc hd hdot
  cases hG : flowGpStage flow.config d c with
  | mk c1 cfg1 =>
    rw [hG] at h1
    dsimp only
    have h2 := flowNodesStage_keys cfg1 d c1 h1 hd hdot
    cases hN : flowNodesStage cfg1 d c1 with
    | mk c2 pr =>
      rw [hN] at h2
      cases pr with
      | mk cfg2 onodes =>
        dsimp only
        cases hP : flowPosStage cfg2 onodes with
        | mk positions r3 =>
          cases r3 with
          | mk cfg5 r4 =>
            cases r4 with
            | mk n2 cmp =>
              dsimp only
              by_cases hpl : positions.length > 0
              · rw [if_pos hpl]
                exact keysUnder_fmSet d _ _ _
                  (keysUnder_fmSet d c2 _ _ h2 (firstComponent_pathJoin d _ hd hdot))
                  (firstComponent_pathJoin d _ hd hdot)
              · rw [if_neg hpl]
                exact keysUnder_fmSet d c2 _ _ h2 (firstComponent_pathJoin d _ hd hdot)

/-- A dot base disappears in a path join. -/
theorem pathJoin_dot (b : String) : pathJoin "." b = b := by
  unfold pathJoin
  rw [if_pos rfl]

/-- The agent writer under a dot agents directory only appends to a map
with no keys under the agent directory, and its flow-map output ignores
the file accumulator. -/
theorem serializeAgentFiles_append (llmMap : List (String × CanonicalLLM))
    (flowMap : List (String × CanonicalConversationFlow)) (channel : String)
    (a : CanonicalAgent) (files c : FileMap)
    (hn : noKeysUnder (getAgentDirName a) files)
    (hd : (getAgentDirName a).data.contains '/' = false) :
    serializeAgentFiles llmMap flowMap channel "." a (files ++ c)
      = (files ++ (serializeAgentFiles llmMap flowMap channel "." a c).1,
         (serializeAgentFiles llmMap flowMap channel "." a c).2) := by
  have hdot := getAgentDirName_ne_dot a
  have hfresh : ∀ s, fmGet files (pathJoin (getAgentDirName a) s) = none := fun s =>
    fmGet_none_of_noKeysUnder _ files _ hn (firstComponent_pathJoin _ s hd hdot)
  simp only [serializeAgentFiles, pathJoin_dot]
  rw [fmSet_append_fresh files c _ _ (hfresh _)]
  cases hre : a.response_engine with
  | retellLlm id v =>
    dsimp only
    cases hL : jsMapGet llmMap id with
    | some llm =>
      dsimp only
      rw [serializeLlmFiles_append llm _ files _ hn hd hdot,
        fmSet_append_fresh files _ _ _ (hfresh _)]
    | none =>
      dsimp only
      rw [fmSet_append_fresh files _ _ _ (hfresh _)]
  | conversationFlow id v =>
    dsimp only
    cases hF : jsMapGet flowMap id with
    | some flow =>
      dsimp only
      rw [serializeFlowFiles_append flow _ files _ hn hd hdot]
      cases hS : serializeFlowFiles flow (getAgentDirName a)
          (fmSet c (pathJoin (getAgentDirName a) ".agent.json")
            (.json (.obj (.cons "id" (.str a._id) (.cons "version" (.num a._version)
              (.cons "channel" (.str channel)
                (.cons "response_engine" (encodeRE (.retellLlm id v)) .nil))))))) with
      | mk f2 fl2 =>
        dsimp only
        rw [fmSet_append_fresh files _ _ _ (hfresh _)]
    | none =>
      dsimp only
      rw [fmSet_append_fresh files _ _ _ (hfresh _)]
  | customLlm url =>
    dsimp only
    rw [fmSet_append_fresh files _ _ _ (hfresh _)]

/-- The agent writer under a dot agents directory keeps every key under
the agent directory. -/
theorem serializeAgentFiles_keys (llmMap : List (String × CanonicalLLM))
    (flowMap : List (String × CanonicalConversationFlow)) (channel : String)
    (a : CanonicalAgent) (c : FileMap)
    (hc : keysUnder (getAgentDirName a) c)
    (hd : (getAgentDirName a).data.contains '/' = false) :
    keysUnder (getAgentDirName a) (serializeAgentFiles llmMap flowMap channel "." a c).1 := by
  have hdot := getAgentDirName_ne_dot a
  have hfc : ∀ s, firstComponent (pathJoin (getAgentDirName a) s) = getAgentDirName a :=
    fun s => firstComponent_pathJoin _ s hd hdot
  simp only [serializeAgentFiles, pathJoin_dot]
  have h1 : keysUnder (getAgentDirName a)
      (fmSet c (pathJoin (getAgentDirName a) ".agent.json")
        (.json (.obj (.cons "id" (.str a._id) (.cons "version" (.num a._version)
          (.cons "channel" (.str channel) (.cons "response_engine"
            (match a.response_engine with
             | .customLlm _ => Json.obj (.cons "type" (.str "custom-llm") .nil)
             | re => encodeRE re) .nil))))))) :=
    keysUnder_fmSet _ c _ _ hc (hfc _)
  cases hre : a.response_engine with
  | retellLlm id v =>
    dsimp only
    cases hL : jsMapGet llmMap id with
    | some llm =>
      dsimp only
      refine keysUnder_fmSet _ _ _ _ ?h2 (hfc _)
      refine serializeLlmFiles_keys llm _ _ ?h3 hd hdot
      rw [hre] at h1
      exact h1
    | none =>
      dsimp only
      refine keysUnder_fmSet _ _ _ _ ?h4 (hfc _)
      rw [hre] at h1
      exact h1
  | conversationFlow id v =>
    dsimp only
    cases hF : jsMapGet flowMap id with
    | some flow =>
      dsimp only
      rw [hre] at h1
      have h2 := serializeFlowFiles_keys flow (getAgentDirName a) _ h1 hd hdot
      cases hS : serializeFlowFiles flow (getAgentDirName a)
          (fmSet c (pathJoin (getAgentDirName a) ".agent.json")
            (.json (.obj (.cons "id" (.str a._id) (.cons "version" (.num a._version)
              (.cons "channel" (.str channel)
                (.cons "response_engine" (encodeRE (.conversationFlow id v)) .nil))))))) with
      | mk f2 fl2 =>
        rw [hS] at h2
        dsimp only
        exact keysUnder_fmSet _ _ _ _ h2 (hfc _)
    | none =>
      dsimp only
      refine keysUnder_fmSet _ _ _ _ ?h5 (hfc _)
      rw [hre] at h1
      exact h1
  | customLlm url =>
    dsimp only
    refine keysUnder_fmSet _ _ _ _ ?h6 (hfc _)
    rw [hre] at h1
    exact h1

/-- An empty file map has every key under any directory. -/
theorem keysUnder_nil (d : String) : keysUnder d [] :=
  fun p hp => absurd hp (List.not_mem_nil p)

/-- Freshness is preserved by append. -/
theorem noKeysUnder_append (d : String) (f1 f2 : FileMap)
    (h1 : noKeysUnder d f1) (h2 : noKeysUnder d f2) : noKeysUnder d (f1 ++ f2) := by
  intro p hp
  rcases List.mem_append.mp hp with hm | hm
  · exact h1 p hm
  · exact h2 p hm

/-- A map entirely under one directory is fresh for any other. -/
theorem noKeysUnder_of_keysUnder_ne (d d2 : String) (f : FileMap)
    (hc : keysUnder d2 f) (hne : d2 ≠ d) : noKeysUnder d f := by
  intro p hp
  rw [hc p hp]
  exact hne

/-- Head distinctness from boolean duplicate-freedom. -/
theorem nodupB_cons (x : String) (xs : List String) (h : nodupB (x :: xs) = true) :
    (∀ y ∈ xs, y ≠ x) ∧ nodupB xs = true := by
  simp only [nodupB, Bool.and_eq_true, decide_eq_true_eq] at h
  refine ⟨fun y hy he => ?_, h.2⟩
  subst he
  have h1 := h.1
  simp [List.contains_eq_any_beq, List.any_eq_true] at h1
  exact h1 hy

/-- The chunk fold splits over list concatenation. -/
theorem agentChunks_append_list (llmMap : List (String × CanonicalLLM)) :
    ∀ (l1 l2 : List (String × CanonicalAgent)) (fm : List (String × CanonicalConversationFlow)),
    agentChunks llmMap (l1 ++ l2) fm
      = ((agentChunks llmMap l1 fm).1 ++ (agentChunks llmMap l2 (agentChunks llmMap l1 fm).2).1,
         (agentChunks llmMap l2 (agentChunks llmMap l1 fm).2).2)
  | [], l2, fm => by
    cases h2 : agentChunks llmMap l2 fm with
    | mk f fm2 => rfl
  | (ch, a) :: rest, l2, fm => by
    simp only [List.cons_append, agentChunks]
    cases hA : serializeAgentFiles llmMap fm ch "." a [] with
    | mk fA fmA =>
      dsimp only
      simp only [List.append_eq]
      rw [agentChunks_append_list llmMap rest l2 fmA]
      cases hR : agentChunks llmMap rest fmA with
      | mk fs fm3 =>
        dsimp only
        cases hL : agentChunks llmMap l2 fm3 with
        | mk fs2 fm4 =>
          dsimp only
          rw [List.append_assoc]

/-- The agent-list writer from any fresh accumulator appends exactly the
per-agent chunks. -/
theorem serializeAgentList_eq_chunks (llmMap : List (String × CanonicalLLM)) (channel : String) :
    ∀ (agents : List CanonicalAgent) (files : FileMap)
      (fm : List (String × CanonicalConversationFlow)),
    (∀ a ∈ agents, (getAgentDirName a).data.contains '/' = false) →
    (∀ a ∈ agents, noKeysUnder (getAgentDirName a) files) →
    nodupB (agents.map getAgentDirName) = true →
    serializeAgentList llmMap channel "." agents files fm
      = (files ++ (agentChunks llmMap (agents.map (fun a => (channel, a))) fm).1,
         (agentChunks llmMap (agents.map (fun a => (channel, a))) fm).2)
  | [], files, fm, _, _, _ => by
    simp [serializeAgentList, agentChunks]
  | a :: rest, files, fm, hsl, hnk, hnd => by
    simp only [List.map_cons, serializeAgentList, agentChunks]
    have h1 := serializeAgentFiles_append llmMap fm channel a files []
      (hnk a (List.mem_cons_self _ _)) (hsl a (List.mem_cons_self _ _))
    rw [List.append_nil] at h1
    rw [h1]
    cases hC : serializeAgentFiles llmMap fm channel "." a [] with
    | mk fA fmA =>
      dsimp only
      have hkA : keysUnder (getAgentDirName a) fA := by
        have := serializeAgentFiles_keys llmMap fm channel a []
          (keysUnder_nil _) (hsl a (List.mem_cons_self _ _))
        rw [hC] at this
        exact this
      obtain ⟨hne, hnd2⟩ := nodupB_cons _ _ (by simpa using hnd)
      rw [serializeAgentList_eq_chunks llmMap channel rest (files ++ fA) fmA
        (fun b hb => hsl b (List.mem_cons_of_mem _ hb))
        (fun b hb => noKeysUnder_append _ _ _ (hnk b (List.mem_cons_of_mem _ hb))
          (noKeysUnder_of_keysUnder_ne _ _ _ hkA
            (Ne.symm (hne (getAgentDirName b) (List.mem_map_of_mem _ hb)))))
        hnd2]
      cases hR : agentChunks llmMap (rest.map (fun b => (channel, b))) fmA with
      | mk fs fm3 =>
        dsimp only
        rw [List.append_assoc]


/-- Boolean duplicate-freedom restricts to the left part of an append. -/
theorem nodupB_append_left : ∀ (xs ys : List String),
    nodupB (xs ++ ys) = true → nodupB xs = true
  | [], _, _ => rfl
  | x :: xs, ys, h => by
    obtain ⟨hne, h2⟩ := nodupB_cons _ _ (by simpa using h)
    simp only [nodupB, Bool.and_eq_true, decide_eq_true_eq]
    refine ⟨?hc, nodupB_append_left xs ys h2⟩
    intro hcont
    simp only [List.contains_eq_any_beq, List.any_eq_true] at hcont
    obtain ⟨y, hy, hxy⟩ := hcont
    exact hne y (List.mem_append_left _ hy) (by simpa using (beq_iff_eq.mp hxy).symm)

/-- Boolean duplicate-freedom restricts to the right part of an append. -/
theorem nodupB_append_right : ∀ (xs ys : List String),
    nodupB (xs ++ ys) = true → nodupB ys = true
  | [], _, h => h
  | x :: xs, ys, h =>
    nodupB_append_right xs ys (nodupB_cons _ _ (by simpa using h)).2

/-- The two parts of a duplicate-free append are disjoint. -/
theorem nodupB_append_disjoint : ∀ (xs ys : List String),
    nodupB (xs ++ ys) = true → ∀ z, z ∈ xs → z ∈ ys → False
  | [], _, _, z, hz, _ => absurd hz (List.not_mem_nil z)
  | x :: xs, ys, h, z, hz, hzy => by
    obtain ⟨hne, h2⟩ := nodupB_cons _ _ (by simpa using h)
    rcases List.mem_cons.mp hz with rfl | hm
    · exact hne z (List.mem_append_right _ hzy) rfl
    · exact nodupB_append_disjoint xs ys h2 z hm hzy

/-- Every file of an agent-chunk run lies under the directory of one of
its agents. -/
theorem agentChunks_fc (llmMap : List (String × CanonicalLLM)) :
    ∀ (l : List (String × CanonicalAgent)) (fm : List (String × CanonicalConversationFlow)),
    (∀ p ∈ l, (getAgentDirName p.2).data.contains '/' = false) →
    ∀ p ∈ (agentChunks llmMap l fm).1,
    ∃ q ∈ l, firstComponent p.1 = getAgentDirName q.2
  | [], fm, _, p, hp => absurd hp (List.not_mem_nil p)
  | (ch, a) :: rest, fm, hsl, p, hp => by
    simp only [agentChunks] at hp
    rcases hq : serializeAgentFiles llmMap fm ch "." a [] with ⟨fA, fmA⟩
    rw [hq] at hp
    dsimp only at hp
    rcases hr : agentChunks llmMap rest fmA with ⟨fs, fm3⟩
    rw [hr] at hp
    dsimp only at hp
    rcases List.mem_append.mp hp with hm | hm
    · refine ⟨(ch, a), List.mem_cons_self _ _, ?ha⟩
      have hk := serializeAgentFiles_keys llmMap fm ch a []
        (keysUnder_nil _) (hsl (ch, a) (List.mem_cons_self _ _))
      rw [hq] at hk
      exact hk p hm
    · obtain ⟨q, hqm, hfc⟩ := agentChunks_fc llmMap rest fmA
        (fun q hq2 => hsl q (List.mem_cons_of_mem _ hq2)) p (by rw [hr]; exact hm)
      exact ⟨q, List.mem_cons_of_mem _ hqm, hfc⟩

/-- The tagged agent list of a state: voice agents first, then chat. -/
def taggedAgents (s : CanonicalState) : List (String × CanonicalAgent) :=
  s.voiceAgents.map (fun a => ("voice", a)) ++ s.chatAgents.map (fun a => ("chat", a))

/-- The state writer under a dot agents directory produces exactly the
concatenated per-agent chunks. -/
theorem serializeState_eq_chunks (s : CanonicalState)
    (hsl : ∀ a ∈ s.voiceAgents ++ s.chatAgents, (getAgentDirName a).data.contains '/' = false)
    (hnd : nodupB ((s.voiceAgents ++ s.chatAgents).map getAgentDirName) = true) :
    serializeState s "."
      = (agentChunks (s.llms.map (fun l => (l._id, l))) (taggedAgents s)
          (s.conversationFlows.map (fun f => (f._id, f)))).1 := by
  simp only [serializeState]
  rw [List.map_append] at hnd
  have hndV := nodupB_append_left _ _ hnd
  have hndC := nodupB_append_right _ _ hnd
  rw [serializeAgentList_eq_chunks _ "voice" s.voiceAgents []
    (s.conversationFlows.map (fun f => (f._id, f)))
    (fun a ha => hsl a (List.mem_append_left _ ha))
    (fun a _ => fun p hp => absurd hp (List.not_mem_nil p))
    hndV]
  cases hV : agentChunks (s.llms.map (fun l => (l._id, l)))
      (s.voiceAgents.map (fun a => ("voice", a)))
      (s.conversationFlows.map (fun f => (f._id, f))) with
  | mk fV fmV =>
    dsimp only
    rw [List.nil_append]
    rw [serializeAgentList_eq_chunks _ "chat" s.chatAgents fV fmV
      (fun a ha => hsl a (List.mem_append_right _ ha))
      (fun a ha p hp => ?hfr) hndC]
    case hfr =>
      have h2 := agentChunks_fc (s.llms.map (fun l => (l._id, l)))
        (s.voiceAgents.map (fun a2 => ("voice", a2)))
        (s.conversationFlows.map (fun f => (f._id, f)))
        (fun q hq => by
          obtain ⟨b, hb, rfl⟩ := List.mem_map.mp hq
          exact hsl b (List.mem_append_left _ hb))
      rw [hV] at h2
      obtain ⟨q, hqm, hfc⟩ := h2 p hp
      obtain ⟨b, hb, rfl⟩ := List.mem_map.mp hqm
      rw [hfc]
      intro he
      exact nodupB_append_disjoint _ _ hnd (getAgentDirName a)
        (by rw [← he]; exact List.mem_map_of_mem _ hb)
        (List.mem_map_of_mem _ ha)
    · rw [taggedAgents, agentChunks_append_list, hV]

-- jsonSemEq toolkit ----------------------------------------------------------

/-- Setting a key makes it found with the new value. -/
theorem JsObj.lookup_set_self : ∀ (o : JsObj) (k : String) (v : Json),
    (o.set k v).lookup k = some v
  | .nil, k, v => by simp [JsObj.set, JsObj.lookup]
  | .cons k0 w tl, k, v => by
    simp only [JsObj.set]
    by_cases h : k0 = k
    · rw [if_pos h]
      simp [JsObj.lookup, h]
    · rw [if_neg h]
      simp only [JsObj.lookup, if_neg h]
      exact JsObj.lookup_set_self tl k v

/-- Setting a key leaves other lookups unchanged. -/
theorem JsObj.lookup_set_ne : ∀ (o : JsObj) (k : String) (v : Json) (k2 : String),
    k2 ≠ k → (o.set k v).lookup k2 = o.lookup k2
  | .nil, k, v, k2, h => by
    simp only [JsObj.set, JsObj.lookup]
    rw [if_neg (fun he => h he.symm)]
  | .cons k0 w tl, k, v, k2, h => by
    simp only [JsObj.set]
    by_cases h0 : k0 = k
    · rw [if_pos h0]
      simp only [JsObj.lookup]
      rw [if_neg (by rw [h0]; exact fun he => h he.symm),
        if_neg (by rw [h0]; exact fun he => h he.symm)]
    · rw [if_neg h0]
      simp only [JsObj.lookup]
      by_cases h2 : k0 = k2
      · rw [if_pos h2, if_pos h2]
      · rw [if_neg h2, if_neg h2]
        exact JsObj.lookup_set_ne tl k v k2 h

/-- Lookup after key removal: the removed key is gone, others unchanged. -/
theorem JsObj.lookup_removeKey : ∀ (o : JsObj) (k k2 : String),
    (o.removeKey k).lookup k2 = if k2 = k then none else o.lookup k2
  | .nil, k, k2 => by
    simp only [JsObj.removeKey, JsObj.lookup]
    by_cases h : k2 = k
    · rw [if_pos h]
    · rw [if_neg h]
  | .cons k0 v tl, k, k2 => by
    simp only [JsObj.removeKey]
    by_cases h0 : k0 = k
    · rw [if_pos h0, JsObj.lookup_removeKey tl k k2]
      by_cases h2 : k2 = k
      · rw [if_pos h2, if_pos h2]
      · rw [if_neg h2, if_neg h2]
        simp only [JsObj.lookup]
        rw [if_neg (by rw [h0]; exact fun he => h2 he.symm)]
    · rw [if_neg h0]
      simp only [JsObj.lookup]
      by_cases h2 : k0 = k2
      · rw [if_pos h2, if_neg (fun he => h0 (h2.trans he)), if_pos h2]
      · rw [if_neg h2, JsObj.lookup_removeKey tl k k2]
        by_cases h3 : k2 = k
        · rw [if_pos h3, if_pos h3]
        · rw [if_neg h3, if_neg h3, if_neg h2]

/-- Key duplicate-freedom survives a set. -/
theorem JsObj.keysNodup_set : ∀ (o : JsObj) (k : String) (v : Json),
    o.keysNodup = true → (o.set k v).keysNodup = true
  | .nil, k, v, _ => by simp [JsObj.set, JsObj.keysNodup, JsObj.hasKey, JsObj.lookup]
  | .cons k0 w tl, k, v, h => by
    simp only [JsObj.keysNodup, Bool.and_eq_true, decide_eq_true_eq] at h
    simp only [JsObj.set]
    by_cases h0 : k0 = k
    · rw [if_pos h0]
      simp only [JsObj.keysNodup, Bool.and_eq_true, decide_eq_true_eq]
      exact ⟨h.1, h.2⟩
    · rw [if_neg h0]
      simp only [JsObj.keysNodup, Bool.and_eq_true, decide_eq_true_eq]
      refine ⟨?h1, JsObj.keysNodup_set tl k v h.2⟩
      simp only [JsObj.hasKey]
      rw [JsObj.lookup_set_ne tl k v k0 h0]
      exact h.1

/-- Key duplicate-freedom survives a key removal. -/
theorem JsObj.keysNodup_removeKey : ∀ (o : JsObj) (k : String),
    o.keysNodup = true → (o.removeKey k).keysNodup = true
  | .nil, _, _ => rfl
  | .cons k0 w tl, k, h => by
    simp only [JsObj.keysNodup, Bool.and_eq_true, decide_eq_true_eq] at h
    simp only [JsObj.removeKey]
    by_cases h0 : k0 = k
    · rw [if_pos h0]
      exact JsObj.keysNodup_removeKey tl k h.2
    · rw [if_neg h0]
      simp only [JsObj.keysNodup, Bool.and_eq_true, decide_eq_true_eq]
      refine ⟨?h1, JsObj.keysNodup_removeKey tl k h.2⟩
      simp only [JsObj.hasKey]
      rw [JsObj.lookup_removeKey tl k k0, if_neg h0]
      exact h.1

/-- A found value is one of the fields. -/
theorem JsObj.lookup_mem : ∀ (o : JsObj) (k : String) (v : Json),
    o.lookup k = some v → (k, v) ∈ o.toList
  | .nil, _, _, h => by simp [JsObj.lookup] at h
  | .cons k0 w tl, k, v, h => by
    simp only [JsObj.lookup] at h
    by_cases h0 : k0 = k
    · rw [if_pos h0] at h
      subst h0
      injection h with h
      subst h
      exact List.mem_cons_self _ _
    · rw [if_neg h0] at h
      exact List.mem_cons_of_mem _ (JsObj.lookup_mem tl k v h)

/-- Values of a duplicate-free object are duplicate-free. -/
theorem JsObj.dupFree_of_mem : ∀ (o : JsObj) (k : String) (v : Json),
    o.dupFree = true → (k, v) ∈ o.toList → v.dupFree = true
  | .nil, _, _, _, hm => absurd hm (by simp [JsObj.toList])
  | .cons k0 w tl, k, v, h, hm => by
    simp only [JsObj.dupFree, Bool.and_eq_true] at h
    simp only [JsObj.toList, List.mem_cons] at hm
    rcases hm with he | hm
    · injection he with h1 h2
      subst h2
      exact h.1
    · exact JsObj.dupFree_of_mem tl k v h.2 hm

/-- A looked-up value of a duplicate-free object is duplicate-free. -/
theorem JsObj.dupFree_lookup (o : JsObj) (k : String) (v : Json)
    (h : o.dupFree = true) (hl : o.lookup k = some v) : v.dupFree = true :=
  JsObj.dupFree_of_mem o k v h (JsObj.lookup_mem o k v hl)

mutual
/-- Semantic equality is reflexive on duplicate-free values. -/
theorem jsonSemEq_refl : ∀ j : Json, j.dupFree = true → jsonSemEq j j = true
  | .null, _ => rfl
  | .bool b, _ => by cases b <;> rfl
  | .num q, _ => by simp [jsonSemEq, jsAtomEq]
  | .str s, _ => by simp [jsonSemEq, jsAtomEq]
  | .arr xs, h => by
    simp only [jsonSemEq]
    exact arrSemEq_refl xs (by simpa [Json.dupFree] using h)
  | .obj fs, h => by
    have h2 : fs.keysNodup = true ∧ fs.dupFree = true := by
      simpa [Json.dupFree, Bool.and_eq_true] using h
    simp only [jsonSemEq, Bool.and_eq_true]
    refine ⟨objSemEqFields_full fs h2.1 fs h2.2 (fun k v hm => ?hmem), ?hall⟩
    case hmem => exact JsObj.lookup_of_mem_nodup fs k v h2.1 hm
    case hall =>
      rw [List.all_eq_true]
      intro kv hkv
      exact JsObj.hasKey_of_mem fs kv.1 kv.2 (by
        cases kv with
        | mk k v => exact hkv)
  termination_by structural j => j
/-- Array component of reflexivity. -/
theorem arrSemEq_refl : ∀ xs : JsArr, xs.dupFree = true → arrSemEq xs xs = true
  | .nil, _ => rfl
  | .cons x tl, h => by
    have h2 : x.dupFree = true ∧ tl.dupFree = true := by
      simpa [JsArr.dupFree, Bool.and_eq_true] using h
    simp only [arrSemEq, Bool.and_eq_true]
    exact ⟨jsonSemEq_refl x h2.1, arrSemEq_refl tl h2.2⟩
  termination_by structural xs => xs
/-- Field-scan component of reflexivity: every field of the scanned part
is found in the full object with its own value. -/
theorem objSemEqFields_full (full : JsObj) (hnd : full.keysNodup = true) :
    ∀ sub : JsObj, sub.dupFree = true →
    (∀ k v, (k, v) ∈ sub.toList → full.lookup k = some v) →
    objSemEqFields sub full = true
  | .nil, _, _ => rfl
  | .cons k v tl, h, hin => by
    have h2 : v.dupFree = true ∧ tl.dupFree = true := by
      simpa [JsObj.dupFree, Bool.and_eq_true] using h
    simp only [objSemEqFields, Bool.and_eq_true]
    refine ⟨?hv, objSemEqFields_full full hnd tl h2.2
      (fun k2 v2 hm => hin k2 v2 (List.mem_cons_of_mem _ hm))⟩
    rw [hin k v (List.mem_cons_self _ _)]
    exact jsonSemEq_refl v h2.1
  termination_by structural sub => sub
end

/-- Field scan against an object with the right lookups. -/
theorem objSemEqFields_of_lookup (Y : JsObj) : ∀ sub : JsObj,
    (∀ k v, (k, v) ∈ sub.toList → ∃ w, Y.lookup k = some w ∧ jsonSemEq v w = true) →
    objSemEqFields sub Y = true
  | .nil, _ => rfl
  | .cons k v tl, hin => by
    simp only [objSemEqFields, Bool.and_eq_true]
    obtain ⟨w, hw, hvw⟩ := hin k v (List.mem_cons_self _ _)
    refine ⟨?hv, objSemEqFields_of_lookup Y tl
      (fun k2 v2 hm => hin k2 v2 (List.mem_cons_of_mem _ hm))⟩
    rw [hw]
    exact hvw

/-- Lookup-based sufficient condition for object semantic equality: the
left object is key-duplicate-free, both lookups have the same domain and
semantically equal values. -/
theorem jsonSemEq_obj_of_lookup (X Y : JsObj) (hX : X.keysNodup = true)
    (h : ∀ k, (match X.lookup k, Y.lookup k with
               | some v, some w => jsonSemEq v w = true
               | none, none => True
               | _, _ => False)) :
    jsonSemEq (.obj X) (.obj Y) = true := by
  simp only [jsonSemEq, Bool.and_eq_true]
  constructor
  · refine objSemEqFields_of_lookup Y X (fun k v hm => ?hf)
    have hl : X.lookup k = some v := JsObj.lookup_of_mem_nodup X k v hX hm
    have h2 := h k
    rw [hl] at h2
    cases hY : Y.lookup k with
    | none => rw [hY] at h2; exact h2.elim
    | some w =>
      rw [hY] at h2
      exact ⟨w, rfl, h2⟩
  · rw [List.all_eq_true]
    intro kv hkv
    have hk : Y.hasKey kv.1 = true := by
      cases kv with
      | mk k v => exact JsObj.hasKey_of_mem Y k v hkv
    have h2 := h kv.1
    cases hX2 : X.lookup kv.1 with
    | some v => simp [JsObj.hasKey, hX2]
    | none =>
      rw [hX2] at h2
      cases hY : Y.lookup kv.1 with
      | none =>
        rw [JsObj.hasKey, hY] at hk
        exact absurd hk (by simp)
      | some w => rw [hY] at h2; exact h2.elim

/-- Re-adding a removed key at the end is semantically the in-place set. -/
theorem jsonSemEq_move_key (o : JsObj) (k : String) (v w : Json)
    (hnd : o.keysNodup = true) (hdf : o.dupFree = true)
    (hvw : jsonSemEq v w = true) :
    jsonSemEq (.obj ((o.removeKey k).set k v)) (.obj (o.set k w)) = true := by
  refine jsonSemEq_obj_of_lookup _ _
    (JsObj.keysNodup_set _ k v (JsObj.keysNodup_removeKey o k hnd)) (fun k2 => ?hl)
  by_cases h2 : k2 = k
  · subst h2
    rw [JsObj.lookup_set_self, JsObj.lookup_set_self]
    exact hvw
  · rw [JsObj.lookup_set_ne _ k v k2 h2, JsObj.lookup_set_ne o k w k2 h2,
      JsObj.lookup_removeKey o k k2, if_neg h2]
    cases hv2 : o.lookup k2 with
    | none => trivial
    | some u => exact jsonSemEq_refl u (JsObj.dupFree_lookup o k2 u hdf hv2)

/-- Pointwise semantic equality of converted lists. -/
theorem arrSemEq_ofList : ∀ (xs ys : List Json),
    List.Forall₂ (fun a b => jsonSemEq a b = true) xs ys →
    arrSemEq (JsArr.ofList xs) (JsArr.ofList ys) = true
  | [], [], _ => rfl
  | [], _ :: _, h => by cases h
  | _ :: _, [], h => by cases h
  | x :: xs, y :: ys, h => by
    cases h with
    | cons hxy htl =>
      simp only [JsArr.ofList, arrSemEq, Bool.and_eq_true]
      exact ⟨hxy, arrSemEq_ofList xs ys htl⟩

/-- Reading back the key just set. -/
theorem fmGet_fmSet_self : ∀ (files : FileMap) (k : String) (v : FileContent),
    fmGet (fmSet files k v) k = some v
  | [], k, v => by simp [fmSet, fmGet]
  | (k0, v0) :: rest, k, v => by
    simp only [fmSet]
    by_cases h : k0 = k
    · rw [if_pos h, fmGet_cons, if_pos rfl]
    · rw [if_neg h, fmGet_cons, if_neg h]
      exact fmGet_fmSet_self rest k v

/-- Setting one key leaves other reads unchanged. -/
theorem fmGet_fmSet_ne : ∀ (files : FileMap) (k : String) (v : FileContent)
    (k2 : String), k2 ≠ k → fmGet (fmSet files k v) k2 = fmGet files k2
  | [], k, v, k2, h => by
    simp only [fmSet, fmGet_cons]
    rw [if_neg (fun he => h he.symm)]
  | (k0, v0) :: rest, k, v, k2, h => by
    simp only [fmSet]
    by_cases h0 : k0 = k
    · rw [if_pos h0, fmGet_cons, fmGet_cons]
      subst h0
      rw [if_neg (fun he => h he.symm), if_neg (fun he => h he.symm)]
    · rw [if_neg h0, fmGet_cons, fmGet_cons]
      by_cases h2 : k0 = k2
      · rw [if_pos h2, if_pos h2]
      · rw [if_neg h2, if_neg h2]
        exact fmGet_fmSet_ne rest k v k2 h

/-- Joining distinct names under a non-dot directory gives distinct paths. -/
theorem pathJoin_ne (d : String) (hdot : d ≠ ".") (a b : String) (h : a ≠ b) :
    pathJoin d a ≠ pathJoin d b := by
  unfold pathJoin
  rw [if_neg hdot, if_neg hdot]
  intro he
  apply h
  have hd := congrArg String.data he
  rw [str_append_data, str_append_data, str_append_data, str_append_data,
    List.append_assoc, List.append_assoc] at hd
  exact str_ext (List.append_cancel_left (List.append_cancel_left hd))

/-- Stripping the scheme from a `file://./`-prefixed placeholder. -/
theorem stripFileScheme_placeholder (name : String) :
    stripFileScheme ("file://./" ++ name) = "./" ++ name := by
  apply str_ext
  show (("file://./" ++ name).data.drop 7) = ("./" ++ name).data
  rw [str_append_data, str_append_data]
  rw [show ("file://./" : String).data = ['f','i','l','e',':','/','/','.','/'] from rfl,
    show ("./" : String).data = ['.','/'] from rfl]
  rfl

/-- A `file://./`-prefixed string is a placeholder. -/
theorem startsWith_file_placeholder (name : String) :
    jsStartsWith ("file://./" ++ name) "file://" = true := by
  show isPrefixC ("file://".data) (("file://./" ++ name).data) = true
  rw [str_append_data]
  rw [show ("file://" : String).data = ['f','i','l','e',':','/','/'] from rfl,
    show ("file://./" : String).data = ['f','i','l','e',':','/','/','.','/'] from rfl]
  rfl

/-- Stripping one leading `./`. -/
theorem stripDotSlash_strip (name : String) : stripDotSlash ("./" ++ name) = name := by
  unfold stripDotSlash
  rw [if_pos ?hp]
  case hp =>
    show isPrefixC ("./".data) (("./" ++ name).data) = true
    rw [str_append_data, show ("./" : String).data = ['.','/'] from rfl]
    rfl
  apply str_ext
  show ("./" ++ name).data.drop 2 = name.data
  rw [str_append_data, show ("./" : String).data = ['.','/'] from rfl]
  rfl

/-- The directory resolver returns the text of a present nonempty file. -/
theorem dirResolver_ok (group : FileMap) (d x content : String) (hdot : d ≠ ".")
    (hg : fmGet group (pathJoin d x) = some (.text content)) (hc : content ≠ "") :
    dirResolver group d ("./" ++ x) = Except.ok content := by
  simp only [dirResolver]
  rw [stripDotSlash_strip]
  rw [show d ++ "/" ++ x = pathJoin d x from (by unfold pathJoin; rw [if_neg hdot])]
  rw [hg]
  simp only [FileContent.asText]
  rw [if_neg hc]

/-- An empty markdown file reads back empty. -/
theorem readMarkdown_empty : readMarkdown "" = "" := rfl

/-- A frontmatter-fenced markdown file is never the empty string. -/
theorem writeMarkdown_fm_ne_empty (t : String) (fm : JsObj) (hfm : ¬ fm.length = 0)
    (h1 : jsTrim t ≠ "")
    (h3 : containsSeq ("---".data) (jsTrim (yamlStringifyFm fm)).data = false) :
    writeMarkdown t fm ≠ "" := by
  intro h
  have h2 := readMarkdown_writeMarkdown_fm t fm hfm h1 h3
  rw [h, readMarkdown_empty] at h2
  exact h1 h2.symm

/-- The node-prompt extractor leaves keys other than its node files
untouched. -/
theorem extractNodePrompts_fmGet_other (nameById : List (String × String))
    (incoming : List (String × List String)) (d : String) :
    ∀ (nodes : List Json) (files : FileMap) (key : String),
    (∀ o : JsObj, Json.obj o ∈ nodes → nodeExtractable o = true →
      key ≠ pathJoin d (nodeFileNameOf o)) →
    fmGet (extractNodePrompts nameById incoming d nodes files).1 key = fmGet files key
  | [], files, key, _ => rfl
  | n :: rest, files, key, h => by
    have hrest : ∀ o : JsObj, Json.obj o ∈ rest → nodeExtractable o = true →
        key ≠ pathJoin d (nodeFileNameOf o) :=
      fun o hm he => h o (List.mem_cons_of_mem _ hm) he
    cases n with
    | obj o =>
      simp only [extractNodePrompts]
      by_cases he : nodeExtractable o = true
      · rw [if_pos he]
        cases hE : extractNodePrompts nameById incoming d rest
            (fmSet files (pathJoin d (nodeFileNameOf o))
              (.text (writeMarkdown (nodeInstructionText o) (nodeFrontmatter nameById incoming o)))) with
        | mk f2 r2 =>
          have h2 := extractNodePrompts_fmGet_other nameById incoming d rest
            (fmSet files (pathJoin d (nodeFileNameOf o))
              (.text (writeMarkdown (nodeInstructionText o) (nodeFrontmatter nameById incoming o))))
            key hrest
          rw [hE] at h2
          dsimp only
          rw [h2, fmGet_fmSet_ne files _ _ key (h o (List.mem_cons_self _ _) he)]
      · rw [if_neg he]
        cases hE : extractNodePrompts nameById incoming d rest files with
        | mk f2 r2 =>
          have h2 := extractNodePrompts_fmGet_other nameById incoming d rest files key hrest
          rw [hE] at h2
          exact h2
    | null =>
      simp only [extractNodePrompts]
      cases hE : extractNodePrompts nameById incoming d rest files with
      | mk f2 r2 =>
        have h2 := extractNodePrompts_fmGet_other nameById incoming d rest files key hrest
        rw [hE] at h2
        exact h2
    | bool b =>
      simp only [extractNodePrompts]
      cases hE : extractNodePrompts nameById incoming d rest files with
      | mk f2 r2 =>
        have h2 := extractNodePrompts_fmGet_other nameById incoming d rest files key hrest
        rw [hE] at h2
        exact h2
    | num q =>
      simp only [extractNodePrompts]
      cases hE : extractNodePrompts nameById incoming d rest files with
      | mk f2 r2 =>
        have h2 := extractNodePrompts_fmGet_other nameById incoming d rest files key hrest
        rw [hE] at h2
        exact h2
    | str s =>
      simp only [extractNodePrompts]
      cases hE : extractNodePrompts nameById incoming d rest files with
      | mk f2 r2 =>
        have h2 := extractNodePrompts_fmGet_other nameById incoming d rest files key hrest
        rw [hE] at h2
        exact h2
    | arr xs =>
      simp only [extractNodePrompts]
      cases hE : extractNodePrompts nameById incoming d rest files with
      | mk f2 r2 =>
        have h2 := extractNodePrompts_fmGet_other nameById incoming d rest files key hrest
        rw [hE] at h2
        exact h2

/-- The boolean filter selecting extractable object nodes. -/
def isExtractableNode (n : Json) : Bool :=
  match n with
  | .obj o => nodeExtractable o
  | _ => false

/-- The file name of a filtered node. -/
def nodeFileNameOfJson (n : Json) : String :=
  match n with
  | .obj o => nodeFileNameOf o
  | _ => ""

/-- Under duplicate-free node file names, the extractor file of an
extractable node reads back as its written markdown. -/
theorem extractNodePrompts_fmGet_node (nameById : List (String × String))
    (incoming : List (String × List String)) (d : String) (hdot : d ≠ ".") :
    ∀ (nodes : List Json) (files : FileMap) (o : JsObj),
    Json.obj o ∈ nodes → nodeExtractable o = true →
    nodupB ((nodes.filter isExtractableNode).map nodeFileNameOfJson) = true →
    fmGet (extractNodePrompts nameById incoming d nodes files).1 (pathJoin d (nodeFileNameOf o))
      = some (.text (writeMarkdown (nodeInstructionText o) (nodeFrontmatter nameById incoming o)))
  | [], _, _, hm, _, _ => absurd hm (List.not_mem_nil _)
  | n :: rest, files, o, hm, he, hnd => by
    rcases List.mem_cons.mp hm with heq | hmr
    · subst heq
      simp only [extractNodePrompts, if_pos he]
      rw [List.filter_cons_of_pos (by simpa [isExtractableNode] using he)] at hnd
      simp only [List.map_cons] at hnd
      obtain ⟨hne, _⟩ := nodupB_cons _ _ hnd
      cases hE : extractNodePrompts nameById incoming d rest
          (fmSet files (pathJoin d (nodeFileNameOf o))
            (.text (writeMarkdown (nodeInstructionText o) (nodeFrontmatter nameById incoming o)))) with
      | mk f2 r2 =>
        dsimp only
        have h2 := extractNodePrompts_fmGet_other nameById incoming d rest
          (fmSet files (pathJoin d (nodeFileNameOf o))
            (.text (writeMarkdown (nodeInstructionText o) (nodeFrontmatter nameById incoming o))))
          (pathJoin d (nodeFileNameOf o)) ?hother
        case hother =>
          intro o2 hm2 he2
          have hf2 : nodeFileNameOf o2 ≠ nodeFileNameOf o := by
            have hmem : Json.obj o2 ∈ rest.filter isExtractableNode :=
              List.mem_filter.mpr ⟨hm2, by simpa [isExtractableNode] using he2⟩
            exact hne (nodeFileNameOfJson (Json.obj o2)) (List.mem_map_of_mem _ hmem)
          exact pathJoin_ne d hdot _ _ (fun hx => hf2 hx.symm)
        rw [hE] at h2
        rw [h2, fmGet_fmSet_self]
    · have hndr : nodupB ((rest.filter isExtractableNode).map nodeFileNameOfJson) = true := by
        by_cases hh : isExtractableNode n = true
        · rw [List.filter_cons_of_pos hh] at hnd
          simp only [List.map_cons] at hnd
          exact (nodupB_cons _ _ hnd).2
        · rw [List.filter_cons_of_neg (by simpa using hh)] at hnd
          exact hnd
      cases n with
      | obj o0 =>
        simp only [extractNodePrompts]
        by_cases he0 : nodeExtractable o0 = true
        · rw [if_pos he0]
          cases hE : extractNodePrompts nameById incoming d rest
              (fmSet files (pathJoin d (nodeFileNameOf o0))
                (.text (writeMarkdown (nodeInstructionText o0) (nodeFrontmatter nameById incoming o0)))) with
          | mk f2 r2 =>
            dsimp only
            have h2 := extractNodePrompts_fmGet_node nameById incoming d hdot rest
              (fmSet files (pathJoin d (nodeFileNameOf o0))
                (.text (writeMarkdown (nodeInstructionText o0) (nodeFrontmatter nameById incoming o0))))
              o hmr he hndr
            rw [hE] at h2
            exact h2
        · rw [if_neg he0]
          cases hE : extractNodePrompts nameById incoming d rest files with
          | mk f2 r2 =>
            have h2 := extractNodePrompts_fmGet_node nameById incoming d hdot rest files o hmr he hndr
            rw [hE] at h2
            exact h2
      | null =>
        simp only [extractNodePrompts]
        cases hE : extractNodePrompts nameById incoming d rest files with
        | mk f2 r2 =>
          have h2 := extractNodePrompts_fmGet_node nameById incoming d hdot rest files o hmr he hndr
          rw [hE] at h2
          exact h2
      | bool b =>
        simp only [extractNodePrompts]
        cases hE : extractNodePrompts nameById incoming d rest files with
        | mk f2 r2 =>
          have h2 := extractNodePrompts_fmGet_node nameById incoming d hdot rest files o hmr he hndr
          rw [hE] at h2
          exact h2
      | num q =>
        simp only [extractNodePrompts]
        cases hE : extractNodePrompts nameById incoming d rest files with
        | mk f2 r2 =>
          have h2 := extractNodePrompts_fmGet_node nameById incoming d hdot rest files o hmr he hndr
          rw [hE] at h2
          exact h2
      | str s =>
        simp only [extractNodePrompts]
        cases hE : extractNodePrompts nameById incoming d rest files with
        | mk f2 r2 =>
          have h2 := extractNodePrompts_fmGet_node nameById incoming d hdot rest files o hmr he hndr
          rw [hE] at h2
          exact h2
      | arr xs =>
        simp only [extractNodePrompts]
        cases hE : extractNodePrompts nameById incoming d rest files with
        | mk f2 r2 =>
          have h2 := extractNodePrompts_fmGet_node nameById incoming d hdot rest files o hmr he hndr
          rw [hE] at h2
          exact h2

/-- A body-only markdown write is just a trim. -/
theorem writeMarkdown_nil (b : String) : writeMarkdown b .nil = jsTrim b := rfl

/-- A well-formed truthy prompt field is a robust nonempty string. -/
theorem promptField_truthy_str (cfg : JsObj) (k : String)
    (hok : promptFieldOK cfg k = true) (ht : truthyField cfg k = true) :
    ∃ s, cfg.lookup k = some (.str s) ∧ s ≠ "" ∧ jsTrim s ≠ "" ∧
      jsStartsWith (jsTrim s) "---" = false := by
  unfold truthyField at ht
  unfold promptFieldOK at hok
  cases hl : cfg.lookup k with
  | none => rw [hl] at ht; exact absurd ht (by simp)
  | some v =>
    rw [hl] at ht hok
    cases v with
    | str s =>
      refine ⟨s, rfl, ?hne, ?htr, ?hpre⟩
      case hne =>
        intro hse
        subst hse
        exact absurd ht (by simp [Json.truthy])
      all_goals
        rcases (by simpa using hok : s = "" ∨ (jsTrim s ≠ "" ∧
          jsStartsWith (jsTrim s) "---" = false)) with hse | hgood
      case htr.inl =>
        subst hse
        exact absurd ht (by simp [Json.truthy])
      case htr.inr => exact hgood.1
      case hpre.inl =>
        subst hse
        exact absurd ht (by simp [Json.truthy])
      case hpre.inr => exact hgood.2
    | null => exact absurd ht (by simp [Json.truthy])
    | bool b =>
      exact absurd (show Json.truthy (.bool b) = true from ht)
        (of_decide_eq_true (show decide (¬ Json.truthy (.bool b) = true) = true from hok))
    | num q =>
      exact absurd (show Json.truthy (.num q) = true from ht)
        (of_decide_eq_true (show decide (¬ Json.truthy (.num q) = true) = true from hok))
    | arr xs =>
      exact absurd (show Json.truthy (.arr xs) = true from ht)
        (of_decide_eq_true (show decide (¬ Json.truthy (.arr xs) = true) = true from hok))
    | obj o =>
      exact absurd (show Json.truthy (.obj o) = true from ht)
        (of_decide_eq_true (show decide (¬ Json.truthy (.obj o) = true) = true from hok))

/-- Resolving a config whose prompt key was swapped for its extracted
placeholder restores the trimmed prompt in place. -/
theorem resolvePromptSet (group : FileMap) (d : String) (hdot : d ≠ ".")
    (cfg : JsObj) (k fn : String)
    (hnp : JsObj.noPlaceholders cfg = true) (hok : promptFieldOK cfg k = true)
    (ht : truthyField cfg k = true)
    (hfile : fmGet group (pathJoin d fn) = some (.text
      (writeMarkdown (displayString ((cfg.lookup k).getD .null)) .nil))) :
    resolveObjPlaceholders (dirResolver group d) (cfg.set k (.str ("file://./" ++ fn)))
      = Except.ok (cfg.set k (.str (jsTrim (displayString ((cfg.lookup k).getD .null))))) := by
  obtain ⟨s, hl, hne, htr, hpre⟩ := promptField_truthy_str cfg k hok ht
  rw [hl]
  have hds : displayString ((some (Json.str s)).getD .null) = s := rfl
  rw [hds]
  rw [hl, hds] at hfile
  have hcontent : writeMarkdown s .nil ≠ "" := by
    rw [writeMarkdown_nil]
    exact htr
  have hread : readMarkdown (writeMarkdown s JsObj.nil) = jsTrim s :=
    readMarkdown_writeMarkdown_nofm s hpre
  have hres : resolvesTo (dirResolver group d) (.str ("file://./" ++ fn))
      (.str (jsTrim s)) := by
    have h1 := resolvesTo_placeholder (dirResolver group d) ("file://./" ++ fn)
      (writeMarkdown s JsObj.nil) (startsWith_file_placeholder fn) ?hr ?hb
    case hr =>
      rw [stripFileScheme_placeholder fn]
      exact dirResolver_ok group d fn _ hdot hfile hcontent
    case hb =>
      rw [hread]
      exact htr
    rw [hread] at h1
    exact h1
  exact fieldsResolve_resolveObj _ _ _
    (fieldsResolve_set _ cfg cfg k _ _ (fieldsResolve_of_noPlaceholders _ cfg hnp) hres)

/-- Decoding the stored response-engine object restores the reference. -/
theorem decodeMetaRE_reForMeta (re : ResponseEngine) (hok : reVersionOK re = true) :
    decodeMetaRE (some (reForMeta re)) = Except.ok (metaREof re) := by
  cases re with
  | retellLlm id v =>
    cases v with
    | undef => rfl
    | null => exact absurd hok (by simp [reVersionOK])
    | val q => rfl
  | conversationFlow id v =>
    cases v with
    | undef => rfl
    | null => exact absurd hok (by simp [reVersionOK])
    | val q => rfl
  | customLlm url => rfl

/-- Decoding the meta file written for an agent. -/
theorem decodeAgentMeta_written (i : String) (ver : Rat) (channel : String)
    (re : ResponseEngine) (hok : reVersionOK re = true)
    (hch : channel = "voice" ∨ channel = "chat") :
    decodeAgentMeta (.obj (.cons "id" (.str i) (.cons "version" (.num ver)
      (.cons "channel" (.str channel) (.cons "response_engine" (reForMeta re) .nil)))))
      = Except.ok ⟨i, ver, channel, metaREof re⟩ := by
  rcases hch with rfl | rfl
  · have h1 : decodeAgentMeta (.obj (.cons "id" (.str i) (.cons "version" (.num ver)
        (.cons "channel" (.str "voice") (.cons "response_engine" (reForMeta re) .nil)))))
        = (decodeMetaRE (some (reForMeta re)) >>= fun r =>
            Except.ok ⟨i, ver, "voice", r⟩) := rfl
    rw [h1, decodeMetaRE_reForMeta re hok, exceptBind_ok]
  · have h1 : decodeAgentMeta (.obj (.cons "id" (.str i) (.cons "version" (.num ver)
        (.cons "channel" (.str "chat") (.cons "response_engine" (reForMeta re) .nil)))))
        = (decodeMetaRE (some (reForMeta re)) >>= fun r =>
            Except.ok ⟨i, ver, "chat", r⟩) := rfl
    rw [h1, decodeMetaRE_reForMeta re hok, exceptBind_ok]

/-- Rebuilding a non-null reference version round-trips. -/
theorem metaVersionToJsOpt_coalesce (v : JsOpt Rat) (h : v ≠ .null) :
    metaVersionToJsOpt v.coalesce = v := by
  cases v with
  | undef => rfl
  | null => exact absurd rfl h
  | val q => rfl

/-- Placeholder freedom survives a set of a placeholder-free value. -/
theorem JsObj.noPlaceholders_set : ∀ (o : JsObj) (k : String) (v : Json),
    o.noPlaceholders = true → v.noPlaceholders = true →
    (o.set k v).noPlaceholders = true
  | .nil, k, v, _, hv => by
    simp only [JsObj.set, JsObj.noPlaceholders, Bool.and_eq_true]
    exact ⟨hv, trivial⟩
  | .cons k0 w tl, k, v, h, hv => by
    simp only [JsObj.noPlaceholders, Bool.and_eq_true] at h
    simp only [JsObj.set]
    by_cases h0 : k0 = k
    · rw [if_pos h0]
      simp only [JsObj.noPlaceholders, Bool.and_eq_true]
      exact ⟨hv, h.2⟩
    · rw [if_neg h0]
      simp only [JsObj.noPlaceholders, Bool.and_eq_true]
      exact ⟨h.1, JsObj.noPlaceholders_set tl k v h.2 hv⟩

/-- Removing a freshly set absent key restores the object. -/
theorem JsObj.removeKey_set_absent : ∀ (o : JsObj) (k : String) (v : Json),
    o.hasKey k = false → (o.set k v).removeKey k = o
  | .nil, k, v, _ => by simp [JsObj.set, JsObj.removeKey]
  | .cons k0 w tl, k, v, h => by
    simp only [JsObj.hasKey, JsObj.lookup] at h
    by_cases h0 : k0 = k
    · rw [if_pos h0] at h
      simp at h
    · rw [if_neg h0] at h
      simp only [JsObj.set, if_neg h0, JsObj.removeKey, if_neg h0]
      rw [JsObj.removeKey_set_absent tl k v (by simpa [JsObj.hasKey] using h)]

/-- The mutated node list of the prompt extractor is a pointwise
substitution. -/
theorem extractNodePrompts_snd (nameById : List (String × String))
    (incoming : List (String × List String)) (d : String) :
    ∀ (nodes : List Json) (files : FileMap),
    (extractNodePrompts nameById incoming d nodes files).2 = nodes.map promptSub
  | [], _ => rfl
  | n :: rest, files => by
    cases n with
    | obj o =>
      simp only [extractNodePrompts, List.map_cons]
      by_cases he : nodeExtractable o = true
      · rw [if_pos he]
        cases hE : extractNodePrompts nameById incoming d rest
            (fmSet files (pathJoin d (nodeFileNameOf o))
              (.text (writeMarkdown (nodeInstructionText o) (nodeFrontmatter nameById incoming o)))) with
        | mk f2 r2 =>
          dsimp only
          have h2 := extractNodePrompts_snd nameById incoming d rest
            (fmSet files (pathJoin d (nodeFileNameOf o))
              (.text (writeMarkdown (nodeInstructionText o) (nodeFrontmatter nameById incoming o))))
          rw [hE] at h2
          dsimp only at h2
          rw [h2]
          simp only [promptSub, if_pos he]
          cases hio : o.lookup "instruction" with
          | none => rfl
          | some v =>
            cases v with
            | obj io => rfl
            | null => rfl
            | bool b => rfl
            | num q => rfl
            | str s => rfl
            | arr xs => rfl
      · rw [if_neg he]
        cases hE : extractNodePrompts nameById incoming d rest files with
        | mk f2 r2 =>
          dsimp only
          have h2 := extractNodePrompts_snd nameById incoming d rest files
          rw [hE] at h2
          dsimp only at h2
          rw [h2]
          simp only [promptSub, if_neg he]
    | null =>
      simp only [extractNodePrompts, List.map_cons]
      cases hE : extractNodePrompts nameById incoming d rest files with
      | mk f2 r2 =>
        dsimp only
        have h2 := extractNodePrompts_snd nameById incoming d rest files
        rw [hE] at h2
        dsimp only at h2
        rw [h2]
        rfl
    | bool b =>
      simp only [extractNodePrompts, List.map_cons]
      cases hE : extractNodePrompts nameById incoming d rest files with
      | mk f2 r2 =>
        dsimp only
        have h2 := extractNodePrompts_snd nameById incoming d rest files
        rw [hE] at h2
        dsimp only at h2
        rw [h2]
        rfl
    | num q =>
      simp only [extractNodePrompts, List.map_cons]
      cases hE : extractNodePrompts nameById incoming d rest files with
      | mk f2 r2 =>
        dsimp only
        have h2 := extractNodePrompts_snd nameById incoming d rest files
        rw [hE] at h2
        dsimp only at h2
        rw [h2]
        rfl
    | str s =>
      simp only [extractNodePrompts, List.map_cons]
      cases hE : extractNodePrompts nameById incoming d rest files with
      | mk f2 r2 =>
        dsimp only
        have h2 := extractNodePrompts_snd nameById incoming d rest files
        rw [hE] at h2
        dsimp only at h2
        rw [h2]
        rfl
    | arr xs =>
      simp only [extractNodePrompts, List.map_cons]
      cases hE : extractNodePrompts nameById incoming d rest files with
      | mk f2 r2 =>
        dsimp only
        have h2 := extractNodePrompts_snd nameById incoming d rest files
        rw [hE] at h2
        dsimp only at h2
        rw [h2]
        rfl

/-- The node position extractor is the collected map and a pointwise
strip. -/
theorem extractNodePositions_eq : ∀ nodes : List Json,
    extractNodePositions nodes = (posMapOf nodes, nodes.map posStrip)
  | [] => rfl
  | n :: rest => by
    simp only [extractNodePositions, extractNodePositions_eq rest, List.map_cons]
    cases n with
    | obj o =>
      dsimp only [posMapOf, posStrip]
      by_cases hc : truthyField o "id" = true ∧ truthyField o "display_position" = true
      · simp only [if_pos hc]
      · simp only [if_neg hc]
    | null => rfl
    | bool b => rfl
    | num q => rfl
    | str s => rfl
    | arr xs => rfl

/-- The component position extractor likewise. -/
theorem extractComponentPositions_eq : ∀ comps : List Json,
    extractComponentPositions comps = (compMapOf comps, comps.map compStrip)
  | [] => rfl
  | c :: rest => by
    simp only [extractComponentPositions, extractComponentPositions_eq rest, List.map_cons]
    cases c with
    | obj o =>
      dsimp only [compMapOf, compStrip]
      by_cases hc : truthyField o "name" = true ∧ truthyField o "begin_tag_display_position" = true
      · simp only [if_pos hc]
      · simp only [if_neg hc]
    | null => rfl
    | bool b => rfl
    | num q => rfl
    | str s => rfl
    | arr xs => rfl

/-- A position map has no entry for an id absent from the node ids. -/
theorem posMapOf_lookup_absent : ∀ (ns : List Json) (s : String),
    (∀ y ∈ ns.filterMap nodeIdOf, y ≠ s) → (posMapOf ns).lookup s = none
  | [], _, _ => rfl
  | n :: rest, s, h => by
    have hrest : ∀ y ∈ rest.filterMap nodeIdOf, y ≠ s := by
      intro y hy
      refine h y ?hmem
      rw [List.filterMap_cons]
      cases hh : nodeIdOf n with
      | none => exact hy
      | some z => exact List.mem_cons_of_mem _ hy
    cases n with
    | obj o =>
      dsimp only [posMapOf]
      by_cases hc : truthyField o "id" = true ∧ truthyField o "display_position" = true
      · rw [if_pos hc]
        simp only [JsObj.lookup]
        rw [if_neg ?hne]
        case hne =>
          refine h (displayString ((o.lookup "id").getD .null)) ?hm2
          rw [List.filterMap_cons]
          rw [show nodeIdOf (Json.obj o) = some (displayString ((o.lookup "id").getD .null))
            from by simp [nodeIdOf, hc.1]]
          exact List.mem_cons_self _ _
        exact posMapOf_lookup_absent rest s hrest
      · rw [if_neg hc]
        exact posMapOf_lookup_absent rest s hrest
    | null => exact posMapOf_lookup_absent rest s hrest
    | bool b => exact posMapOf_lookup_absent rest s hrest
    | num q => exact posMapOf_lookup_absent rest s hrest
    | str s2 => exact posMapOf_lookup_absent rest s hrest
    | arr xs => exact posMapOf_lookup_absent rest s hrest

/-- A qualifying node's id is found in the position map with its rounded
position. -/
theorem posMapOf_lookup_self : ∀ (ns : List Json) (o : JsObj),
    Json.obj o ∈ ns → truthyField o "id" = true →
    truthyField o "display_position" = true →
    nodupB (ns.filterMap nodeIdOf) = true →
    (posMapOf ns).lookup (displayString ((o.lookup "id").getD .null))
      = some (roundPos ((o.lookup "display_position").getD .null))
  | [], _, hm, _, _, _ => absurd hm (List.not_mem_nil _)
  | n :: rest, o, hm, hid, hdp, hnd => by
    rcases List.mem_cons.mp hm with heq | hmr
    · subst heq
      dsimp only [posMapOf]
      rw [if_pos ⟨hid, hdp⟩]
      simp [JsObj.lookup]
    · have hids : nodeIdOf (Json.obj o) = some (displayString ((o.lookup "id").getD .null)) := by
        simp [nodeIdOf, hid]
      cases n with
      | obj om =>
        dsimp only [posMapOf]
        by_cases hcm : truthyField om "id" = true ∧ truthyField om "display_position" = true
        · rw [if_pos hcm]
          rw [List.filterMap_cons, show nodeIdOf (Json.obj om)
            = some (displayString ((om.lookup "id").getD .null)) from by simp [nodeIdOf, hcm.1]] at hnd
          obtain ⟨hne, hnd2⟩ := nodupB_cons _ _ hnd
          simp only [JsObj.lookup]
          rw [if_neg ?hneq]
          case hneq =>
            intro he
            exact hne (displayString ((o.lookup "id").getD .null))
              (List.mem_filterMap.mpr ⟨Json.obj o, hmr, hids⟩) he.symm
          exact posMapOf_lookup_self rest o hmr hid hdp hnd2
        · rw [if_neg hcm]
          refine posMapOf_lookup_self rest o hmr hid hdp ?hnd3
          rw [List.filterMap_cons] at hnd
          cases hh : nodeIdOf (Json.obj om) with
          | none => rw [hh] at hnd; exact hnd
          | some z => rw [hh] at hnd; exact (nodupB_cons _ _ hnd).2
      | null =>
        refine posMapOf_lookup_self rest o hmr hid hdp ?hnd4
        rw [List.filterMap_cons] at hnd
        exact hnd
      | bool b =>
        refine posMapOf_lookup_self rest o hmr hid hdp ?hnd5
        rw [List.filterMap_cons] at hnd
        exact hnd
      | num q =>
        refine posMapOf_lookup_self rest o hmr hid hdp ?hnd6
        rw [List.filterMap_cons] at hnd
        exact hnd
      | str s =>
        refine posMapOf_lookup_self rest o hmr hid hdp ?hnd7
        rw [List.filterMap_cons] at hnd
        exact hnd
      | arr xs =>
        refine posMapOf_lookup_self rest o hmr hid hdp ?hnd8
        rw [List.filterMap_cons] at hnd
        exact hnd

/-- A truthy-id node without a truthy position is absent from the
position map. -/
theorem posMapOf_lookup_noneq : ∀ (ns : List Json) (o : JsObj),
    Json.obj o ∈ ns → truthyField o "id" = true →
    ¬ truthyField o "display_position" = true →
    nodupB (ns.filterMap nodeIdOf) = true →
    (posMapOf ns).lookup (displayString ((o.lookup "id").getD .null)) = none
  | [], _, hm, _, _, _ => absurd hm (List.not_mem_nil _)
  | n :: rest, o, hm, hid, hdp, hnd => by
    have hids : nodeIdOf (Json.obj o) = some (displayString ((o.lookup "id").getD .null)) := by
      simp [nodeIdOf, hid]
    rcases List.mem_cons.mp hm with heq | hmr
    · subst heq
      dsimp only [posMapOf]
      rw [if_neg (fun hc => hdp hc.2)]
      rw [List.filterMap_cons, hids] at hnd
      obtain ⟨hne, _⟩ := nodupB_cons _ _ hnd
      exact posMapOf_lookup_absent rest _ hne
    · cases n with
      | obj om =>
        dsimp only [posMapOf]
        by_cases hcm : truthyField om "id" = true ∧ truthyField om "display_position" = true
        · rw [if_pos hcm]
          rw [List.filterMap_cons, show nodeIdOf (Json.obj om)
            = some (displayString ((om.lookup "id").getD .null)) from by simp [nodeIdOf, hcm.1]] at hnd
          obtain ⟨hne, hnd2⟩ := nodupB_cons _ _ hnd
          simp only [JsObj.lookup]
          rw [if_neg ?hneq2]
          case hneq2 =>
            intro he
            exact hne (displayString ((o.lookup "id").getD .null))
              (List.mem_filterMap.mpr ⟨Json.obj o, hmr, hids⟩) he.symm
          exact posMapOf_lookup_noneq rest o hmr hid hdp hnd2
        · rw [if_neg hcm]
          refine posMapOf_lookup_noneq rest o hmr hid hdp ?hndb
          rw [List.filterMap_cons] at hnd
          cases hh : nodeIdOf (Json.obj om) with
          | none => rw [hh] at hnd; exact hnd
          | some z => rw [hh] at hnd; exact (nodupB_cons _ _ hnd).2
      | null =>
        refine posMapOf_lookup_noneq rest o hmr hid hdp ?hndc
        rw [List.filterMap_cons] at hnd
        exact hnd
      | bool b =>
        refine posMapOf_lookup_noneq rest o hmr hid hdp ?hndd
        rw [List.filterMap_cons] at hnd
        exact hnd
      | num q =>
        refine posMapOf_lookup_noneq rest o hmr hid hdp ?hnde
        rw [List.filterMap_cons] at hnd
        exact hnd
      | str s =>
        refine posMapOf_lookup_noneq rest o hmr hid hdp ?hndf
        rw [List.filterMap_cons] at hnd
        exact hnd
      | arr xs =>
        refine posMapOf_lookup_noneq rest o hmr hid hdp ?hndg
        rw [List.filterMap_cons] at hnd
        exact hnd

/-- A component position map has no entry for an id absent from the component names. -/
theorem compMapOf_lookup_absent : ∀ (ns : List Json) (s : String),
    (∀ y ∈ ns.filterMap componentNameOf, y ≠ s) → (compMapOf ns).lookup s = none
  | [], _, _ => rfl
  | n :: rest, s, h => by
    have hrest : ∀ y ∈ rest.filterMap componentNameOf, y ≠ s := by
      intro y hy
      refine h y ?hmem
      rw [List.filterMap_cons]
      cases hh : componentNameOf n with
      | none => exact hy
      | some z => exact List.mem_cons_of_mem _ hy
    cases n with
    | obj o =>
      dsimp only [compMapOf]
      by_cases hc : truthyField o "name" = true ∧ truthyField o "begin_tag_display_position" = true
      · rw [if_pos hc]
        simp only [JsObj.lookup]
        rw [if_neg ?cne]
        case cne =>
          refine h (displayString ((o.lookup "name").getD .null)) ?cm2
          rw [List.filterMap_cons]
          rw [show componentNameOf (Json.obj o) = some (displayString ((o.lookup "name").getD .null))
            from by simp [componentNameOf, hc.1]]
          exact List.mem_cons_self _ _
        exact compMapOf_lookup_absent rest s hrest
      · rw [if_neg hc]
        exact compMapOf_lookup_absent rest s hrest
    | null => exact compMapOf_lookup_absent rest s hrest
    | bool b => exact compMapOf_lookup_absent rest s hrest
    | num q => exact compMapOf_lookup_absent rest s hrest
    | str s2 => exact compMapOf_lookup_absent rest s hrest
    | arr xs => exact compMapOf_lookup_absent rest s hrest

/-- A qualifying component's id is found in the component position map with its rounded
position. -/
theorem compMapOf_lookup_self : ∀ (ns : List Json) (o : JsObj),
    Json.obj o ∈ ns → truthyField o "name" = true →
    truthyField o "begin_tag_display_position" = true →
    nodupB (ns.filterMap componentNameOf) = true →
    (compMapOf ns).lookup (displayString ((o.lookup "name").getD .null))
      = some (roundPos ((o.lookup "begin_tag_display_position").getD .null))
  | [], _, hm, _, _, _ => absurd hm (List.not_mem_nil _)
  | n :: rest, o, hm, hid, hdp, hnd => by
    rcases List.mem_cons.mp hm with heq | hmr
    · subst heq
      dsimp only [compMapOf]
      rw [if_pos ⟨hid, hdp⟩]
      simp [JsObj.lookup]
    · have hids : componentNameOf (Json.obj o) = some (displayString ((o.lookup "name").getD .null)) := by
        simp [componentNameOf, hid]
      cases n with
      | obj om =>
        dsimp only [compMapOf]
        by_cases hcm : truthyField om "name" = true ∧ truthyField om "begin_tag_display_position" = true
        · rw [if_pos hcm]
          rw [List.filterMap_cons, show componentNameOf (Json.obj om)
            = some (displayString ((om.lookup "name").getD .null)) from by simp [componentNameOf, hcm.1]] at hnd
          obtain ⟨hne, hnd2⟩ := nodupB_cons _ _ hnd
          simp only [JsObj.lookup]
          rw [if_neg ?cneq]
          case cneq =>
            intro he
            exact hne (displayString ((o.lookup "name").getD .null))
              (List.mem_filterMap.mpr ⟨Json.obj o, hmr, hids⟩) he.symm
          exact compMapOf_lookup_self rest o hmr hid hdp hnd2
        · rw [if_neg hcm]
          refine compMapOf_lookup_self rest o hmr hid hdp ?cnd3
          rw [List.filterMap_cons] at hnd
          cases hh : componentNameOf (Json.obj om) with
          | none => rw [hh] at hnd; exact hnd
          | some z => rw [hh] at hnd; exact (nodupB_cons _ _ hnd).2
      | null =>
        refine compMapOf_lookup_self rest o hmr hid hdp ?cnd4
        rw [List.filterMap_cons] at hnd
        exact hnd
      | bool b =>
        refine compMapOf_lookup_self rest o hmr hid hdp ?cnd5
        rw [List.filterMap_cons] at hnd
        exact hnd
      | num q =>
        refine compMapOf_lookup_self rest o hmr hid hdp ?cnd6
        rw [List.filterMap_cons] at hnd
        exact hnd
      | str s =>
        refine compMapOf_lookup_self rest o hmr hid hdp ?cnd7
        rw [List.filterMap_cons] at hnd
        exact hnd
      | arr xs =>
        refine compMapOf_lookup_self rest o hmr hid hdp ?cnd8
        rw [List.filterMap_cons] at hnd
        exact hnd

/-- A named component without a truthy position is absent from the
component position map. -/
theorem compMapOf_lookup_noneq : ∀ (ns : List Json) (o : JsObj),
    Json.obj o ∈ ns → truthyField o "name" = true →
    ¬ truthyField o "begin_tag_display_position" = true →
    nodupB (ns.filterMap componentNameOf) = true →
    (compMapOf ns).lookup (displayString ((o.lookup "name").getD .null)) = none
  | [], _, hm, _, _, _ => absurd hm (List.not_mem_nil _)
  | n :: rest, o, hm, hid, hdp, hnd => by
    have hids : componentNameOf (Json.obj o) = some (displayString ((o.lookup "name").getD .null)) := by
      simp [componentNameOf, hid]
    rcases List.mem_cons.mp hm with heq | hmr
    · subst heq
      dsimp only [compMapOf]
      rw [if_neg (fun hc => hdp hc.2)]
      rw [List.filterMap_cons, hids] at hnd
      obtain ⟨hne, _⟩ := nodupB_cons _ _ hnd
      exact compMapOf_lookup_absent rest _ hne
    · cases n with
      | obj om =>
        dsimp only [compMapOf]
        by_cases hcm : truthyField om "name" = true ∧ truthyField om "begin_tag_display_position" = true
        · rw [if_pos hcm]
          rw [List.filterMap_cons, show componentNameOf (Json.obj om)
            = some (displayString ((om.lookup "name").getD .null)) from by simp [componentNameOf, hcm.1]] at hnd
          obtain ⟨hne, hnd2⟩ := nodupB_cons _ _ hnd
          simp only [JsObj.lookup]
          rw [if_neg ?cneq2]
          case cneq2 =>
            intro he
            exact hne (displayString ((o.lookup "name").getD .null))
              (List.mem_filterMap.mpr ⟨Json.obj o, hmr, hids⟩) he.symm
          exact compMapOf_lookup_noneq rest o hmr hid hdp hnd2
        · rw [if_neg hcm]
          refine compMapOf_lookup_noneq rest o hmr hid hdp ?cndb
          rw [List.filterMap_cons] at hnd
          cases hh : componentNameOf (Json.obj om) with
          | none => rw [hh] at hnd; exact hnd
          | some z => rw [hh] at hnd; exact (nodupB_cons _ _ hnd).2
      | null =>
        refine compMapOf_lookup_noneq rest o hmr hid hdp ?cndc
        rw [List.filterMap_cons] at hnd
        exact hnd
      | bool b =>
        refine compMapOf_lookup_noneq rest o hmr hid hdp ?cndd
        rw [List.filterMap_cons] at hnd
        exact hnd
      | num q =>
        refine compMapOf_lookup_noneq rest o hmr hid hdp ?cnde
        rw [List.filterMap_cons] at hnd
        exact hnd
      | str s =>
        refine compMapOf_lookup_noneq rest o hmr hid hdp ?cndf
        rw [List.filterMap_cons] at hnd
        exact hnd
      | arr xs =>
        refine compMapOf_lookup_noneq rest o hmr hid hdp ?cndg
        rw [List.filterMap_cons] at hnd
        exact hnd

/-- Looked-up values of a placeholder-free object are placeholder-free. -/
theorem JsObj.noPlaceholders_lookup : ∀ (o : JsObj) (k : String) (v : Json),
    o.noPlaceholders = true → o.lookup k = some v → v.noPlaceholders = true
  | .nil, _, _, _, hl => by simp [JsObj.lookup] at hl
  | .cons k0 w tl, k, v, h, hl => by
    simp only [JsObj.noPlaceholders, Bool.and_eq_true] at h
    simp only [JsObj.lookup] at hl
    by_cases h0 : k0 = k
    · rw [if_pos h0] at hl
      injection hl with hl
      subst hl
      exact h.1
    · rw [if_neg h0] at hl
      exact JsObj.noPlaceholders_lookup tl k v h.2 hl

/-- Elements of a placeholder-free array are placeholder-free. -/
theorem JsArr.noPlaceholders_mem : ∀ (xs : JsArr) (n : Json),
    xs.noPlaceholders = true → n ∈ xs.toList → n.noPlaceholders = true
  | .nil, _, _, hm => absurd hm (by simp [JsArr.toList])
  | .cons x tl, n, h, hm => by
    simp only [JsArr.noPlaceholders, Bool.and_eq_true] at h
    simp only [JsArr.toList, List.mem_cons] at hm
    rcases hm with rfl | hm
    · exact h.1
    · exact JsArr.noPlaceholders_mem tl n h.2 hm

/-- Placeholder freedom survives key removal. -/
theorem JsObj.noPlaceholders_removeKey : ∀ (o : JsObj) (k : String),
    o.noPlaceholders = true → (o.removeKey k).noPlaceholders = true
  | .nil, _, _ => rfl
  | .cons k0 w tl, k, h => by
    simp only [JsObj.noPlaceholders, Bool.and_eq_true] at h
    simp only [JsObj.removeKey]
    by_cases h0 : k0 = k
    · rw [if_pos h0]
      exact JsObj.noPlaceholders_removeKey tl k h.2
    · rw [if_neg h0]
      simp only [JsObj.noPlaceholders, Bool.and_eq_true]
      exact ⟨h.1, JsObj.noPlaceholders_removeKey tl k h.2⟩

/-- A rounded position object is truthy. -/
theorem roundPos_truthy (p : Json) : (roundPos p).truthy = true := by
  cases p <;> rfl

/-- The shape an extractable node is guaranteed to have. -/
theorem nodeExtractable_shape (o : JsObj) (he : nodeExtractable o = true) :
    truthyField o "id" = true ∧
    ∃ io, o.lookup "instruction" = some (.obj io) ∧
      ∃ t, io.lookup "text" = some (.str t) ∧ nodeInstructionText o = t ∧
        jsStartsWith t "file://" = false := by
  unfold nodeExtractable at he
  simp only [Bool.and_eq_true] at he
  refine ⟨he.1.1, ?hio⟩
  rcases hi : o.lookup "instruction" with _ | v
  · rw [hi] at he
    exact absurd he.2 (by simp)
  · cases v with
    | obj io =>
      refine ⟨io, rfl, ?ht⟩
      rw [hi] at he
      have h2 := he.2
      simp only [Bool.and_eq_true] at h2
      rcases ht : io.lookup "text" with _ | w
      · rw [ht] at h2
        exact absurd h2.2 (by simp)
      · cases w with
        | str t =>
          refine ⟨t, rfl, ?hteq, ?hnost⟩
          case hteq => simp [nodeInstructionText, hi, ht]
          case hnost =>
            rw [ht] at h2
            simpa using h2.2
        | null => rw [ht] at h2; exact absurd h2.2 (by simp)
        | bool b => rw [ht] at h2; exact absurd h2.2 (by simp)
        | num q => rw [ht] at h2; exact absurd h2.2 (by simp)
        | arr xs => rw [ht] at h2; exact absurd h2.2 (by simp)
        | obj o2 => rw [ht] at h2; exact absurd h2.2 (by simp)
    | null => rw [hi] at he; exact absurd he.2 (by simp)
    | bool b => rw [hi] at he; exact absurd he.2 (by simp)
    | num q => rw [hi] at he; exact absurd he.2 (by simp)
    | str s => rw [hi] at he; exact absurd he.2 (by simp)
    | arr xs => rw [hi] at he; exact absurd he.2 (by simp)

/-- Lookup over a field-list concatenation. -/
theorem JsObj.lookup_append : ∀ (a b : JsObj) (k : String),
    (JsObj.append a b).lookup k =
      match a.lookup k with
      | some v => some v
      | none => b.lookup k
  | .nil, _, _ => rfl
  | .cons k0 v tl, b, k => by
    simp only [JsObj.append, JsObj.lookup]
    by_cases h0 : k0 = k
    · rw [if_pos h0, if_pos h0]
    · rw [if_neg h0, if_neg h0]
      exact JsObj.lookup_append tl b k

/-- The prompt substitution only changes the instruction field. -/
theorem promptSub_obj (o : JsObj) : ∃ o2, promptSub (Json.obj o) = Json.obj o2 ∧
    ∀ k, k ≠ "instruction" → o2.lookup k = o.lookup k := by
  dsimp only [promptSub]
  by_cases he : nodeExtractable o = true
  · rw [if_pos he]
    cases hi : o.lookup "instruction" with
    | none => exact ⟨o, rfl, fun _ _ => rfl⟩
    | some v =>
      cases v with
      | obj io =>
        refine ⟨_, rfl, fun k hk => ?hl⟩
        exact JsObj.lookup_set_ne o "instruction" _ k hk
      | null => exact ⟨o, rfl, fun _ _ => rfl⟩
      | bool b => exact ⟨o, rfl, fun _ _ => rfl⟩
      | num q => exact ⟨o, rfl, fun _ _ => rfl⟩
      | str s => exact ⟨o, rfl, fun _ _ => rfl⟩
      | arr xs => exact ⟨o, rfl, fun _ _ => rfl⟩
  · rw [if_neg he]
    exact ⟨o, rfl, fun _ _ => rfl⟩

/-- The trim substitution only changes the instruction field. -/
theorem trimSub_obj (o : JsObj) : ∃ o2, trimSub (Json.obj o) = Json.obj o2 ∧
    ∀ k, k ≠ "instruction" → o2.lookup k = o.lookup k := by
  dsimp only [trimSub]
  by_cases he : nodeExtractable o = true
  · rw [if_pos he]
    cases hi : o.lookup "instruction" with
    | none => exact ⟨o, rfl, fun _ _ => rfl⟩
    | some v =>
      cases v with
      | obj io =>
        refine ⟨_, rfl, fun k hk => ?hl2⟩
        exact JsObj.lookup_set_ne o "instruction" _ k hk
      | null => exact ⟨o, rfl, fun _ _ => rfl⟩
      | bool b => exact ⟨o, rfl, fun _ _ => rfl⟩
      | num q => exact ⟨o, rfl, fun _ _ => rfl⟩
      | str s => exact ⟨o, rfl, fun _ _ => rfl⟩
      | arr xs => exact ⟨o, rfl, fun _ _ => rfl⟩
  · rw [if_neg he]
    exact ⟨o, rfl, fun _ _ => rfl⟩

/-- The prompt substitution leaves the collected positions unchanged. -/
theorem posMapOf_promptSub : ∀ ns : List Json,
    posMapOf (ns.map promptSub) = posMapOf ns
  | [] => rfl
  | n :: rest => by
    simp only [List.map_cons]
    cases n with
    | obj o =>
      obtain ⟨o2, ho2, hl⟩ := promptSub_obj o
      rw [ho2]
      dsimp only [posMapOf]
      have hid : o2.lookup "id" = o.lookup "id" := hl "id" (by decide)
      have hdp : o2.lookup "display_position" = o.lookup "display_position" :=
        hl "display_position" (by decide)
      have htid : truthyField o2 "id" = truthyField o "id" := by
        unfold truthyField
        rw [hid]
      have htdp : truthyField o2 "display_position" = truthyField o "display_position" := by
        unfold truthyField
        rw [hdp]
      rw [htid, htdp, hid, hdp, posMapOf_promptSub rest]
    | null => exact posMapOf_promptSub rest
    | bool b => exact posMapOf_promptSub rest
    | num q => exact posMapOf_promptSub rest
    | str s => exact posMapOf_promptSub rest
    | arr xs => exact posMapOf_promptSub rest

/-- A pointwise resolution relation over a mapped list. -/
theorem elemsResolve_ofList_map (r : Resolver) (f g : Json → Json) :
    ∀ xs : List Json, (∀ n ∈ xs, resolvesTo r (f n) (g n)) →
    elemsResolve r (JsArr.ofList (xs.map f)) (JsArr.ofList (xs.map g))
  | [], _ => trivial
  | n :: rest, h =>
    ⟨h n (List.mem_cons_self _ _),
     elemsResolve_ofList_map r f g rest (fun m hm => h m (List.mem_cons_of_mem _ hm))⟩

/-- Field-wise resolution is stable under key removal. -/
theorem fieldsResolve_removeKey (r : Resolver) : ∀ (fs gs : JsObj) (k : String),
    fieldsResolve r fs gs → fieldsResolve r (fs.removeKey k) (gs.removeKey k)
  | .nil, .nil, _, _ => trivial
  | .nil, .cons _ _ _, _, h => h.elim
  | .cons _ _ _, .nil, _, h => h.elim
  | .cons k0 v tl, .cons k02 w tl2, k, h => by
    obtain ⟨hk, hv, htl⟩ := h
    subst hk
    simp only [JsObj.removeKey]
    by_cases h0 : k0 = k
    · rw [if_pos h0, if_pos h0]
      exact fieldsResolve_removeKey r tl tl2 k htl
    · rw [if_neg h0, if_neg h0]
      exact ⟨rfl, hv, fieldsResolve_removeKey r tl tl2 k htl⟩

/-- A node frontmatter always has at least its `nodeId` entry. -/
theorem nodeFrontmatter_ne_empty (nameById : List (String × String))
    (incoming : List (String × List String)) (o : JsObj) :
    ¬ (nodeFrontmatter nameById incoming o).length = 0 := by
  intro h
  exact Nat.succ_ne_zero _ (show JsObj.length (match
    (if truthyField o "name" then
      some (createFlowVisualization (displayString ((o.lookup "name").getD .null))
        ((jsMapGet incoming (displayString ((o.lookup "id").getD .null))).getD [])
        (nodeNextNames nameById o))
     else none) with
    | some s => JsObj.cons "flow" (.str s) .nil
    | none => JsObj.nil) + 1 = 0 from h)

/-- One written node resolves pointwise to its trimmed form. -/
theorem resolvesTo_node (group : FileMap) (d : String) (hdot : d ≠ ".")
    (nameById : List (String × String)) (incoming : List (String × List String))
    (n : Json) (hnp : n.noPlaceholders = true)
    (hwfn : nodeWF nameById incoming n = true)
    (hfile : ∀ o : JsObj, n = Json.obj o → nodeExtractable o = true →
      fmGet group (pathJoin d (nodeFileNameOf o)) = some (.text
        (writeMarkdown (nodeInstructionText o) (nodeFrontmatter nameById incoming o)))) :
    resolvesTo (dirResolver group d) (posStrip (promptSub n)) (posStrip (trimSub n)) := by
  cases n with
  | null => exact resolvesTo_of_noPlaceholders _ _ hnp
  | bool b => exact resolvesTo_of_noPlaceholders _ _ hnp
  | num q => exact resolvesTo_of_noPlaceholders _ _ hnp
  | str s => exact resolvesTo_of_noPlaceholders _ _ hnp
  | arr xs => exact resolvesTo_of_noPlaceholders _ _ hnp
  | obj o =>
    have honp : JsObj.noPlaceholders o = true := hnp
    by_cases he : nodeExtractable o = true
    · obtain ⟨hid, io, hio, t, hiot, hteq, hnost⟩ := nodeExtractable_shape o he
      have h2 : nodeWF nameById incoming (Json.obj o) = true := hwfn
      simp only [nodeWF] at h2
      rw [if_pos he] at h2
      simp only [Bool.and_eq_true, decide_eq_true_eq] at h2
      obtain ⟨⟨htrne, hpre⟩, hfence⟩ := h2
      have hionp : JsObj.noPlaceholders io = true :=
        JsObj.noPlaceholders_lookup o "instruction" (.obj io) honp hio
      have hcontent : writeMarkdown (nodeInstructionText o)
          (nodeFrontmatter nameById incoming o) ≠ "" :=
        writeMarkdown_fm_ne_empty _ _ (nodeFrontmatter_ne_empty nameById incoming o) htrne
          (by simpa using hfence)
      have hread : readMarkdown (writeMarkdown (nodeInstructionText o)
          (nodeFrontmatter nameById incoming o)) = jsTrim (nodeInstructionText o) :=
        readMarkdown_writeMarkdown_fm _ _ (nodeFrontmatter_ne_empty nameById incoming o)
          htrne (by simpa using hfence)
      have hph : resolvesTo (dirResolver group d)
          (.str ("file://./" ++ nodeFileNameOf o))
          (.str (jsTrim (nodeInstructionText o))) := by
        have h1 := resolvesTo_placeholder (dirResolver group d)
          ("file://./" ++ nodeFileNameOf o)
          (writeMarkdown (nodeInstructionText o) (nodeFrontmatter nameById incoming o))
          (startsWith_file_placeholder _) ?hr ?hb
        case hr =>
          rw [stripFileScheme_placeholder]
          exact dirResolver_ok group d _ _ hdot (hfile o rfl he) hcontent
        case hb =>
          rw [hread]
          exact htrne
        rw [hread] at h1
        exact h1
      have hfr : fieldsResolve (dirResolver group d)
          (o.set "instruction" (.obj (io.set "text" (.str ("file://./" ++ nodeFileNameOf o)))))
          (o.set "instruction" (.obj (io.set "text" (.str (jsTrim (nodeInstructionText o)))))) :=
        fieldsResolve_set _ o o "instruction" _ _
          (fieldsResolve_of_noPlaceholders _ o honp)
          (resolvesTo_obj _ _ _
            (fieldsResolve_set _ io io "text" _ _
              (fieldsResolve_of_noPlaceholders _ io hionp) hph))
      have hps : promptSub (Json.obj o) = Json.obj
          (o.set "instruction" (.obj (io.set "text" (.str ("file://./" ++ nodeFileNameOf o))))) := by
        dsimp only [promptSub]
        rw [if_pos he, hio]
      have hts : trimSub (Json.obj o) = Json.obj
          (o.set "instruction" (.obj (io.set "text" (.str (jsTrim (nodeInstructionText o)))))) := by
        dsimp only [trimSub]
        rw [if_pos he, hio]
      rw [hps, hts]
      have htid : truthyField (o.set "instruction"
          (.obj (io.set "text" (.str ("file://./" ++ nodeFileNameOf o))))) "id"
          = truthyField o "id" := by
        unfold truthyField
        rw [JsObj.lookup_set_ne o "instruction" _ "id" (by decide)]
      have htdp : truthyField (o.set "instruction"
          (.obj (io.set "text" (.str ("file://./" ++ nodeFileNameOf o))))) "display_position"
          = truthyField o "display_position" := by
        unfold truthyField
        rw [JsObj.lookup_set_ne o "instruction" _ "display_position" (by decide)]
      have htid2 : truthyField (o.set "instruction"
          (.obj (io.set "text" (.str (jsTrim (nodeInstructionText o)))))) "id"
          = truthyField o "id" := by
        unfold truthyField
        rw [JsObj.lookup_set_ne o "instruction" _ "id" (by decide)]
      have htdp2 : truthyField (o.set "instruction"
          (.obj (io.set "text" (.str (jsTrim (nodeInstructionText o)))))) "display_position"
          = truthyField o "display_position" := by
        unfold truthyField
        rw [JsObj.lookup_set_ne o "instruction" _ "display_position" (by decide)]
      dsimp only [posStrip]
      rw [htid, htdp, htid2, htdp2]
      by_cases hq : truthyField o "id" = true ∧ truthyField o "display_position" = true
      · rw [if_pos hq, if_pos hq]
        exact resolvesTo_obj _ _ _ (fieldsResolve_removeKey _ _ _ "display_position" hfr)
      · rw [if_neg hq, if_neg hq]
        exact resolvesTo_obj _ _ _ hfr
    · have hps : promptSub (Json.obj o) = Json.obj o := by
        dsimp only [promptSub]
        rw [if_neg he]
      have hts : trimSub (Json.obj o) = Json.obj o := by
        dsimp only [trimSub]
        rw [if_neg he]
      rw [hps, hts]
      dsimp only [posStrip]
      by_cases hq : truthyField o "id" = true ∧ truthyField o "display_position" = true
      · rw [if_pos hq]
        refine resolvesTo_of_noPlaceholders _ _ ?hnp2
        exact JsObj.noPlaceholders_removeKey o "display_position" honp
      · rw [if_neg hq]
        exact resolvesTo_of_noPlaceholders _ _ hnp

/-- Restoring positions after the strip gives the round-trip node. -/
theorem nodeRestore_strip (ns : List Json) (n : Json) (hm : n ∈ ns)
    (hnd : nodupB (ns.filterMap nodeIdOf) = true) :
    nodeRestore (posMapOf ns) (posStrip (trimSub n)) = rtNode n := by
  cases n with
  | null => rfl
  | bool b => rfl
  | num q => rfl
  | str s => rfl
  | arr xs => rfl
  | obj o =>
    obtain ⟨ot, hot, hlt⟩ := trimSub_obj o
    have tid : truthyField ot "id" = truthyField o "id" := by
      unfold truthyField
      rw [hlt "id" (by decide)]
    have tdp : truthyField ot "display_position" = truthyField o "display_position" := by
      unfold truthyField
      rw [hlt "display_position" (by decide)]
    have lid : ot.lookup "id" = o.lookup "id" := hlt "id" (by decide)
    have ldp : ot.lookup "display_position" = o.lookup "display_position" :=
      hlt "display_position" (by decide)
    rw [show rtNode (Json.obj o) = (match trimSub (Json.obj o) with
      | .obj ot2 =>
        if truthyField ot2 "id" = true ∧ truthyField ot2 "display_position" = true then
          Json.obj ((ot2.removeKey "display_position").set "display_position"
            (roundPos ((ot2.lookup "display_position").getD .null)))
        else Json.obj ot2
      | other => other) from rfl, hot]
    dsimp only [posStrip]
    rw [tid, tdp]
    by_cases hq : truthyField o "id" = true ∧ truthyField o "display_position" = true
    · rw [if_pos hq, if_pos hq]
      dsimp only [nodeRestore]
      have trid : truthyField (ot.removeKey "display_position") "id" = truthyField o "id" := by
        unfold truthyField
        rw [JsObj.lookup_removeKey ot "display_position" "id", if_neg (by decide), lid]
      rw [trid, if_pos hq.1]
      rw [show (ot.removeKey "display_position").lookup "id" = o.lookup "id" from by
        rw [JsObj.lookup_removeKey ot "display_position" "id", if_neg (by decide), lid]]
      rw [posMapOf_lookup_self ns o hm hq.1 hq.2 hnd]
      dsimp only
      rw [if_pos (roundPos_truthy _)]
      rw [ldp]
    · rw [if_neg hq, if_neg hq]
      dsimp only [nodeRestore]
      rw [tid]
      by_cases hid : truthyField o "id" = true
      · rw [if_pos hid, lid]
        rw [posMapOf_lookup_noneq ns o hm hid (fun hdp => hq ⟨hid, hdp⟩) hnd]
      · rw [if_neg hid]

/-- Restoring component positions after the strip gives the round-trip
component. -/
theorem compRestore_strip (cs : List Json) (c : Json) (hm : c ∈ cs)
    (hnd : nodupB (cs.filterMap componentNameOf) = true) :
    compRestore (compMapOf cs) (compStrip c) = rtComp c := by
  cases c with
  | null => rfl
  | bool b => rfl
  | num q => rfl
  | str s => rfl
  | arr xs => rfl
  | obj o =>
    dsimp only [compStrip, rtComp]
    by_cases hq : truthyField o "name" = true ∧ truthyField o "begin_tag_display_position" = true
    · rw [if_pos hq, if_pos hq]
      dsimp only [compRestore]
      have trn : truthyField (o.removeKey "begin_tag_display_position") "name"
          = truthyField o "name" := by
        unfold truthyField
        rw [JsObj.lookup_removeKey o "begin_tag_display_position" "name", if_neg (by decide)]
      rw [trn, if_pos hq.1]
      rw [show (o.removeKey "begin_tag_display_position").lookup "name" = o.lookup "name" from by
        rw [JsObj.lookup_removeKey o "begin_tag_display_position" "name", if_neg (by decide)]]
      rw [compMapOf_lookup_self cs o hm hq.1 hq.2 hnd]
      dsimp only
      rw [if_pos (roundPos_truthy _)]
    · rw [if_neg hq, if_neg hq]
      dsimp only [compRestore]
      by_cases hn : truthyField o "name" = true
      · rw [if_pos hn]
        rw [compMapOf_lookup_noneq cs o hm hn (fun hdp => hq ⟨hn, hdp⟩) hnd]
      · rw [if_neg hn]

/-- The files the flow writer produces, in terms of the original config. -/
theorem serializeFlowFiles_files (flow : CanonicalConversationFlow) (d : String)
    (files : FileMap) :
    (serializeFlowFiles flow d files).1 =
      (let files₁ := if truthyField flow.config "global_prompt" then
          fmSet files (pathJoin d "global_prompt.md")
            (.text (writeMarkdown (displayString ((flow.config.lookup "global_prompt").getD .null)) .nil))
        else files
      let files₂ := match (if truthyField flow.config "global_prompt" then
          flow.config.set "global_prompt" (.str "file://./global_prompt.md")
        else flow.config).lookup "nodes" with
        | some (.arr ns) =>
          (extractNodePrompts (nodeNamesById ns.toList) (incomingEdgeNames ns.toList) d
            ns.toList files₁).1
        | _ => files₁
      let files₃ := if (wFlowPos flow.config).length > 0 then
          fmSet files₂ (pathJoin d ".positions.json") (.json (.obj (wFlowPos flow.config)))
        else files₂
      fmSet files₃ (pathJoin d "conversation-flow.yaml") (.yaml (.obj (wFlowCfg flow.config)))) := by
  simp only [serializeFlowFiles, flowGpStage, flowNodesStage, wFlowParts, wFlowPos, wFlowCfg]
  by_cases hgp : truthyField flow.config "global_prompt" = true
  · simp only [if_pos hgp]
    cases hn : (flow.config.set "global_prompt" (Json.str "file://./global_prompt.md")).lookup
        "nodes" with
    | none => dsimp only
    | some v =>
      cases v with
      | arr ns =>
        dsimp only
        rw [show (extractNodePrompts (nodeNamesById ns.toList) (incomingEdgeNames ns.toList) d
            ns.toList (fmSet files (pathJoin d "global_prompt.md")
              (.text (writeMarkdown (displayString ((flow.config.lookup "global_prompt").getD .null)) .nil))))
          = ((extractNodePrompts (nodeNamesById ns.toList) (incomingEdgeNames ns.toList) d
            ns.toList (fmSet files (pathJoin d "global_prompt.md")
              (.text (writeMarkdown (displayString ((flow.config.lookup "global_prompt").getD .null)) .nil)))).1,
            ns.toList.map promptSub) from by
          rw [← extractNodePrompts_snd (nodeNamesById ns.toList) (incomingEdgeNames ns.toList) d ns.toList]]
      | null => dsimp only
      | bool b => dsimp only
      | num q => dsimp only
      | str s => dsimp only
      | obj o => dsimp only
  · simp only [if_neg hgp]
    cases hn : flow.config.lookup "nodes" with
    | none => dsimp only
    | some v =>
      cases v with
      | arr ns =>
        dsimp only
        rw [show (extractNodePrompts (nodeNamesById ns.toList) (incomingEdgeNames ns.toList) d
            ns.toList files)
          = ((extractNodePrompts (nodeNamesById ns.toList) (incomingEdgeNames ns.toList) d
            ns.toList files).1, ns.toList.map promptSub) from by
          rw [← extractNodePrompts_snd (nodeNamesById ns.toList) (incomingEdgeNames ns.toList) d ns.toList]]
      | null => dsimp only
      | bool b => dsimp only
      | num q => dsimp only
      | str s => dsimp only
      | obj o => dsimp only

/-- The position stage in terms of the collected maps and pointwise
strips. -/
theorem flowPosStage_norm (c : JsObj) (onodes : Option (List Json)) :
    flowPosStage c onodes =
      (let btF := if truthyField c "begin_tag_display_position" then
          JsObj.cons "begin_tag" (roundPos ((c.lookup "begin_tag_display_position").getD .null)) .nil
        else .nil
      let c₃ := if truthyField c "begin_tag_display_position" then
          c.removeKey "begin_tag_display_position"
        else c
      let ndF := match onodes with
        | some ns =>
          if (posMapOf ns).length = 0 then JsObj.nil
          else JsObj.cons "nodes" (.obj (posMapOf ns)) .nil
        | none => JsObj.nil
      let c₄ := match onodes with
        | some ns => c₃.set "nodes" (.arr (JsArr.ofList (ns.map posStrip)))
        | none => c₃
      let n2 := match onodes with
        | some ns => some (ns.map posStrip)
        | none => none
      let cpF := if truthyField c₄ "components" then
          match c₄.lookup "components" with
          | some (.arr cs) =>
            if (compMapOf cs.toList).length = 0 then JsObj.nil
            else JsObj.cons "components" (.obj (compMapOf cs.toList)) .nil
          | _ => JsObj.nil
        else JsObj.nil
      let c₅ := if truthyField c₄ "components" then
          match c₄.lookup "components" with
          | some (.arr cs) => c₄.set "components" (.arr (JsArr.ofList (cs.toList.map compStrip)))
          | _ => c₄
        else c₄
      let cm := if truthyField c₄ "components" then
          match c₄.lookup "components" with
          | some (.arr cs) => some (cs.toList.map compStrip)
          | _ => none
        else none
      (btF.append (ndF.append cpF), c₅, n2, cm)) := by
  simp only [flowPosStage, extractNodePositions_eq, extractComponentPositions_eq]
  cases onodes with
  | none =>
    dsimp only
    by_cases hbt : truthyField c "begin_tag_display_position" = true
    · simp only [if_pos hbt]
      repeat (first | rfl | (split <;> (try dsimp only)))
    · simp only [if_neg hbt]
      repeat (first | rfl | (split <;> (try dsimp only)))
  | some ns =>
    dsimp only
    by_cases hbt : truthyField c "begin_tag_display_position" = true
    · simp only [if_pos hbt]
      repeat (first | rfl | (split <;> (try dsimp only)))
    · simp only [if_neg hbt]
      repeat (first | rfl | (split <;> (try dsimp only)))

/-- The trim substitution leaves the collected positions unchanged. -/
theorem posMapOf_trimSub : ∀ ns : List Json,
    posMapOf (ns.map trimSub) = posMapOf ns
  | [] => rfl
  | n :: rest => by
    simp only [List.map_cons]
    cases n with
    | obj o =>
      obtain ⟨o2, ho2, hl⟩ := trimSub_obj o
      rw [ho2]
      dsimp only [posMapOf]
      have hid : o2.lookup "id" = o.lookup "id" := hl "id" (by decide)
      have hdp : o2.lookup "display_position" = o.lookup "display_position" :=
        hl "display_position" (by decide)
      have htid : truthyField o2 "id" = truthyField o "id" := by
        unfold truthyField
        rw [hid]
      have htdp : truthyField o2 "display_position" = truthyField o "display_position" := by
        unfold truthyField
        rw [hdp]
      rw [htid, htdp, hid, hdp, posMapOf_trimSub rest]
    | null => exact posMapOf_trimSub rest
    | bool b => exact posMapOf_trimSub rest
    | num q => exact posMapOf_trimSub rest
    | str s => exact posMapOf_trimSub rest
    | arr xs => exact posMapOf_trimSub rest

/-- A converted list with placeholder-free entries is placeholder-free. -/
theorem JsArr.noPlaceholders_ofList : ∀ xs : List Json,
    (∀ x ∈ xs, Json.noPlaceholders x = true) →
    JsArr.noPlaceholders (JsArr.ofList xs) = true
  | [], _ => rfl
  | x :: rest, h => by
    simp only [JsArr.ofList, JsArr.noPlaceholders, Bool.and_eq_true]
    exact ⟨h x (List.mem_cons_self _ _),
      JsArr.noPlaceholders_ofList rest (fun y hy => h y (List.mem_cons_of_mem _ hy))⟩

/-- The component strip preserves placeholder freedom. -/
theorem compStrip_noPlaceholders (c : Json) (h : Json.noPlaceholders c = true) :
    Json.noPlaceholders (compStrip c) = true := by
  cases c with
  | obj o =>
    dsimp only [compStrip]
    by_cases hq : truthyField o "name" = true ∧ truthyField o "begin_tag_display_position" = true
    · rw [if_pos hq]
      exact JsObj.noPlaceholders_removeKey o _ h
    · rw [if_neg hq]
      exact h
  | null => exact h
  | bool b => exact h
  | num q => exact h
  | str s => exact h
  | arr xs => exact h

/-- Resolution and the written positions through the position stage, for
a flow with a nodes array. -/
theorem flowPosStage_resolve (r : Resolver) (c c2 : JsObj) (ns ns2 : List Json)
    (h : fieldsResolve r c c2)
    (hbt : c.lookup "begin_tag_display_position" = c2.lookup "begin_tag_display_position")
    (hcm : c.lookup "components" = c2.lookup "components")
    (hns : resolvesTo r (.arr (JsArr.ofList (ns.map posStrip))) (.arr (JsArr.ofList (ns2.map posStrip))))
    (hpm : posMapOf ns = posMapOf ns2)
    (hcnp : ∀ cs, c2.lookup "components" = some (.arr cs) →
      JsArr.noPlaceholders (JsArr.ofList (cs.toList.map compStrip)) = true) :
    fieldsResolve r (flowPosStage c (some ns)).2.1 (flowPosStage c2 (some ns2)).2.1 ∧
    (flowPosStage c (some ns)).1 = (flowPosStage c2 (some ns2)).1 := by
  have compsStep : ∀ a a2 : JsObj, fieldsResolve r a a2 →
      a.lookup "components" = a2.lookup "components" →
      (∀ cs, a2.lookup "components" = some (.arr cs) →
        JsArr.noPlaceholders (JsArr.ofList (cs.toList.map compStrip)) = true) →
      fieldsResolve r
        (if truthyField a "components" then
          match a.lookup "components" with
          | some (.arr cs) => a.set "components" (.arr (JsArr.ofList (cs.toList.map compStrip)))
          | _ => a
        else a)
        (if truthyField a2 "components" then
          match a2.lookup "components" with
          | some (.arr cs) => a2.set "components" (.arr (JsArr.ofList (cs.toList.map compStrip)))
          | _ => a2
        else a2) ∧
      (if truthyField a "components" then
          match a.lookup "components" with
          | some (.arr cs) =>
            if (compMapOf cs.toList).length = 0 then JsObj.nil
            else JsObj.cons "components" (.obj (compMapOf cs.toList)) .nil
          | _ => JsObj.nil
        else JsObj.nil)
        = (if truthyField a2 "components" then
          match a2.lookup "components" with
          | some (.arr cs) =>
            if (compMapOf cs.toList).length = 0 then JsObj.nil
            else JsObj.cons "components" (.obj (compMapOf cs.toList)) .nil
          | _ => JsObj.nil
        else JsObj.nil) := by
    intro a a2 ha hal hnp
    have ht : truthyField a "components" = truthyField a2 "components" := by
      unfold truthyField
      rw [hal]
    rw [← ht, ← hal]
    split_ifs with htc
    · cases hlc : a.lookup "components" with
      | none => exact ⟨ha, rfl⟩
      | some v =>
        cases v with
        | arr cs =>
          refine ⟨fieldsResolve_set r a a2 "components" _ _ ha ?hvr, rfl⟩
          refine resolvesTo_of_noPlaceholders r _ ?hnp3
          exact hnp cs (by rw [← hal]; exact hlc)
        | null => exact ⟨ha, rfl⟩
        | bool b => exact ⟨ha, rfl⟩
        | num q => exact ⟨ha, rfl⟩
        | str s => exact ⟨ha, rfl⟩
        | obj o => exact ⟨ha, rfl⟩
    · exact ⟨ha, rfl⟩
  rw [flowPosStage_norm, flowPosStage_norm]
  dsimp only
  have hbtt : truthyField c "begin_tag_display_position"
      = truthyField c2 "begin_tag_display_position" := by
    unfold truthyField
    rw [hbt]
  by_cases hbtc : truthyField c "begin_tag_display_position" = true
  · simp only [if_pos hbtc, if_pos (hbtt ▸ hbtc)]
    have hrel4 : fieldsResolve r
        ((c.removeKey "begin_tag_display_position").set "nodes" (.arr (JsArr.ofList (ns.map posStrip))))
        ((c2.removeKey "begin_tag_display_position").set "nodes" (.arr (JsArr.ofList (ns2.map posStrip)))) :=
      fieldsResolve_set r _ _ "nodes" _ _ (fieldsResolve_removeKey r c c2 _ h) hns
    have hl4 : ((c.removeKey "begin_tag_display_position").set "nodes"
          (.arr (JsArr.ofList (ns.map posStrip)))).lookup "components"
        = ((c2.removeKey "begin_tag_display_position").set "nodes"
          (.arr (JsArr.ofList (ns2.map posStrip)))).lookup "components" := by
      rw [JsObj.lookup_set_ne _ "nodes" _ "components" (by decide),
        JsObj.lookup_set_ne _ "nodes" _ "components" (by decide),
        JsObj.lookup_removeKey, JsObj.lookup_removeKey, if_neg (by decide), if_neg (by decide),
        hcm]
    obtain ⟨hc5, hcp⟩ := compsStep _ _ hrel4 hl4 (fun cs hx => hcnp cs (by
      rw [JsObj.lookup_set_ne _ "nodes" _ "components" (by decide),
        JsObj.lookup_removeKey, if_neg (by decide)] at hx
      exact hx))
    refine ⟨hc5, ?hP⟩
    rw [hbt, hpm, hcp]
  · simp only [if_neg hbtc, if_neg (hbtt ▸ hbtc)]
    have hrel4 : fieldsResolve r
        (c.set "nodes" (.arr (JsArr.ofList (ns.map posStrip))))
        (c2.set "nodes" (.arr (JsArr.ofList (ns2.map posStrip)))) :=
      fieldsResolve_set r _ _ "nodes" _ _ h hns
    have hl4 : (c.set "nodes" (.arr (JsArr.ofList (ns.map posStrip)))).lookup "components"
        = (c2.set "nodes" (.arr (JsArr.ofList (ns2.map posStrip)))).lookup "components" := by
      rw [JsObj.lookup_set_ne _ "nodes" _ "components" (by decide),
        JsObj.lookup_set_ne _ "nodes" _ "components" (by decide), hcm]
    obtain ⟨hc5, hcp⟩ := compsStep _ _ hrel4 hl4 (fun cs hx => hcnp cs (by
      rw [JsObj.lookup_set_ne _ "nodes" _ "components" (by decide)] at hx
      exact hx))
    refine ⟨hc5, ?hP2⟩
    rw [hpm, hcp]

/-- Resolution and the written positions through the position stage, for
a flow without a nodes array. -/
theorem flowPosStage_resolve_none (r : Resolver) (c c2 : JsObj)
    (h : fieldsResolve r c c2)
    (hbt : c.lookup "begin_tag_display_position" = c2.lookup "begin_tag_display_position")
    (hcm : c.lookup "components" = c2.lookup "components")
    (hcnp : ∀ cs, c2.lookup "components" = some (.arr cs) →
      JsArr.noPlaceholders (JsArr.ofList (cs.toList.map compStrip)) = true) :
    fieldsResolve r (flowPosStage c none).2.1 (flowPosStage c2 none).2.1 ∧
    (flowPosStage c none).1 = (flowPosStage c2 none).1 := by
  have compsStep : ∀ a a2 : JsObj, fieldsResolve r a a2 →
      a.lookup "components" = a2.lookup "components" →
      (∀ cs, a2.lookup "components" = some (.arr cs) →
        JsArr.noPlaceholders (JsArr.ofList (cs.toList.map compStrip)) = true) →
      fieldsResolve r
        (if truthyField a "components" then
          match a.lookup "components" with
          | some (.arr cs) => a.set "components" (.arr (JsArr.ofList (cs.toList.map compStrip)))
          | _ => a
        else a)
        (if truthyField a2 "components" then
          match a2.lookup "components" with
          | some (.arr cs) => a2.set "components" (.arr (JsArr.ofList (cs.toList.map compStrip)))
          | _ => a2
        else a2) ∧
      (if truthyField a "components" then
          match a.lookup "components" with
          | some (.arr cs) =>
            if (compMapOf cs.toList).length = 0 then JsObj.nil
            else JsObj.cons "components" (.obj (compMapOf cs.toList)) .nil
          | _ => JsObj.nil
        else JsObj.nil)
        = (if truthyField a2 "components" then
          match a2.lookup "components" with
          | some (.arr cs) =>
            if (compMapOf cs.toList).length = 0 then JsObj.nil
            else JsObj.cons "components" (.obj (compMapOf cs.toList)) .nil
          | _ => JsObj.nil
        else JsObj.nil) := by
    intro a a2 ha hal hnp
    have ht : truthyField a "components" = truthyField a2 "components" := by
      unfold truthyField
      rw [hal]
    rw [← ht, ← hal]
    split_ifs with htc
    · cases hlc : a.lookup "components" with
      | none => exact ⟨ha, rfl⟩
      | some v =>
        cases v with
        | arr cs =>
          refine ⟨fieldsResolve_set r a a2 "components" _ _ ha ?hvr2, rfl⟩
          refine resolvesTo_of_noPlaceholders r _ ?hnp4
          exact hnp cs (by rw [← hal]; exact hlc)
        | null => exact ⟨ha, rfl⟩
        | bool b => exact ⟨ha, rfl⟩
        | num q => exact ⟨ha, rfl⟩
        | str s => exact ⟨ha, rfl⟩
        | obj o => exact ⟨ha, rfl⟩
    · exact ⟨ha, rfl⟩
  rw [flowPosStage_norm, flowPosStage_norm]
  dsimp only
  have hbtt : truthyField c "begin_tag_display_position"
      = truthyField c2 "begin_tag_display_position" := by
    unfold truthyField
    rw [hbt]
  by_cases hbtc : truthyField c "begin_tag_display_position" = true
  · simp only [if_pos hbtc, if_pos (hbtt ▸ hbtc)]
    have hl4 : (c.removeKey "begin_tag_display_position").lookup "components"
        = (c2.removeKey "begin_tag_display_position").lookup "components" := by
      rw [JsObj.lookup_removeKey, JsObj.lookup_removeKey, if_neg (by decide),
        if_neg (by decide), hcm]
    obtain ⟨hc5, hcp⟩ := compsStep _ _ (fieldsResolve_removeKey r c c2 _ h) hl4
      (fun cs hx => hcnp cs (by
        rw [JsObj.lookup_removeKey, if_neg (by decide)] at hx
        exact hx))
    refine ⟨hc5, ?hPn⟩
    rw [hbt, hcp]
  · simp only [if_neg hbtc, if_neg (hbtt ▸ hbtc)]
    obtain ⟨hc5, hcp⟩ := compsStep _ _ h hcm hcnp
    refine ⟨hc5, ?hPn2⟩
    rw [hcp]

/-- Setting the same key twice keeps only the second value. -/
theorem JsObj.set_set : ∀ (o : JsObj) (k : String) (v w : Json),
    (o.set k v).set k w = o.set k w
  | .nil, k, v, w => by simp [JsObj.set]
  | .cons k0 v0 tl, k, v, w => by
    simp only [JsObj.set]
    by_cases h : k0 = k
    · rw [if_pos h]
      simp only [JsObj.set, if_pos h]
    · rw [if_neg h]
      simp only [JsObj.set, if_neg h]
      rw [JsObj.set_set tl k v w]

/-- Round trip of the array-list conversions. -/
theorem JsArr.ofList_toList : ∀ xs : JsArr, JsArr.ofList xs.toList = xs
  | .nil => rfl
  | .cons x tl => by
    simp only [JsArr.toList, JsArr.ofList]
    rw [JsArr.ofList_toList tl]

/-- An object of length zero is the empty object. -/
theorem JsObj.length_zero_iff : ∀ o : JsObj, o.length = 0 ↔ o = .nil
  | .nil => by
    constructor
    · intro _
      rfl
    · intro _
      rfl
  | .cons k v tl => by
    simp only [JsObj.length]
    constructor
    · intro h
      exact absurd h (Nat.succ_ne_zero _)
    · intro h
      cases h

/-- Merging an empty positions object changes nothing. -/
theorem mergePositions_nil (f : JsObj) : mergePositions f .nil = f := by
  simp only [mergePositions, JsObj.lookup]

/-- Restoring from an empty node position map changes nothing. -/
theorem nodeRestore_nilMap : ∀ n : Json, nodeRestore .nil n = n
  | .null => rfl
  | .bool b => rfl
  | .num q => rfl
  | .str s => rfl
  | .arr xs => rfl
  | .obj o => by
    simp only [nodeRestore, JsObj.lookup]
    split <;> rfl

/-- Restoring from an empty component position map changes nothing. -/
theorem compRestore_nilMap : ∀ c : Json, compRestore .nil c = c
  | .null => rfl
  | .bool b => rfl
  | .num q => rfl
  | .str s => rfl
  | .arr xs => rfl
  | .obj o => by
    simp only [compRestore, JsObj.lookup]
    split <;> rfl

/-- Rounded coordinates are duplicate-free. -/
theorem roundCoord_dupFree (v : Option Json) : (roundCoord v).dupFree = true := by
  cases v with
  | none => rfl
  | some j => cases j <;> rfl

/-- A rounded position object is duplicate-free. -/
theorem roundPos_dupFree (p : Json) : (roundPos p).dupFree = true := by
  cases p with
  | obj o =>
    simp only [roundPos, Json.dupFree, JsObj.dupFree, Bool.and_eq_true]
    exact ⟨rfl, roundCoord_dupFree _, roundCoord_dupFree _, trivial⟩
  | null => rfl
  | bool b => rfl
  | num q => rfl
  | str s => rfl
  | arr xs => rfl

/-- Setting a duplicate-free value on a duplicate-free object stays
duplicate-free. -/
theorem JsObj.dupFree_set : ∀ (o : JsObj) (k : String) (v : Json),
    JsObj.dupFree o = true → Json.dupFree v = true →
    JsObj.dupFree (o.set k v) = true
  | .nil, k, v, _, hv => by simp [JsObj.set, JsObj.dupFree, hv]
  | .cons k0 v0 tl, k, v, ho, hv => by
    simp only [JsObj.dupFree, Bool.and_eq_true] at ho
    simp only [JsObj.set]
    by_cases h : k0 = k
    · rw [if_pos h]
      simp only [JsObj.dupFree, Bool.and_eq_true]
      exact ⟨hv, ho.2⟩
    · rw [if_neg h]
      simp only [JsObj.dupFree, Bool.and_eq_true]
      exact ⟨ho.1, JsObj.dupFree_set tl k v ho.2 hv⟩

/-- Removing a key keeps the values duplicate-free. -/
theorem JsObj.dupFree_removeKey : ∀ (o : JsObj) (k : String),
    JsObj.dupFree o = true → JsObj.dupFree (o.removeKey k) = true
  | .nil, k, _ => rfl
  | .cons k0 v0 tl, k, ho => by
    simp only [JsObj.dupFree, Bool.and_eq_true] at ho
    simp only [JsObj.removeKey]
    by_cases h : k0 = k
    · rw [if_pos h]
      exact JsObj.dupFree_removeKey tl k ho.2
    · rw [if_neg h]
      simp only [JsObj.dupFree, Bool.and_eq_true]
      exact ⟨ho.1, JsObj.dupFree_removeKey tl k ho.2⟩

/-- The trim substitution preserves duplicate-freedom. -/
theorem trimSub_dupFree (n : Json) (hdf : n.dupFree = true) :
    (trimSub n).dupFree = true := by
  cases n with
  | obj o =>
    simp only [Json.dupFree, Bool.and_eq_true] at hdf
    obtain ⟨hnd, hdf2⟩ := hdf
    dsimp only [trimSub]
    by_cases he : nodeExtractable o = true
    · rw [if_pos he]
      cases hio : o.lookup "instruction" with
      | none =>
        simp only [Json.dupFree, Bool.and_eq_true]
        exact ⟨hnd, hdf2⟩
      | some v =>
        cases v with
        | obj io =>
          have hiodf : Json.dupFree (.obj io) = true :=
            JsObj.dupFree_lookup o "instruction" _ hdf2 hio
          simp only [Json.dupFree, Bool.and_eq_true] at hiodf
          simp only [Json.dupFree, Bool.and_eq_true]
          refine ⟨JsObj.keysNodup_set o _ _ hnd, JsObj.dupFree_set o _ _ hdf2 ?hv⟩
          simp only [Json.dupFree, Bool.and_eq_true]
          exact ⟨JsObj.keysNodup_set io _ _ hiodf.1, JsObj.dupFree_set io _ _ hiodf.2 rfl⟩
        | null =>
          simp only [Json.dupFree, Bool.and_eq_true]
          exact ⟨hnd, hdf2⟩
        | bool b =>
          simp only [Json.dupFree, Bool.and_eq_true]
          exact ⟨hnd, hdf2⟩
        | num q =>
          simp only [Json.dupFree, Bool.and_eq_true]
          exact ⟨hnd, hdf2⟩
        | str t =>
          simp only [Json.dupFree, Bool.and_eq_true]
          exact ⟨hnd, hdf2⟩
        | arr xs =>
          simp only [Json.dupFree, Bool.and_eq_true]
          exact ⟨hnd, hdf2⟩
    · rw [if_neg he]
      simp only [Json.dupFree, Bool.and_eq_true]
      exact ⟨hnd, hdf2⟩
  | null => exact hdf
  | bool b => exact hdf
  | num q => exact hdf
  | str t => exact hdf
  | arr xs => exact hdf

/-- Moving a rounded display position to the end of the object is the
semantic identity on the in-place rounding. -/
theorem posMove_semEq (ot : JsObj) (hnd : ot.keysNodup = true)
    (hdf : JsObj.dupFree ot = true) :
    jsonSemEq
      (if truthyField ot "id" = true ∧ truthyField ot "display_position" = true then
        Json.obj ((ot.removeKey "display_position").set "display_position"
          (roundPos ((ot.lookup "display_position").getD .null)))
      else Json.obj ot)
      (Json.obj (if truthyField ot "id" = true ∧ truthyField ot "display_position" = true then
        ot.set "display_position" (roundPos ((ot.lookup "display_position").getD .null))
      else ot)) = true := by
  by_cases hq : truthyField ot "id" = true ∧ truthyField ot "display_position" = true
  · rw [if_pos hq, if_pos hq]
    exact jsonSemEq_move_key ot "display_position" _ _ hnd hdf
      (jsonSemEq_refl _ (roundPos_dupFree _))
  · rw [if_neg hq, if_neg hq]
    refine jsonSemEq_refl (Json.obj ot) ?hdf3
    simp only [Json.dupFree, Bool.and_eq_true]
    exact ⟨hnd, hdf⟩

/-- The round-trip node is semantically the normalized node. -/
theorem rtNode_semEq_normNode (n : Json) (hdf : n.dupFree = true) :
    jsonSemEq (rtNode n) (normNode n) = true := by
  cases n with
  | obj o =>
    have ho : o.keysNodup = true ∧ JsObj.dupFree o = true := by
      simp only [Json.dupFree, Bool.and_eq_true] at hdf
      exact hdf
    have hotdf : (trimSub (Json.obj o)).dupFree = true := trimSub_dupFree _ hdf
    dsimp only [rtNode, normNode]
    by_cases he : nodeExtractable o = true
    · rw [if_pos he]
      cases hio : o.lookup "instruction" with
      | none =>
        have hts : trimSub (Json.obj o) = Json.obj o := by
          dsimp only [trimSub]
          rw [if_pos he, hio]
        rw [hts]
        exact posMove_semEq o ho.1 ho.2
      | some v =>
        cases v with
        | obj io =>
          have hts : trimSub (Json.obj o) = Json.obj
              (o.set "instruction" (.obj (io.set "text"
                (.str (jsTrim (nodeInstructionText o)))))) := by
            dsimp only [trimSub]
            rw [if_pos he, hio]
          rw [hts] at hotdf ⊢
          simp only [Json.dupFree, Bool.and_eq_true] at hotdf
          exact posMove_semEq _ hotdf.1 hotdf.2
        | null =>
          have hts : trimSub (Json.obj o) = Json.obj o := by
            dsimp only [trimSub]
            rw [if_pos he, hio]
          rw [hts]
          exact posMove_semEq o ho.1 ho.2
        | bool b =>
          have hts : trimSub (Json.obj o) = Json.obj o := by
            dsimp only [trimSub]
            rw [if_pos he, hio]
          rw [hts]
          exact posMove_semEq o ho.1 ho.2
        | num q =>
          have hts : trimSub (Json.obj o) = Json.obj o := by
            dsimp only [trimSub]
            rw [if_pos he, hio]
          rw [hts]
          exact posMove_semEq o ho.1 ho.2
        | str t =>
          have hts : trimSub (Json.obj o) = Json.obj o := by
            dsimp only [trimSub]
            rw [if_pos he, hio]
          rw [hts]
          exact posMove_semEq o ho.1 ho.2
        | arr xs =>
          have hts : trimSub (Json.obj o) = Json.obj o := by
            dsimp only [trimSub]
            rw [if_pos he, hio]
          rw [hts]
          exact posMove_semEq o ho.1 ho.2
    · rw [if_neg he]
      have hts : trimSub (Json.obj o) = Json.obj o := by
        dsimp only [trimSub]
        rw [if_neg he]
      rw [hts]
      exact posMove_semEq o ho.1 ho.2
  | null => exact jsonSemEq_refl _ hdf
  | bool b => exact jsonSemEq_refl _ hdf
  | num q => exact jsonSemEq_refl _ hdf
  | str t => exact jsonSemEq_refl _ hdf
  | arr xs => exact jsonSemEq_refl _ hdf

/-- The round-trip component is semantically the normalized component. -/
theorem rtComp_semEq_normComponent (c : Json) (hdf : c.dupFree = true) :
    jsonSemEq (rtComp c) (normComponent c) = true := by
  cases c with
  | obj o =>
    have ho : o.keysNodup = true ∧ JsObj.dupFree o = true := by
      simp only [Json.dupFree, Bool.and_eq_true] at hdf
      exact hdf
    dsimp only [rtComp, normComponent]
    by_cases hq : truthyField o "name" = true ∧
        truthyField o "begin_tag_display_position" = true
    · rw [if_pos hq, if_pos hq]
      exact jsonSemEq_move_key o "begin_tag_display_position" _ _ ho.1 ho.2
        (jsonSemEq_refl _ (roundPos_dupFree _))
    · rw [if_neg hq, if_neg hq]
      exact jsonSemEq_refl _ hdf
  | null => exact jsonSemEq_refl _ hdf
  | bool b => exact jsonSemEq_refl _ hdf
  | num q => exact jsonSemEq_refl _ hdf
  | str t => exact jsonSemEq_refl _ hdf
  | arr xs => exact jsonSemEq_refl _ hdf

/-- One written node (before position stripping) resolves to its trimmed
form. -/
theorem resolvesTo_node_full (group : FileMap) (d : String) (hdot : d ≠ ".")
    (nameById : List (String × String)) (incoming : List (String × List String))
    (n : Json) (hnp : n.noPlaceholders = true)
    (hwfn : nodeWF nameById incoming n = true)
    (hfile : ∀ o : JsObj, n = Json.obj o → nodeExtractable o = true →
      fmGet group (pathJoin d (nodeFileNameOf o)) = some (.text
        (writeMarkdown (nodeInstructionText o) (nodeFrontmatter nameById incoming o)))) :
    resolvesTo (dirResolver group d) (promptSub n) (trimSub n) := by
  cases n with
  | null => exact resolvesTo_of_noPlaceholders _ _ hnp
  | bool b => exact resolvesTo_of_noPlaceholders _ _ hnp
  | num q => exact resolvesTo_of_noPlaceholders _ _ hnp
  | str s => exact resolvesTo_of_noPlaceholders _ _ hnp
  | arr xs => exact resolvesTo_of_noPlaceholders _ _ hnp
  | obj o =>
    have honp : JsObj.noPlaceholders o = true := hnp
    by_cases he : nodeExtractable o = true
    · obtain ⟨hid, io, hio, t, hiot, hteq, hnost⟩ := nodeExtractable_shape o he
      have h2 : nodeWF nameById incoming (Json.obj o) = true := hwfn
      simp only [nodeWF] at h2
      rw [if_pos he] at h2
      simp only [Bool.and_eq_true, decide_eq_true_eq] at h2
      obtain ⟨⟨htrne, hpre⟩, hfence⟩ := h2
      have hionp : JsObj.noPlaceholders io = true :=
        JsObj.noPlaceholders_lookup o "instruction" (.obj io) honp hio
      have hcontent : writeMarkdown (nodeInstructionText o)
          (nodeFrontmatter nameById incoming o) ≠ "" :=
        writeMarkdown_fm_ne_empty _ _ (nodeFrontmatter_ne_empty nameById incoming o) htrne
          (by simpa using hfence)
      have hread : readMarkdown (writeMarkdown (nodeInstructionText o)
          (nodeFrontmatter nameById incoming o)) = jsTrim (nodeInstructionText o) :=
        readMarkdown_writeMarkdown_fm _ _ (nodeFrontmatter_ne_empty nameById incoming o)
          htrne (by simpa using hfence)
      have hph : resolvesTo (dirResolver group d)
          (.str ("file://./" ++ nodeFileNameOf o))
          (.str (jsTrim (nodeInstructionText o))) := by
        have h1 := resolvesTo_placeholder (dirResolver group d)
          ("file://./" ++ nodeFileNameOf o)
          (writeMarkdown (nodeInstructionText o) (nodeFrontmatter nameById incoming o))
          (startsWith_file_placeholder _) ?hr ?hb
        case hr =>
          rw [stripFileScheme_placeholder]
          exact dirResolver_ok group d _ _ hdot (hfile o rfl he) hcontent
        case hb =>
          rw [hread]
          exact htrne
        rw [hread] at h1
        exact h1
      have hfr : fieldsResolve (dirResolver group d)
          (o.set "instruction" (.obj (io.set "text" (.str ("file://./" ++ nodeFileNameOf o)))))
          (o.set "instruction" (.obj (io.set "text" (.str (jsTrim (nodeInstructionText o)))))) :=
        fieldsResolve_set _ o o "instruction" _ _
          (fieldsResolve_of_noPlaceholders _ o honp)
          (resolvesTo_obj _ _ _
            (fieldsResolve_set _ io io "text" _ _
              (fieldsResolve_of_noPlaceholders _ io hionp) hph))
      have hps : promptSub (Json.obj o) = Json.obj
          (o.set "instruction" (.obj (io.set "text" (.str ("file://./" ++ nodeFileNameOf o))))) := by
        dsimp only [promptSub]
        rw [if_pos he, hio]
      have hts : trimSub (Json.obj o) = Json.obj
          (o.set "instruction" (.obj (io.set "text" (.str (jsTrim (nodeInstructionText o)))))) := by
        dsimp only [trimSub]
        rw [if_pos he, hio]
      rw [hps, hts]
      exact resolvesTo_obj _ _ _ hfr
    · have hps : promptSub (Json.obj o) = Json.obj o := by
        dsimp only [promptSub]
        rw [if_neg he]
      have hts : trimSub (Json.obj o) = Json.obj o := by
        dsimp only [trimSub]
        rw [if_neg he]
      rw [hps, hts]
      exact resolvesTo_of_noPlaceholders _ _ hnp

/-- Normalizing one prompt field leaves other keys unchanged. -/
theorem normPromptField_lookup_ne (cfg : JsObj) (k k2 : String) (h : k2 ≠ k) :
    (normPromptField cfg k).lookup k2 = cfg.lookup k2 := by
  unfold normPromptField
  cases hl : cfg.lookup k with
  | none => rfl
  | some v =>
    dsimp only
    by_cases hv : v.truthy = true
    · rw [if_pos hv]
      exact JsObj.lookup_set_ne cfg k _ k2 h
    · rw [if_neg hv]

/-- Normalizing one prompt field keeps keys duplicate-free and values
duplicate-free. -/
theorem normPromptField_props (cfg : JsObj) (k : String)
    (hnd : cfg.keysNodup = true) (hdf : JsObj.dupFree cfg = true) :
    (normPromptField cfg k).keysNodup = true ∧
    JsObj.dupFree (normPromptField cfg k) = true := by
  unfold normPromptField
  cases hl : cfg.lookup k with
  | none => exact ⟨hnd, hdf⟩
  | some v =>
    dsimp only
    by_cases hv : v.truthy = true
    · rw [if_pos hv]
      exact ⟨JsObj.keysNodup_set cfg k _ hnd, JsObj.dupFree_set cfg k _ hdf rfl⟩
    · rw [if_neg hv]
      exact ⟨hnd, hdf⟩

/-- Truthiness of a field only depends on its lookup. -/
theorem truthyField_congr (o o2 : JsObj) (k : String)
    (h : o.lookup k = o2.lookup k) : truthyField o k = truthyField o2 k := by
  unfold truthyField
  rw [h]

/-- The list-array conversion round trip. -/
theorem JsArr.toList_ofList : ∀ l : List Json, (JsArr.ofList l).toList = l
  | [] => rfl
  | x :: rest => by
    simp only [JsArr.ofList, JsArr.toList]
    rw [JsArr.toList_ofList rest]

/-- Elements of a duplicate-free array are duplicate-free. -/
theorem JsArr.dupFree_mem : ∀ (xs : JsArr) (n : Json),
    xs.dupFree = true → n ∈ xs.toList → n.dupFree = true
  | .nil, n, _, hm => absurd hm (List.not_mem_nil n)
  | .cons x tl, n, hdf, hm => by
    simp only [JsArr.dupFree, Bool.and_eq_true] at hdf
    cases List.mem_cons.mp hm with
    | inl h =>
      subst h
      exact hdf.1
    | inr h => exact JsArr.dupFree_mem tl n hdf.2 h

/-- Pointwise semantic equality of two maps over the same list. -/
theorem arrSemEq_ofList_map (f g : Json → Json) :
    ∀ l : List Json, (∀ n ∈ l, jsonSemEq (f n) (g n) = true) →
    arrSemEq (JsArr.ofList (l.map f)) (JsArr.ofList (l.map g)) = true
  | [], _ => rfl
  | n :: rest, h => by
    simp only [List.map_cons, JsArr.ofList, arrSemEq, Bool.and_eq_true]
    exact ⟨h n (List.mem_cons_self _ _),
      arrSemEq_ofList_map f g rest (fun m hm => h m (List.mem_cons_of_mem _ hm))⟩

/-- The merge of positions, written with the named per-entry restorers. -/
theorem mergePositions_norm (f P : JsObj) : mergePositions f P =
    (let f₁ := match P.lookup "begin_tag" with
      | some v => if v.truthy then f.set "begin_tag_display_position" v else f
      | none => f
    let f₂ := match P.lookup "nodes", f₁.lookup "nodes" with
      | some (.obj nodePos), some (.arr nodes) =>
        f₁.set "nodes" (.arr (JsArr.ofList (nodes.toList.map (nodeRestore nodePos))))
      | _, _ => f₁
    match P.lookup "components", f₂.lookup "components" with
    | some (.obj compPos), some (.arr comps) =>
      f₂.set "components" (.arr (JsArr.ofList (comps.toList.map (compRestore compPos))))
    | _, _ => f₂) := rfl

/-- Restoring a list of nodes from an empty map changes nothing. -/
theorem map_nodeRestore_nil : ∀ l : List Json, l.map (nodeRestore .nil) = l
  | [] => rfl
  | n :: rest => by
    simp only [List.map_cons]
    rw [nodeRestore_nilMap n, map_nodeRestore_nil rest]

/-- Restoring a list of components from an empty map changes nothing. -/
theorem map_compRestore_nil : ∀ l : List Json, l.map (compRestore .nil) = l
  | [] => rfl
  | n :: rest => by
    simp only [List.map_cons]
    rw [compRestore_nilMap n, map_compRestore_nil rest]

/-- Setting a key to the value it already has changes nothing. -/
theorem JsObj.set_lookup_self : ∀ (o : JsObj) (k : String) (v : Json),
    o.lookup k = some v → o.set k v = o
  | .nil, k, v, h => by
    simp [JsObj.lookup] at h
  | .cons k0 v0 tl, k, v, h => by
    simp only [JsObj.lookup] at h
    simp only [JsObj.set]
    by_cases h0 : k0 = k
    · rw [if_pos h0] at h
      rw [if_pos h0, h0]
      cases h
      rfl
    · rw [if_neg h0] at h
      rw [if_neg h0, JsObj.set_lookup_self tl k v h]

/-- Lookup through the begin-tag stage. -/
theorem mStageBT_lookup (cfg : JsObj) (ts : List Json) (k : String) :
    (mStageBT cfg ts).lookup k =
      (if k = "nodes" then some (.arr (JsArr.ofList ts))
       else if k = "begin_tag_display_position" then
         (if truthyField cfg "begin_tag_display_position" then none else cfg.lookup k)
       else (normPromptField cfg "global_prompt").lookup k) := by
  unfold mStageBT
  by_cases hk1 : k = "nodes"
  · subst hk1
    rw [if_pos rfl]
    by_cases htb : truthyField cfg "begin_tag_display_position" = true
    · rw [if_pos htb, JsObj.lookup_removeKey, if_neg (by decide), JsObj.lookup_set_self]
    · rw [if_neg htb, JsObj.lookup_set_self]
  · rw [if_neg hk1]
    by_cases hk2 : k = "begin_tag_display_position"
    · subst hk2
      rw [if_pos rfl]
      by_cases htb : truthyField cfg "begin_tag_display_position" = true
      · rw [if_pos htb, if_pos htb, JsObj.lookup_removeKey, if_pos rfl]
      · rw [if_neg htb, if_neg htb, JsObj.lookup_set_ne _ _ _ _ hk1,
          normPromptField_lookup_ne cfg _ _ (by decide)]
    · rw [if_neg hk2]
      by_cases htb : truthyField cfg "begin_tag_display_position" = true
      · rw [if_pos htb, JsObj.lookup_removeKey, if_neg hk2,
          JsObj.lookup_set_ne _ _ _ _ hk1]
      · rw [if_neg htb, JsObj.lookup_set_ne _ _ _ _ hk1]

/-- The resolved config keeps the stripped node array. -/
theorem mStage1_lookup_nodes (cfg : JsObj) (ts : List Json) :
    (mStage1 cfg ts).lookup "nodes" = some (.arr (JsArr.ofList (ts.map posStrip))) := by
  unfold mStage1
  cases hcv : cfg.lookup "components" with
  | none => exact JsObj.lookup_set_self _ _ _
  | some v =>
    cases v with
    | arr cs =>
      dsimp only
      rw [JsObj.lookup_set_ne _ _ _ _ (by decide)]
      exact JsObj.lookup_set_self _ _ _
    | null => exact JsObj.lookup_set_self _ _ _
    | bool b => exact JsObj.lookup_set_self _ _ _
    | num q => exact JsObj.lookup_set_self _ _ _
    | str t => exact JsObj.lookup_set_self _ _ _
    | obj o => exact JsObj.lookup_set_self _ _ _

/-- Lookup of any key other than nodes and components through the
resolved config. -/
theorem mStage1_lookup_other (cfg : JsObj) (ts : List Json) (k : String)
    (hk1 : k ≠ "nodes") (hk2 : k ≠ "components") :
    (mStage1 cfg ts).lookup k =
      (if k = "begin_tag_display_position" then
        (if truthyField cfg "begin_tag_display_position" then none else cfg.lookup k)
       else (normPromptField cfg "global_prompt").lookup k) := by
  unfold mStage1
  have hbase : ((mStageBT cfg ts).set "nodes"
      (.arr (JsArr.ofList (ts.map posStrip)))).lookup k =
      (if k = "begin_tag_display_position" then
        (if truthyField cfg "begin_tag_display_position" then none else cfg.lookup k)
       else (normPromptField cfg "global_prompt").lookup k) := by
    rw [JsObj.lookup_set_ne _ _ _ _ hk1, mStageBT_lookup, if_neg hk1]
  cases hcv : cfg.lookup "components" with
  | none => exact hbase
  | some v =>
    cases v with
    | arr cs =>
      dsimp only
      rw [JsObj.lookup_set_ne _ _ _ _ hk2]
      exact hbase
    | null => exact hbase
    | bool b => exact hbase
    | num q => exact hbase
    | str t => exact hbase
    | obj o => exact hbase

/-- The components entry of the resolved config. -/
theorem mStage1_lookup_comps (cfg : JsObj) (ts : List Json) :
    (mStage1 cfg ts).lookup "components" = compsStripOf (cfg.lookup "components") := by
  unfold compsStripOf
  unfold mStage1
  have hbase : ((mStageBT cfg ts).set "nodes"
      (.arr (JsArr.ofList (ts.map posStrip)))).lookup "components" =
      cfg.lookup "components" := by
    rw [JsObj.lookup_set_ne _ _ _ _ (by decide), mStageBT_lookup, if_neg (by decide),
      if_neg (by decide), normPromptField_lookup_ne cfg _ _ (by decide)]
  cases hcv : cfg.lookup "components" with
  | none => rw [hbase, hcv]
  | some v =>
    cases v with
    | arr cs =>
      dsimp only
      exact JsObj.lookup_set_self _ _ _
    | null => rw [hbase, hcv]
    | bool b => rw [hbase, hcv]
    | num q => rw [hbase, hcv]
    | str t => rw [hbase, hcv]
    | obj o => rw [hbase, hcv]

/-- The merged config holds the restored node array. -/
theorem mMerged_lookup_nodes (cfg : JsObj) (ts : List Json) :
    (mMerged cfg ts).lookup "nodes" =
      some (.arr (JsArr.ofList ((ts.map posStrip).map (nodeRestore (posMapOf ts))))) := by
  unfold mMerged compsMergedOf
  cases hcv : cfg.lookup "components" with
  | none => exact JsObj.lookup_set_self _ _ _
  | some v =>
    cases v with
    | arr cs =>
      dsimp only
      rw [JsObj.lookup_set_ne _ _ _ _ (by decide)]
      exact JsObj.lookup_set_self _ _ _
    | null => exact JsObj.lookup_set_self _ _ _
    | bool b => exact JsObj.lookup_set_self _ _ _
    | num q => exact JsObj.lookup_set_self _ _ _
    | str t => exact JsObj.lookup_set_self _ _ _
    | obj o => exact JsObj.lookup_set_self _ _ _

/-- The merged begin-tag entry: rounded when originally truthy. -/
theorem mMerged_lookup_bt (cfg : JsObj) (ts : List Json) :
    (mMerged cfg ts).lookup "begin_tag_display_position" =
      (if truthyField cfg "begin_tag_display_position" then
        some (roundPos ((cfg.lookup "begin_tag_display_position").getD .null))
      else cfg.lookup "begin_tag_display_position") := by
  unfold mMerged compsMergedOf
  have hbase : ((if truthyField cfg "begin_tag_display_position" then
        (mStage1 cfg ts).set "begin_tag_display_position"
          (roundPos ((cfg.lookup "begin_tag_display_position").getD .null))
      else mStage1 cfg ts).set "nodes"
        (.arr (JsArr.ofList ((ts.map posStrip).map
          (nodeRestore (posMapOf ts)))))).lookup "begin_tag_display_position" =
      (if truthyField cfg "begin_tag_display_position" then
        some (roundPos ((cfg.lookup "begin_tag_display_position").getD .null))
      else cfg.lookup "begin_tag_display_position") := by
    rw [JsObj.lookup_set_ne _ _ _ _ (by decide)]
    by_cases htb : truthyField cfg "begin_tag_display_position" = true
    · rw [if_pos htb, if_pos htb, JsObj.lookup_set_self]
    · rw [if_neg htb, if_neg htb, mStage1_lookup_other cfg ts _ (by decide) (by decide),
        if_pos rfl, if_neg htb]
  cases hcv : cfg.lookup "components" with
  | none => exact hbase
  | some v =>
    cases v with
    | arr cs =>
      dsimp only
      rw [JsObj.lookup_set_ne _ _ _ _ (by decide)]
      exact hbase
    | null => exact hbase
    | bool b => exact hbase
    | num q => exact hbase
    | str t => exact hbase
    | obj o => exact hbase

/-- The merged components entry. -/
theorem mMerged_lookup_comps (cfg : JsObj) (ts : List Json) :
    (mMerged cfg ts).lookup "components" =
      (match cfg.lookup "components" with
       | some (.arr cs) => some (.arr (JsArr.ofList
           ((cs.toList.map compStrip).map (compRestore (compMapOf cs.toList)))))
       | other => other) := by
  unfold mMerged compsMergedOf
  have hbase : ((if truthyField cfg "begin_tag_display_position" then
        (mStage1 cfg ts).set "begin_tag_display_position"
          (roundPos ((cfg.lookup "begin_tag_display_position").getD .null))
      else mStage1 cfg ts).set "nodes"
        (.arr (JsArr.ofList ((ts.map posStrip).map
          (nodeRestore (posMapOf ts)))))).lookup "components" =
      (mStage1 cfg ts).lookup "components" := by
    rw [JsObj.lookup_set_ne _ _ _ _ (by decide)]
    by_cases htb : truthyField cfg "begin_tag_display_position" = true
    · rw [if_pos htb, JsObj.lookup_set_ne _ _ _ _ (by decide)]
    · rw [if_neg htb]
  cases hcv : cfg.lookup "components" with
  | none =>
    rw [hbase, mStage1_lookup_comps, hcv]
    rfl
  | some v =>
    cases v with
    | arr cs =>
      dsimp only
      exact JsObj.lookup_set_self _ _ _
    | null =>
      rw [hbase, mStage1_lookup_comps, hcv]
      rfl
    | bool b =>
      rw [hbase, mStage1_lookup_comps, hcv]
      rfl
    | num q =>
      rw [hbase, mStage1_lookup_comps, hcv]
      rfl
    | str t =>
      rw [hbase, mStage1_lookup_comps, hcv]
      rfl
    | obj o =>
      rw [hbase, mStage1_lookup_comps, hcv]
      rfl

/-- Untouched keys of the merged config. -/
theorem mMerged_lookup_other (cfg : JsObj) (ts : List Json) (k : String)
    (hk1 : k ≠ "nodes") (hk2 : k ≠ "components")
    (hk3 : k ≠ "begin_tag_display_position") :
    (mMerged cfg ts).lookup k = (normPromptField cfg "global_prompt").lookup k := by
  unfold mMerged compsMergedOf
  have hbase : ((if truthyField cfg "begin_tag_display_position" then
        (mStage1 cfg ts).set "begin_tag_display_position"
          (roundPos ((cfg.lookup "begin_tag_display_position").getD .null))
      else mStage1 cfg ts).set "nodes"
        (.arr (JsArr.ofList ((ts.map posStrip).map
          (nodeRestore (posMapOf ts)))))).lookup k =
      (normPromptField cfg "global_prompt").lookup k := by
    rw [JsObj.lookup_set_ne _ _ _ _ hk1]
    by_cases htb : truthyField cfg "begin_tag_display_position" = true
    · rw [if_pos htb, JsObj.lookup_set_ne _ _ _ _ hk3,
        mStage1_lookup_other cfg ts _ hk1 hk2, if_neg hk3]
    · rw [if_neg htb, mStage1_lookup_other cfg ts _ hk1 hk2, if_neg hk3]
  cases hcv : cfg.lookup "components" with
  | none => exact hbase
  | some v =>
    cases v with
    | arr cs =>
      dsimp only
      rw [JsObj.lookup_set_ne _ _ _ _ hk2]
      exact hbase
    | null => exact hbase
    | bool b => exact hbase
    | num q => exact hbase
    | str t => exact hbase
    | obj o => exact hbase

/-- Normalizing one prompt field keeps the keys duplicate-free. -/
theorem normPromptField_keysNodup (cfg : JsObj) (k : String)
    (hnd : cfg.keysNodup = true) : (normPromptField cfg k).keysNodup = true := by
  unfold normPromptField
  cases hl : cfg.lookup k with
  | none => exact hnd
  | some v =>
    dsimp only
    by_cases hv : v.truthy = true
    · rw [if_pos hv]
      exact JsObj.keysNodup_set cfg k _ hnd
    · rw [if_neg hv]
      exact hnd

/-- The resolved flow config keeps duplicate-free keys. -/
theorem mStage1_keysNodup (cfg : JsObj) (ts : List Json)
    (hnd : cfg.keysNodup = true) : (mStage1 cfg ts).keysNodup = true := by
  have h1 : (normPromptField cfg "global_prompt").keysNodup = true :=
    normPromptField_keysNodup cfg _ hnd
  have hBT : (mStageBT cfg ts).keysNodup = true := by
    unfold mStageBT
    by_cases htb : truthyField cfg "begin_tag_display_position" = true
    · rw [if_pos htb]
      exact JsObj.keysNodup_removeKey _ _ (JsObj.keysNodup_set _ _ _ h1)
    · rw [if_neg htb]
      exact JsObj.keysNodup_set _ _ _ h1
  unfold mStage1
  cases hcv : cfg.lookup "components" with
  | none => exact JsObj.keysNodup_set _ _ _ hBT
  | some v =>
    cases v with
    | arr cs =>
      dsimp only
      exact JsObj.keysNodup_set _ _ _ (JsObj.keysNodup_set _ _ _ hBT)
    | null => exact JsObj.keysNodup_set _ _ _ hBT
    | bool b => exact JsObj.keysNodup_set _ _ _ hBT
    | num q => exact JsObj.keysNodup_set _ _ _ hBT
    | str t => exact JsObj.keysNodup_set _ _ _ hBT
    | obj o => exact JsObj.keysNodup_set _ _ _ hBT

/-- The merged config keeps duplicate-free keys. -/
theorem mMerged_keysNodup (cfg : JsObj) (ts : List Json)
    (hnd : cfg.keysNodup = true) : (mMerged cfg ts).keysNodup = true := by
  have hS1 : (mStage1 cfg ts).keysNodup = true := mStage1_keysNodup cfg ts hnd
  have hf1 : (if truthyField cfg "begin_tag_display_position" then
      (mStage1 cfg ts).set "begin_tag_display_position"
        (roundPos ((cfg.lookup "begin_tag_display_position").getD .null))
    else mStage1 cfg ts).keysNodup = true := by
    by_cases htb : truthyField cfg "begin_tag_display_position" = true
    · rw [if_pos htb]
      exact JsObj.keysNodup_set _ _ _ hS1
    · rw [if_neg htb]
      exact hS1
  unfold mMerged compsMergedOf
  cases hcv : cfg.lookup "components" with
  | none => exact JsObj.keysNodup_set _ _ _ hf1
  | some v =>
    cases v with
    | arr cs =>
      dsimp only
      exact JsObj.keysNodup_set _ _ _ (JsObj.keysNodup_set _ _ _ hf1)
    | null => exact JsObj.keysNodup_set _ _ _ hf1
    | bool b => exact JsObj.keysNodup_set _ _ _ hf1
    | num q => exact JsObj.keysNodup_set _ _ _ hf1
    | str t => exact JsObj.keysNodup_set _ _ _ hf1
    | obj o => exact JsObj.keysNodup_set _ _ _ hf1

/-- Lookup of keys other than components through the nodeless resolved
config. -/
theorem mStage1None_lookup_other (cfg : JsObj) (k : String)
    (hk2 : k ≠ "components") :
    (mStage1None cfg).lookup k =
      (if k = "begin_tag_display_position" then
        (if truthyField cfg "begin_tag_display_position" then none else cfg.lookup k)
       else (normPromptField cfg "global_prompt").lookup k) := by
  unfold mStage1None
  have hbase : (if truthyField cfg "begin_tag_display_position" then
      (normPromptField cfg "global_prompt").removeKey "begin_tag_display_position"
    else normPromptField cfg "global_prompt").lookup k =
      (if k = "begin_tag_display_position" then
        (if truthyField cfg "begin_tag_display_position" then none else cfg.lookup k)
       else (normPromptField cfg "global_prompt").lookup k) := by
    by_cases hk3 : k = "begin_tag_display_position"
    · subst hk3
      rw [if_pos rfl]
      by_cases htb : truthyField cfg "begin_tag_display_position" = true
      · rw [if_pos htb, if_pos htb, JsObj.lookup_removeKey, if_pos rfl]
      · rw [if_neg htb, if_neg htb, normPromptField_lookup_ne cfg _ _ (by decide)]
    · rw [if_neg hk3]
      by_cases htb : truthyField cfg "begin_tag_display_position" = true
      · rw [if_pos htb, JsObj.lookup_removeKey, if_neg hk3]
      · rw [if_neg htb]
  cases hcv : cfg.lookup "components" with
  | none => exact hbase
  | some v =>
    cases v with
    | arr cs =>
      dsimp only
      rw [JsObj.lookup_set_ne _ _ _ _ hk2]
      exact hbase
    | null => exact hbase
    | bool b => exact hbase
    | num q => exact hbase
    | str t => exact hbase
    | obj o => exact hbase

/-- The components entry of the nodeless resolved config. -/
theorem mStage1None_lookup_comps (cfg : JsObj) :
    (mStage1None cfg).lookup "components" = compsStripOf (cfg.lookup "components") := by
  unfold compsStripOf
  unfold mStage1None
  have hbase : (if truthyField cfg "begin_tag_display_position" then
      (normPromptField cfg "global_prompt").removeKey "begin_tag_display_position"
    else normPromptField cfg "global_prompt").lookup "components" =
      cfg.lookup "components" := by
    by_cases htb : truthyField cfg "begin_tag_display_position" = true
    · rw [if_pos htb, JsObj.lookup_removeKey, if_neg (by decide),
        normPromptField_lookup_ne cfg _ _ (by decide)]
    · rw [if_neg htb, normPromptField_lookup_ne cfg _ _ (by decide)]
  cases hcv : cfg.lookup "components" with
  | none => rw [hbase, hcv]
  | some v =>
    cases v with
    | arr cs =>
      dsimp only
      exact JsObj.lookup_set_self _ _ _
    | null => rw [hbase, hcv]
    | bool b => rw [hbase, hcv]
    | num q => rw [hbase, hcv]
    | str t => rw [hbase, hcv]
    | obj o => rw [hbase, hcv]

/-- The merged begin-tag entry of the nodeless config. -/
theorem mMergedNone_lookup_bt (cfg : JsObj) :
    (mMergedNone cfg).lookup "begin_tag_display_position" =
      (if truthyField cfg "begin_tag_display_position" then
        some (roundPos ((cfg.lookup "begin_tag_display_position").getD .null))
      else cfg.lookup "begin_tag_display_position") := by
  unfold mMergedNone compsMergedOf
  have hbase : (if truthyField cfg "begin_tag_display_position" then
      (mStage1None cfg).set "begin_tag_display_position"
        (roundPos ((cfg.lookup "begin_tag_display_position").getD .null))
    else mStage1None cfg).lookup "begin_tag_display_position" =
      (if truthyField cfg "begin_tag_display_position" then
        some (roundPos ((cfg.lookup "begin_tag_display_position").getD .null))
      else cfg.lookup "begin_tag_display_position") := by
    by_cases htb : truthyField cfg "begin_tag_display_position" = true
    · rw [if_pos htb, if_pos htb, JsObj.lookup_set_self]
    · rw [if_neg htb, if_neg htb, mStage1None_lookup_other cfg _ (by decide),
        if_pos rfl, if_neg htb]
  cases hcv : cfg.lookup "components" with
  | none => exact hbase
  | some v =>
    cases v with
    | arr cs =>
      dsimp only
      rw [JsObj.lookup_set_ne _ _ _ _ (by decide)]
      exact hbase
    | null => exact hbase
    | bool b => exact hbase
    | num q => exact hbase
    | str t => exact hbase
    | obj o => exact hbase

/-- The merged components entry of the nodeless config. -/
theorem mMergedNone_lookup_comps (cfg : JsObj) :
    (mMergedNone cfg).lookup "components" =
      (match cfg.lookup "components" with
       | some (.arr cs) => some (.arr (JsArr.ofList
           ((cs.toList.map compStrip).map (compRestore (compMapOf cs.toList)))))
       | other => other) := by
  unfold mMergedNone compsMergedOf
  have hbase : (if truthyField cfg "begin_tag_display_position" then
      (mStage1None cfg).set "begin_tag_display_position"
        (roundPos ((cfg.lookup "begin_tag_display_position").getD .null))
    else mStage1None cfg).lookup "components" =
      (mStage1None cfg).lookup "components" := by
    by_cases htb : truthyField cfg "begin_tag_display_position" = true
    · rw [if_pos htb, JsObj.lookup_set_ne _ _ _ _ (by decide)]
    · rw [if_neg htb]
  cases hcv : cfg.lookup "components" with
  | none =>
    rw [hbase, mStage1None_lookup_comps, hcv]
    rfl
  | some v =>
    cases v with
    | arr cs =>
      dsimp only
      exact JsObj.lookup_set_self _ _ _
    | null =>
      rw [hbase, mStage1None_lookup_comps, hcv]
      rfl
    | bool b =>
      rw [hbase, mStage1None_lookup_comps, hcv]
      rfl
    | num q =>
      rw [hbase, mStage1None_lookup_comps, hcv]
      rfl
    | str t =>
      rw [hbase, mStage1None_lookup_comps, hcv]
      rfl
    | obj o =>
      rw [hbase, mStage1None_lookup_comps, hcv]
      rfl

/-- Untouched keys of the nodeless merged config. -/
theorem mMergedNone_lookup_other (cfg : JsObj) (k : String)
    (hk2 : k ≠ "components") (hk3 : k ≠ "begin_tag_display_position") :
    (mMergedNone cfg).lookup k = (normPromptField cfg "global_prompt").lookup k := by
  unfold mMergedNone compsMergedOf
  have hbase : (if truthyField cfg "begin_tag_display_position" then
      (mStage1None cfg).set "begin_tag_display_position"
        (roundPos ((cfg.lookup "begin_tag_display_position").getD .null))
    else mStage1None cfg).lookup k =
      (normPromptField cfg "global_prompt").lookup k := by
    by_cases htb : truthyField cfg "begin_tag_display_position" = true
    · rw [if_pos htb, JsObj.lookup_set_ne _ _ _ _ hk3,
        mStage1None_lookup_other cfg _ hk2, if_neg hk3]
    · rw [if_neg htb, mStage1None_lookup_other cfg _ hk2, if_neg hk3]
  cases hcv : cfg.lookup "components" with
  | none => exact hbase
  | some v =>
    cases v with
    | arr cs =>
      dsimp only
      rw [JsObj.lookup_set_ne _ _ _ _ hk2]
      exact hbase
    | null => exact hbase
    | bool b => exact hbase
    | num q => exact hbase
    | str t => exact hbase
    | obj o => exact hbase

/-- The nodeless merged config keeps duplicate-free keys. -/
theorem mMergedNone_keysNodup (cfg : JsObj)
    (hnd : cfg.keysNodup = true) : (mMergedNone cfg).keysNodup = true := by
  have h1 : (normPromptField cfg "global_prompt").keysNodup = true :=
    normPromptField_keysNodup cfg _ hnd
  have hS1 : (mStage1None cfg).keysNodup = true := by
    have hc3 : (if truthyField cfg "begin_tag_display_position" then
        (normPromptField cfg "global_prompt").removeKey "begin_tag_display_position"
      else normPromptField cfg "global_prompt").keysNodup = true := by
      by_cases htb : truthyField cfg "begin_tag_display_position" = true
      · rw [if_pos htb]
        exact JsObj.keysNodup_removeKey _ _ h1
      · rw [if_neg htb]
        exact h1
    unfold mStage1None
    cases hcv : cfg.lookup "components" with
    | none => exact hc3
    | some v =>
      cases v with
      | arr cs =>
        dsimp only
        exact JsObj.keysNodup_set _ _ _ hc3
      | null => exact hc3
      | bool b => exact hc3
      | num q => exact hc3
      | str t => exact hc3
      | obj o => exact hc3
  have hf1 : (if truthyField cfg "begin_tag_display_position" then
      (mStage1None cfg).set "begin_tag_display_position"
        (roundPos ((cfg.lookup "begin_tag_display_position").getD .null))
    else mStage1None cfg).keysNodup = true := by
    by_cases htb : truthyField cfg "begin_tag_display_position" = true
    · rw [if_pos htb]
      exact JsObj.keysNodup_set _ _ _ hS1
    · rw [if_neg htb]
      exact hS1
  unfold mMergedNone compsMergedOf
  cases hcv : cfg.lookup "components" with
  | none => exact hf1
  | some v =>
    cases v with
    | arr cs =>
      dsimp only
      exact JsObj.keysNodup_set _ _ _ hf1
    | null => exact hf1
    | bool b => exact hf1
    | num q => exact hf1
    | str t => exact hf1
    | obj o => exact hf1

/-- Lookup in the written positions object. -/
theorem mPos_lookup (cfg : JsObj) (ts : List Json) (k : String) :
    (mPos cfg ts).lookup k =
      (if "begin_tag" = k then
        (if truthyField cfg "begin_tag_display_position" then
          some (roundPos ((cfg.lookup "begin_tag_display_position").getD .null))
        else none)
       else if "nodes" = k then
        (if (posMapOf ts).length = 0 then none else some (.obj (posMapOf ts)))
       else if "components" = k then
        (match cfg.lookup "components" with
         | some (.arr cs) =>
           if (compMapOf cs.toList).length = 0 then none
           else some (.obj (compMapOf cs.toList))
         | _ => none)
       else none) := by
  unfold mPos
  rw [JsObj.lookup_append, JsObj.lookup_append]
  have hbtf : (if truthyField cfg "begin_tag_display_position" then
      JsObj.cons "begin_tag"
        (roundPos ((cfg.lookup "begin_tag_display_position").getD .null)) .nil
    else JsObj.nil).lookup k =
      (if "begin_tag" = k then
        (if truthyField cfg "begin_tag_display_position" then
          some (roundPos ((cfg.lookup "begin_tag_display_position").getD .null))
        else none)
       else none) := by
    by_cases htb : truthyField cfg "begin_tag_display_position" = true
    · rw [if_pos htb]
      simp only [JsObj.lookup]
      by_cases hkb : "begin_tag" = k
      · rw [if_pos hkb, if_pos hkb, if_pos htb]
      · rw [if_neg hkb, if_neg hkb]
    · rw [if_neg htb]
      simp only [JsObj.lookup]
      by_cases hkb : "begin_tag" = k
      · rw [if_pos hkb, if_neg htb]
      · rw [if_neg hkb]
  have hndf : (if (posMapOf ts).length = 0 then JsObj.nil
      else JsObj.cons "nodes" (.obj (posMapOf ts)) .nil).lookup k =
      (if "nodes" = k then
        (if (posMapOf ts).length = 0 then none else some (.obj (posMapOf ts)))
       else none) := by
    by_cases hpm : (posMapOf ts).length = 0
    · rw [if_pos hpm]
      simp only [JsObj.lookup]
      by_cases hkn : "nodes" = k
      · rw [if_pos hkn, if_pos hpm]
      · rw [if_neg hkn]
    · rw [if_neg hpm]
      simp only [JsObj.lookup]
      by_cases hkn : "nodes" = k
      · rw [if_pos hkn, if_pos hkn, if_neg hpm]
      · rw [if_neg hkn, if_neg hkn]
  have hcpf : (match cfg.lookup "components" with
       | some (.arr cs) =>
         if (compMapOf cs.toList).length = 0 then JsObj.nil
         else JsObj.cons "components" (.obj (compMapOf cs.toList)) .nil
       | _ => JsObj.nil).lookup k =
      (if "components" = k then
        (match cfg.lookup "components" with
         | some (.arr cs) =>
           if (compMapOf cs.toList).length = 0 then none
           else some (.obj (compMapOf cs.toList))
         | _ => none)
       else none) := by
    cases hcv : cfg.lookup "components" with
    | none =>
      simp only [JsObj.lookup]
      by_cases hkc : "components" = k
      · rw [if_pos hkc]
      · rw [if_neg hkc]
    | some v =>
      cases v with
      | arr cs =>
        dsimp only
        by_cases hcm : (compMapOf cs.toList).length = 0
        · rw [if_pos hcm]
          simp only [JsObj.lookup]
          by_cases hkc : "components" = k
          · rw [if_pos hkc, if_pos hcm]
          · rw [if_neg hkc]
        · rw [if_neg hcm]
          simp only [JsObj.lookup]
          by_cases hkc : "components" = k
          · rw [if_pos hkc, if_pos hkc, if_neg hcm]
          · rw [if_neg hkc, if_neg hkc]
      | null =>
        simp only [JsObj.lookup]
        by_cases hkc : "components" = k
        · rw [if_pos hkc]
        · rw [if_neg hkc]
      | bool b =>
        simp only [JsObj.lookup]
        by_cases hkc : "components" = k
        · rw [if_pos hkc]
        · rw [if_neg hkc]
      | num q =>
        simp only [JsObj.lookup]
        by_cases hkc : "components" = k
        · rw [if_pos hkc]
        · rw [if_neg hkc]
      | str t =>
        simp only [JsObj.lookup]
        by_cases hkc : "components" = k
        · rw [if_pos hkc]
        · rw [if_neg hkc]
      | obj o =>
        simp only [JsObj.lookup]
        by_cases hkc : "components" = k
        · rw [if_pos hkc]
        · rw [if_neg hkc]
  rw [hbtf, hndf, hcpf]
  by_cases hkb : "begin_tag" = k
  · have hkn : ¬ "nodes" = k := fun h => absurd (h.trans hkb.symm) (by decide)
    have hkc : ¬ "components" = k := fun h => absurd (h.trans hkb.symm) (by decide)
    rw [if_pos hkb]
    rw [if_pos hkb]
    rw [if_neg hkn, if_neg hkc]
    by_cases htb : truthyField cfg "begin_tag_display_position" = true
    · rw [if_pos htb]
    · rw [if_neg htb]
  · rw [if_neg hkb]
    rw [if_neg hkb]
    by_cases hkn : "nodes" = k
    · have hkc : ¬ "components" = k := fun h => absurd (h.trans hkn.symm) (by decide)
      rw [if_pos hkn]
      rw [if_pos hkn]
      rw [if_neg hkc]
      by_cases hpm : (posMapOf ts).length = 0
      · rw [if_pos hpm]
      · rw [if_neg hpm]
    · rw [if_neg hkn]
      rw [if_neg hkn]

/-- Lookup in the written positions object of a nodeless flow. -/
theorem mPosNone_lookup (cfg : JsObj) (k : String) :
    (mPosNone cfg).lookup k =
      (if "begin_tag" = k then
        (if truthyField cfg "begin_tag_display_position" then
          some (roundPos ((cfg.lookup "begin_tag_display_position").getD .null))
        else none)
       else if "components" = k then
        (match cfg.lookup "components" with
         | some (.arr cs) =>
           if (compMapOf cs.toList).length = 0 then none
           else some (.obj (compMapOf cs.toList))
         | _ => none)
       else none) := by
  unfold mPosNone
  rw [JsObj.lookup_append]
  have hbtf : (if truthyField cfg "begin_tag_display_position" then
      JsObj.cons "begin_tag"
        (roundPos ((cfg.lookup "begin_tag_display_position").getD .null)) .nil
    else JsObj.nil).lookup k =
      (if "begin_tag" = k then
        (if truthyField cfg "begin_tag_display_position" then
          some (roundPos ((cfg.lookup "begin_tag_display_position").getD .null))
        else none)
       else none) := by
    by_cases htb : truthyField cfg "begin_tag_display_position" = true
    · rw [if_pos htb]
      simp only [JsObj.lookup]
      by_cases hkb : "begin_tag" = k
      · rw [if_pos hkb, if_pos hkb, if_pos htb]
      · rw [if_neg hkb, if_neg hkb]
    · rw [if_neg htb]
      simp only [JsObj.lookup]
      by_cases hkb : "begin_tag" = k
      · rw [if_pos hkb, if_neg htb]
      · rw [if_neg hkb]
  have hcpf : (match cfg.lookup "components" with
       | some (.arr cs) =>
         if (compMapOf cs.toList).length = 0 then JsObj.nil
         else JsObj.cons "components" (.obj (compMapOf cs.toList)) .nil
       | _ => JsObj.nil).lookup k =
      (if "components" = k then
        (match cfg.lookup "components" with
         | some (.arr cs) =>
           if (compMapOf cs.toList).length = 0 then none
           else some (.obj (compMapOf cs.toList))
         | _ => none)
       else none) := by
    cases hcv : cfg.lookup "components" with
    | none =>
      simp only [JsObj.lookup]
      by_cases hkc : "components" = k
      · rw [if_pos hkc]
      · rw [if_neg hkc]
    | some v =>
      cases v with
      | arr cs =>
        dsimp only
        by_cases hcm : (compMapOf cs.toList).length = 0
        · rw [if_pos hcm]
          simp only [JsObj.lookup]
          by_cases hkc : "components" = k
          · rw [if_pos hkc, if_pos hcm]
          · rw [if_neg hkc]
        · rw [if_neg hcm]
          simp only [JsObj.lookup]
          by_cases hkc : "components" = k
          · rw [if_pos hkc, if_pos hkc, if_neg hcm]
          · rw [if_neg hkc, if_neg hkc]
      | null =>
        simp only [JsObj.lookup]
        by_cases hkc : "components" = k
        · rw [if_pos hkc]
        · rw [if_neg hkc]
      | bool b =>
        simp only [JsObj.lookup]
        by_cases hkc : "components" = k
        · rw [if_pos hkc]
        · rw [if_neg hkc]
      | num q =>
        simp only [JsObj.lookup]
        by_cases hkc : "components" = k
        · rw [if_pos hkc]
        · rw [if_neg hkc]
      | str t =>
        simp only [JsObj.lookup]
        by_cases hkc : "components" = k
        · rw [if_pos hkc]
        · rw [if_neg hkc]
      | obj o =>
        simp only [JsObj.lookup]
        by_cases hkc : "components" = k
        · rw [if_pos hkc]
        · rw [if_neg hkc]
  rw [hbtf, hcpf]
  by_cases hkb : "begin_tag" = k
  · have hkc : ¬ "components" = k := fun h => absurd (h.trans hkb.symm) (by decide)
    rw [if_pos hkb]
    rw [if_pos hkb]
    rw [if_neg hkc]
    by_cases htb : truthyField cfg "begin_tag_display_position" = true
    · rw [if_pos htb]
    · rw [if_neg htb]
  · rw [if_neg hkb]
    rw [if_neg hkb]

/-- The component stage of the position extraction only depends on the
components entry. -/
theorem compsStagePair (cfg : JsObj) (a : JsObj)
    (ha : a.lookup "components" = cfg.lookup "components") :
    ((if truthyField a "components" then
        match a.lookup "components" with
        | some (.arr cs) =>
          if (compMapOf cs.toList).length = 0 then JsObj.nil
          else JsObj.cons "components" (.obj (compMapOf cs.toList)) .nil
        | _ => JsObj.nil
      else JsObj.nil)
     = (match cfg.lookup "components" with
        | some (.arr cs) =>
          if (compMapOf cs.toList).length = 0 then JsObj.nil
          else JsObj.cons "components" (.obj (compMapOf cs.toList)) .nil
        | _ => JsObj.nil)) ∧
    ((if truthyField a "components" then
        match a.lookup "components" with
        | some (.arr cs) => a.set "components" (.arr (JsArr.ofList (cs.toList.map compStrip)))
        | _ => a
      else a)
     = (match cfg.lookup "components" with
        | some (.arr cs) => a.set "components" (.arr (JsArr.ofList (cs.toList.map compStrip)))
        | _ => a)) := by
  have ht : truthyField a "components" = truthyField cfg "components" :=
    truthyField_congr _ _ _ ha
  rw [ht, ha]
  cases hcv : cfg.lookup "components" with
  | none => constructor <;> (split <;> rfl)
  | some v =>
    cases v with
    | arr cs =>
      have htc : truthyField cfg "components" = true := by
        unfold truthyField
        rw [hcv]
        rfl
      constructor <;> rw [if_pos htc]
    | null => constructor <;> (split <;> rfl)
    | bool b => constructor <;> (split <;> rfl)
    | num q => constructor <;> (split <;> rfl)
    | str t => constructor <;> (split <;> rfl)
    | obj o => constructor <;> (split <;> rfl)

/-- The resolved flow artifacts of a flow with a nodes array, in
explicit form. -/
theorem rFlowParts_arr (cfg : JsObj) (ns0 : JsArr)
    (hn : cfg.lookup "nodes" = some (.arr ns0)) :
    rFlowParts cfg = (mPos cfg (ns0.toList.map trimSub),
      mStage1 cfg (ns0.toList.map trimSub)) := by
  have hc1n : (normPromptField cfg "global_prompt").lookup "nodes" = some (.arr ns0) := by
    rw [normPromptField_lookup_ne cfg _ _ (by decide)]
    exact hn
  unfold rFlowParts
  dsimp only
  rw [hc1n]
  dsimp only
  rw [flowPosStage_norm]
  dsimp only
  have hbtl : ((normPromptField cfg "global_prompt").set "nodes"
      (.arr (JsArr.ofList (ns0.toList.map trimSub)))).lookup "begin_tag_display_position"
      = cfg.lookup "begin_tag_display_position" := by
    rw [JsObj.lookup_set_ne _ _ _ _ (by decide),
      normPromptField_lookup_ne cfg _ _ (by decide)]
  have hbtt : truthyField ((normPromptField cfg "global_prompt").set "nodes"
      (.arr (JsArr.ofList (ns0.toList.map trimSub)))) "begin_tag_display_position"
      = truthyField cfg "begin_tag_display_position" := truthyField_congr _ _ _ hbtl
  rw [hbtt, hbtl]
  unfold mPos mStage1 mStageBT
  by_cases htb : truthyField cfg "begin_tag_display_position" = true
  · rw [if_pos htb]
    rw [if_pos htb]
    have ha : ((((normPromptField cfg "global_prompt").set "nodes"
        (.arr (JsArr.ofList (ns0.toList.map trimSub)))).removeKey
          "begin_tag_display_position").set "nodes"
        (.arr (JsArr.ofList ((ns0.toList.map trimSub).map posStrip)))).lookup "components"
        = cfg.lookup "components" := by
      rw [JsObj.lookup_set_ne _ _ _ _ (by decide), JsObj.lookup_removeKey,
        if_neg (by decide), JsObj.lookup_set_ne _ _ _ _ (by decide),
        normPromptField_lookup_ne cfg _ _ (by decide)]
    rw [(compsStagePair cfg _ ha).1, (compsStagePair cfg _ ha).2]
  · rw [if_neg htb]
    rw [if_neg htb]
    have ha : (((normPromptField cfg "global_prompt").set "nodes"
        (.arr (JsArr.ofList (ns0.toList.map trimSub)))).set "nodes"
        (.arr (JsArr.ofList ((ns0.toList.map trimSub).map posStrip)))).lookup "components"
        = cfg.lookup "components" := by
      rw [JsObj.lookup_set_ne _ _ _ _ (by decide), JsObj.lookup_set_ne _ _ _ _ (by decide),
        normPromptField_lookup_ne cfg _ _ (by decide)]
    rw [(compsStagePair cfg _ ha).1, (compsStagePair cfg _ ha).2]

/-- The resolved flow artifacts of a flow without a nodes array, in
explicit form. -/
theorem rFlowParts_none (cfg : JsObj)
    (hn : ∀ xs : JsArr, cfg.lookup "nodes" ≠ some (.arr xs)) :
    rFlowParts cfg = (mPosNone cfg, mStage1None cfg) := by
  have hc1n : (normPromptField cfg "global_prompt").lookup "nodes" = cfg.lookup "nodes" :=
    normPromptField_lookup_ne cfg _ _ (by decide)
  have hbtl : (normPromptField cfg "global_prompt").lookup "begin_tag_display_position"
      = cfg.lookup "begin_tag_display_position" :=
    normPromptField_lookup_ne cfg _ _ (by decide)
  have hbtt : truthyField (normPromptField cfg "global_prompt") "begin_tag_display_position"
      = truthyField cfg "begin_tag_display_position" := truthyField_congr _ _ _ hbtl
  have hmain : ∀ u, (normPromptField cfg "global_prompt").lookup "nodes" = u →
      (∀ xs : JsArr, u ≠ some (.arr xs)) →
      rFlowParts cfg = (mPosNone cfg, mStage1None cfg) := by
    intro u hu hne
    unfold rFlowParts
    dsimp only
    rw [hu]
    cases u with
    | none =>
      dsimp only
      rw [flowPosStage_norm]
      dsimp only
      rw [hbtt, hbtl]
      unfold mPosNone mStage1None
      by_cases htb : truthyField cfg "begin_tag_display_position" = true
      · rw [if_pos htb]
        rw [if_pos htb]
        have ha : ((normPromptField cfg "global_prompt").removeKey
            "begin_tag_display_position").lookup "components"
            = cfg.lookup "components" := by
          rw [JsObj.lookup_removeKey, if_neg (by decide),
            normPromptField_lookup_ne cfg _ _ (by decide)]
        rw [(compsStagePair cfg _ ha).1, (compsStagePair cfg _ ha).2]
        rfl
      · rw [if_neg htb]
        rw [if_neg htb]
        have ha : (normPromptField cfg "global_prompt").lookup "components"
            = cfg.lookup "components" := normPromptField_lookup_ne cfg _ _ (by decide)
        rw [(compsStagePair cfg _ ha).1, (compsStagePair cfg _ ha).2]
        rfl
    | some v =>
      cases v with
      | arr xs => exact absurd rfl (hne xs)
      | null =>
        dsimp only
        rw [flowPosStage_norm]
        dsimp only
        rw [hbtt, hbtl]
        unfold mPosNone mStage1None
        by_cases htb : truthyField cfg "begin_tag_display_position" = true
        · rw [if_pos htb]
          rw [if_pos htb]
          have ha : ((normPromptField cfg "global_prompt").removeKey
              "begin_tag_display_position").lookup "components"
              = cfg.lookup "components" := by
            rw [JsObj.lookup_removeKey, if_neg (by decide),
              normPromptField_lookup_ne cfg _ _ (by decide)]
          rw [(compsStagePair cfg _ ha).1, (compsStagePair cfg _ ha).2]
          rfl
        · rw [if_neg htb]
          rw [if_neg htb]
          have ha : (normPromptField cfg "global_prompt").lookup "components"
              = cfg.lookup "components" := normPromptField_lookup_ne cfg _ _ (by decide)
          rw [(compsStagePair cfg _ ha).1, (compsStagePair cfg _ ha).2]
          rfl
      | bool b =>
        dsimp only
        rw [flowPosStage_norm]
        dsimp only
        rw [hbtt, hbtl]
        unfold mPosNone mStage1None
        by_cases htb : truthyField cfg "begin_tag_display_position" = true
        · rw [if_pos htb]
          rw [if_pos htb]
          have ha : ((normPromptField cfg "global_prompt").removeKey
              "begin_tag_display_position").lookup "components"
              = cfg.lookup "components" := by
            rw [JsObj.lookup_removeKey, if_neg (by decide),
              normPromptField_lookup_ne cfg _ _ (by decide)]
          rw [(compsStagePair cfg _ ha).1, (compsStagePair cfg _ ha).2]
          rfl
        · rw [if_neg htb]
          rw [if_neg htb]
          have ha : (normPromptField cfg "global_prompt").lookup "components"
              = cfg.lookup "components" := normPromptField_lookup_ne cfg _ _ (by decide)
          rw [(compsStagePair cfg _ ha).1, (compsStagePair cfg _ ha).2]
          rfl
      | num q =>
        dsimp only
        rw [flowPosStage_norm]
        dsimp only
        rw [hbtt, hbtl]
        unfold mPosNone mStage1None
        by_cases htb : truthyField cfg "begin_tag_display_position" = true
        · rw [if_pos htb]
          rw [if_pos htb]
          have ha : ((normPromptField cfg "global_prompt").removeKey
              "begin_tag_display_position").lookup "components"
              = cfg.lookup "components" := by
            rw [JsObj.lookup_removeKey, if_neg (by decide),
              normPromptField_lookup_ne cfg _ _ (by decide)]
          rw [(compsStagePair cfg _ ha).1, (compsStagePair cfg _ ha).2]
          rfl
        · rw [if_neg htb]
          rw [if_neg htb]
          have ha : (normPromptField cfg "global_prompt").lookup "components"
              = cfg.lookup "components" := normPromptField_lookup_ne cfg _ _ (by decide)
          rw [(compsStagePair cfg _ ha).1, (compsStagePair cfg _ ha).2]
          rfl
      | str t =>
        dsimp only
        rw [flowPosStage_norm]
        dsimp only
        rw [hbtt, hbtl]
        unfold mPosNone mStage1None
        by_cases htb : truthyField cfg "begin_tag_display_position" = true
        · rw [if_pos htb]
          rw [if_pos htb]
          have ha : ((normPromptField cfg "global_prompt").removeKey
              "begin_tag_display_position").lookup "components"
              = cfg.lookup "components" := by
            rw [JsObj.lookup_removeKey, if_neg (by decide),
              normPromptField_lookup_ne cfg _ _ (by decide)]
          rw [(compsStagePair cfg _ ha).1, (compsStagePair cfg _ ha).2]
          rfl
        · rw [if_neg htb]
          rw [if_neg htb]
          have ha : (normPromptField cfg "global_prompt").lookup "components"
              = cfg.lookup "components" := normPromptField_lookup_ne cfg _ _ (by decide)
          rw [(compsStagePair cfg _ ha).1, (compsStagePair cfg _ ha).2]
          rfl
      | obj o =>
        dsimp only
        rw [flowPosStage_norm]
        dsimp only
        rw [hbtt, hbtl]
        unfold mPosNone mStage1None
        by_cases htb : truthyField cfg "begin_tag_display_position" = true
        · rw [if_pos htb]
          rw [if_pos htb]
          have ha : ((normPromptField cfg "global_prompt").removeKey
              "begin_tag_display_position").lookup "components"
              = cfg.lookup "components" := by
            rw [JsObj.lookup_removeKey, if_neg (by decide),
              normPromptField_lookup_ne cfg _ _ (by decide)]
          rw [(compsStagePair cfg _ ha).1, (compsStagePair cfg _ ha).2]
          rfl
        · rw [if_neg htb]
          rw [if_neg htb]
          have ha : (normPromptField cfg "global_prompt").lookup "components"
              = cfg.lookup "components" := normPromptField_lookup_ne cfg _ _ (by decide)
          rw [(compsStagePair cfg _ ha).1, (compsStagePair cfg _ ha).2]
          rfl
  refine hmain _ rfl ?hne
  rw [hc1n]
  exact hn

/-- The node-restoration step of the merge, on a config whose nodes
entry is the stripped array. -/
theorem nodesMergeStep (ts : List Json) (f : JsObj)
    (hf : f.lookup "nodes" = some (.arr (JsArr.ofList (ts.map posStrip)))) :
    (match (if (posMapOf ts).length = 0 then none else some (Json.obj (posMapOf ts))),
        f.lookup "nodes" with
     | some (.obj nodePos), some (.arr nodes) =>
       f.set "nodes" (.arr (JsArr.ofList (nodes.toList.map (nodeRestore nodePos))))
     | _, _ => f)
    = f.set "nodes" (.arr (JsArr.ofList ((ts.map posStrip).map
        (nodeRestore (posMapOf ts))))) := by
  by_cases hpm : (posMapOf ts).length = 0
  · rw [if_pos hpm, hf]
    have hnil : posMapOf ts = .nil := (JsObj.length_zero_iff _).mp hpm
    rw [hnil, map_nodeRestore_nil]
    exact (JsObj.set_lookup_self f "nodes" _ hf).symm
  · rw [if_neg hpm, hf]
    dsimp only
    rw [JsArr.toList_ofList]

/-- The component-restoration step of the merge, on a config whose
components entry is the stripped array. -/
theorem compsMergeStep (u : Option Json) (f : JsObj)
    (hf : f.lookup "components" = compsStripOf u) :
    (match compsPosOf u, f.lookup "components" with
     | some (.obj compPos), some (.arr comps) =>
       f.set "components" (.arr (JsArr.ofList (comps.toList.map (compRestore compPos))))
     | _, _ => f)
    = compsMergedOf u f := by
  cases u with
  | none =>
    dsimp only [compsPosOf, compsStripOf, compsMergedOf] at hf ⊢
  | some v =>
    cases v with
    | arr cs =>
      dsimp only [compsPosOf, compsStripOf, compsMergedOf] at hf ⊢
      by_cases hcm : (compMapOf cs.toList).length = 0
      · rw [if_pos hcm, hf]
        dsimp only
        have hnil : compMapOf cs.toList = .nil := (JsObj.length_zero_iff _).mp hcm
        rw [hnil, map_compRestore_nil]
        refine (JsObj.set_lookup_self f "components" _ ?hl).symm
        rw [hf]
      · rw [if_neg hcm, hf]
        dsimp only
        rw [JsArr.toList_ofList]
    | null =>
      dsimp only [compsPosOf, compsStripOf, compsMergedOf] at hf ⊢
    | bool b =>
      dsimp only [compsPosOf, compsStripOf, compsMergedOf] at hf ⊢
    | num q =>
      dsimp only [compsPosOf, compsStripOf, compsMergedOf] at hf ⊢
    | str t =>
      dsimp only [compsPosOf, compsStripOf, compsMergedOf] at hf ⊢
    | obj o =>
      dsimp only [compsPosOf, compsStripOf, compsMergedOf] at hf ⊢

/-- The merge of the written positions onto the resolved config, for a
flow with a nodes array. -/
theorem mergePositions_mStage1 (cfg : JsObj) (ts : List Json) :
    mergePositions (mStage1 cfg ts) (mPos cfg ts) = mMerged cfg ts := by
  rw [mergePositions_norm]
  dsimp only
  have hPbt : (mPos cfg ts).lookup "begin_tag" =
      (if truthyField cfg "begin_tag_display_position" then
        some (roundPos ((cfg.lookup "begin_tag_display_position").getD .null))
      else none) := by
    rw [mPos_lookup cfg ts "begin_tag", if_pos rfl]
  have hPn : (mPos cfg ts).lookup "nodes" =
      (if (posMapOf ts).length = 0 then none else some (.obj (posMapOf ts))) := by
    rw [mPos_lookup cfg ts "nodes", if_neg (by decide), if_pos rfl]
  have hPc : (mPos cfg ts).lookup "components" = compsPosOf (cfg.lookup "components") := by
    rw [mPos_lookup cfg ts "components", if_neg (by decide), if_neg (by decide), if_pos rfl]
    unfold compsPosOf
    rfl
  rw [hPbt]
  by_cases htb : truthyField cfg "begin_tag_display_position" = true
  · rw [if_pos htb]
    dsimp only
    rw [if_pos (roundPos_truthy _)]
    rw [hPn]
    have hf1 : ((mStage1 cfg ts).set "begin_tag_display_position"
        (roundPos ((cfg.lookup "begin_tag_display_position").getD .null))).lookup "nodes"
        = some (.arr (JsArr.ofList (ts.map posStrip))) := by
      rw [JsObj.lookup_set_ne _ _ _ _ (by decide), mStage1_lookup_nodes]
    rw [nodesMergeStep ts _ hf1]
    rw [hPc]
    have hf2 : (((mStage1 cfg ts).set "begin_tag_display_position"
        (roundPos ((cfg.lookup "begin_tag_display_position").getD .null))).set "nodes"
        (.arr (JsArr.ofList ((ts.map posStrip).map
          (nodeRestore (posMapOf ts)))))).lookup "components"
        = compsStripOf (cfg.lookup "components") := by
      rw [JsObj.lookup_set_ne _ _ _ _ (by decide), JsObj.lookup_set_ne _ _ _ _ (by decide),
        mStage1_lookup_comps]
    rw [compsMergeStep (cfg.lookup "components") _ hf2]
    unfold mMerged compsMergedOf
    rw [if_pos htb]
  · rw [if_neg htb]
    dsimp only
    rw [hPn]
    have hf1 : (mStage1 cfg ts).lookup "nodes"
        = some (.arr (JsArr.ofList (ts.map posStrip))) := mStage1_lookup_nodes cfg ts
    rw [nodesMergeStep ts _ hf1]
    rw [hPc]
    have hf2 : ((mStage1 cfg ts).set "nodes"
        (.arr (JsArr.ofList ((ts.map posStrip).map
          (nodeRestore (posMapOf ts)))))).lookup "components"
        = compsStripOf (cfg.lookup "components") := by
      rw [JsObj.lookup_set_ne _ _ _ _ (by decide), mStage1_lookup_comps]
    rw [compsMergeStep (cfg.lookup "components") _ hf2]
    unfold mMerged compsMergedOf
    rw [if_neg htb]

/-- The merge of the written positions onto the resolved config, for a
flow without a nodes array. -/
theorem mergePositions_mStage1None (cfg : JsObj) :
    mergePositions (mStage1None cfg) (mPosNone cfg) = mMergedNone cfg := by
  rw [mergePositions_norm]
  dsimp only
  have hPbt : (mPosNone cfg).lookup "begin_tag" =
      (if truthyField cfg "begin_tag_display_position" then
        some (roundPos ((cfg.lookup "begin_tag_display_position").getD .null))
      else none) := by
    rw [mPosNone_lookup cfg "begin_tag", if_pos rfl]
  have hPn : (mPosNone cfg).lookup "nodes" = none := by
    rw [mPosNone_lookup cfg "nodes", if_neg (by decide), if_neg (by decide)]
  have hPc : (mPosNone cfg).lookup "components" = compsPosOf (cfg.lookup "components") := by
    rw [mPosNone_lookup cfg "components", if_neg (by decide), if_pos rfl]
    unfold compsPosOf
    rfl
  rw [hPbt]
  by_cases htb : truthyField cfg "begin_tag_display_position" = true
  · rw [if_pos htb]
    dsimp only
    rw [if_pos (roundPos_truthy _)]
    rw [hPn]
    dsimp only
    rw [hPc]
    have hf2 : ((mStage1None cfg).set "begin_tag_display_position"
        (roundPos ((cfg.lookup "begin_tag_display_position").getD .null))).lookup "components"
        = compsStripOf (cfg.lookup "components") := by
      rw [JsObj.lookup_set_ne _ _ _ _ (by decide), mStage1None_lookup_comps]
    rw [compsMergeStep (cfg.lookup "components") _ hf2]
    unfold mMergedNone compsMergedOf
    rw [if_pos htb]
  · rw [if_neg htb]
    dsimp only
    rw [hPn]
    dsimp only
    rw [hPc]
    have hf2 : (mStage1None cfg).lookup "components"
        = compsStripOf (cfg.lookup "components") := mStage1None_lookup_comps cfg
    rw [compsMergeStep (cfg.lookup "components") _ hf2]
    unfold mMergedNone compsMergedOf
    rw [if_neg htb]

/-- The normalized flow config of a nodes-array flow, in explicit form. -/
theorem normFlowConfig_arr (cfg : JsObj) (ns0 : JsArr)
    (hn : cfg.lookup "nodes" = some (.arr ns0)) :
    normFlowConfig cfg = nYArr cfg (ns0.toList.map normNode) := by
  have hc1n : (normPromptField cfg "global_prompt").lookup "nodes" = some (.arr ns0) := by
    rw [normPromptField_lookup_ne cfg _ _ (by decide)]
    exact hn
  unfold normFlowConfig nYArr
  dsimp only
  rw [hc1n]
  dsimp only
  have hbtl : ((normPromptField cfg "global_prompt").set "nodes"
      (.arr (JsArr.ofList (ns0.toList.map normNode)))).lookup "begin_tag_display_position"
      = cfg.lookup "begin_tag_display_position" := by
    rw [JsObj.lookup_set_ne _ _ _ _ (by decide),
      normPromptField_lookup_ne cfg _ _ (by decide)]
  have hbtt : truthyField ((normPromptField cfg "global_prompt").set "nodes"
      (.arr (JsArr.ofList (ns0.toList.map normNode)))) "begin_tag_display_position"
      = truthyField cfg "begin_tag_display_position" := truthyField_congr _ _ _ hbtl
  rw [hbtt, hbtl]
  by_cases htb : truthyField cfg "begin_tag_display_position" = true
  · rw [if_pos htb]
    have ha : (((normPromptField cfg "global_prompt").set "nodes"
        (.arr (JsArr.ofList (ns0.toList.map normNode)))).set "begin_tag_display_position"
        (roundPos ((cfg.lookup "begin_tag_display_position").getD .null))).lookup "components"
        = cfg.lookup "components" := by
      rw [JsObj.lookup_set_ne _ _ _ _ (by decide), JsObj.lookup_set_ne _ _ _ _ (by decide),
        normPromptField_lookup_ne cfg _ _ (by decide)]
    rw [ha]
  · rw [if_neg htb]
    have ha : ((normPromptField cfg "global_prompt").set "nodes"
        (.arr (JsArr.ofList (ns0.toList.map normNode)))).lookup "components"
        = cfg.lookup "components" := by
      rw [JsObj.lookup_set_ne _ _ _ _ (by decide),
        normPromptField_lookup_ne cfg _ _ (by decide)]
    rw [ha]

/-- The normalized flow config of a nodeless flow, in explicit form. -/
theorem normFlowConfig_none (cfg : JsObj)
    (hn : ∀ xs : JsArr, cfg.lookup "nodes" ≠ some (.arr xs)) :
    normFlowConfig cfg = nYNone cfg := by
  have hc1n : (normPromptField cfg "global_prompt").lookup "nodes" = cfg.lookup "nodes" :=
    normPromptField_lookup_ne cfg _ _ (by decide)
  have hbtl : (normPromptField cfg "global_prompt").lookup "begin_tag_display_position"
      = cfg.lookup "begin_tag_display_position" :=
    normPromptField_lookup_ne cfg _ _ (by decide)
  have hbtt : truthyField (normPromptField cfg "global_prompt") "begin_tag_display_position"
      = truthyField cfg "begin_tag_display_position" := truthyField_congr _ _ _ hbtl
  have hmain : ∀ u, (normPromptField cfg "global_prompt").lookup "nodes" = u →
      (∀ xs : JsArr, u ≠ some (.arr xs)) →
      normFlowConfig cfg = nYNone cfg := by
    intro u hu hne
    have hrest : normFlowConfig cfg = nYNone cfg ∨ True := Or.inr trivial
    unfold normFlowConfig nYNone
    dsimp only
    rw [hu]
    have hfin : ∀ c₂ : JsObj, c₂ = normPromptField cfg "global_prompt" →
        (let c₃ := if truthyField c₂ "begin_tag_display_position" = true then
            c₂.set "begin_tag_display_position"
              (roundPos ((c₂.lookup "begin_tag_display_position").getD .null))
          else c₂
        match c₃.lookup "components" with
        | some (.arr cs) => c₃.set "components"
            (.arr (JsArr.ofList (cs.toList.map normComponent)))
        | _ => c₃) =
        (let c₃ := if truthyField cfg "begin_tag_display_position" = true then
            (normPromptField cfg "global_prompt").set "begin_tag_display_position"
              (roundPos ((cfg.lookup "begin_tag_display_position").getD .null))
          else normPromptField cfg "global_prompt"
        match cfg.lookup "components" with
        | some (.arr cs) => c₃.set "components"
            (.arr (JsArr.ofList (cs.toList.map normComponent)))
        | _ => c₃) := by
      intro c₂ hc2
      subst hc2
      dsimp only
      rw [hbtt, hbtl]
      by_cases htb : truthyField cfg "begin_tag_display_position" = true
      · rw [if_pos htb]
        have ha : ((normPromptField cfg "global_prompt").set "begin_tag_display_position"
            (roundPos ((cfg.lookup "begin_tag_display_position").getD .null))).lookup
              "components" = cfg.lookup "components" := by
          rw [JsObj.lookup_set_ne _ _ _ _ (by decide),
            normPromptField_lookup_ne cfg _ _ (by decide)]
        rw [ha]
      · rw [if_neg htb]
        have ha : (normPromptField cfg "global_prompt").lookup "components"
            = cfg.lookup "components" := normPromptField_lookup_ne cfg _ _ (by decide)
        rw [ha]
    cases u with
    | none => exact hfin _ rfl
    | some v =>
      cases v with
      | arr xs => exact absurd rfl (hne xs)
      | null => exact hfin _ rfl
      | bool b => exact hfin _ rfl
      | num q => exact hfin _ rfl
      | str t => exact hfin _ rfl
      | obj o => exact hfin _ rfl
  refine hmain _ rfl ?hne
  rw [hc1n]
  exact hn

/-- The normalized config holds the normalized node array. -/
theorem nYArr_lookup_nodes (cfg : JsObj) (ms : List Json) :
    (nYArr cfg ms).lookup "nodes" = some (.arr (JsArr.ofList ms)) := by
  unfold nYArr
  have hbase : ((if truthyField cfg "begin_tag_display_position" then
      ((normPromptField cfg "global_prompt").set "nodes"
        (.arr (JsArr.ofList ms))).set "begin_tag_display_position"
        (roundPos ((cfg.lookup "begin_tag_display_position").getD .null))
    else (normPromptField cfg "global_prompt").set "nodes"
      (.arr (JsArr.ofList ms)))).lookup "nodes" = some (.arr (JsArr.ofList ms)) := by
    by_cases htb : truthyField cfg "begin_tag_display_position" = true
    · rw [if_pos htb, JsObj.lookup_set_ne _ _ _ _ (by decide), JsObj.lookup_set_self]
    · rw [if_neg htb, JsObj.lookup_set_self]
  cases hcv : cfg.lookup "components" with
  | none => exact hbase
  | some v =>
    cases v with
    | arr cs =>
      dsimp only
      rw [JsObj.lookup_set_ne _ _ _ _ (by decide)]
      exact hbase
    | null => exact hbase
    | bool b => exact hbase
    | num q => exact hbase
    | str t => exact hbase
    | obj o => exact hbase

/-- The normalized begin-tag entry. -/
theorem nYArr_lookup_bt (cfg : JsObj) (ms : List Json) :
    (nYArr cfg ms).lookup "begin_tag_display_position" =
      (if truthyField cfg "begin_tag_display_position" then
        some (roundPos ((cfg.lookup "begin_tag_display_position").getD .null))
      else cfg.lookup "begin_tag_display_position") := by
  unfold nYArr
  have hbase : ((if truthyField cfg "begin_tag_display_position" then
      ((normPromptField cfg "global_prompt").set "nodes"
        (.arr (JsArr.ofList ms))).set "begin_tag_display_position"
        (roundPos ((cfg.lookup "begin_tag_display_position").getD .null))
    else (normPromptField cfg "global_prompt").set "nodes"
      (.arr (JsArr.ofList ms)))).lookup "begin_tag_display_position" =
      (if truthyField cfg "begin_tag_display_position" then
        some (roundPos ((cfg.lookup "begin_tag_display_position").getD .null))
      else cfg.lookup "begin_tag_display_position") := by
    by_cases htb : truthyField cfg "begin_tag_display_position" = true
    · rw [if_pos htb, if_pos htb, JsObj.lookup_set_self]
    · rw [if_neg htb, if_neg htb, JsObj.lookup_set_ne _ _ _ _ (by decide),
        normPromptField_lookup_ne cfg _ _ (by decide)]
  cases hcv : cfg.lookup "components" with
  | none => exact hbase
  | some v =>
    cases v with
    | arr cs =>
      dsimp only
      rw [JsObj.lookup_set_ne _ _ _ _ (by decide)]
      exact hbase
    | null => exact hbase
    | bool b => exact hbase
    | num q => exact hbase
    | str t => exact hbase
    | obj o => exact hbase

/-- The normalized components entry. -/
theorem nYArr_lookup_comps (cfg : JsObj) (ms : List Json) :
    (nYArr cfg ms).lookup "components" =
      (match cfg.lookup "components" with
       | some (.arr cs) => some (.arr (JsArr.ofList (cs.toList.map normComponent)))
       | other => other) := by
  unfold nYArr
  have hbase : ((if truthyField cfg "begin_tag_display_position" then
      ((normPromptField cfg "global_prompt").set "nodes"
        (.arr (JsArr.ofList ms))).set "begin_tag_display_position"
        (roundPos ((cfg.lookup "begin_tag_display_position").getD .null))
    else (normPromptField cfg "global_prompt").set "nodes"
      (.arr (JsArr.ofList ms)))).lookup "components" = cfg.lookup "components" := by
    by_cases htb : truthyField cfg "begin_tag_display_position" = true
    · rw [if_pos htb, JsObj.lookup_set_ne _ _ _ _ (by decide),
        JsObj.lookup_set_ne _ _ _ _ (by decide),
        normPromptField_lookup_ne cfg _ _ (by decide)]
    · rw [if_neg htb, JsObj.lookup_set_ne _ _ _ _ (by decide),
        normPromptField_lookup_ne cfg _ _ (by decide)]
  cases hcv : cfg.lookup "components" with
  | none => rw [hbase, hcv]
  | some v =>
    cases v with
    | arr cs =>
      dsimp only
      exact JsObj.lookup_set_self _ _ _
    | null => rw [hbase, hcv]
    | bool b => rw [hbase, hcv]
    | num q => rw [hbase, hcv]
    | str t => rw [hbase, hcv]
    | obj o => rw [hbase, hcv]

/-- Untouched keys of the normalized config. -/
theorem nYArr_lookup_other (cfg : JsObj) (ms : List Json) (k : String)
    (hk1 : k ≠ "nodes") (hk2 : k ≠ "components")
    (hk3 : k ≠ "begin_tag_display_position") :
    (nYArr cfg ms).lookup k = (normPromptField cfg "global_prompt").lookup k := by
  unfold nYArr
  have hbase : ((if truthyField cfg "begin_tag_display_position" then
      ((normPromptField cfg "global_prompt").set "nodes"
        (.arr (JsArr.ofList ms))).set "begin_tag_display_position"
        (roundPos ((cfg.lookup "begin_tag_display_position").getD .null))
    else (normPromptField cfg "global_prompt").set "nodes"
      (.arr (JsArr.ofList ms)))).lookup k =
      (normPromptField cfg "global_prompt").lookup k := by
    by_cases htb : truthyField cfg "begin_tag_display_position" = true
    · rw [if_pos htb, JsObj.lookup_set_ne _ _ _ _ hk3, JsObj.lookup_set_ne _ _ _ _ hk1]
    · rw [if_neg htb, JsObj.lookup_set_ne _ _ _ _ hk1]
  cases hcv : cfg.lookup "components" with
  | none => exact hbase
  | some v =>
    cases v with
    | arr cs =>
      dsimp only
      rw [JsObj.lookup_set_ne _ _ _ _ hk2]
      exact hbase
    | null => exact hbase
    | bool b => exact hbase
    | num q => exact hbase
    | str t => exact hbase
    | obj o => exact hbase

/-- The normalized config keeps duplicate-free keys. -/
theorem nYArr_keysNodup (cfg : JsObj) (ms : List Json)
    (hnd : cfg.keysNodup = true) : (nYArr cfg ms).keysNodup = true := by
  have h1 : ((normPromptField cfg "global_prompt").set "nodes"
      (.arr (JsArr.ofList ms))).keysNodup = true :=
    JsObj.keysNodup_set _ _ _ (normPromptField_keysNodup cfg _ hnd)
  have hbase : ((if truthyField cfg "begin_tag_display_position" then
      ((normPromptField cfg "global_prompt").set "nodes"
        (.arr (JsArr.ofList ms))).set "begin_tag_display_position"
        (roundPos ((cfg.lookup "begin_tag_display_position").getD .null))
    else (normPromptField cfg "global_prompt").set "nodes"
      (.arr (JsArr.ofList ms)))).keysNodup = true := by
    by_cases htb : truthyField cfg "begin_tag_display_position" = true
    · rw [if_pos htb]
      exact JsObj.keysNodup_set _ _ _ h1
    · rw [if_neg htb]
      exact h1
  unfold nYArr
  cases hcv : cfg.lookup "components" with
  | none => exact hbase
  | some v =>
    cases v with
    | arr cs =>
      dsimp only
      exact JsObj.keysNodup_set _ _ _ hbase
    | null => exact hbase
    | bool b => exact hbase
    | num q => exact hbase
    | str t => exact hbase
    | obj o => exact hbase

/-- The normalized begin-tag entry of a nodeless flow. -/
theorem nYNone_lookup_bt (cfg : JsObj) :
    (nYNone cfg).lookup "begin_tag_display_position" =
      (if truthyField cfg "begin_tag_display_position" then
        some (roundPos ((cfg.lookup "begin_tag_display_position").getD .null))
      else cfg.lookup "begin_tag_display_position") := by
  unfold nYNone
  have hbase : ((if truthyField cfg "begin_tag_display_position" then
      (normPromptField cfg "global_prompt").set "begin_tag_display_position"
        (roundPos ((cfg.lookup "begin_tag_display_position").getD .null))
    else normPromptField cfg "global_prompt")).lookup "begin_tag_display_position" =
      (if truthyField cfg "begin_tag_display_position" then
        some (roundPos ((cfg.lookup "begin_tag_display_position").getD .null))
      else cfg.lookup "begin_tag_display_position") := by
    by_cases htb : truthyField cfg "begin_tag_display_position" = true
    · rw [if_pos htb, if_pos htb, JsObj.lookup_set_self]
    · rw [if_neg htb, if_neg htb, normPromptField_lookup_ne cfg _ _ (by decide)]
  cases hcv : cfg.lookup "components" with
  | none => exact hbase
  | some v =>
    cases v with
    | arr cs =>
      dsimp only
      rw [JsObj.lookup_set_ne _ _ _ _ (by decide)]
      exact hbase
    | null => exact hbase
    | bool b => exact hbase
    | num q => exact hbase
    | str t => exact hbase
    | obj o => exact hbase

/-- The normalized components entry of a nodeless flow. -/
theorem nYNone_lookup_comps (cfg : JsObj) :
    (nYNone cfg).lookup "components" =
      (match cfg.lookup "components" with
       | some (.arr cs) => some (.arr (JsArr.ofList (cs.toList.map normComponent)))
       | other => other) := by
  unfold nYNone
  have hbase : ((if truthyField cfg "begin_tag_display_position" then
      (normPromptField cfg "global_prompt").set "begin_tag_display_position"
        (roundPos ((cfg.lookup "begin_tag_display_position").getD .null))
    else normPromptField cfg "global_prompt")).lookup "components"
      = cfg.lookup "components" := by
    by_cases htb : truthyField cfg "begin_tag_display_position" = true
    · rw [if_pos htb, JsObj.lookup_set_ne _ _ _ _ (by decide),
        normPromptField_lookup_ne cfg _ _ (by decide)]
    · rw [if_neg htb, normPromptField_lookup_ne cfg _ _ (by decide)]
  cases hcv : cfg.lookup "components" with
  | none => rw [hbase, hcv]
  | some v =>
    cases v with
    | arr cs =>
      dsimp only
      exact JsObj.lookup_set_self _ _ _
    | null => rw [hbase, hcv]
    | bool b => rw [hbase, hcv]
    | num q => rw [hbase, hcv]
    | str t => rw [hbase, hcv]
    | obj o => rw [hbase, hcv]

/-- Untouched keys of the nodeless normalized config. -/
theorem nYNone_lookup_other (cfg : JsObj) (k : String)
    (hk2 : k ≠ "components") (hk3 : k ≠ "begin_tag_display_position") :
    (nYNone cfg).lookup k = (normPromptField cfg "global_prompt").lookup k := by
  unfold nYNone
  have hbase : ((if truthyField cfg "begin_tag_display_position" then
      (normPromptField cfg "global_prompt").set "begin_tag_display_position"
        (roundPos ((cfg.lookup "begin_tag_display_position").getD .null))
    else normPromptField cfg "global_prompt")).lookup k =
      (normPromptField cfg "global_prompt").lookup k := by
    by_cases htb : truthyField cfg "begin_tag_display_position" = true
    · rw [if_pos htb, JsObj.lookup_set_ne _ _ _ _ hk3]
    · rw [if_neg htb]
  cases hcv : cfg.lookup "components" with
  | none => exact hbase
  | some v =>
    cases v with
    | arr cs =>
      dsimp only
      rw [JsObj.lookup_set_ne _ _ _ _ hk2]
      exact hbase
    | null => exact hbase
    | bool b => exact hbase
    | num q => exact hbase
    | str t => exact hbase
    | obj o => exact hbase

/-- The read-back flow config of a nodes-array flow is semantically the
normalized original. -/
theorem mMerged_semEq_norm (cfg : JsObj) (ns0 : JsArr)
    (hn : cfg.lookup "nodes" = some (.arr ns0))
    (hnd : cfg.keysNodup = true) (hdf : JsObj.dupFree cfg = true)
    (hids : nodupB (ns0.toList.filterMap nodeIdOf) = true)
    (hnames : ∀ cs : JsArr, cfg.lookup "components" = some (.arr cs) →
      nodupB (cs.toList.filterMap componentNameOf) = true) :
    jsonSemEq (.obj (mMerged cfg (ns0.toList.map trimSub)))
      (.obj (normFlowConfig cfg)) = true := by
  rw [normFlowConfig_arr cfg ns0 hn]
  refine jsonSemEq_obj_of_lookup _ _ (mMerged_keysNodup cfg _ hnd) (fun k => ?hk)
  by_cases hk1 : k = "nodes"
  · subst hk1
    rw [mMerged_lookup_nodes, nYArr_lookup_nodes]
    dsimp only
    simp only [jsonSemEq]
    rw [posMapOf_trimSub, List.map_map, List.map_map]
    refine arrSemEq_ofList_map _ _ _ (fun n hm => ?hp)
    simp only [Function.comp]
    rw [nodeRestore_strip _ n hm hids]
    have hndf : n.dupFree = true := by
      have h2 : Json.dupFree (.arr ns0) = true := JsObj.dupFree_lookup cfg "nodes" _ hdf hn
      exact JsArr.dupFree_mem ns0 n h2 hm
    exact rtNode_semEq_normNode n hndf
  · by_cases hk2 : k = "begin_tag_display_position"
    · subst hk2
      rw [mMerged_lookup_bt, nYArr_lookup_bt]
      by_cases htb : truthyField cfg "begin_tag_display_position" = true
      · rw [if_pos htb]
        dsimp only
        exact jsonSemEq_refl _ (roundPos_dupFree _)
      · rw [if_neg htb]
        cases hv : cfg.lookup "begin_tag_display_position" with
        | none => trivial
        | some v =>
          dsimp only
          exact jsonSemEq_refl v (JsObj.dupFree_lookup cfg _ v hdf hv)
    · by_cases hk3 : k = "components"
      · subst hk3
        rw [mMerged_lookup_comps, nYArr_lookup_comps]
        cases hcv : cfg.lookup "components" with
        | none => trivial
        | some v =>
          cases v with
          | arr cs =>
            dsimp only
            simp only [jsonSemEq]
            rw [List.map_map]
            refine arrSemEq_ofList_map _ _ _ (fun c hm => ?hc)
            simp only [Function.comp]
            rw [compRestore_strip _ c hm (hnames cs hcv)]
            have hcdf : c.dupFree = true := by
              have h2 : Json.dupFree (.arr cs) = true :=
                JsObj.dupFree_lookup cfg "components" _ hdf hcv
              exact JsArr.dupFree_mem cs c h2 hm
            exact rtComp_semEq_normComponent c hcdf
          | null =>
            dsimp only
            exact jsonSemEq_refl _ (JsObj.dupFree_lookup cfg _ _ hdf hcv)
          | bool b =>
            dsimp only
            exact jsonSemEq_refl _ (JsObj.dupFree_lookup cfg _ _ hdf hcv)
          | num q =>
            dsimp only
            exact jsonSemEq_refl _ (JsObj.dupFree_lookup cfg _ _ hdf hcv)
          | str t =>
            dsimp only
            exact jsonSemEq_refl _ (JsObj.dupFree_lookup cfg _ _ hdf hcv)
          | obj o =>
            dsimp only
            exact jsonSemEq_refl _ (JsObj.dupFree_lookup cfg _ _ hdf hcv)
      · rw [mMerged_lookup_other _ _ _ hk1 hk3 hk2, nYArr_lookup_other _ _ _ hk1 hk3 hk2]
        cases hv : (normPromptField cfg "global_prompt").lookup k with
        | none => trivial
        | some v =>
          dsimp only
          exact jsonSemEq_refl v (JsObj.dupFree_lookup _ k v
            (normPromptField_props cfg _ hnd hdf).2 hv)

/-- The read-back flow config of a nodeless flow is semantically the
normalized original. -/
theorem mMergedNone_semEq_norm (cfg : JsObj)
    (hn : ∀ xs : JsArr, cfg.lookup "nodes" ≠ some (.arr xs))
    (hnd : cfg.keysNodup = true) (hdf : JsObj.dupFree cfg = true)
    (hnames : ∀ cs : JsArr, cfg.lookup "components" = some (.arr cs) →
      nodupB (cs.toList.filterMap componentNameOf) = true) :
    jsonSemEq (.obj (mMergedNone cfg)) (.obj (normFlowConfig cfg)) = true := by
  rw [normFlowConfig_none cfg hn]
  refine jsonSemEq_obj_of_lookup _ _ (mMergedNone_keysNodup cfg hnd) (fun k => ?hk)
  by_cases hk2 : k = "begin_tag_display_position"
  · subst hk2
    rw [mMergedNone_lookup_bt, nYNone_lookup_bt]
    by_cases htb : truthyField cfg "begin_tag_display_position" = true
    · rw [if_pos htb]
      dsimp only
      exact jsonSemEq_refl _ (roundPos_dupFree _)
    · rw [if_neg htb]
      cases hv : cfg.lookup "begin_tag_display_position" with
      | none => trivial
      | some v =>
        dsimp only
        exact jsonSemEq_refl v (JsObj.dupFree_lookup cfg _ v hdf hv)
  · by_cases hk3 : k = "components"
    · subst hk3
      rw [mMergedNone_lookup_comps, nYNone_lookup_comps]
      cases hcv : cfg.lookup "components" with
      | none => trivial
      | some v =>
        cases v with
        | arr cs =>
          dsimp only
          simp only [jsonSemEq]
          rw [List.map_map]
          refine arrSemEq_ofList_map _ _ _ (fun c hm => ?hc)
          simp only [Function.comp]
          rw [compRestore_strip _ c hm (hnames cs hcv)]
          have hcdf : c.dupFree = true := by
            have h2 : Json.dupFree (.arr cs) = true :=
              JsObj.dupFree_lookup cfg "components" _ hdf hcv
            exact JsArr.dupFree_mem cs c h2 hm
          exact rtComp_semEq_normComponent c hcdf
        | null =>
          dsimp only
          exact jsonSemEq_refl _ (JsObj.dupFree_lookup cfg _ _ hdf hcv)
        | bool b =>
          dsimp only
          exact jsonSemEq_refl _ (JsObj.dupFree_lookup cfg _ _ hdf hcv)
        | num q =>
          dsimp only
          exact jsonSemEq_refl _ (JsObj.dupFree_lookup cfg _ _ hdf hcv)
        | str t =>
          dsimp only
          exact jsonSemEq_refl _ (JsObj.dupFree_lookup cfg _ _ hdf hcv)
        | obj o =>
          dsimp only
          exact jsonSemEq_refl _ (JsObj.dupFree_lookup cfg _ _ hdf hcv)
    · rw [mMergedNone_lookup_other _ _ hk3 hk2, nYNone_lookup_other _ _ hk3 hk2]
      cases hv : (normPromptField cfg "global_prompt").lookup k with
      | none => trivial
      | some v =>
        dsimp only
        exact jsonSemEq_refl v (JsObj.dupFree_lookup _ k v
          (normPromptField_props cfg _ hnd hdf).2 hv)

/-- Normalizing a truthy prompt field is the in-place trimmed set. -/
theorem normPromptField_of_truthy (cfg : JsObj) (k : String)
    (ht : truthyField cfg k = true) :
    normPromptField cfg k =
      cfg.set k (.str (jsTrim (displayString ((cfg.lookup k).getD .null)))) := by
  unfold truthyField at ht
  unfold normPromptField
  cases hl : cfg.lookup k with
  | none =>
    rw [hl] at ht
    exact absurd ht (by simp)
  | some v =>
    rw [hl] at ht
    dsimp only
    rw [if_pos ht]
    rfl

/-- Normalizing a non-truthy prompt field changes nothing. -/
theorem normPromptField_of_not_truthy (cfg : JsObj) (k : String)
    (ht : ¬ truthyField cfg k = true) :
    normPromptField cfg k = cfg := by
  unfold truthyField at ht
  unfold normPromptField
  cases hl : cfg.lookup k with
  | none => rfl
  | some v =>
    rw [hl] at ht
    dsimp only
    rw [if_neg ht]

/-- Field-wise resolution of a config whose prompt key was swapped for
its extracted placeholder. -/
theorem promptSet_fieldsResolve (group : FileMap) (d : String) (hdot : d ≠ ".")
    (cfg : JsObj) (k fn : String)
    (hnp : JsObj.noPlaceholders cfg = true) (hok : promptFieldOK cfg k = true)
    (ht : truthyField cfg k = true)
    (hfile : fmGet group (pathJoin d fn) = some (.text
      (writeMarkdown (displayString ((cfg.lookup k).getD .null)) .nil))) :
    fieldsResolve (dirResolver group d) (cfg.set k (.str ("file://./" ++ fn)))
      (cfg.set k (.str (jsTrim (displayString ((cfg.lookup k).getD .null))))) := by
  obtain ⟨s, hl, hne, htr, hpre⟩ := promptField_truthy_str cfg k hok ht
  rw [hl]
  have hds : displayString ((some (Json.str s)).getD .null) = s := rfl
  rw [hds]
  rw [hl, hds] at hfile
  have hcontent : writeMarkdown s .nil ≠ "" := by
    rw [writeMarkdown_nil]
    exact htr
  have hread : readMarkdown (writeMarkdown s JsObj.nil) = jsTrim s :=
    readMarkdown_writeMarkdown_nofm s hpre
  have hres : resolvesTo (dirResolver group d) (.str ("file://./" ++ fn))
      (.str (jsTrim s)) := by
    have h1 := resolvesTo_placeholder (dirResolver group d) ("file://./" ++ fn)
      (writeMarkdown s JsObj.nil) (startsWith_file_placeholder fn) ?hr ?hb
    case hr =>
      rw [stripFileScheme_placeholder fn]
      exact dirResolver_ok group d fn _ hdot hfile hcontent
    case hb =>
      rw [hread]
      exact htr
    rw [hread] at h1
    exact h1
  exact fieldsResolve_set _ cfg cfg k _ _ (fieldsResolve_of_noPlaceholders _ cfg hnp) hres

/-- The written flow artifacts resolve to the trim-substituted ones: the
yaml config resolves field-wise to the explicit resolved config, and the
positions object is untouched by resolution. -/
theorem wFlow_resolve (group : FileMap) (d : String) (hdot : d ≠ ".") (cfg : JsObj)
    (hwf : flowConfigWF cfg = true)
    (hgpf : truthyField cfg "global_prompt" = true →
      fmGet group (pathJoin d "global_prompt.md") = some (.text
        (writeMarkdown (displayString ((cfg.lookup "global_prompt").getD .null)) .nil)))
    (hfiles : ∀ ns0 : JsArr, cfg.lookup "nodes" = some (.arr ns0) →
      ∀ o : JsObj, Json.obj o ∈ ns0.toList → nodeExtractable o = true →
      fmGet group (pathJoin d (nodeFileNameOf o)) = some (.text
        (writeMarkdown (nodeInstructionText o)
          (nodeFrontmatter (nodeNamesById ns0.toList) (incomingEdgeNames ns0.toList) o)))) :
    fieldsResolve (dirResolver group d) (wFlowCfg cfg) (rFlowCfg cfg) ∧
    wFlowPos cfg = rFlowPos cfg := by
  simp only [flowConfigWF, Bool.and_eq_true] at hwf
  obtain ⟨⟨⟨⟨⟨⟨hdf, hnp⟩, hid⟩, hver⟩, hgpok⟩, hnodesc⟩, hcompsc⟩ := hwf
  have hnp2 : JsObj.noPlaceholders cfg = true := hnp
  have hcstrip : ∀ cs : JsArr, cfg.lookup "components" = some (.arr cs) →
      JsArr.noPlaceholders (JsArr.ofList (cs.toList.map compStrip)) = true := by
    intro cs hx
    have h2 : Json.noPlaceholders (.arr cs) = true :=
      JsObj.noPlaceholders_lookup cfg "components" _ hnp2 hx
    refine JsArr.noPlaceholders_ofList _ (fun x hxm => ?hnp3)
    rcases List.mem_map.mp hxm with ⟨y, hym, hyx⟩
    subst hyx
    exact compStrip_noPlaceholders y (JsArr.noPlaceholders_mem cs y h2 hym)
  by_cases hgp : truthyField cfg "global_prompt" = true
  · have hfr1 : fieldsResolve (dirResolver group d)
        (cfg.set "global_prompt" (.str "file://./global_prompt.md"))
        (cfg.set "global_prompt"
          (.str (jsTrim (displayString ((cfg.lookup "global_prompt").getD .null))))) := by
      have h := promptSet_fieldsResolve group d hdot cfg "global_prompt" "global_prompt.md"
        hnp2 hgpok hgp (hgpf hgp)
      rw [show ("file://./" ++ "global_prompt.md" : String)
        = "file://./global_prompt.md" from rfl] at h
      exact h
    have hlw : (cfg.set "global_prompt"
        (Json.str "file://./global_prompt.md")).lookup "nodes" = cfg.lookup "nodes" :=
      JsObj.lookup_set_ne _ _ _ _ (by decide)
    have hlr : (cfg.set "global_prompt"
        (.str (jsTrim (displayString ((cfg.lookup "global_prompt").getD .null))))).lookup
        "nodes" = cfg.lookup "nodes" :=
      JsObj.lookup_set_ne _ _ _ _ (by decide)
    have hbt0 : (cfg.set "global_prompt"
        (Json.str "file://./global_prompt.md")).lookup "begin_tag_display_position"
        = (cfg.set "global_prompt"
          (.str (jsTrim (displayString ((cfg.lookup "global_prompt").getD .null))))).lookup
          "begin_tag_display_position" := by
      rw [JsObj.lookup_set_ne _ _ _ _ (by decide), JsObj.lookup_set_ne _ _ _ _ (by decide)]
    have hcm0 : (cfg.set "global_prompt"
        (Json.str "file://./global_prompt.md")).lookup "components"
        = (cfg.set "global_prompt"
          (.str (jsTrim (displayString ((cfg.lookup "global_prompt").getD .null))))).lookup
          "components" := by
      rw [JsObj.lookup_set_ne _ _ _ _ (by decide), JsObj.lookup_set_ne _ _ _ _ (by decide)]
    have hcnp0 : ∀ cs, (cfg.set "global_prompt"
        (.str (jsTrim (displayString ((cfg.lookup "global_prompt").getD .null))))).lookup
          "components" = some (.arr cs) →
        JsArr.noPlaceholders (JsArr.ofList (cs.toList.map compStrip)) = true := by
      intro cs hx
      rw [JsObj.lookup_set_ne _ _ _ _ (by decide)] at hx
      exact hcstrip cs hx
    have hnone := flowPosStage_resolve_none (dirResolver group d) _ _ hfr1 hbt0 hcm0 hcnp0
    unfold wFlowPos wFlowCfg wFlowParts rFlowPos rFlowCfg rFlowParts
    dsimp only
    rw [if_pos hgp, normPromptField_of_truthy cfg _ hgp, hlw, hlr]
    cases hn : cfg.lookup "nodes" with
    | none =>
      dsimp only
      exact hnone
    | some v =>
      cases v with
      | arr ns0 =>
        dsimp only
        rw [hn] at hnodesc
        simp only [Bool.and_eq_true] at hnodesc
        obtain ⟨⟨hall, hfn⟩, hids⟩ := hnodesc
        have harrnp : JsArr.noPlaceholders ns0 = true :=
          JsObj.noPlaceholders_lookup cfg "nodes" _ hnp2 hn
        have hnodeR : ∀ n ∈ ns0.toList,
            resolvesTo (dirResolver group d) (promptSub n) (trimSub n) := by
          intro n hm
          refine resolvesTo_node_full group d hdot (nodeNamesById ns0.toList)
            (incomingEdgeNames ns0.toList) n
            (JsArr.noPlaceholders_mem ns0 n harrnp hm) ?hwfn ?hfile
          case hwfn =>
            rw [List.all_eq_true] at hall
            exact hall n hm
          case hfile =>
            intro o hno he
            exact hfiles ns0 hn o (hno ▸ hm) he
        have hnodeRS : ∀ n ∈ ns0.toList,
            resolvesTo (dirResolver group d) (posStrip (promptSub n))
              (posStrip (trimSub n)) := by
          intro n hm
          refine resolvesTo_node group d hdot (nodeNamesById ns0.toList)
            (incomingEdgeNames ns0.toList) n
            (JsArr.noPlaceholders_mem ns0 n harrnp hm) ?hwfn2 ?hfile2
          case hwfn2 =>
            rw [List.all_eq_true] at hall
            exact hall n hm
          case hfile2 =>
            intro o hno he
            exact hfiles ns0 hn o (hno ▸ hm) he
        refine flowPosStage_resolve (dirResolver group d) _ _ _ _
          ?h ?hbt ?hcm ?hns ?hpm ?hcnp
        case h =>
          exact fieldsResolve_set _ _ _ "nodes" _ _ hfr1
            (resolvesTo_arr _ _ _ (elemsResolve_ofList_map _ promptSub trimSub
              ns0.toList hnodeR))
        case hbt =>
          rw [JsObj.lookup_set_ne _ _ _ _ (by decide),
            JsObj.lookup_set_ne _ _ _ _ (by decide),
            JsObj.lookup_set_ne _ _ _ _ (by decide),
            JsObj.lookup_set_ne _ _ _ _ (by decide)]
        case hcm =>
          rw [JsObj.lookup_set_ne _ _ _ _ (by decide),
            JsObj.lookup_set_ne _ _ _ _ (by decide),
            JsObj.lookup_set_ne _ _ _ _ (by decide),
            JsObj.lookup_set_ne _ _ _ _ (by decide)]
        case hns =>
          rw [List.map_map, List.map_map]
          refine resolvesTo_arr _ _ _ (elemsResolve_ofList_map _ _ _ ns0.toList ?hp)
          intro n hm
          simp only [Function.comp]
          exact hnodeRS n hm
        case hpm =>
          rw [posMapOf_promptSub, posMapOf_trimSub]
        case hcnp =>
          intro cs hx
          rw [JsObj.lookup_set_ne _ _ _ _ (by decide),
            JsObj.lookup_set_ne _ _ _ _ (by decide)] at hx
          exact hcstrip cs hx
      | null =>
        dsimp only
        exact hnone
      | bool b =>
        dsimp only
        exact hnone
      | num q =>
        dsimp only
        exact hnone
      | str t =>
        dsimp only
        exact hnone
      | obj o =>
        dsimp only
        exact hnone
  · have hfr1 : fieldsResolve (dirResolver group d) cfg cfg :=
      fieldsResolve_of_noPlaceholders _ cfg hnp2
    have hnone := flowPosStage_resolve_none (dirResolver group d) cfg cfg hfr1 rfl rfl hcstrip
    unfold wFlowPos wFlowCfg wFlowParts rFlowPos rFlowCfg rFlowParts
    dsimp only
    rw [if_neg hgp, normPromptField_of_not_truthy cfg _ hgp]
    cases hn : cfg.lookup "nodes" with
    | none =>
      dsimp only
      exact hnone
    | some v =>
      cases v with
      | arr ns0 =>
        dsimp only
        rw [hn] at hnodesc
        simp only [Bool.and_eq_true] at hnodesc
        obtain ⟨⟨hall, hfn⟩, hids⟩ := hnodesc
        have harrnp : JsArr.noPlaceholders ns0 = true :=
          JsObj.noPlaceholders_lookup cfg "nodes" _ hnp2 hn
        have hnodeR : ∀ n ∈ ns0.toList,
            resolvesTo (dirResolver group d) (promptSub n) (trimSub n) := by
          intro n hm
          refine resolvesTo_node_full group d hdot (nodeNamesById ns0.toList)
            (incomingEdgeNames ns0.toList) n
            (JsArr.noPlaceholders_mem ns0 n harrnp hm) ?hwfn ?hfile
          case hwfn =>
            rw [List.all_eq_true] at hall
            exact hall n hm
          case hfile =>
            intro o hno he
            exact hfiles ns0 hn o (hno ▸ hm) he
        have hnodeRS : ∀ n ∈ ns0.toList,
            resolvesTo (dirResolver group d) (posStrip (promptSub n))
              (posStrip (trimSub n)) := by
          intro n hm
          refine resolvesTo_node group d hdot (nodeNamesById ns0.toList)
            (incomingEdgeNames ns0.toList) n
            (JsArr.noPlaceholders_mem ns0 n harrnp hm) ?hwfn2 ?hfile2
          case hwfn2 =>
            rw [List.all_eq_true] at hall
            exact hall n hm
          case hfile2 =>
            intro o hno he
            exact hfiles ns0 hn o (hno ▸ hm) he
        refine flowPosStage_resolve (dirResolver group d) _ _ _ _
          ?h2 ?hbt2 ?hcm2 ?hns2 ?hpm2 ?hcnp2
        case h2 =>
          exact fieldsResolve_set _ _ _ "nodes" _ _ hfr1
            (resolvesTo_arr _ _ _ (elemsResolve_ofList_map _ promptSub trimSub
              ns0.toList hnodeR))
        case hbt2 =>
          rw [JsObj.lookup_set_ne _ _ _ _ (by decide),
            JsObj.lookup_set_ne _ _ _ _ (by decide)]
        case hcm2 =>
          rw [JsObj.lookup_set_ne _ _ _ _ (by decide),
            JsObj.lookup_set_ne _ _ _ _ (by decide)]
        case hns2 =>
          rw [List.map_map, List.map_map]
          refine resolvesTo_arr _ _ _ (elemsResolve_ofList_map _ _ _ ns0.toList ?hp2)
          intro n hm
          simp only [Function.comp]
          exact hnodeRS n hm
        case hpm2 =>
          rw [posMapOf_promptSub, posMapOf_trimSub]
        case hcnp2 =>
          intro cs hx
          rw [JsObj.lookup_set_ne _ _ _ _ (by decide)] at hx
          exact hcstrip cs hx
      | null =>
        dsimp only
        exact hnone
      | bool b =>
        dsimp only
        exact hnone
      | num q =>
        dsimp only
        exact hnone
      | str t =>
        dsimp only
        exact hnone
      | obj o =>
        dsimp only
        exact hnone

-- read-back assembly lemmas --------------------------------------------------

/-- String append is associative. -/
theorem str_append_assoc (a b c : String) : (a ++ b) ++ c = a ++ (b ++ c) := by
  apply str_ext
  rw [str_append_data, str_append_data, str_append_data, str_append_data, List.append_assoc]

/-- A slash-prefixed literal appended to a non-dot directory is a path
join. -/
theorem append_eq_pathJoin (d x y : String) (hdot : d ≠ ".")
    (h : ("/" : String) ++ y = x) : d ++ x = pathJoin d y := by
  unfold pathJoin
  rw [if_neg hdot, str_append_assoc, h]

/-- A matching reference version rebuilds the resource version. -/
theorem coalesce_getD_of_versionMatches (v : JsOpt Rat) (rv : Rat)
    (h : versionMatches v rv = true) : (JsOpt.coalesce v).getD 0 = rv := by
  cases v with
  | undef =>
    simp only [versionMatches, beq_iff_eq] at h
    simp [JsOpt.coalesce, h]
  | null => exact absurd h (by simp [versionMatches])
  | val q =>
    simp only [versionMatches, beq_iff_eq] at h
    simp [JsOpt.coalesce, h]

/-- Boolean duplicate freedom gives propositional duplicate freedom. -/
theorem nodupB_nodup : ∀ xs : List String, nodupB xs = true → xs.Nodup
  | [], _ => List.nodup_nil
  | x :: xs, h => by
    obtain ⟨hne, h2⟩ := nodupB_cons x xs h
    exact List.nodup_cons.mpr ⟨fun hm => (hne x hm) rfl, nodupB_nodup xs h2⟩

/-- A hit in an id-keyed reference map comes from a member carrying that
id. -/
theorem jsMapGet_map_by {α : Type} (getId : α → String) (ls : List α) (k : String) (x : α)
    (h : jsMapGet (ls.map (fun l => (getId l, l))) k = some x) :
    getId x = k ∧ x ∈ ls := by
  obtain ⟨p, hp, hk, hv⟩ := jsMapGet_some_mem _ k x h
  rcases List.mem_map.mp hp with ⟨l, hl, hpl⟩
  subst hpl
  subst hv
  exact ⟨hk, hl⟩

/-- With duplicate-free ids every member is found in its id-keyed map. -/
theorem jsMapGet_map_self {α : Type} (getId : α → String) (ls : List α)
    (hnd : nodupB (ls.map getId) = true) (x : α) (hx : x ∈ ls) :
    jsMapGet (ls.map (fun l => (getId l, l))) (getId x) = some x := by
  have hkeys : mapKeys (ls.map (fun l => (getId l, l))) = ls.map getId := by
    simp [mapKeys, List.map_map, Function.comp]
  have hnd2 : (mapKeys (ls.map (fun l => (getId l, l)))).Nodup := by
    rw [hkeys]
    exact nodupB_nodup _ hnd
  have := mem_jsMapGet_of_nodup _ hnd2 (getId x, x) (List.mem_map.mpr ⟨x, hx, rfl⟩)
  simpa using this

/-- Property assignment never empties a file map. -/
theorem fmSet_ne_nil (files : FileMap) (k : String) (v : FileContent) :
    fmSet files k v ≠ [] := by
  cases files with
  | nil => simp [fmSet]
  | cons p rest =>
    simp only [fmSet]
    split <;> simp

/-- Resolving the written `llm.yaml` object recovers the normalized LLM
config. -/
theorem wLlmCfg_resolve (group : FileMap) (d : String) (hdot : d ≠ ".") (cfg : JsObj)
    (hnp : JsObj.noPlaceholders cfg = true) (hok : promptFieldOK cfg "general_prompt" = true)
    (hgpf : truthyField cfg "general_prompt" = true →
      fmGet group (pathJoin d "general_prompt.md") = some (.text
        (writeMarkdown (displayString ((cfg.lookup "general_prompt").getD .null)) .nil))) :
    resolveObjPlaceholders (dirResolver group d) (wLlmCfg cfg)
      = Except.ok (normPromptField cfg "general_prompt") := by
  unfold wLlmCfg
  by_cases ht : truthyField cfg "general_prompt" = true
  · rw [if_pos ht, normPromptField_of_truthy cfg _ ht]
    have h := promptSet_fieldsResolve group d hdot cfg "general_prompt" "general_prompt.md"
      hnp hok ht (hgpf ht)
    rw [show ("file://./" ++ "general_prompt.md" : String)
      = "file://./general_prompt.md" from rfl] at h
    exact fieldsResolve_resolveObj _ _ _ h
  · rw [if_neg ht, normPromptField_of_not_truthy cfg _ ht]
    exact resolveObjPlaceholders_noop _ cfg hnp

/-- A boolean that is not true is false. -/
theorem bool_eq_false {b : Bool} (h : ¬ b = true) : b = false := by
  cases b
  · rfl
  · exact absurd rfl h

/-- Key presence is untouched by setting a different key. -/
theorem hasKey_set_ne (o : JsObj) (k : String) (v : Json) (k2 : String) (h : k2 ≠ k) :
    (o.set k v).hasKey k2 = o.hasKey k2 := by
  simp only [JsObj.hasKey, JsObj.lookup_set_ne o k v k2 h]

/-- Reading back the chunk of a custom-llm agent rebuilds the agent
exactly, with no engine resource. -/
theorem processDir_chunk_custom (llmMap : List (String × CanonicalLLM))
    (flowMap : List (String × CanonicalConversationFlow)) (channel : String)
    (a : CanonicalAgent) (url : String)
    (hre : a.response_engine = .customLlm url)
    (hch : channel = "voice" ∨ channel = "chat")
    (hwf : agentConfigWF a.config = true)
    (hurl : jsStartsWith url "file://" = false) :
    processDir (serializeAgentFiles llmMap flowMap channel "." a []).1 (getAgentDirName a)
      = Except.ok (some ⟨channel, a, none, none⟩) := by
  have hdot := getAgentDirName_ne_dot a
  simp only [agentConfigWF, Bool.and_eq_true, decide_eq_true_eq] at hwf
  obtain ⟨⟨⟨⟨⟨⟨⟨hdf, hnp⟩, hvt⟩, hvd⟩, hwu⟩, hid⟩, hver⟩, hres⟩ := hwf
  have hchunk : (serializeAgentFiles llmMap flowMap channel "." a []).1
      = fmSet (fmSet [] (pathJoin (getAgentDirName a) ".agent.json")
          (.json (.obj (.cons "id" (.str a._id) (.cons "version" (.num a._version)
            (.cons "channel" (.str channel)
              (.cons "response_engine" (reForMeta a.response_engine) .nil)))))))
        (pathJoin (getAgentDirName a) "config.yaml")
        (.yaml (.obj (a.config.set "llm_websocket_url" (.str url)))) := by
    simp only [serializeAgentFiles, pathJoin_dot, hre]
    rfl
  rw [hchunk, hre]
  unfold processDir
  rw [show getAgentDirName a ++ "/.agent.json"
      = pathJoin (getAgentDirName a) ".agent.json" from append_eq_pathJoin _ _ _ hdot rfl]
  rw [fmGet_fmSet_ne _ _ _ _ (pathJoin_ne _ hdot _ _ (by decide)), fmGet_fmSet_self]
  dsimp only
  rw [if_neg (fun hcon => hcon rfl)]
  dsimp only [readJsonF]
  rw [exceptBind_ok]
  rw [decodeAgentMeta_written a._id a._version channel (.customLlm url) rfl hch,
    exceptBind_ok]
  rw [show getAgentDirName a ++ "/config.yaml"
      = pathJoin (getAgentDirName a) "config.yaml" from append_eq_pathJoin _ _ _ hdot rfl]
  rw [fmGet_fmSet_self]
  dsimp only
  rw [if_neg (fun hcon => hcon rfl)]
  dsimp only [readYamlF]
  rw [exceptBind_ok]
  dsimp only [requireObj]
  rw [exceptBind_ok]
  have hnpW : JsObj.noPlaceholders (a.config.set "llm_websocket_url" (.str url)) = true :=
    JsObj.noPlaceholders_set a.config _ _ hnp (by simp [Json.noPlaceholders, hurl])
  rw [resolveObjPlaceholders_noop _ _ hnpW, exceptBind_ok]
  dsimp only [metaREof]
  rw [exceptBind_ok, exceptBind_ok]
  rw [JsObj.lookup_set_self]
  dsimp only
  rw [JsObj.removeKey_not_has _ "version_title"
      (by rw [hasKey_set_ne _ _ _ _ (by decide)]; exact bool_eq_false hvt),
    JsObj.removeKey_not_has _ "version_description"
      (by rw [hasKey_set_ne _ _ _ _ (by decide)]; exact bool_eq_false hvd),
    JsObj.removeKey_set_absent a.config _ _ (bool_eq_false hwu),
    JsObj.removeKey_not_has _ "_id" (bool_eq_false hid),
    JsObj.removeKey_not_has _ "_version" (bool_eq_false hver),
    JsObj.removeKey_not_has _ "response_engine" (bool_eq_false hres)]
  rw [← hre]

/-- Reading back the chunk of a retell-llm agent rebuilds the agent
exactly, plus the normalized LLM when its id is mapped. -/
theorem processDir_chunk_retell (llmMap : List (String × CanonicalLLM))
    (flowMap : List (String × CanonicalConversationFlow)) (channel : String)
    (a : CanonicalAgent) (lid : String) (v : JsOpt Rat)
    (hre : a.response_engine = .retellLlm lid v)
    (hch : channel = "voice" ∨ channel = "chat")
    (hwf : agentConfigWF a.config = true)
    (hv : v ≠ .null)
    (hllmwf : ∀ llm, jsMapGet llmMap lid = some llm → llmConfigWF llm.config = true) :
    processDir (serializeAgentFiles llmMap flowMap channel "." a []).1 (getAgentDirName a)
      = Except.ok (some ⟨channel, a, expectedLlm llmMap (.retellLlm lid v), none⟩) := by
  have hdot := getAgentDirName_ne_dot a
  simp only [agentConfigWF, Bool.and_eq_true, decide_eq_true_eq] at hwf
  obtain ⟨⟨⟨⟨⟨⟨⟨hdf, hnp⟩, hvt⟩, hvd⟩, hwu⟩, hid⟩, hver⟩, hres⟩ := hwf
  have hok : reVersionOK (.retellLlm lid v) = true := by
    simp only [reVersionOK, decide_eq_true_eq]
    exact hv
  obtain ⟨G, hG⟩ : ∃ G, (serializeAgentFiles llmMap flowMap channel "." a []).1 = G := ⟨_, rfl⟩
  rw [hG]
  cases hL : jsMapGet llmMap lid with
  | none =>
    have hchunk : G
        = fmSet (fmSet [] (pathJoin (getAgentDirName a) ".agent.json")
            (.json (.obj (.cons "id" (.str a._id) (.cons "version" (.num a._version)
              (.cons "channel" (.str channel)
                (.cons "response_engine" (reForMeta a.response_engine) .nil)))))))
          (pathJoin (getAgentDirName a) "config.yaml") (.yaml (.obj a.config)) := by
      rw [← hG]
      simp only [serializeAgentFiles, pathJoin_dot, hre, hL]
      rfl
    have hFmeta : fmGet G (pathJoin (getAgentDirName a) ".agent.json")
        = some (.json (.obj (.cons "id" (.str a._id) (.cons "version" (.num a._version)
            (.cons "channel" (.str channel)
              (.cons "response_engine" (reForMeta a.response_engine) .nil)))))) := by
      rw [hchunk, fmGet_fmSet_ne _ _ _ _ (pathJoin_ne _ hdot _ _ (by decide)),
        fmGet_fmSet_self]
    have hFcfg : fmGet G (pathJoin (getAgentDirName a) "config.yaml")
        = some (.yaml (.obj a.config)) := by
      rw [hchunk, fmGet_fmSet_self]
    have hFllm : fmGet G (pathJoin (getAgentDirName a) "llm.yaml") = none := by
      rw [hchunk, fmGet_fmSet_ne _ _ _ _ (pathJoin_ne _ hdot _ _ (by decide)),
        fmGet_fmSet_ne _ _ _ _ (pathJoin_ne _ hdot _ _ (by decide))]
      rfl
    unfold processDir
    rw [show getAgentDirName a ++ "/.agent.json" = pathJoin (getAgentDirName a) ".agent.json"
        from append_eq_pathJoin _ _ _ hdot rfl, hFmeta]
    dsimp only
    rw [if_neg (fun hcon => hcon rfl)]
    dsimp only [readJsonF]
    rw [exceptBind_ok, hre,
      decodeAgentMeta_written a._id a._version channel (.retellLlm lid v) hok hch,
      exceptBind_ok]
    rw [show getAgentDirName a ++ "/config.yaml" = pathJoin (getAgentDirName a) "config.yaml"
        from append_eq_pathJoin _ _ _ hdot rfl, hFcfg]
    dsimp only
    rw [if_neg (fun hcon => hcon rfl)]
    dsimp only [readYamlF]
    rw [exceptBind_ok]
    dsimp only [requireObj]
    rw [exceptBind_ok]
    rw [resolveObjPlaceholders_noop _ _ hnp, exceptBind_ok]
    dsimp only [metaREof]
    rw [show getAgentDirName a ++ "/llm.yaml" = pathJoin (getAgentDirName a) "llm.yaml"
        from append_eq_pathJoin _ _ _ hdot rfl, hFllm]
    dsimp only
    rw [exceptBind_ok, exceptBind_ok]
    rw [metaVersionToJsOpt_coalesce v hv]
    rw [JsObj.removeKey_not_has _ "version_title" (bool_eq_false hvt),
      JsObj.removeKey_not_has _ "version_description" (bool_eq_false hvd),
      JsObj.removeKey_not_has _ "llm_websocket_url" (bool_eq_false hwu),
      JsObj.removeKey_not_has _ "_id" (bool_eq_false hid),
      JsObj.removeKey_not_has _ "_version" (bool_eq_false hver),
      JsObj.removeKey_not_has _ "response_engine" (bool_eq_false hres)]
    dsimp only [expectedLlm]
    rw [hL, ← hre]
  | some llm =>
    have hlwf := hllmwf llm hL
    simp only [llmConfigWF, Bool.and_eq_true, decide_eq_true_eq] at hlwf
    obtain ⟨⟨⟨⟨hdfL, hnpL⟩, hidL⟩, hverL⟩, hokL⟩ := hlwf
    have hnpL2 : JsObj.noPlaceholders llm.config = true := hnpL
    have hrmL : ((normPromptField llm.config "general_prompt").removeKey "_id").removeKey
        "_version" = normPromptField llm.config "general_prompt" := by
      rw [JsObj.removeKey_not_has _ "_id" (by
          simp only [JsObj.hasKey,
            normPromptField_lookup_ne llm.config "general_prompt" "_id" (by decide)]
          exact bool_eq_false hidL),
        JsObj.removeKey_not_has _ "_version" (by
          simp only [JsObj.hasKey,
            normPromptField_lookup_ne llm.config "general_prompt" "_version" (by decide)]
          exact bool_eq_false hverL)]
    by_cases ht : truthyField llm.config "general_prompt" = true
    · have hchunk : G
          = fmSet (fmSet (fmSet (fmSet [] (pathJoin (getAgentDirName a) ".agent.json")
                (.json (.obj (.cons "id" (.str a._id) (.cons "version" (.num a._version)
                  (.cons "channel" (.str channel)
                    (.cons "response_engine" (reForMeta a.response_engine) .nil)))))))
              (pathJoin (getAgentDirName a) "general_prompt.md")
              (.text (writeMarkdown
                (displayString ((llm.config.lookup "general_prompt").getD .null)) .nil)))
            (pathJoin (getAgentDirName a) "llm.yaml")
            (.yaml (.obj (llm.config.set "general_prompt"
              (.str "file://./general_prompt.md")))))
          (pathJoin (getAgentDirName a) "config.yaml") (.yaml (.obj a.config)) := by
        rw [← hG]
        simp only [serializeAgentFiles, pathJoin_dot, hre, hL, serializeLlmFiles, if_pos ht]
        rfl
      have hFmeta : fmGet G (pathJoin (getAgentDirName a) ".agent.json")
          = some (.json (.obj (.cons "id" (.str a._id) (.cons "version" (.num a._version)
              (.cons "channel" (.str channel)
                (.cons "response_engine" (reForMeta a.response_engine) .nil)))))) := by
        rw [hchunk, fmGet_fmSet_ne _ _ _ _ (pathJoin_ne _ hdot _ _ (by decide)),
          fmGet_fmSet_ne _ _ _ _ (pathJoin_ne _ hdot _ _ (by decide)),
          fmGet_fmSet_ne _ _ _ _ (pathJoin_ne _ hdot _ _ (by decide)),
          fmGet_fmSet_self]
      have hFcfg : fmGet G (pathJoin (getAgentDirName a) "config.yaml")
          = some (.yaml (.obj a.config)) := by
        rw [hchunk, fmGet_fmSet_self]
      have hFllm : fmGet G (pathJoin (getAgentDirName a) "llm.yaml")
          = some (.yaml (.obj (llm.config.set "general_prompt"
            (.str "file://./general_prompt.md")))) := by
        rw [hchunk, fmGet_fmSet_ne _ _ _ _ (pathJoin_ne _ hdot _ _ (by decide)),
          fmGet_fmSet_self]
      have hFgp : fmGet G (pathJoin (getAgentDirName a) "general_prompt.md")
          = some (.text (writeMarkdown
            (displayString ((llm.config.lookup "general_prompt").getD .null)) .nil)) := by
        rw [hchunk, fmGet_fmSet_ne _ _ _ _ (pathJoin_ne _ hdot _ _ (by decide)),
          fmGet_fmSet_ne _ _ _ _ (pathJoin_ne _ hdot _ _ (by decide)),
          fmGet_fmSet_self]
      have hresolve := wLlmCfg_resolve G (getAgentDirName a) hdot llm.config hnpL2 hokL
        (fun _ => hFgp)
      unfold wLlmCfg at hresolve
      rw [if_pos ht] at hresolve
      unfold processDir
      rw [show getAgentDirName a ++ "/.agent.json" = pathJoin (getAgentDirName a) ".agent.json"
          from append_eq_pathJoin _ _ _ hdot rfl, hFmeta]
      dsimp only
      rw [if_neg (fun hcon => hcon rfl)]
      dsimp only [readJsonF]
      rw [exceptBind_ok, hre,
        decodeAgentMeta_written a._id a._version channel (.retellLlm lid v) hok hch,
        exceptBind_ok]
      rw [show getAgentDirName a ++ "/config.yaml" = pathJoin (getAgentDirName a) "config.yaml"
          from append_eq_pathJoin _ _ _ hdot rfl, hFcfg]
      dsimp only
      rw [if_neg (fun hcon => hcon rfl)]
      dsimp only [readYamlF]
      rw [exceptBind_ok]
      dsimp only [requireObj]
      rw [exceptBind_ok]
      rw [resolveObjPlaceholders_noop _ _ hnp, exceptBind_ok]
      dsimp only [metaREof]
      rw [show getAgentDirName a ++ "/llm.yaml" = pathJoin (getAgentDirName a) "llm.yaml"
          from append_eq_pathJoin _ _ _ hdot rfl, hFllm]
      dsimp only [FileContent.truthy]
      rw [if_pos rfl]
      rw [exceptBind_ok]
      dsimp only
      rw [exceptBind_ok]
      rw [hresolve, exceptBind_ok]
      rw [hrmL, exceptBind_ok, exceptBind_ok]
      rw [metaVersionToJsOpt_coalesce v hv]
      rw [JsObj.removeKey_not_has _ "version_title" (bool_eq_false hvt),
        JsObj.removeKey_not_has _ "version_description" (bool_eq_false hvd),
        JsObj.removeKey_not_has _ "llm_websocket_url" (bool_eq_false hwu),
        JsObj.removeKey_not_has _ "_id" (bool_eq_false hid),
        JsObj.removeKey_not_has _ "_version" (bool_eq_false hver),
        JsObj.removeKey_not_has _ "response_engine" (bool_eq_false hres)]
      dsimp only [expectedLlm]
      rw [hL, ← hre]
    · have hchunk : G
          = fmSet (fmSet (fmSet [] (pathJoin (getAgentDirName a) ".agent.json")
              (.json (.obj (.cons "id" (.str a._id) (.cons "version" (.num a._version)
                (.cons "channel" (.str channel)
                  (.cons "response_engine" (reForMeta a.response_engine) .nil)))))))
            (pathJoin (getAgentDirName a) "llm.yaml") (.yaml (.obj llm.config)))
          (pathJoin (getAgentDirName a) "config.yaml") (.yaml (.obj a.config)) := by
        rw [← hG]
        simp only [serializeAgentFiles, pathJoin_dot, hre, hL, serializeLlmFiles, if_neg ht]
        rfl
      have hFmeta : fmGet G (pathJoin (getAgentDirName a) ".agent.json")
          = some (.json (.obj (.cons "id" (.str a._id) (.cons "version" (.num a._version)
              (.cons "channel" (.str channel)
                (.cons "response_engine" (reForMeta a.response_engine) .nil)))))) := by
        rw [hchunk, fmGet_fmSet_ne _ _ _ _ (pathJoin_ne _ hdot _ _ (by decide)),
          fmGet_fmSet_ne _ _ _ _ (pathJoin_ne _ hdot _ _ (by decide)),
          fmGet_fmSet_self]
      have hFcfg : fmGet G (pathJoin (getAgentDirName a) "config.yaml")
          = some (.yaml (.obj a.config)) := by
        rw [hchunk, fmGet_fmSet_self]
      have hFllm : fmGet G (pathJoin (getAgentDirName a) "llm.yaml")
          = some (.yaml (.obj llm.config)) := by
        rw [hchunk, fmGet_fmSet_ne _ _ _ _ (pathJoin_ne _ hdot _ _ (by decide)),
          fmGet_fmSet_self]
      have hresolve := wLlmCfg_resolve G (getAgentDirName a) hdot llm.config hnpL2 hokL
        (fun ht2 => absurd ht2 ht)
      unfold wLlmCfg at hresolve
      rw [if_neg ht] at hresolve
      unfold processDir
      rw [show getAgentDirName a ++ "/.agent.json" = pathJoin (getAgentDirName a) ".agent.json"
          from append_eq_pathJoin _ _ _ hdot rfl, hFmeta]
      dsimp only
      rw [if_neg (fun hcon => hcon rfl)]
      dsimp only [readJsonF]
      rw [exceptBind_ok, hre,
        decodeAgentMeta_written a._id a._version channel (.retellLlm lid v) hok hch,
        exceptBind_ok]
      rw [show getAgentDirName a ++ "/config.yaml" = pathJoin (getAgentDirName a) "config.yaml"
          from append_eq_pathJoin _ _ _ hdot rfl, hFcfg]
      dsimp only
      rw [if_neg (fun hcon => hcon rfl)]
      dsimp only [readYamlF]
      rw [exceptBind_ok]
      dsimp only [requireObj]
      rw [exceptBind_ok]
      rw [resolveObjPlaceholders_noop _ _ hnp, exceptBind_ok]
      dsimp only [metaREof]
      rw [show getAgentDirName a ++ "/llm.yaml" = pathJoin (getAgentDirName a) "llm.yaml"
          from append_eq_pathJoin _ _ _ hdot rfl, hFllm]
      dsimp only [FileContent.truthy]
      rw [if_pos rfl]
      rw [exceptBind_ok]
      dsimp only
      rw [exceptBind_ok]
      rw [hresolve, exceptBind_ok]
      rw [hrmL, exceptBind_ok, exceptBind_ok]
      rw [metaVersionToJsOpt_coalesce v hv]
      rw [JsObj.removeKey_not_has _ "version_title" (bool_eq_false hvt),
        JsObj.removeKey_not_has _ "version_description" (bool_eq_false hvd),
        JsObj.removeKey_not_has _ "llm_websocket_url" (bool_eq_false hwu),
        JsObj.removeKey_not_has _ "_id" (bool_eq_false hid),
        JsObj.removeKey_not_has _ "_version" (bool_eq_false hver),
        JsObj.removeKey_not_has _ "response_engine" (bool_eq_false hres)]
      dsimp only [expectedLlm]
      rw [hL, ← hre]

/-- A conditional fresh write on another key leaves a read unchanged. -/
theorem fmGet_ite_fmSet_ne (c : Prop) [Decidable c] (m : FileMap) (k : String)
    (v : FileContent) (k2 : String) (h : k2 ≠ k) :
    fmGet (if c then fmSet m k v else m) k2 = fmGet m k2 := by
  by_cases hc : c
  · rw [if_pos hc, fmGet_fmSet_ne _ _ _ _ h]
  · rw [if_neg hc]

/-- Node prompt files live under `nodes/`; a name that does not start
with that letter differs from every node file name. -/
theorem nodeFileNameOf_ne (o : JsObj) (s : String) (hs : s.data.head? ≠ some 'n') :
    s ≠ nodeFileNameOf o := by
  intro he
  apply hs
  rw [he]
  unfold nodeFileNameOf
  dsimp only
  rw [str_append_data, str_append_data,
    show ("nodes/" : String).data = 'n' :: "odes/".data from rfl,
    List.cons_append, List.cons_append]
  rfl

/-- The written flow config file of a serialized flow. -/
theorem sff_fmGet_flowYaml (flow : CanonicalConversationFlow) (d : String) (files : FileMap) :
    fmGet (serializeFlowFiles flow d files).1 (pathJoin d "conversation-flow.yaml")
      = some (.yaml (.obj (wFlowCfg flow.config))) := by
  rw [serializeFlowFiles_files]
  dsimp only
  exact fmGet_fmSet_self _ _ _

/-- The flow writer leaves reads of unrelated sidecar names unchanged. -/
theorem sff_fmGet_other (flow : CanonicalConversationFlow) (d : String) (hdot : d ≠ ".")
    (files : FileMap) (s : String)
    (h1 : s ≠ "conversation-flow.yaml") (h2 : s ≠ ".positions.json")
    (h3 : s ≠ "global_prompt.md") (hhead : s.data.head? ≠ some 'n') :
    fmGet (serializeFlowFiles flow d files).1 (pathJoin d s) = fmGet files (pathJoin d s) := by
  rw [serializeFlowFiles_files]
  dsimp only
  rw [fmGet_fmSet_ne _ _ _ _ (pathJoin_ne _ hdot _ _ h1)]
  rw [fmGet_ite_fmSet_ne _ _ _ _ _ (pathJoin_ne _ hdot _ _ h2)]
  cases hn : ((if truthyField flow.config "global_prompt" then
      flow.config.set "global_prompt" (Json.str "file://./global_prompt.md")
    else flow.config).lookup "nodes") with
  | none =>
    dsimp only
    rw [fmGet_ite_fmSet_ne _ _ _ _ _ (pathJoin_ne _ hdot _ _ h3)]
  | some v =>
    cases v with
    | arr ns =>
      dsimp only
      rw [extractNodePrompts_fmGet_other _ _ _ _ _ _
        (fun o2 _ _ => pathJoin_ne _ hdot _ _ (nodeFileNameOf_ne o2 s hhead))]
      rw [fmGet_ite_fmSet_ne _ _ _ _ _ (pathJoin_ne _ hdot _ _ h3)]
    | null =>
      dsimp only
      rw [fmGet_ite_fmSet_ne _ _ _ _ _ (pathJoin_ne _ hdot _ _ h3)]
    | bool b =>
      dsimp only
      rw [fmGet_ite_fmSet_ne _ _ _ _ _ (pathJoin_ne _ hdot _ _ h3)]
    | num q =>
      dsimp only
      rw [fmGet_ite_fmSet_ne _ _ _ _ _ (pathJoin_ne _ hdot _ _ h3)]
    | str t =>
      dsimp only
      rw [fmGet_ite_fmSet_ne _ _ _ _ _ (pathJoin_ne _ hdot _ _ h3)]
    | obj fs =>
      dsimp only
      rw [fmGet_ite_fmSet_ne _ _ _ _ _ (pathJoin_ne _ hdot _ _ h3)]

/-- The positions sidecar of a serialized flow: present exactly when some
position was extracted. -/
theorem sff_fmGet_pos (flow : CanonicalConversationFlow) (d : String) (hdot : d ≠ ".")
    (files : FileMap)
    (hfiles : fmGet files (pathJoin d ".positions.json") = none) :
    fmGet (serializeFlowFiles flow d files).1 (pathJoin d ".positions.json")
      = (if (wFlowPos flow.config).length > 0 then
          some (.json (.obj (wFlowPos flow.config))) else none) := by
  rw [serializeFlowFiles_files]
  dsimp only
  rw [fmGet_fmSet_ne _ _ _ _ (pathJoin_ne _ hdot _ _ (by decide))]
  by_cases hlen : (wFlowPos flow.config).length > 0
  · rw [if_pos hlen]
    rw [if_pos hlen]
    exact fmGet_fmSet_self _ _ _
  · rw [if_neg hlen]
    rw [if_neg hlen]
    cases hn : ((if truthyField flow.config "global_prompt" then
        flow.config.set "global_prompt" (Json.str "file://./global_prompt.md")
      else flow.config).lookup "nodes") with
    | none =>
      dsimp only
      rw [fmGet_ite_fmSet_ne _ _ _ _ _ (pathJoin_ne _ hdot _ _ (by decide))]
      exact hfiles
    | some v =>
      cases v with
      | arr ns =>
        dsimp only
        rw [extractNodePrompts_fmGet_other _ _ _ _ _ _
          (fun o2 _ _ => pathJoin_ne _ hdot _ _ (nodeFileNameOf_ne o2 _ (by decide)))]
        rw [fmGet_ite_fmSet_ne _ _ _ _ _ (pathJoin_ne _ hdot _ _ (by decide))]
        exact hfiles
      | null =>
        dsimp only
        rw [fmGet_ite_fmSet_ne _ _ _ _ _ (pathJoin_ne _ hdot _ _ (by decide))]
        exact hfiles
      | bool b =>
        dsimp only
        rw [fmGet_ite_fmSet_ne _ _ _ _ _ (pathJoin_ne _ hdot _ _ (by decide))]
        exact hfiles
      | num q =>
        dsimp only
        rw [fmGet_ite_fmSet_ne _ _ _ _ _ (pathJoin_ne _ hdot _ _ (by decide))]
        exact hfiles
      | str t =>
        dsimp only
        rw [fmGet_ite_fmSet_ne _ _ _ _ _ (pathJoin_ne _ hdot _ _ (by decide))]
        exact hfiles
      | obj fs =>
        dsimp only
        rw [fmGet_ite_fmSet_ne _ _ _ _ _ (pathJoin_ne _ hdot _ _ (by decide))]
        exact hfiles

/-- The extracted global-prompt file of a serialized flow. -/
theorem sff_fmGet_gp (flow : CanonicalConversationFlow) (d : String) (hdot : d ≠ ".")
    (files : FileMap) (ht : truthyField flow.config "global_prompt" = true) :
    fmGet (serializeFlowFiles flow d files).1 (pathJoin d "global_prompt.md")
      = some (.text (writeMarkdown
          (displayString ((flow.config.lookup "global_prompt").getD .null)) .nil)) := by
  rw [serializeFlowFiles_files]
  dsimp only
  rw [fmGet_fmSet_ne _ _ _ _ (pathJoin_ne _ hdot _ _ (by decide))]
  rw [fmGet_ite_fmSet_ne _ _ _ _ _ (pathJoin_ne _ hdot _ _ (by decide))]
  cases hn : ((if truthyField flow.config "global_prompt" then
      flow.config.set "global_prompt" (Json.str "file://./global_prompt.md")
    else flow.config).lookup "nodes") with
  | none =>
    dsimp only
    rw [if_pos ht]
    exact fmGet_fmSet_self _ _ _
  | some v =>
    cases v with
    | arr ns =>
      dsimp only
      rw [extractNodePrompts_fmGet_other _ _ _ _ _ _
        (fun o2 _ _ => pathJoin_ne _ hdot _ _ (nodeFileNameOf_ne o2 _ (by decide)))]
      rw [if_pos ht]
      exact fmGet_fmSet_self _ _ _
    | null =>
      dsimp only
      rw [if_pos ht]
      exact fmGet_fmSet_self _ _ _
    | bool b =>
      dsimp only
      rw [if_pos ht]
      exact fmGet_fmSet_self _ _ _
    | num q =>
      dsimp only
      rw [if_pos ht]
      exact fmGet_fmSet_self _ _ _
    | str t =>
      dsimp only
      rw [if_pos ht]
      exact fmGet_fmSet_self _ _ _
    | obj fs =>
      dsimp only
      rw [if_pos ht]
      exact fmGet_fmSet_self _ _ _

/-- The extracted node prompt files of a serialized flow. -/
theorem sff_fmGet_node (flow : CanonicalConversationFlow) (d : String) (hdot : d ≠ ".")
    (files : FileMap) (ns0 : JsArr)
    (hn : flow.config.lookup "nodes" = some (.arr ns0))
    (hnd : nodupB ((ns0.toList.filter isExtractableNode).map nodeFileNameOfJson) = true)
    (o : JsObj) (hmem : Json.obj o ∈ ns0.toList) (hext : nodeExtractable o = true) :
    fmGet (serializeFlowFiles flow d files).1 (pathJoin d (nodeFileNameOf o))
      = some (.text (writeMarkdown (nodeInstructionText o)
          (nodeFrontmatter (nodeNamesById ns0.toList) (incomingEdgeNames ns0.toList) o))) := by
  have hn2 : ((if truthyField flow.config "global_prompt" then
      flow.config.set "global_prompt" (Json.str "file://./global_prompt.md")
    else flow.config).lookup "nodes") = some (.arr ns0) := by
    by_cases hgp : truthyField flow.config "global_prompt" = true
    · rw [if_pos hgp, JsObj.lookup_set_ne _ _ _ _ (by decide)]
      exact hn
    · rw [if_neg hgp]
      exact hn
  rw [serializeFlowFiles_files]
  dsimp only
  rw [fmGet_fmSet_ne _ _ _ _
    (pathJoin_ne _ hdot _ _ (Ne.symm (nodeFileNameOf_ne o _ (by decide))))]
  rw [fmGet_ite_fmSet_ne _ _ _ _ _
    (pathJoin_ne _ hdot _ _ (Ne.symm (nodeFileNameOf_ne o _ (by decide))))]
  rw [hn2]
  dsimp only
  exact extractNodePrompts_fmGet_node _ _ _ hdot _ _ o hmem hext hnd

/-- Merging the serialized positions back onto the resolved flow config
yields the read-back flow config. -/
theorem mergePositions_rFlow (cfg : JsObj) :
    mergePositions (rFlowCfg cfg) (rFlowPos cfg) = flowReadConfig cfg := by
  unfold flowReadConfig rFlowCfg rFlowPos
  cases hn : cfg.lookup "nodes" with
  | none =>
    rw [rFlowParts_none cfg (fun xs hx => by rw [hn] at hx; exact absurd hx (by simp))]
    exact mergePositions_mStage1None cfg
  | some v =>
    cases v with
    | arr ns0 =>
      rw [rFlowParts_arr cfg ns0 hn]
      exact mergePositions_mStage1 cfg _
    | null =>
      rw [rFlowParts_none cfg (fun xs hx => by rw [hn] at hx; exact absurd hx (by simp))]
      exact mergePositions_mStage1None cfg
    | bool b =>
      rw [rFlowParts_none cfg (fun xs hx => by rw [hn] at hx; exact absurd hx (by simp))]
      exact mergePositions_mStage1None cfg
    | num q =>
      rw [rFlowParts_none cfg (fun xs hx => by rw [hn] at hx; exact absurd hx (by simp))]
      exact mergePositions_mStage1None cfg
    | str t =>
      rw [rFlowParts_none cfg (fun xs hx => by rw [hn] at hx; exact absurd hx (by simp))]
      exact mergePositions_mStage1None cfg
    | obj fs =>
      rw [rFlowParts_none cfg (fun xs hx => by rw [hn] at hx; exact absurd hx (by simp))]
      exact mergePositions_mStage1None cfg

/-- Without extracted positions the resolved config is already the
read-back config. -/
theorem rFlowCfg_of_no_pos (cfg : JsObj) (h : (rFlowPos cfg).length = 0) :
    rFlowCfg cfg = flowReadConfig cfg := by
  have hnil : rFlowPos cfg = .nil := (JsObj.length_zero_iff _).mp h
  rw [← mergePositions_rFlow cfg, hnil, mergePositions_nil]

/-- The read-back flow config misses every key the pipeline neither
merges nor rewrites. -/
theorem flowReadConfig_hasKey (cfg : JsObj) (k : String)
    (h1 : k ≠ "nodes") (h2 : k ≠ "components") (h3 : k ≠ "begin_tag_display_position")
    (h4 : k ≠ "global_prompt") (h5 : cfg.hasKey k = false) :
    (flowReadConfig cfg).hasKey k = false := by
  unfold flowReadConfig
  simp only [JsObj.hasKey] at h5 ⊢
  cases hn : cfg.lookup "nodes" with
  | none =>
    dsimp only
    rw [mMergedNone_lookup_other cfg k h2 h3, normPromptField_lookup_ne cfg _ _ h4]
    exact h5
  | some v =>
    cases v with
    | arr ns0 =>
      dsimp only
      rw [mMerged_lookup_other cfg _ k h1 h2 h3, normPromptField_lookup_ne cfg _ _ h4]
      exact h5
    | null =>
      dsimp only
      rw [mMergedNone_lookup_other cfg k h2 h3, normPromptField_lookup_ne cfg _ _ h4]
      exact h5
    | bool b =>
      dsimp only
      rw [mMergedNone_lookup_other cfg k h2 h3, normPromptField_lookup_ne cfg _ _ h4]
      exact h5
    | num q =>
      dsimp only
      rw [mMergedNone_lookup_other cfg k h2 h3, normPromptField_lookup_ne cfg _ _ h4]
      exact h5
    | str t =>
      dsimp only
      rw [mMergedNone_lookup_other cfg k h2 h3, normPromptField_lookup_ne cfg _ _ h4]
      exact h5
    | obj fs =>
      dsimp only
      rw [mMergedNone_lookup_other cfg k h2 h3, normPromptField_lookup_ne cfg _ _ h4]
      exact h5

/-- Reading back the chunk of a conversation-flow agent rebuilds the
agent exactly, plus the position-merged normalized flow when its id is
mapped. -/
theorem processDir_chunk_flow (llmMap : List (String × CanonicalLLM))
    (flowMap : List (String × CanonicalConversationFlow)) (channel : String)
    (a : CanonicalAgent) (fid : String) (v : JsOpt Rat)
    (hre : a.response_engine = .conversationFlow fid v)
    (hch : channel = "voice" ∨ channel = "chat")
    (hwf : agentConfigWF a.config = true)
    (hv : v ≠ .null)
    (hflowwf : ∀ flow, jsMapGet flowMap fid = some flow → flowConfigWF flow.config = true) :
    processDir (serializeAgentFiles llmMap flowMap channel "." a []).1 (getAgentDirName a)
      = Except.ok (some ⟨channel, a, none, expectedFlow flowMap (.conversationFlow fid v)⟩) := by
  have hdot := getAgentDirName_ne_dot a
  simp only [agentConfigWF, Bool.and_eq_true, decide_eq_true_eq] at hwf
  obtain ⟨⟨⟨⟨⟨⟨⟨hdf, hnp⟩, hvt⟩, hvd⟩, hwu⟩, hid⟩, hver⟩, hres⟩ := hwf
  have hok : reVersionOK (.conversationFlow fid v) = true := by
    simp only [reVersionOK, decide_eq_true_eq]
    exact hv
  obtain ⟨G, hG⟩ : ∃ G, (serializeAgentFiles llmMap flowMap channel "." a []).1 = G := ⟨_, rfl⟩
  rw [hG]
  cases hF : jsMapGet flowMap fid with
  | none =>
    have hchunk : G
        = fmSet (fmSet [] (pathJoin (getAgentDirName a) ".agent.json")
            (.json (.obj (.cons "id" (.str a._id) (.cons "version" (.num a._version)
              (.cons "channel" (.str channel)
                (.cons "response_engine" (reForMeta a.response_engine) .nil)))))))
          (pathJoin (getAgentDirName a) "config.yaml") (.yaml (.obj a.config)) := by
      rw [← hG]
      simp only [serializeAgentFiles, pathJoin_dot, hre, hF]
      rfl
    have hFmeta : fmGet G (pathJoin (getAgentDirName a) ".agent.json")
        = some (.json (.obj (.cons "id" (.str a._id) (.cons "version" (.num a._version)
            (.cons "channel" (.str channel)
              (.cons "response_engine" (reForMeta a.response_engine) .nil)))))) := by
      rw [hchunk, fmGet_fmSet_ne _ _ _ _ (pathJoin_ne _ hdot _ _ (by decide)),
        fmGet_fmSet_self]
    have hFcfg : fmGet G (pathJoin (getAgentDirName a) "config.yaml")
        = some (.yaml (.obj a.config)) := by
      rw [hchunk, fmGet_fmSet_self]
    have hFfy : fmGet G (pathJoin (getAgentDirName a) "conversation-flow.yaml") = none := by
      rw [hchunk, fmGet_fmSet_ne _ _ _ _ (pathJoin_ne _ hdot _ _ (by decide)),
        fmGet_fmSet_ne _ _ _ _ (pathJoin_ne _ hdot _ _ (by decide))]
      rfl
    unfold processDir
    rw [show getAgentDirName a ++ "/.agent.json" = pathJoin (getAgentDirName a) ".agent.json"
        from append_eq_pathJoin _ _ _ hdot rfl, hFmeta]
    dsimp only
    rw [if_neg (fun hcon => hcon rfl)]
    dsimp only [readJsonF]
    rw [exceptBind_ok, hre,
      decodeAgentMeta_written a._id a._version channel (.conversationFlow fid v) hok hch,
      exceptBind_ok]
    rw [show getAgentDirName a ++ "/config.yaml" = pathJoin (getAgentDirName a) "config.yaml"
        from append_eq_pathJoin _ _ _ hdot rfl, hFcfg]
    dsimp only
    rw [if_neg (fun hcon => hcon rfl)]
    dsimp only [readYamlF]
    rw [exceptBind_ok]
    dsimp only [requireObj]
    rw [exceptBind_ok]
    rw [resolveObjPlaceholders_noop _ _ hnp, exceptBind_ok]
    dsimp only [metaREof]
    rw [show getAgentDirName a ++ "/conversation-flow.yaml"
        = pathJoin (getAgentDirName a) "conversation-flow.yaml"
        from append_eq_pathJoin _ _ _ hdot rfl, hFfy]
    dsimp only
    rw [exceptBind_ok, exceptBind_ok]
    rw [metaVersionToJsOpt_coalesce v hv]
    rw [JsObj.removeKey_not_has _ "version_title" (bool_eq_false hvt),
      JsObj.removeKey_not_has _ "version_description" (bool_eq_false hvd),
      JsObj.removeKey_not_has _ "llm_websocket_url" (bool_eq_false hwu),
      JsObj.removeKey_not_has _ "_id" (bool_eq_false hid),
      JsObj.removeKey_not_has _ "_version" (bool_eq_false hver),
      JsObj.removeKey_not_has _ "response_engine" (bool_eq_false hres)]
    dsimp only [expectedFlow]
    rw [hF, ← hre]
  | some flow =>
    have hFwf := hflowwf flow hF
    have hFwf2 := hFwf
    simp only [flowConfigWF, Bool.and_eq_true, decide_eq_true_eq] at hFwf2
    obtain ⟨⟨⟨⟨⟨⟨hdfF, hnpF⟩, hidF⟩, hverF⟩, hgpokF⟩, hnodesF⟩, hcompsF⟩ := hFwf2
    have hchunk : G
        = fmSet (serializeFlowFiles flow (getAgentDirName a)
            (fmSet [] (pathJoin (getAgentDirName a) ".agent.json")
              (.json (.obj (.cons "id" (.str a._id) (.cons "version" (.num a._version)
                (.cons "channel" (.str channel)
                  (.cons "response_engine" (reForMeta a.response_engine) .nil))))))) ).1
          (pathJoin (getAgentDirName a) "config.yaml") (.yaml (.obj a.config)) := by
      rw [← hG]
      simp only [serializeAgentFiles, pathJoin_dot, hre, hF]
      cases hS : serializeFlowFiles flow (getAgentDirName a)
          (fmSet [] (pathJoin (getAgentDirName a) ".agent.json")
            (.json (.obj (.cons "id" (.str a._id) (.cons "version" (.num a._version)
              (.cons "channel" (.str channel)
                (.cons "response_engine" (reForMeta a.response_engine) .nil))))))) with
      | mk f2 fl2 => rfl
    have hFmeta : fmGet G (pathJoin (getAgentDirName a) ".agent.json")
        = some (.json (.obj (.cons "id" (.str a._id) (.cons "version" (.num a._version)
            (.cons "channel" (.str channel)
              (.cons "response_engine" (reForMeta a.response_engine) .nil)))))) := by
      rw [hchunk, fmGet_fmSet_ne _ _ _ _ (pathJoin_ne _ hdot _ _ (by decide)),
        sff_fmGet_other flow _ hdot _ _ (by decide) (by decide) (by decide) (by decide),
        fmGet_fmSet_self]
    have hFcfg : fmGet G (pathJoin (getAgentDirName a) "config.yaml")
        = some (.yaml (.obj a.config)) := by
      rw [hchunk, fmGet_fmSet_self]
    have hFfy : fmGet G (pathJoin (getAgentDirName a) "conversation-flow.yaml")
        = some (.yaml (.obj (wFlowCfg flow.config))) := by
      rw [hchunk, fmGet_fmSet_ne _ _ _ _ (pathJoin_ne _ hdot _ _ (by decide)),
        sff_fmGet_flowYaml]
    have hFllm : fmGet G (pathJoin (getAgentDirName a) "llm.yaml") = none := by
      rw [hchunk, fmGet_fmSet_ne _ _ _ _ (pathJoin_ne _ hdot _ _ (by decide)),
        sff_fmGet_other flow _ hdot _ _ (by decide) (by decide) (by decide) (by decide),
        fmGet_fmSet_ne _ _ _ _ (pathJoin_ne _ hdot _ _ (by decide))]
      rfl
    have hFpos0 : fmGet G (pathJoin (getAgentDirName a) ".positions.json")
        = (if (wFlowPos flow.config).length > 0 then
            some (.json (.obj (wFlowPos flow.config))) else none) := by
      rw [hchunk, fmGet_fmSet_ne _ _ _ _ (pathJoin_ne _ hdot _ _ (by decide)),
        sff_fmGet_pos flow _ hdot _ (by
          rw [fmGet_fmSet_ne _ _ _ _ (pathJoin_ne _ hdot _ _ (by decide))]
          rfl)]
    have hFgp : truthyField flow.config "global_prompt" = true →
        fmGet G (pathJoin (getAgentDirName a) "global_prompt.md") = some (.text
          (writeMarkdown (displayString
            ((flow.config.lookup "global_prompt").getD .null)) .nil)) := by
      intro ht
      rw [hchunk, fmGet_fmSet_ne _ _ _ _ (pathJoin_ne _ hdot _ _ (by decide)),
        sff_fmGet_gp flow _ hdot _ ht]
    have hFnode : ∀ ns0 : JsArr, flow.config.lookup "nodes" = some (.arr ns0) →
        ∀ o : JsObj, Json.obj o ∈ ns0.toList → nodeExtractable o = true →
        fmGet G (pathJoin (getAgentDirName a) (nodeFileNameOf o)) = some (.text
          (writeMarkdown (nodeInstructionText o)
            (nodeFrontmatter (nodeNamesById ns0.toList) (incomingEdgeNames ns0.toList) o))) := by
      intro ns0 hn o hmem hext
      have hnodes2 := hnodesF
      rw [hn] at hnodes2
      simp only [Bool.and_eq_true] at hnodes2
      rw [hchunk, fmGet_fmSet_ne _ _ _ _
          (pathJoin_ne _ hdot _ _ (Ne.symm (nodeFileNameOf_ne o _ (by decide)))),
        sff_fmGet_node flow _ hdot _ ns0 hn hnodes2.1.2 o hmem hext]
    have hwres := wFlow_resolve G (getAgentDirName a) hdot flow.config hFwf hFgp hFnode
    have hres1 : resolveObjPlaceholders (dirResolver G (getAgentDirName a))
        (wFlowCfg flow.config) = Except.ok (rFlowCfg flow.config) :=
      fieldsResolve_resolveObj _ _ _ hwres.1
    have hposEq : wFlowPos flow.config = rFlowPos flow.config := hwres.2
    have hrmF : ((flowReadConfig flow.config).removeKey "_id").removeKey "_version"
        = flowReadConfig flow.config := by
      rw [JsObj.removeKey_not_has _ "_id"
          (flowReadConfig_hasKey flow.config "_id" (by decide) (by decide) (by decide)
            (by decide) (bool_eq_false hidF)),
        JsObj.removeKey_not_has _ "_version"
          (flowReadConfig_hasKey flow.config "_version" (by decide) (by decide) (by decide)
            (by decide) (bool_eq_false hverF))]
    unfold processDir
    rw [show getAgentDirName a ++ "/.agent.json" = pathJoin (getAgentDirName a) ".agent.json"
        from append_eq_pathJoin _ _ _ hdot rfl, hFmeta]
    dsimp only
    rw [if_neg (fun hcon => hcon rfl)]
    dsimp only [readJsonF]
    rw [exceptBind_ok, hre,
      decodeAgentMeta_written a._id a._version channel (.conversationFlow fid v) hok hch,
      exceptBind_ok]
    rw [show getAgentDirName a ++ "/config.yaml" = pathJoin (getAgentDirName a) "config.yaml"
        from append_eq_pathJoin _ _ _ hdot rfl, hFcfg]
    dsimp only
    rw [if_neg (fun hcon => hcon rfl)]
    dsimp only [readYamlF]
    rw [exceptBind_ok]
    dsimp only [requireObj]
    rw [exceptBind_ok]
    rw [resolveObjPlaceholders_noop _ _ hnp, exceptBind_ok]
    dsimp only [metaREof]
    rw [exceptBind_ok]
    rw [show getAgentDirName a ++ "/conversation-flow.yaml"
        = pathJoin (getAgentDirName a) "conversation-flow.yaml"
        from append_eq_pathJoin _ _ _ hdot rfl, hFfy]
    dsimp only [FileContent.truthy]
    rw [if_pos rfl]
    rw [exceptBind_ok]
    dsimp only
    rw [exceptBind_ok]
    rw [hres1, exceptBind_ok]
    rw [show getAgentDirName a ++ "/.positions.json"
        = pathJoin (getAgentDirName a) ".positions.json"
        from append_eq_pathJoin _ _ _ hdot rfl]
    by_cases hlen : (wFlowPos flow.config).length > 0
    · have hFpos : fmGet G (pathJoin (getAgentDirName a) ".positions.json")
          = some (.json (.obj (wFlowPos flow.config))) := by
        rw [hFpos0, if_pos hlen]
      rw [hFpos]
      dsimp only [FileContent.truthy]
      rw [if_pos rfl]
      rw [exceptBind_ok]
      dsimp only
      rw [exceptBind_ok]
      rw [exceptBind_ok]
      rw [hposEq, mergePositions_rFlow, hrmF, exceptBind_ok]
      rw [metaVersionToJsOpt_coalesce v hv]
      rw [JsObj.removeKey_not_has _ "version_title" (bool_eq_false hvt),
        JsObj.removeKey_not_has _ "version_description" (bool_eq_false hvd),
        JsObj.removeKey_not_has _ "llm_websocket_url" (bool_eq_false hwu),
        JsObj.removeKey_not_has _ "_id" (bool_eq_false hid),
        JsObj.removeKey_not_has _ "_version" (bool_eq_false hver),
        JsObj.removeKey_not_has _ "response_engine" (bool_eq_false hres)]
      dsimp only [expectedFlow]
      rw [hF, ← hre]
    · have hFpos : fmGet G (pathJoin (getAgentDirName a) ".positions.json") = none := by
        rw [hFpos0, if_neg hlen]
      have hlen0 : (rFlowPos flow.config).length = 0 := by
        rw [← hposEq]
        exact Nat.eq_zero_of_not_pos hlen
      rw [hFpos]
      dsimp only
      rw [exceptBind_ok]
      rw [rFlowCfg_of_no_pos flow.config hlen0, hrmF, exceptBind_ok]
      rw [metaVersionToJsOpt_coalesce v hv]
      rw [JsObj.removeKey_not_has _ "version_title" (bool_eq_false hvt),
        JsObj.removeKey_not_has _ "version_description" (bool_eq_false hvd),
        JsObj.removeKey_not_has _ "llm_websocket_url" (bool_eq_false hwu),
        JsObj.removeKey_not_has _ "_id" (bool_eq_false hid),
        JsObj.removeKey_not_has _ "_version" (bool_eq_false hver),
        JsObj.removeKey_not_has _ "response_engine" (bool_eq_false hres)]
      dsimp only [expectedFlow]
      rw [hF, ← hre]

/-- A set-style fold over values already present changes nothing. -/
theorem foldl_jsSetAdd_all_mem : ∀ (xs acc : List String),
    (∀ x ∈ xs, x ∈ acc) → xs.foldl jsSetAdd acc = acc
  | [], _, _ => rfl
  | x :: xs, acc, h => by
    simp only [List.foldl_cons]
    rw [show jsSetAdd acc x = acc from by
      unfold jsSetAdd
      rw [if_pos (h x (List.mem_cons_self _ _))]]
    exact foldl_jsSetAdd_all_mem xs acc (fun y hy => h y (List.mem_cons_of_mem _ hy))

/-- A set-style fold over a constant fresh value appends it once. -/
theorem foldl_jsSetAdd_const_fresh (d : String) : ∀ (xs acc : List String),
    xs ≠ [] → (∀ x ∈ xs, x = d) → d ∉ acc →
    xs.foldl jsSetAdd acc = acc ++ [d]
  | [], _, hne, _, _ => absurd rfl hne
  | x :: xs, acc, _, hall, hd => by
    have hx : x = d := hall x (List.mem_cons_self _ _)
    subst hx
    simp only [List.foldl_cons]
    rw [show jsSetAdd acc x = acc ++ [x] from by
      unfold jsSetAdd
      rw [if_neg hd]]
    exact foldl_jsSetAdd_all_mem xs (acc ++ [x]) (fun y hy => by
      rw [hall y (List.mem_cons_of_mem _ hy)]
      exact List.mem_append_right _ (List.mem_singleton.mpr rfl))

/-- An agent chunk always holds at least the written `config.yaml`. -/
theorem serializeAgentFiles_ne_nil (llmMap : List (String × CanonicalLLM))
    (fm : List (String × CanonicalConversationFlow)) (ch : String) (a : CanonicalAgent) :
    (serializeAgentFiles llmMap fm ch "." a []).1 ≠ [] := by
  simp only [serializeAgentFiles]
  cases hre : a.response_engine with
  | retellLlm id v =>
    cases jsMapGet llmMap id with
    | some llm =>
      dsimp only
      exact fmSet_ne_nil _ _ _
    | none =>
      dsimp only
      exact fmSet_ne_nil _ _ _
  | conversationFlow id v =>
    cases hFm : jsMapGet fm id with
    | some flow =>
      dsimp only
      cases hS : serializeFlowFiles flow (pathJoin "." (getAgentDirName a))
          (fmSet [] (pathJoin (pathJoin "." (getAgentDirName a)) ".agent.json")
            (.json (.obj (.cons "id" (.str a._id) (.cons "version" (.num a._version)
              (.cons "channel" (.str ch)
                (.cons "response_engine" (encodeRE (.conversationFlow id v)) .nil))))))) with
      | mk f2 fl2 =>
        exact fmSet_ne_nil _ _ _
    | none =>
      dsimp only
      exact fmSet_ne_nil _ _ _
  | customLlm url =>
    dsimp only
    exact fmSet_ne_nil _ _ _

/-- The directory grouping keys of a chunk run are the agent directory
names in order. -/
theorem dirKeys_chunks (llmMap : List (String × CanonicalLLM)) :
    ∀ (l : List (String × CanonicalAgent)) (fm : List (String × CanonicalConversationFlow))
      (acc : List String),
    (∀ p ∈ l, (getAgentDirName p.2).data.contains '/' = false) →
    (∀ p ∈ l, getAgentDirName p.2 ∉ acc) →
    nodupB (l.map (fun p => getAgentDirName p.2)) = true →
    ((agentChunks llmMap l fm).1.map (fun p => firstComponent p.1)).foldl jsSetAdd acc
      = acc ++ l.map (fun p => getAgentDirName p.2)
  | [], fm, acc, _, _, _ => by simp [agentChunks]
  | (ch, a) :: rest, fm, acc, hsl, hacc, hnd => by
    simp only [agentChunks]
    rcases hA : serializeAgentFiles llmMap fm ch "." a [] with ⟨fA, fmA⟩
    rcases hR : agentChunks llmMap rest fmA with ⟨fs, fm3⟩
    dsimp only
    rw [List.map_append, List.foldl_append]
    have hkeys : keysUnder (getAgentDirName a) fA := by
      have h2 := serializeAgentFiles_keys llmMap fm ch a [] (keysUnder_nil _)
        (hsl (ch, a) (List.mem_cons_self _ _))
      rw [hA] at h2
      exact h2
    simp only [List.map_cons] at hnd
    obtain ⟨hne, hnd2⟩ := nodupB_cons _ _ hnd
    have hfold1 : (fA.map (fun p => firstComponent p.1)).foldl jsSetAdd acc
        = acc ++ [getAgentDirName a] := by
      apply foldl_jsSetAdd_const_fresh
      · intro hmap
        exact serializeAgentFiles_ne_nil llmMap fm ch a
          (by rw [hA]; exact List.map_eq_nil.mp hmap)
      · intro x hx
        rcases List.mem_map.mp hx with ⟨p, hp, hpx⟩
        rw [← hpx]
        exact hkeys p hp
      · exact hacc (ch, a) (List.mem_cons_self _ _)
    rw [hfold1]
    have hrec := dirKeys_chunks llmMap rest fmA (acc ++ [getAgentDirName a])
      (fun p hp => hsl p (List.mem_cons_of_mem _ hp))
      (fun p hp hmem => by
        rcases List.mem_append.mp hmem with hmem1 | hmem2
        · exact hacc p (List.mem_cons_of_mem _ hp) hmem1
        · exact hne (getAgentDirName p.2)
            (List.mem_map.mpr ⟨p, hp, rfl⟩) (List.mem_singleton.mp hmem2))
      hnd2
    rw [hR] at hrec
    dsimp only at hrec
    rw [hrec, List.append_assoc, List.singleton_append, List.map_cons]

/-- Filtering the whole chunk run by each agent directory recovers that
agent's chunk, with the flow map threaded. -/
theorem chunkFilters_of (llmMap : List (String × CanonicalLLM)) :
    ∀ (l : List (String × CanonicalAgent)) (fm : List (String × CanonicalConversationFlow))
      (pre : FileMap),
    (∀ p ∈ l, (getAgentDirName p.2).data.contains '/' = false) →
    (∀ q ∈ pre, ∀ p ∈ l, firstComponent q.1 ≠ getAgentDirName p.2) →
    nodupB (l.map (fun p => getAgentDirName p.2)) = true →
    chunkFilters (pre ++ (agentChunks llmMap l fm).1) llmMap l fm
  | [], _, _, _, _, _ => trivial
  | (ch, a) :: rest, fm, pre, hsl, hpre, hnd => by
    simp only [agentChunks]
    rcases hA : serializeAgentFiles llmMap fm ch "." a [] with ⟨fA, fmA⟩
    rcases hR : agentChunks llmMap rest fmA with ⟨fs, fm3⟩
    dsimp only
    have hkeys : keysUnder (getAgentDirName a) fA := by
      have h2 := serializeAgentFiles_keys llmMap fm ch a [] (keysUnder_nil _)
        (hsl (ch, a) (List.mem_cons_self _ _))
      rw [hA] at h2
      exact h2
    simp only [List.map_cons] at hnd
    obtain ⟨hne, hnd2⟩ := nodupB_cons _ _ hnd
    simp only [chunkFilters, hA]
    constructor
    · rw [List.filter_append, List.filter_append]
      rw [List.filter_eq_nil.mpr (fun q hq => by
        simp only [decide_eq_true_eq]
        exact hpre q hq (ch, a) (List.mem_cons_self _ _))]
      rw [List.filter_eq_self.mpr (fun q hq => by
        simp only [decide_eq_true_eq]
        exact hkeys q hq)]
      rw [List.filter_eq_nil.mpr (fun q hq => by
        simp only [decide_eq_true_eq]
        obtain ⟨p, hp, hfc⟩ := agentChunks_fc llmMap rest fmA
          (fun p hp => hsl p (List.mem_cons_of_mem _ hp)) q (by rw [hR]; exact hq)
        rw [hfc]
        intro he
        exact hne (getAgentDirName p.2) (List.mem_map.mpr ⟨p, hp, rfl⟩) he)]
      rw [List.nil_append, List.append_nil]
    · have hrec := chunkFilters_of llmMap rest fmA (pre ++ fA)
        (fun p hp => hsl p (List.mem_cons_of_mem _ hp))
        (fun q hq p hp => by
          rcases List.mem_append.mp hq with hq1 | hq2
          · exact hpre q hq1 p (List.mem_cons_of_mem _ hp)
          · rw [hkeys q hq2]
            intro he
            exact hne (getAgentDirName p.2) (List.mem_map.mpr ⟨p, hp, rfl⟩) he.symm)
        hnd2
      rw [hR] at hrec
      dsimp only at hrec
      rw [List.append_assoc] at hrec
      exact hrec

/-- The directory loop over a chunk run reads back every agent, its
mapped LLM, and its mapped flow, in order; engine lookups are stated
against the initial flow map thanks to single flow ownership. -/
theorem cffGo_chunks (llmMap : List (String × CanonicalLLM)) (files : FileMap)
    (fm0 : List (String × CanonicalConversationFlow)) :
    ∀ (l : List (String × CanonicalAgent)) (fm : List (String × CanonicalConversationFlow))
      (acc : CanonicalState),
    chunkFilters files llmMap l fm →
    (∀ p ∈ l, p.1 = "voice" ∨ p.1 = "chat") →
    (∀ p ∈ l, agentConfigWF p.2.config = true) →
    (∀ p ∈ l, reVersionOK p.2.response_engine = true) →
    (∀ p ∈ l, ∀ url, p.2.response_engine = .customLlm url →
      jsStartsWith url "file://" = false) →
    (∀ p ∈ l, ∀ lid v llm, p.2.response_engine = .retellLlm lid v →
      jsMapGet llmMap lid = some llm → llmConfigWF llm.config = true) →
    (∀ p ∈ l, ∀ fid v flow, p.2.response_engine = .conversationFlow fid v →
      jsMapGet fm fid = some flow → flowConfigWF flow.config = true) →
    (∀ p ∈ l, ∀ fid v, p.2.response_engine = .conversationFlow fid v →
      jsMapGet fm fid = jsMapGet fm0 fid) →
    List.Pairwise (fun p q => ∀ fid v w, p.2.response_engine = .conversationFlow fid v →
      q.2.response_engine = .conversationFlow fid w → jsMapGet fm0 fid = none) l →
    cffGo files (l.map (fun p => getAgentDirName p.2)) acc = Except.ok
      { voiceAgents := acc.voiceAgents ++ (l.filter (fun p => p.1 ≠ "chat")).map (fun p => p.2)
        chatAgents := acc.chatAgents ++ (l.filter (fun p => p.1 = "chat")).map (fun p => p.2)
        llms := acc.llms ++ l.filterMap (fun p => expectedLlm llmMap p.2.response_engine)
        conversationFlows := acc.conversationFlows
          ++ l.filterMap (fun p => expectedFlow fm0 p.2.response_engine) }
  | [], fm, acc, _, _, _, _, _, _, _, _, _ => by
    simp [cffGo]
  | (ch, a) :: rest, fm, acc, hcf, h2, h3, h4, h5, h6, h7, h8, h9 => by
    simp only [chunkFilters] at hcf
    obtain ⟨hfil, hfilrest⟩ := hcf
    obtain ⟨hpwhead, hpwrest⟩ := List.pairwise_cons.mp h9
    simp only [List.map_cons, cffGo]
    rw [hfil]
    cases hre : a.response_engine with
    | retellLlm lid v =>
      have hvn : v ≠ JsOpt.null := by
        have h := h4 (ch, a) (List.mem_cons_self _ _)
        rw [hre] at h
        simp only [reVersionOK, decide_eq_true_eq] at h
        exact h
      rw [processDir_chunk_retell llmMap fm ch a lid v hre
        (h2 (ch, a) (List.mem_cons_self _ _)) (h3 (ch, a) (List.mem_cons_self _ _)) hvn
        (fun llm hllm => h6 (ch, a) (List.mem_cons_self _ _) lid v llm hre hllm),
        exceptBind_ok]
      dsimp only
      have hsnd : (serializeAgentFiles llmMap fm ch "." a []).2 = fm := by
        simp only [serializeAgentFiles, hre]
        cases jsMapGet llmMap lid <;> rfl
      rw [hsnd] at hfilrest
      refine Eq.trans (cffGo_chunks llmMap files fm0 rest fm _ hfilrest
        (fun p hp => h2 p (List.mem_cons_of_mem _ hp))
        (fun p hp => h3 p (List.mem_cons_of_mem _ hp))
        (fun p hp => h4 p (List.mem_cons_of_mem _ hp))
        (fun p hp => h5 p (List.mem_cons_of_mem _ hp))
        (fun p hp => h6 p (List.mem_cons_of_mem _ hp))
        (fun p hp => h7 p (List.mem_cons_of_mem _ hp))
        (fun p hp => h8 p (List.mem_cons_of_mem _ hp))
        hpwrest) ?_
      rcases h2 (ch, a) (List.mem_cons_self _ _) with rfl | rfl
      · cases hEO : expectedLlm llmMap (.retellLlm lid v) with
        | none =>
          simp [hre, hEO, expectedFlow, Option.toList, List.filter_cons,
            List.filterMap_cons, List.append_assoc]
        | some x =>
          simp [hre, hEO, expectedFlow, Option.toList, List.filter_cons,
            List.filterMap_cons, List.append_assoc]
      · cases hEO : expectedLlm llmMap (.retellLlm lid v) with
        | none =>
          simp [hre, hEO, expectedFlow, Option.toList, List.filter_cons,
            List.filterMap_cons, List.append_assoc]
        | some x =>
          simp [hre, hEO, expectedFlow, Option.toList, List.filter_cons,
            List.filterMap_cons, List.append_assoc]
    | customLlm url =>
      rw [processDir_chunk_custom llmMap fm ch a url hre
        (h2 (ch, a) (List.mem_cons_self _ _)) (h3 (ch, a) (List.mem_cons_self _ _))
        (h5 (ch, a) (List.mem_cons_self _ _) url hre),
        exceptBind_ok]
      dsimp only
      have hsnd : (serializeAgentFiles llmMap fm ch "." a []).2 = fm := by
        simp only [serializeAgentFiles, hre]
      rw [hsnd] at hfilrest
      refine Eq.trans (cffGo_chunks llmMap files fm0 rest fm _ hfilrest
        (fun p hp => h2 p (List.mem_cons_of_mem _ hp))
        (fun p hp => h3 p (List.mem_cons_of_mem _ hp))
        (fun p hp => h4 p (List.mem_cons_of_mem _ hp))
        (fun p hp => h5 p (List.mem_cons_of_mem _ hp))
        (fun p hp => h6 p (List.mem_cons_of_mem _ hp))
        (fun p hp => h7 p (List.mem_cons_of_mem _ hp))
        (fun p hp => h8 p (List.mem_cons_of_mem _ hp))
        hpwrest) ?_
      rcases h2 (ch, a) (List.mem_cons_self _ _) with rfl | rfl
      · simp [hre, expectedLlm, expectedFlow, Option.toList, List.filter_cons,
          List.filterMap_cons, List.append_assoc]
      · simp [hre, expectedLlm, expectedFlow, Option.toList, List.filter_cons,
          List.filterMap_cons, List.append_assoc]
    | conversationFlow fid v =>
      have hvn : v ≠ JsOpt.null := by
        have h := h4 (ch, a) (List.mem_cons_self _ _)
        rw [hre] at h
        simp only [reVersionOK, decide_eq_true_eq] at h
        exact h
      have hsame0 : jsMapGet fm fid = jsMapGet fm0 fid :=
        h8 (ch, a) (List.mem_cons_self _ _) fid v hre
      rw [processDir_chunk_flow llmMap fm ch a fid v hre
        (h2 (ch, a) (List.mem_cons_self _ _)) (h3 (ch, a) (List.mem_cons_self _ _)) hvn
        (fun flow hf => h7 (ch, a) (List.mem_cons_self _ _) fid v flow hre hf),
        exceptBind_ok]
      dsimp only
      have hsndN : jsMapGet fm fid = none →
          (serializeAgentFiles llmMap fm ch "." a []).2 = fm := by
        intro hN
        simp only [serializeAgentFiles, hre, hN]
      have hfm2ne : ∀ k, k ≠ fid →
          jsMapGet (serializeAgentFiles llmMap fm ch "." a []).2 k = jsMapGet fm k := by
        intro k hk
        simp only [serializeAgentFiles, hre]
        cases hFm : jsMapGet fm fid with
        | some flow0 =>
          dsimp only
          exact jsMapGet_klvUpsert_ne fm fid _ k hk
        | none =>
          dsimp only
      have h7' : ∀ p ∈ rest, ∀ fid2 v2 flow, p.2.response_engine = .conversationFlow fid2 v2 →
          jsMapGet (serializeAgentFiles llmMap fm ch "." a []).2 fid2 = some flow →
          flowConfigWF flow.config = true := by
        intro p hp fid2 v2 flow hpre hget
        by_cases hk : fid2 = fid
        · subst hk
          have hnone := hpwhead p hp fid2 v v2 hre hpre
          have hfmN : jsMapGet fm fid2 = none := by
            rw [hsame0]
            exact hnone
          rw [hsndN hfmN, hfmN] at hget
          exact Option.noConfusion hget
        · rw [hfm2ne fid2 hk] at hget
          exact h7 p (List.mem_cons_of_mem _ hp) fid2 v2 flow hpre hget
      have h8' : ∀ p ∈ rest, ∀ fid2 v2, p.2.response_engine = .conversationFlow fid2 v2 →
          jsMapGet (serializeAgentFiles llmMap fm ch "." a []).2 fid2 = jsMapGet fm0 fid2 := by
        intro p hp fid2 v2 hpre
        by_cases hk : fid2 = fid
        · subst hk
          have hnone := hpwhead p hp fid2 v v2 hre hpre
          have hfmN : jsMapGet fm fid2 = none := by
            rw [hsame0]
            exact hnone
          rw [hsndN hfmN, hfmN, hnone]
        · rw [hfm2ne fid2 hk]
          exact h8 p (List.mem_cons_of_mem _ hp) fid2 v2 hpre
      have hEF : expectedFlow fm (.conversationFlow fid v)
          = expectedFlow fm0 (.conversationFlow fid v) := by
        simp only [expectedFlow]
        rw [hsame0]
      refine Eq.trans (cffGo_chunks llmMap files fm0 rest
        ((serializeAgentFiles llmMap fm ch "." a []).2) _ hfilrest
        (fun p hp => h2 p (List.mem_cons_of_mem _ hp))
        (fun p hp => h3 p (List.mem_cons_of_mem _ hp))
        (fun p hp => h4 p (List.mem_cons_of_mem _ hp))
        (fun p hp => h5 p (List.mem_cons_of_mem _ hp))
        (fun p hp => h6 p (List.mem_cons_of_mem _ hp))
        h7' h8' hpwrest) ?_
      rcases h2 (ch, a) (List.mem_cons_self _ _) with rfl | rfl
      · cases hEO : expectedFlow fm0 (.conversationFlow fid v) with
        | none =>
          simp [hre, hEF, hEO, expectedLlm, Option.toList, List.filter_cons,
            List.filterMap_cons, List.append_assoc]
        | some x =>
          simp [hre, hEF, hEO, expectedLlm, Option.toList, List.filter_cons,
            List.filterMap_cons, List.append_assoc]
      · cases hEO : expectedFlow fm0 (.conversationFlow fid v) with
        | none =>
          simp [hre, hEF, hEO, expectedLlm, Option.toList, List.filter_cons,
            List.filterMap_cons, List.append_assoc]
        | some x =>
          simp [hre, hEF, hEO, expectedLlm, Option.toList, List.filter_cons,
            List.filterMap_cons, List.append_assoc]

/-- The agents of the tagged list, in order. -/
theorem taggedAgents_map_snd (s : CanonicalState) :
    (taggedAgents s).map (fun p => p.2) = s.voiceAgents ++ s.chatAgents := by
  simp [taggedAgents, List.map_map, Function.comp]

/-- The non-chat entries of the tagged list are the voice agents. -/
theorem taggedAgents_filter_voice (s : CanonicalState) :
    ((taggedAgents s).filter (fun p => p.1 ≠ "chat")).map (fun p => p.2) = s.voiceAgents := by
  unfold taggedAgents
  rw [List.filter_append]
  rw [List.filter_eq_self.mpr (fun q hq => by
    rcases List.mem_map.mp hq with ⟨x, _, hxq⟩
    rw [← hxq]
    simp)]
  rw [List.filter_eq_nil.mpr (fun q hq => by
    rcases List.mem_map.mp hq with ⟨x, _, hxq⟩
    rw [← hxq]
    simp)]
  simp [List.map_map, Function.comp]

/-- The chat entries of the tagged list are the chat agents. -/
theorem taggedAgents_filter_chat (s : CanonicalState) :
    ((taggedAgents s).filter (fun p => p.1 = "chat")).map (fun p => p.2) = s.chatAgents := by
  unfold taggedAgents
  rw [List.filter_append]
  rw [List.filter_eq_nil.mpr (fun q hq => by
    rcases List.mem_map.mp hq with ⟨x, _, hxq⟩
    rw [← hxq]
    simp)]
  rw [List.filter_eq_self.mpr (fun q hq => by
    rcases List.mem_map.mp hq with ⟨x, _, hxq⟩
    rw [← hxq]
    simp)]
  simp [List.map_map, Function.comp]

/-- Tagged-list members carry a voice or chat tag and a state agent. -/
theorem taggedAgents_mem (s : CanonicalState) (p : String × CanonicalAgent)
    (hp : p ∈ taggedAgents s) :
    (p.1 = "voice" ∨ p.1 = "chat") ∧ p.2 ∈ s.voiceAgents ++ s.chatAgents := by
  unfold taggedAgents at hp
  rcases List.mem_append.mp hp with hm | hm
  · rcases List.mem_map.mp hm with ⟨x, hx, hxp⟩
    rw [← hxp]
    exact ⟨Or.inl rfl, List.mem_append_left _ hx⟩
  · rcases List.mem_map.mp hm with ⟨x, hx, hxp⟩
    rw [← hxp]
    exact ⟨Or.inr rfl, List.mem_append_right _ hx⟩

/-- A state agent appears in the tagged list. -/
theorem taggedAgents_mem_of_agent (s : CanonicalState) (x : CanonicalAgent)
    (hx : x ∈ s.voiceAgents ++ s.chatAgents) :
    ∃ p ∈ taggedAgents s, p.2 = x := by
  unfold taggedAgents
  rcases List.mem_append.mp hx with hm | hm
  · exact ⟨("voice", x), List.mem_append_left _ (List.mem_map.mpr ⟨x, hm, rfl⟩), rfl⟩
  · exact ⟨("chat", x), List.mem_append_right _ (List.mem_map.mpr ⟨x, hm, rfl⟩), rfl⟩

/-- A list whose matching entries for every relevant key number at most
one is pairwise free of key collisions. -/
theorem pairwise_of_filter_le_one {α : Type} (pred : String → α → Bool) (P : String → Prop) :
    ∀ l : List α, (∀ k, P k → (l.filter (pred k)).length ≤ 1) →
    List.Pairwise (fun p q => ∀ k, P k → pred k p = true → pred k q = true → False) l
  | [], _ => List.Pairwise.nil
  | p :: rest, h => by
    refine List.Pairwise.cons ?hh (pairwise_of_filter_le_one pred P rest ?hr)
    · intro q hq k hP hp hq2
      have hlen := h k hP
      rw [List.filter_cons_of_pos (by rw [hp])] at hlen
      simp only [List.length_cons, Nat.succ_le_succ_iff, Nat.le_zero] at hlen
      have hmem : q ∈ rest.filter (pred k) := List.mem_filter.mpr ⟨hq, hq2⟩
      rw [List.length_eq_zero.mp hlen] at hmem
      exact absurd hmem (List.not_mem_nil q)
    · intro k hP
      have hlen := h k hP
      rw [List.filter_cons] at hlen
      by_cases hp : pred k p = true
      · rw [if_pos hp] at hlen
        simp only [List.length_cons] at hlen
        exact le_trans (Nat.le_succ _) hlen
      · rw [if_neg hp] at hlen
        exact hlen

/-- Filtering the tagged list by an agent predicate counts like filtering
the agents. -/
theorem taggedAgents_filter_length (s : CanonicalState) (pred : CanonicalAgent → Bool) :
    ((taggedAgents s).filter (fun p => pred p.2)).length
      = ((s.voiceAgents ++ s.chatAgents).filter pred).length := by
  have h : (s.voiceAgents ++ s.chatAgents).filter pred
      = ((taggedAgents s).filter (fun p => pred p.2)).map (fun p => p.2) := by
    rw [← taggedAgents_map_snd s, List.filter_map]
    rfl
  rw [h, List.length_map]

/-- The read-back flow config is semantically the normalized flow
config. -/
theorem flowReadConfig_semEq_norm (cfg : JsObj) (hwfF : flowConfigWF cfg = true) :
    jsonSemEq (.obj (flowReadConfig cfg)) (.obj (normFlowConfig cfg)) = true := by
  have hwf2 := hwfF
  simp only [flowConfigWF, Bool.and_eq_true, decide_eq_true_eq] at hwf2
  obtain ⟨⟨⟨⟨⟨⟨hdfO, hnpF⟩, hidF⟩, hverF⟩, hgpokF⟩, hnodesF⟩, hcompsF⟩ := hwf2
  have hdfO2 : cfg.keysNodup = true ∧ JsObj.dupFree cfg = true := by
    have h := hdfO
    simp only [Json.dupFree, Bool.and_eq_true] at h
    exact h
  have hnames : ∀ cs : JsArr, cfg.lookup "components" = some (.arr cs) →
      nodupB (cs.toList.filterMap componentNameOf) = true := by
    intro cs hcs
    rw [hcs] at hcompsF
    exact hcompsF
  unfold flowReadConfig
  cases hn : cfg.lookup "nodes" with
  | none =>
    exact mMergedNone_semEq_norm cfg (fun xs hx => by rw [hn] at hx; exact absurd hx (by simp))
      hdfO2.1 hdfO2.2 hnames
  | some v =>
    cases v with
    | arr ns0 =>
      have hn2 := hnodesF
      rw [hn] at hn2
      simp only [Bool.and_eq_true] at hn2
      exact mMerged_semEq_norm cfg ns0 hn hdfO2.1 hdfO2.2 hn2.2 hnames
    | null =>
      exact mMergedNone_semEq_norm cfg (fun xs hx => by rw [hn] at hx; exact absurd hx (by simp))
        hdfO2.1 hdfO2.2 hnames
    | bool b =>
      exact mMergedNone_semEq_norm cfg (fun xs hx => by rw [hn] at hx; exact absurd hx (by simp))
        hdfO2.1 hdfO2.2 hnames
    | num q =>
      exact mMergedNone_semEq_norm cfg (fun xs hx => by rw [hn] at hx; exact absurd hx (by simp))
        hdfO2.1 hdfO2.2 hnames
    | str t =>
      exact mMergedNone_semEq_norm cfg (fun xs hx => by rw [hn] at hx; exact absurd hx (by simp))
        hdfO2.1 hdfO2.2 hnames
    | obj fs =>
      exact mMergedNone_semEq_norm cfg (fun xs hx => by rw [hn] at hx; exact absurd hx (by simp))
        hdfO2.1 hdfO2.2 hnames

/-- Agent-list semantic equality is reflexive on duplicate-free
configs. -/
theorem agentsSemEq_refl : ∀ la : List CanonicalAgent,
    (∀ a ∈ la, (Json.obj a.config).dupFree = true) → agentsSemEq la la = true
  | [], _ => rfl
  | a :: rest, h => by
    simp only [agentsSemEq, Bool.and_eq_true]
    refine ⟨?ha, agentsSemEq_refl rest (fun b hb => h b (List.mem_cons_of_mem _ hb))⟩
    simp only [agentSemEq, Bool.and_eq_true]
    refine ⟨⟨⟨?h1, ?h2⟩, ?h3⟩, jsonSemEq_refl _ (h a (List.mem_cons_self _ _))⟩
    · simp
    · simp
    · simp

/-- A filter map over pairwise key-distinct producers has duplicate-free
keys. -/
theorem filterMap_nodup_key {α β : Type} (key : β → String) (f : α → Option β) :
    ∀ l : List α,
    List.Pairwise (fun p q => ∀ b c, f p = some b → f q = some c → key b ≠ key c) l →
    ((l.filterMap f).map key).Nodup
  | [], _ => List.nodup_nil
  | p :: rest, h => by
    obtain ⟨hh, ht⟩ := List.pairwise_cons.mp h
    rw [List.filterMap_cons]
    cases hfp : f p with
    | none => exact filterMap_nodup_key key f rest ht
    | some b =>
      rw [List.map_cons]
      refine List.nodup_cons.mpr ⟨?hn, filterMap_nodup_key key f rest ht⟩
      intro hmem
      rcases List.mem_map.mp hmem with ⟨c, hc, hkey⟩
      rcases List.mem_filterMap.mp hc with ⟨q, hq, hfq⟩
      exact hh q hq b c hfp hfq hkey.symm

/-- Normalizing a prompt field preserves duplicate freedom. -/
theorem normPromptField_objDupFree (cfg : JsObj) (k : String)
    (h : (Json.obj cfg).dupFree = true) :
    (Json.obj (normPromptField cfg k)).dupFree = true := by
  simp only [Json.dupFree, Bool.and_eq_true] at h ⊢
  exact ⟨(normPromptField_props cfg k h.1 h.2).1, (normPromptField_props cfg k h.1 h.2).2⟩

/-- What a successful read-back LLM entry must look like. -/
theorem expectedLlm_some (s : CanonicalState) (re : ResponseEngine) (b : CanonicalLLM)
    (hfb : expectedLlm (s.llms.map (fun l => (l._id, l))) re = some b) :
    ∃ v2 llm0, re = .retellLlm b._id v2 ∧
      jsMapGet (s.llms.map (fun l => (l._id, l))) b._id = some llm0 ∧
      llm0 ∈ s.llms ∧ llm0._id = b._id ∧
      b = ⟨b._id, (JsOpt.coalesce v2).getD 0, normPromptField llm0.config "general_prompt"⟩ := by
  cases re with
  | retellLlm lid v2 =>
    simp only [expectedLlm] at hfb
    cases hjm : jsMapGet (s.llms.map (fun l => (l._id, l))) lid with
    | none =>
      rw [hjm] at hfb
      exact absurd hfb (by simp)
    | some llm0 =>
      rw [hjm] at hfb
      dsimp only at hfb
      obtain ⟨hid0, hmem0⟩ := jsMapGet_map_by (fun l => l._id) s.llms lid llm0 hjm
      have hb := (Option.some.inj hfb).symm
      refine ⟨v2, llm0, ?h1, ?h2, hmem0, ?h3, ?h4⟩
      · rw [hb]
      · rw [hb]
        exact hjm
      · rw [hb]
        exact hid0
      · rw [hb]
  | customLlm url => exact absurd hfb (by simp [expectedLlm])
  | conversationFlow fid v2 => exact absurd hfb (by simp [expectedLlm])

/-- The LLM collection the directory loop emits is the same id-keyed
multiset as the normalized source LLMs. -/
theorem llms_readBack_semEq (s : CanonicalState)
    (hllmF : ∀ llm ∈ s.llms, llmConfigWF llm.config = true ∧
      ∃ x, llmReferencingAgents s llm._id = [x] ∧
        ∃ v, x.response_engine = .retellLlm llm._id v ∧ versionMatches v llm._version = true)
    (hids : nodupB (s.llms.map (fun l => l._id)) = true) :
    llmsSemEq
      ((taggedAgents s).filterMap (fun p =>
        expectedLlm (s.llms.map (fun l => (l._id, l))) p.2.response_engine))
      (s.llms.map (fun l => { l with config := normPromptField l.config "general_prompt" }))
      = true := by
  have hA : ∀ t, t ∈ (taggedAgents s).filterMap (fun p =>
      expectedLlm (s.llms.map (fun l => (l._id, l))) p.2.response_engine) →
      ∃ llm ∈ s.llms, t._id = llm._id ∧
        llmSemEq t { llm with config := normPromptField llm.config "general_prompt" } = true := by
    intro t ht
    obtain ⟨p, hp, hfp⟩ := List.mem_filterMap.mp ht
    obtain ⟨v2, llm0, hpre, hjm, hmem0, hid0, hb⟩ := expectedLlm_some s _ t hfp
    obtain ⟨hLC, x, hxref, v3, hxre, hxver⟩ := hllmF llm0 hmem0
    have hpmem : p.2 ∈ llmReferencingAgents s llm0._id := by
      unfold llmReferencingAgents
      refine List.mem_filter.mpr ⟨(taggedAgents_mem s p hp).2, ?hp2⟩
      rw [hpre, hid0]
      simp
    rw [hxref] at hpmem
    have hpx : p.2 = x := List.mem_singleton.mp hpmem
    have hcomb : ResponseEngine.retellLlm llm0._id v3 = .retellLlm t._id v2 := by
      rw [← hxre, ← hpx, hpre]
    have hv3 : v3 = v2 := by
      injection hcomb
    subst hv3
    refine ⟨llm0, hmem0, hid0.symm, ?hsem⟩
    simp only [llmSemEq, Bool.and_eq_true]
    have hdupN : (Json.obj (normPromptField llm0.config "general_prompt")).dupFree = true := by
      apply normPromptField_objDupFree
      simp only [llmConfigWF, Bool.and_eq_true, decide_eq_true_eq] at hLC
      exact hLC.1.1.1.1
    refine ⟨⟨?hid, ?hver⟩, ?hcfg⟩
    · rw [hid0]
      simp
    · rw [hb]
      dsimp only
      rw [coalesce_getD_of_versionMatches v3 llm0._version hxver]
      simp
    · rw [hb]
      dsimp only
      exact jsonSemEq_refl _ hdupN
  have hB : ∀ llm ∈ s.llms, ∃ t ∈ (taggedAgents s).filterMap (fun p =>
      expectedLlm (s.llms.map (fun l => (l._id, l))) p.2.response_engine),
      t._id = llm._id ∧
        llmSemEq t { llm with config := normPromptField llm.config "general_prompt" } = true := by
    intro llm hm
    obtain ⟨hLC, x, hxref, v3, hxre, hxver⟩ := hllmF llm hm
    have hxmem : x ∈ llmReferencingAgents s llm._id := by
      rw [hxref]
      exact List.mem_singleton.mpr rfl
    have hxag : x ∈ s.voiceAgents ++ s.chatAgents := by
      unfold llmReferencingAgents at hxmem
      exact (List.mem_filter.mp hxmem).1
    obtain ⟨p, hp, hpx⟩ := taggedAgents_mem_of_agent s x hxag
    have hjself : jsMapGet (s.llms.map (fun l => (l._id, l))) llm._id = some llm :=
      jsMapGet_map_self (fun l => l._id) s.llms hids llm hm
    refine ⟨⟨llm._id, (JsOpt.coalesce v3).getD 0,
      normPromptField llm.config "general_prompt"⟩, ?hmemB, rfl, ?hsemB⟩
    case hmemB =>
      refine List.mem_filterMap.mpr ⟨p, hp, ?hfpB⟩
      rw [hpx, hxre]
      simp only [expectedLlm]
      rw [hjself]
    case hsemB =>
      simp only [llmSemEq, Bool.and_eq_true]
      have hdupN : (Json.obj (normPromptField llm.config "general_prompt")).dupFree = true := by
        apply normPromptField_objDupFree
        simp only [llmConfigWF, Bool.and_eq_true, decide_eq_true_eq] at hLC
        exact hLC.1.1.1.1
      refine ⟨⟨by simp, ?hverB⟩, jsonSemEq_refl _ hdupN⟩
      case hverB =>
        dsimp only
        rw [coalesce_getD_of_versionMatches v3 llm._version hxver]
        simp
  have hbound : ∀ k, (∃ llm ∈ s.llms, llm._id = k) →
      (((taggedAgents s).filter (fun p =>
        match p.2.response_engine with
        | .retellLlm lid _ => lid == k
        | _ => false)).length ≤ 1) := by
    intro k hk
    obtain ⟨llm, hm, rfl⟩ := hk
    obtain ⟨_, x, hxref, _⟩ := hllmF llm hm
    have h1 : ((taggedAgents s).filter (fun p =>
        match p.2.response_engine with
        | .retellLlm lid _ => lid == llm._id
        | _ => false)).length = (llmReferencingAgents s llm._id).length :=
      taggedAgents_filter_length s (fun a =>
        match a.response_engine with
        | .retellLlm lid _ => lid == llm._id
        | _ => false)
    rw [h1, hxref]
    exact Nat.le_refl 1
  have hpw := pairwise_of_filter_le_one
    (fun k p => match p.2.response_engine with
      | .retellLlm lid _ => lid == k
      | _ => false)
    (fun k => ∃ llm ∈ s.llms, llm._id = k)
    (taggedAgents s) hbound
  have hpwKey : List.Pairwise (fun p q => ∀ b c,
      expectedLlm (s.llms.map (fun l => (l._id, l))) p.2.response_engine = some b →
      expectedLlm (s.llms.map (fun l => (l._id, l))) q.2.response_engine = some c →
      b._id ≠ c._id) (taggedAgents s) := by
    refine hpw.imp ?f
    intro p q hR b c hfb hfc hbc
    obtain ⟨vp, llmp, hpre, _, hmemp, hidp, _⟩ := expectedLlm_some s _ b hfb
    obtain ⟨vq, llmq, hqre, _, hmemq, hidq, _⟩ := expectedLlm_some s _ c hfc
    exact hR b._id ⟨llmp, hmemp, hidp⟩
      (by
        show (match p.2.response_engine with
          | ResponseEngine.retellLlm lid _ => lid == b._id
          | _ => false) = true
        rw [hpre]
        simp)
      (by
        show (match q.2.response_engine with
          | ResponseEngine.retellLlm lid _ => lid == b._id
          | _ => false) = true
        rw [hqre]
        simp [hbc])
  have hLnodup : (((taggedAgents s).filterMap (fun p =>
      expectedLlm (s.llms.map (fun l => (l._id, l))) p.2.response_engine)).map
        (fun t => t._id)).Nodup :=
    filterMap_nodup_key (fun t : CanonicalLLM => t._id)
      (fun p => expectedLlm (s.llms.map (fun l => (l._id, l))) p.2.response_engine)
      (taggedAgents s) hpwKey
  have hNmap : ((s.llms.map (fun l =>
      { l with config := normPromptField l.config "general_prompt" })).map
        (fun t => t._id)) = s.llms.map (fun l => l._id) := by
    simp [List.map_map, Function.comp]
  have hNnodup : (((s.llms.map (fun l =>
      { l with config := normPromptField l.config "general_prompt" }))).map
        (fun t => t._id)).Nodup := by
    rw [hNmap]
    exact nodupB_nodup _ hids
  have hiff : ∀ k, (k ∈ ((taggedAgents s).filterMap (fun p =>
        expectedLlm (s.llms.map (fun l => (l._id, l))) p.2.response_engine)).map
          (fun t => t._id)) ↔
      (k ∈ ((s.llms.map (fun l =>
        { l with config := normPromptField l.config "general_prompt" })).map
          (fun t => t._id))) := by
    intro k
    rw [hNmap]
    constructor
    · intro hk
      rcases List.mem_map.mp hk with ⟨t, htL, hkt⟩
      obtain ⟨llm, hm, hidt, _⟩ := hA t htL
      exact List.mem_map.mpr ⟨llm, hm, by rw [← hkt, hidt]⟩
    · intro hk
      rcases List.mem_map.mp hk with ⟨llm, hm, hkl⟩
      obtain ⟨t, htL, hidt, _⟩ := hB llm hm
      exact List.mem_map.mpr ⟨t, htL, by rw [hidt, hkl]⟩
  have hperm := (List.perm_ext_iff_of_nodup hLnodup hNnodup).mpr hiff
  have hlen : ((taggedAgents s).filterMap (fun p =>
      expectedLlm (s.llms.map (fun l => (l._id, l))) p.2.response_engine)).length
      = (s.llms.map (fun l =>
        { l with config := normPromptField l.config "general_prompt" })).length := by
    have := hperm.length_eq
    rwa [List.length_map, List.length_map] at this
  simp only [llmsSemEq, Bool.and_eq_true]
  refine ⟨⟨?hl, ?hna⟩, ?hla⟩
  · rw [hlen]
    simp
  · rw [List.all_eq_true]
    intro n hn
    rcases List.mem_map.mp hn with ⟨llm, hm, hnl⟩
    obtain ⟨t, htL, _, hsem⟩ := hB llm hm
    rw [List.any_eq_true]
    refine ⟨t, htL, ?hs⟩
    rw [← hnl]
    exact hsem
  · rw [List.all_eq_true]
    intro t ht
    obtain ⟨llm, hm, _, hsem⟩ := hA t ht
    rw [List.any_eq_true]
    exact ⟨{ llm with config := normPromptField llm.config "general_prompt" },
      List.mem_map.mpr ⟨llm, hm, rfl⟩, hsem⟩

/-- What a successful read-back flow entry must look like. -/
theorem expectedFlow_some (s : CanonicalState) (re : ResponseEngine)
    (b : CanonicalConversationFlow)
    (hfb : expectedFlow (s.conversationFlows.map (fun f => (f._id, f))) re = some b) :
    ∃ v2 flow0, re = .conversationFlow b._id v2 ∧
      jsMapGet (s.conversationFlows.map (fun f => (f._id, f))) b._id = some flow0 ∧
      flow0 ∈ s.conversationFlows ∧ flow0._id = b._id ∧
      b = ⟨b._id, (JsOpt.coalesce v2).getD 0, flowReadConfig flow0.config⟩ := by
  cases re with
  | conversationFlow fid v2 =>
    simp only [expectedFlow] at hfb
    cases hjm : jsMapGet (s.conversationFlows.map (fun f => (f._id, f))) fid with
    | none =>
      rw [hjm] at hfb
      exact absurd hfb (by simp)
    | some flow0 =>
      rw [hjm] at hfb
      dsimp only at hfb
      obtain ⟨hid0, hmem0⟩ := jsMapGet_map_by (fun f => f._id) s.conversationFlows fid flow0 hjm
      have hb := (Option.some.inj hfb).symm
      refine ⟨v2, flow0, ?g1, ?g2, hmem0, ?g3, ?g4⟩
      · rw [hb]
      · rw [hb]
        exact hjm
      · rw [hb]
        exact hid0
      · rw [hb]
  | customLlm url => exact absurd hfb (by simp [expectedFlow])
  | retellLlm lid v2 => exact absurd hfb (by simp [expectedFlow])

/-- The flow collection the directory loop emits is the same id-keyed
multiset, up to semantics, as the normalized source flows. -/
theorem flows_readBack_semEq (s : CanonicalState)
    (hflowF : ∀ flow ∈ s.conversationFlows, flowConfigWF flow.config = true ∧
      ∃ x, flowReferencingAgents s flow._id = [x] ∧
        ∃ v, x.response_engine = .conversationFlow flow._id v ∧
          versionMatches v flow._version = true)
    (hids : nodupB (s.conversationFlows.map (fun f => f._id)) = true) :
    flowsSemEq
      ((taggedAgents s).filterMap (fun p =>
        expectedFlow (s.conversationFlows.map (fun f => (f._id, f))) p.2.response_engine))
      (s.conversationFlows.map (fun f => { f with config := normFlowConfig f.config }))
      = true := by
  have hA : ∀ t, t ∈ (taggedAgents s).filterMap (fun p =>
      expectedFlow (s.conversationFlows.map (fun f => (f._id, f))) p.2.response_engine) →
      ∃ flow ∈ s.conversationFlows, t._id = flow._id ∧
        flowSemEq t { flow with config := normFlowConfig flow.config } = true := by
    intro t ht
    obtain ⟨p, hp, hfp⟩ := List.mem_filterMap.mp ht
    obtain ⟨v2, flow0, hpre, hjm, hmem0, hid0, hb⟩ := expectedFlow_some s _ t hfp
    obtain ⟨hFC, x, hxref, v3, hxre, hxver⟩ := hflowF flow0 hmem0
    have hpmem : p.2 ∈ flowReferencingAgents s flow0._id := by
      unfold flowReferencingAgents
      refine List.mem_filter.mpr ⟨(taggedAgents_mem s p hp).2, ?hp2F⟩
      rw [hpre, hid0]
      simp
    rw [hxref] at hpmem
    have hpx : p.2 = x := List.mem_singleton.mp hpmem
    have hcomb : ResponseEngine.conversationFlow flow0._id v3 = .conversationFlow t._id v2 := by
      rw [← hxre, ← hpx, hpre]
    have hv3 : v3 = v2 := by
      injection hcomb
    subst hv3
    refine ⟨flow0, hmem0, hid0.symm, ?hsemA⟩
    simp only [flowSemEq, Bool.and_eq_true]
    refine ⟨⟨?hidA, ?hverA⟩, ?hcfgA⟩
    · rw [hid0]
      simp
    · rw [hb]
      dsimp only
      rw [coalesce_getD_of_versionMatches v3 flow0._version hxver]
      simp
    · rw [hb]
      dsimp only
      exact flowReadConfig_semEq_norm flow0.config hFC
  have hB : ∀ flow ∈ s.conversationFlows, ∃ t ∈ (taggedAgents s).filterMap (fun p =>
      expectedFlow (s.conversationFlows.map (fun f => (f._id, f))) p.2.response_engine),
      t._id = flow._id ∧
        flowSemEq t { flow with config := normFlowConfig flow.config } = true := by
    intro flow hm
    obtain ⟨hFC, x, hxref, v3, hxre, hxver⟩ := hflowF flow hm
    have hxmem : x ∈ flowReferencingAgents s flow._id := by
      rw [hxref]
      exact List.mem_singleton.mpr rfl
    have hxag : x ∈ s.voiceAgents ++ s.chatAgents := by
      unfold flowReferencingAgents at hxmem
      exact (List.mem_filter.mp hxmem).1
    obtain ⟨p, hp, hpx⟩ := taggedAgents_mem_of_agent s x hxag
    have hjself : jsMapGet (s.conversationFlows.map (fun f => (f._id, f))) flow._id
        = some flow :=
      jsMapGet_map_self (fun f => f._id) s.conversationFlows hids flow hm
    refine ⟨⟨flow._id, (JsOpt.coalesce v3).getD 0,
      flowReadConfig flow.config⟩, ?hmemF, rfl, ?hsemF⟩
    case hmemF =>
      refine List.mem_filterMap.mpr ⟨p, hp, ?hfpF⟩
      rw [hpx, hxre]
      simp only [expectedFlow]
      rw [hjself]
    case hsemF =>
      simp only [flowSemEq, Bool.and_eq_true]
      refine ⟨⟨by simp, ?hverF⟩, ?hcfgF⟩
      case hverF =>
        dsimp only
        rw [coalesce_getD_of_versionMatches v3 flow._version hxver]
        simp
      case hcfgF =>
        dsimp only
        exact flowReadConfig_semEq_norm flow.config hFC
  have hbound : ∀ k, (∃ flow ∈ s.conversationFlows, flow._id = k) →
      (((taggedAgents s).filter (fun p =>
        match p.2.response_engine with
        | .conversationFlow fid _ => fid == k
        | _ => false)).length ≤ 1) := by
    intro k hk
    obtain ⟨flow, hm, rfl⟩ := hk
    obtain ⟨_, x, hxref, _⟩ := hflowF flow hm
    have h1 : ((taggedAgents s).filter (fun p =>
        match p.2.response_engine with
        | .conversationFlow fid _ => fid == flow._id
        | _ => false)).length = (flowReferencingAgents s flow._id).length :=
      taggedAgents_filter_length s (fun a =>
        match a.response_engine with
        | .conversationFlow fid _ => fid == flow._id
        | _ => false)
    rw [h1, hxref]
    exact Nat.le_refl 1
  have hpw := pairwise_of_filter_le_one
    (fun k p => match p.2.response_engine with
      | .conversationFlow fid _ => fid == k
      | _ => false)
    (fun k => ∃ flow ∈ s.conversationFlows, flow._id = k)
    (taggedAgents s) hbound
  have hpwKey : List.Pairwise (fun p q => ∀ b c,
      expectedFlow (s.conversationFlows.map (fun f => (f._id, f))) p.2.response_engine
        = some b →
      expectedFlow (s.conversationFlows.map (fun f => (f._id, f))) q.2.response_engine
        = some c →
      b._id ≠ c._id) (taggedAgents s) := by
    refine hpw.imp ?fF
    intro p q hR b c hfb hfc hbc
    obtain ⟨vp, flowp, hpre, _, hmemp, hidp, _⟩ := expectedFlow_some s _ b hfb
    obtain ⟨vq, flowq, hqre, _, hmemq, hidq, _⟩ := expectedFlow_some s _ c hfc
    exact hR b._id ⟨flowp, hmemp, hidp⟩
      (by
        show (match p.2.response_engine with
          | ResponseEngine.conversationFlow fid _ => fid == b._id
          | _ => false) = true
        rw [hpre]
        simp)
      (by
        show (match q.2.response_engine with
          | ResponseEngine.conversationFlow fid _ => fid == b._id
          | _ => false) = true
        rw [hqre]
        simp [hbc])
  have hLnodup : (((taggedAgents s).filterMap (fun p =>
      expectedFlow (s.conversationFlows.map (fun f => (f._id, f))) p.2.response_engine)).map
        (fun t => t._id)).Nodup :=
    filterMap_nodup_key (fun t : CanonicalConversationFlow => t._id)
      (fun p => expectedFlow (s.conversationFlows.map (fun f => (f._id, f)))
        p.2.response_engine)
      (taggedAgents s) hpwKey
  have hNmap : ((s.conversationFlows.map (fun f =>
      { f with config := normFlowConfig f.config })).map
        (fun t => t._id)) = s.conversationFlows.map (fun f => f._id) := by
    simp [List.map_map, Function.comp]
  have hNnodup : (((s.conversationFlows.map (fun f =>
      { f with config := normFlowConfig f.config }))).map
        (fun t => t._id)).Nodup := by
    rw [hNmap]
    exact nodupB_nodup _ hids
  have hiff : ∀ k, (k ∈ ((taggedAgents s).filterMap (fun p =>
        expectedFlow (s.conversationFlows.map (fun f => (f._id, f)))
          p.2.response_engine)).map (fun t => t._id)) ↔
      (k ∈ ((s.conversationFlows.map (fun f =>
        { f with config := normFlowConfig f.config })).map (fun t => t._id))) := by
    intro k
    rw [hNmap]
    constructor
    · intro hk
      rcases List.mem_map.mp hk with ⟨t, htL, hkt⟩
      obtain ⟨flow, hm, hidt, _⟩ := hA t htL
      exact List.mem_map.mpr ⟨flow, hm, by rw [← hkt, hidt]⟩
    · intro hk
      rcases List.mem_map.mp hk with ⟨flow, hm, hkl⟩
      obtain ⟨t, htL, hidt, _⟩ := hB flow hm
      exact List.mem_map.mpr ⟨t, htL, by rw [hidt, hkl]⟩
  have hperm := (List.perm_ext_iff_of_nodup hLnodup hNnodup).mpr hiff
  have hlen : ((taggedAgents s).filterMap (fun p =>
      expectedFlow (s.conversationFlows.map (fun f => (f._id, f)))
        p.2.response_engine)).length
      = (s.conversationFlows.map (fun f =>
        { f with config := normFlowConfig f.config })).length := by
    have := hperm.length_eq
    rwa [List.length_map, List.length_map] at this
  simp only [flowsSemEq, Bool.and_eq_true]
  refine ⟨⟨?hlF, ?hnaF⟩, ?hlaF⟩
  · rw [hlen]
    simp
  · rw [List.all_eq_true]
    intro n hn
    rcases List.mem_map.mp hn with ⟨flow, hm, hnl⟩
    obtain ⟨t, htL, _, hsem⟩ := hB flow hm
    rw [List.any_eq_true]
    refine ⟨t, htL, ?hsF⟩
    rw [← hnl]
    exact hsem
  · rw [List.all_eq_true]
    intro t ht
    obtain ⟨flow, hm, _, hsem⟩ := hA t ht
    rw [List.any_eq_true]
    exact ⟨{ flow with config := normFlowConfig flow.config },
      List.mem_map.mpr ⟨flow, hm, rfl⟩, hsem⟩

/-- C1: the full write-then-read round trip is NOT the identity up to
text formatting — `roundTrip_alters_positions` exhibits a display
position numerically rounded by the cycle — but for every well-formed
canonical state the round trip succeeds and returns the original state
up to the cycle's normalization: agent lists unchanged, LLM general
prompts and flow global prompts and node instruction texts trimmed,
display positions rounded, and the engine collections re-emitted as the
same id-keyed multisets in agent-directory order. -/
theorem roundTrip_preserves_up_to_norm (s : CanonicalState)
    (hwf : stateRoundTripWF s = true) :
    ∃ t : CanonicalState, canonicalizeFromFiles (serializeState s ".") = Except.ok t ∧
      stateSemEq t (normState s) = true := by
  have hwf2 := hwf
  simp only [stateRoundTripWF, Bool.and_eq_true] at hwf2
  obtain ⟨⟨⟨⟨⟨hagents, hdirs⟩, hllms⟩, hllmIds⟩, hflows⟩, hflowIds⟩ := hwf2
  have hagentF : ∀ x ∈ s.voiceAgents ++ s.chatAgents,
      agentConfigWF x.config = true ∧ reVersionOK x.response_engine = true ∧
      (getAgentDirName x).data.contains '/' = false ∧
      ∀ url, x.response_engine = .customLlm url → jsStartsWith url "file://" = false := by
    intro x hx
    have h := List.all_eq_true.mp hagents x hx
    simp only [Bool.and_eq_true] at h
    obtain ⟨⟨⟨hcfg, hver⟩, hslash⟩, hurl⟩ := h
    refine ⟨hcfg, hver, bool_eq_false (of_decide_eq_true hslash), ?hu⟩
    intro url hre
    rw [hre] at hurl
    dsimp only at hurl
    exact bool_eq_false (of_decide_eq_true hurl)
  have hllmF : ∀ llm ∈ s.llms, llmConfigWF llm.config = true ∧
      ∃ x, llmReferencingAgents s llm._id = [x] ∧
        ∃ v, x.response_engine = .retellLlm llm._id v ∧
          versionMatches v llm._version = true := by
    intro llm hm
    have h := List.all_eq_true.mp hllms llm hm
    simp only [Bool.and_eq_true] at h
    obtain ⟨hc, href⟩ := h
    refine ⟨hc, ?hx1⟩
    cases hrefl : llmReferencingAgents s llm._id with
    | nil =>
      rw [hrefl] at href
      exact absurd href (by simp)
    | cons x tl =>
      cases tl with
      | nil =>
        rw [hrefl] at href
        have hxmem : x ∈ llmReferencingAgents s llm._id := by
          rw [hrefl]
          exact List.mem_singleton.mpr rfl
        have hpred : (match x.response_engine with
            | ResponseEngine.retellLlm lid _ => lid == llm._id
            | _ => false) = true := by
          unfold llmReferencingAgents at hxmem
          exact (List.mem_filter.mp hxmem).2
        dsimp only at href
        refine ⟨x, rfl, ?hv1⟩
        cases hxre : x.response_engine with
        | retellLlm lid v =>
          rw [hxre] at hpred href
          dsimp only at hpred href
          have hlid : lid = llm._id := by
            have h2 := hpred
            simp only [beq_iff_eq] at h2
            exact h2
          subst hlid
          exact ⟨v, rfl, href⟩
        | customLlm url =>
          rw [hxre] at hpred
          exact absurd hpred (by simp)
        | conversationFlow fid v =>
          rw [hxre] at hpred
          exact absurd hpred (by simp)
      | cons y tl2 =>
        rw [hrefl] at href
        exact absurd href (by simp)
  have hflowF : ∀ flow ∈ s.conversationFlows, flowConfigWF flow.config = true ∧
      ∃ x, flowReferencingAgents s flow._id = [x] ∧
        ∃ v, x.response_engine = .conversationFlow flow._id v ∧
          versionMatches v flow._version = true := by
    intro flow hm
    have h := List.all_eq_true.mp hflows flow hm
    simp only [Bool.and_eq_true] at h
    obtain ⟨hc, href⟩ := h
    refine ⟨hc, ?hx2⟩
    cases hrefl : flowReferencingAgents s flow._id with
    | nil =>
      rw [hrefl] at href
      exact absurd href (by simp)
    | cons x tl =>
      cases tl with
      | nil =>
        rw [hrefl] at href
        have hxmem : x ∈ flowReferencingAgents s flow._id := by
          rw [hrefl]
          exact List.mem_singleton.mpr rfl
        have hpred : (match x.response_engine with
            | ResponseEngine.conversationFlow fid _ => fid == flow._id
            | _ => false) = true := by
          unfold flowReferencingAgents at hxmem
          exact (List.mem_filter.mp hxmem).2
        dsimp only at href
        refine ⟨x, rfl, ?hv2⟩
        cases hxre : x.response_engine with
        | conversationFlow fid v =>
          rw [hxre] at hpred href
          dsimp only at hpred href
          have hfid : fid = flow._id := by
            have h2 := hpred
            simp only [beq_iff_eq] at h2
            exact h2
          subst hfid
          exact ⟨v, rfl, href⟩
        | customLlm url =>
          rw [hxre] at hpred
          exact absurd hpred (by simp)
        | retellLlm lid v =>
          rw [hxre] at hpred
          exact absurd hpred (by simp)
      | cons y tl2 =>
        rw [hrefl] at href
        exact absurd href (by simp)
  have hsl : ∀ x ∈ s.voiceAgents ++ s.chatAgents,
      (getAgentDirName x).data.contains '/' = false :=
    fun x hx => (hagentF x hx).2.2.1
  have hslT : ∀ p ∈ taggedAgents s, (getAgentDirName p.2).data.contains '/' = false :=
    fun p hp => hsl p.2 (taggedAgents_mem s p hp).2
  have hndT : nodupB ((taggedAgents s).map (fun p => getAgentDirName p.2)) = true := by
    have h : (taggedAgents s).map (fun p => getAgentDirName p.2)
        = (s.voiceAgents ++ s.chatAgents).map getAgentDirName := by
      rw [← taggedAgents_map_snd s, List.map_map]
      rfl
    rw [h]
    exact hdirs
  have hdk : dirKeys (agentChunks (s.llms.map (fun l => (l._id, l))) (taggedAgents s)
      (s.conversationFlows.map (fun f => (f._id, f)))).1
      = (taggedAgents s).map (fun p => getAgentDirName p.2) := by
    unfold dirKeys
    have h := dirKeys_chunks (s.llms.map (fun l => (l._id, l))) (taggedAgents s)
      (s.conversationFlows.map (fun f => (f._id, f))) [] hslT
      (fun p _ hmem => absurd hmem (List.not_mem_nil _)) hndT
    rw [List.nil_append] at h
    exact h
  have hcfApp := chunkFilters_of (s.llms.map (fun l => (l._id, l))) (taggedAgents s)
    (s.conversationFlows.map (fun f => (f._id, f))) [] hslT
    (fun q hq => absurd hq (List.not_mem_nil _)) hndT
  rw [List.nil_append] at hcfApp
  have hbound : ∀ k,
      (¬ jsMapGet (s.conversationFlows.map (fun f => (f._id, f))) k = none) →
      (((taggedAgents s).filter (fun p =>
        match p.2.response_engine with
        | .conversationFlow fid _ => fid == k
        | _ => false)).length ≤ 1) := by
    intro k hk
    cases hjm : jsMapGet (s.conversationFlows.map (fun f => (f._id, f))) k with
    | none => exact absurd hjm hk
    | some f =>
      obtain ⟨hidf, hmemf⟩ := jsMapGet_map_by (fun f => f._id) s.conversationFlows k f hjm
      subst hidf
      obtain ⟨_, x, hxref, _⟩ := hflowF f hmemf
      have h1 : ((taggedAgents s).filter (fun p =>
          match p.2.response_engine with
          | .conversationFlow fid _ => fid == f._id
          | _ => false)).length = (flowReferencingAgents s f._id).length :=
        taggedAgents_filter_length s (fun a =>
          match a.response_engine with
          | .conversationFlow fid _ => fid == f._id
          | _ => false)
      rw [h1, hxref]
      exact Nat.le_refl 1
  have hpw := pairwise_of_filter_le_one
    (fun k p => match p.2.response_engine with
      | .conversationFlow fid _ => fid == k
      | _ => false)
    (fun k => ¬ jsMapGet (s.conversationFlows.map (fun f => (f._id, f))) k = none)
    (taggedAgents s) hbound
  have hpwFlow : List.Pairwise (fun p q => ∀ fid v w,
      p.2.response_engine = .conversationFlow fid v →
      q.2.response_engine = .conversationFlow fid w →
      jsMapGet (s.conversationFlows.map (fun f => (f._id, f))) fid = none)
      (taggedAgents s) := by
    refine List.Pairwise.imp (fun {p q} hR => ?_) hpw
    intro fid v w hpre hqre
    cases hjm : jsMapGet (s.conversationFlows.map (fun f => (f._id, f))) fid with
    | none => rfl
    | some f =>
      exact absurd (hR fid (by
          show ¬ jsMapGet (s.conversationFlows.map (fun f => (f._id, f))) fid = none
          rw [hjm]
          intro hcon
          exact Option.noConfusion hcon)
        (by
          show (match p.2.response_engine with
            | ResponseEngine.conversationFlow fid2 _ => fid2 == fid
            | _ => false) = true
          rw [hpre]
          simp)
        (by
          show (match q.2.response_engine with
            | ResponseEngine.conversationFlow fid2 _ => fid2 == fid
            | _ => false) = true
          rw [hqre]
          simp)) (fun hfalse => hfalse)
  have hrun := cffGo_chunks (s.llms.map (fun l => (l._id, l)))
    (agentChunks (s.llms.map (fun l => (l._id, l))) (taggedAgents s)
      (s.conversationFlows.map (fun f => (f._id, f)))).1
    (s.conversationFlows.map (fun f => (f._id, f)))
    (taggedAgents s) (s.conversationFlows.map (fun f => (f._id, f)))
    ⟨[], [], [], []⟩ hcfApp
    (fun p hp => (taggedAgents_mem s p hp).1)
    (fun p hp => (hagentF p.2 (taggedAgents_mem s p hp).2).1)
    (fun p hp => (hagentF p.2 (taggedAgents_mem s p hp).2).2.1)
    (fun p hp url hre => (hagentF p.2 (taggedAgents_mem s p hp).2).2.2.2 url hre)
    (fun p hp lid v llm hre hjm => by
      obtain ⟨hidl, hmeml⟩ := jsMapGet_map_by (fun l => l._id) s.llms lid llm hjm
      exact (hllmF llm hmeml).1)
    (fun p hp fid v flow hre hjm => by
      obtain ⟨hidf, hmemf⟩ := jsMapGet_map_by (fun f => f._id) s.conversationFlows fid flow hjm
      exact (hflowF flow hmemf).1)
    (fun p hp fid v hre => rfl)
    hpwFlow
  have heq : canonicalizeFromFiles (serializeState s ".")
      = cffGo (agentChunks (s.llms.map (fun l => (l._id, l))) (taggedAgents s)
          (s.conversationFlows.map (fun f => (f._id, f)))).1
        ((taggedAgents s).map (fun p => getAgentDirName p.2)) ⟨[], [], [], []⟩ := by
    rw [serializeState_eq_chunks s hsl hdirs]
    unfold canonicalizeFromFiles
    rw [hdk]
  refine ⟨_, heq.trans hrun, ?hsem⟩
  case hsem =>
    have hdupA : ∀ a ∈ s.voiceAgents ++ s.chatAgents,
        (Json.obj a.config).dupFree = true := by
      intro a ha
      have h := (hagentF a ha).1
      simp only [agentConfigWF, Bool.and_eq_true] at h
      exact h.1.1.1.1.1.1.1
    simp only [stateSemEq, Bool.and_eq_true]
    refine ⟨⟨⟨?hva, ?hca⟩, ?hll⟩, ?hfl⟩
    case hva =>
      dsimp only [normState]
      rw [List.nil_append, taggedAgents_filter_voice]
      exact agentsSemEq_refl s.voiceAgents
        (fun a ha => hdupA a (List.mem_append_left _ ha))
    case hca =>
      dsimp only [normState]
      rw [List.nil_append, taggedAgents_filter_chat]
      exact agentsSemEq_refl s.chatAgents
        (fun a ha => hdupA a (List.mem_append_right _ ha))
    case hll =>
      dsimp only [normState]
      rw [List.nil_append]
      exact llms_readBack_semEq s hllmF hllmIds
    case hfl =>
      dsimp only [normState]
      rw [List.nil_append]
      exact flows_readBack_semEq s hflowF hflowIds

/-- C1 witness: the position-rounding state is well-formed, so the
amended round-trip theorem applies to it concretely. -/
theorem roundTrip_preserves_up_to_norm_witness :
    stateRoundTripWF c1State = true ∧
    ∃ t : CanonicalState, canonicalizeFromFiles (serializeState c1State ".") = Except.ok t ∧
      stateSemEq t (normState c1State) = true :=
  ⟨by decide, roundTrip_preserves_up_to_norm c1State (by decide)⟩
